import Mathlib

/-!
# Cave generator (cave.c, final.c): embedding and checked properties

The voxel volume `int*** map` is embedded as a function `map z y x` over
integer indices, C `int` as `Int`, C `float`/`double` values as the rationals
`ℚ` they denote, and `rand()` as an explicit stream `rng : Nat → Nat` together
with the number of draws consumed so far. Where a rounded value decides an
integer or boolean result (the index conversions, collect_gem,
check_collision) every operation is rounded as in the section "Floating-point
arithmetic"; elsewhere operations on `ℚ` are exact.
-/

set_option autoImplicit false

namespace CaveGen

/-! ## Data model (cave.h) -/

/-- Voxel storage `int*** map`, read as `map z y x` like `cave->map[z][y][x]`. -/
abbrev Grid := Int → Int → Int → Int

/-- Cell value of solid rock. -/
def WALL : Int := 1

/-- Cell value of open space. -/
def EMPTY : Int := 0

/-- The `Cave` struct of cave.h. -/
structure Cave where
  map : Grid
  width : Int
  height : Int
  depth : Int
  height_map : Int → ℚ
  normal_map : Int → ℚ

/-- The `Gem` struct of cave.h. -/
structure Gem where
  x : ℚ
  y : ℚ
  z : ℚ
  rotation : ℚ
  bob_offset : ℚ
  type : Int
  collected : Int
  color : ℚ × ℚ × ℚ
  size : ℚ
deriving DecidableEq

/-- The `Crystal` struct of cave.h. -/
structure Crystal where
  x : ℚ
  y : ℚ
  z : ℚ
  size : ℚ
  rotation : ℚ
  color : ℚ × ℚ × ℚ
  glow_intensity : ℚ
deriving DecidableEq

/-! ## C control flow and arithmetic helpers -/

/-- The loop `for (int i = lo; i < hi; i++) s = body i s`. -/
def forRange {σ : Type} (lo hi : Int) (body : Int → σ → σ) (s : σ) : σ :=
  (List.range (hi - lo).toNat).foldl (fun acc (k : Nat) => body (lo + (k : Int)) acc) s

/-- The loop `for (int i = lo; i <= hi; i++) s = body i s`. -/
def forUpTo {σ : Type} (lo hi : Int) (body : Int → σ → σ) (s : σ) : σ :=
  forRange lo (hi + 1) body s

/-- The assignment `m[z][y][x] = v`. -/
def setCell (m : Grid) (z y x v : Int) : Grid :=
  fun z' y' x' => if z' = z ∧ y' = y ∧ x' = x then v else m z' y' x'

/-- The call `memcpy(dst[z][y], src[z][y], w * sizeof(int))`: one whole row of `w` cells. -/
def copyRow (dst src : Grid) (z y w : Int) : Grid :=
  fun z' y' x' => if z' = z ∧ y' = y ∧ 0 ≤ x' ∧ x' < w then src z' y' x' else dst z' y' x'

/-- The i-th value returned by `rand()`, a non-negative `int`. -/
def rand (rng : Nat → Nat) (i : Nat) : Int := (rng i : Int)

/-- C's `%` on `int` (remainder of the division that truncates toward zero). -/
def cmod (a b : Int) : Int := Int.tmod a b

/-- The conversion `(int)q` of a floating value: truncation toward zero. -/
def toInt (q : ℚ) : Int := Int.tdiv q.num (q.den : Int)

/-- The test `sqrt(s) < r` in exact arithmetic, for a sum of squares `s`. -/
def sqrtLt (s r : ℚ) : Prop := 0 < r ∧ s < r * r

instance (s r : ℚ) : Decidable (sqrtLt s r) := by unfold sqrtLt; infer_instance

/-- The test `sqrt(s) <= r` in exact arithmetic, for a sum of squares `s`. -/
def sqrtLe (s r : ℚ) : Prop := 0 ≤ r ∧ s ≤ r * r

instance (s r : ℚ) : Decidable (sqrtLe s r) := by unfold sqrtLe; infer_instance

/-! ## Floating-point arithmetic

A finite `float` or `double` is the rational it denotes. An operation of the
source on such values is the exact operation followed by `f32` (result of type
`float`) or `f64` (result of type `double`): round to nearest, ties to even,
with gradual underflow, each operation rounded to its own type
(FLT_EVAL_METHOD 0, no contraction). Overflow to infinity is not part of
`roundFloat`; it is handled where a comparison or a cast consumes the value. -/

/-- Rounding to the nearest integer, ties to the even one. -/
def roundEven (x : ℚ) : Int :=
  if Int.fract x < 1 / 2 then ⌊x⌋
  else if 1 / 2 < Int.fract x then ⌊x⌋ + 1
  else if ⌊x⌋ % 2 = 0 then ⌊x⌋ else ⌊x⌋ + 1

/-- Rounding of `q` to the binary format with `p` significand bits and least
normal exponent `emin`: the spacing of the format around `q` is `2 ^ t`. -/
def roundFloat (p : Nat) (emin : Int) (q : ℚ) : ℚ :=
  let t := max (Int.log 2 |q| - ((p : Int) - 1)) (emin - ((p : Int) - 1))
  (roundEven (q / 2 ^ t) : ℚ) * 2 ^ t

/-- Rounding to `float` (IEEE 754 binary32). -/
def f32 (q : ℚ) : ℚ := roundFloat 24 (-126) q

/-- Rounding to `double` (IEEE 754 binary64). -/
def f64 (q : ℚ) : ℚ := roundFloat 53 (-1022) q

/-- The math.h `sqrt` on a `double` `s >= 0`: the square root rounded to
`double`. With spacing `2 ^ t` around the root, `sqrt s / 2 ^ t` is the square
root of `u = s / 4 ^ t`, which lies in `[k, k + 1)` and is compared with
`k + 1/2` through its square. -/
def sqrt64 (s : ℚ) : ℚ :=
  if s ≤ 0 then 0 else
    let t := max (Int.log 4 s - 52) (-1074)
    let u := s / 4 ^ t
    let k : ℚ := (Nat.sqrt ⌊u⌋₊ : ℚ)
    let n : ℚ := if u < k * k + k + 1 / 4 then k
      else if k * k + k + 1 / 4 < u then k + 1
      else if Nat.sqrt ⌊u⌋₊ % 2 = 0 then k else k + 1
    n * 2 ^ t

/-- The conversion `(int)v` of a floating value to the 32-bit `int`:
truncation toward zero when the result fits; otherwise (infinity included;
undefined in ISO C) the value INT_MIN that the x86 conversion returns. -/
def castInt (v : ℚ) : Int :=
  if -2 ^ 31 ≤ toInt v ∧ toInt v < 2 ^ 31 then toInt v else -2 ^ 31

/-- The voxel-to-world formula `(float)i / n * 10.0f - 5.0f` in exact
arithmetic: the world position that a stored coordinate denotes up to
rounding. -/
def voxel_to_world (i n : Int) : ℚ := (i : ℚ) / (n : ℚ) * 10 - 5

/-- The voxel-to-world formula `(float)i / n * 10.0f - 5.0f` in `float`
arithmetic (`n` is converted to `float` for the division): the value the
program computes, used where it is compared or converted back to an index. -/
def voxel_to_world_f32 (i n : Int) : ℚ :=
  f32 (f32 (f32 (f32 (i : ℚ) / f32 (n : ℚ)) * 10) - 5)

/-- The world-to-voxel formula `(int)((w + 5.0f) / 10.0f * n)`, in `float`
arithmetic. -/
def world_to_voxel (w : ℚ) (n : Int) : Int :=
  castInt (f32 (f32 (f32 (w + 5) / 10) * f32 (n : ℚ)))

/-! ## smooth_cave (cave.c 178-224) -/

/-- The neighbour-counting loops of smooth_cave (cave.c 190-201). -/
def wall_count (m : Grid) (z y x : Int) : Int :=
  forUpTo (z - 1) (z + 1) (fun nz wc =>
    forUpTo (y - 1) (y + 1) (fun ny wc =>
      forUpTo (x - 1) (x + 1) (fun nx wc =>
        if nz ≠ z ∨ ny ≠ y ∨ nx ≠ x then wc + m nz ny nx else wc) wc) wc) 0

/-- The value smooth_cave stores for an interior cell (cave.c 204). -/
def smooth_rule (m : Grid) (z y x : Int) : Int :=
  if wall_count m z y x > 13 then 1 else 0

/-- The first loop nest of smooth_cave (cave.c 187-207): fills the interior of
`new_map`, whose initial contents `fresh` are whatever `malloc` returned. -/
def smooth_fill (cave : Cave) (fresh : Grid) : Grid :=
  forRange 1 (cave.depth - 1) (fun z nm =>
    forRange 1 (cave.height - 1) (fun y nm =>
      forRange 1 (cave.width - 1) (fun x nm =>
        setCell nm z y x (smooth_rule cave.map z y x)) nm) nm) fresh

/-- The copy-back loop nest of smooth_cave (cave.c 210-214). -/
def smooth_copy_back (cave : Cave) (new_map : Grid) : Grid :=
  forRange 1 (cave.depth - 1) (fun z m =>
    forRange 1 (cave.height - 1) (fun y m =>
      copyRow m new_map z y cave.width) m) cave.map

/-- The function smooth_cave; `fresh` is the uninitialised content of the
temporary `new_map` buffer obtained from `malloc`. -/
def smooth_cave (fresh : Grid) (cave : Cave) : Cave :=
  { cave with map := smooth_copy_back cave (smooth_fill cave fresh) }

/-- Smoothing applied `k` times, the i-th call getting the buffer `fresh i`. -/
def smooth_iter (fresh : Nat → Grid) : Nat → Cave → Cave
  | 0, cave => cave
  | k + 1, cave => smooth_cave (fresh k) (smooth_iter fresh k cave)

/-- A cube-shaped test volume of side `n` with the given cells. -/
def cubeCave (n : Int) (m : Grid) : Cave :=
  { map := m, width := n, height := n, depth := n,
    height_map := fun _ => 0, normal_map := fun _ => 0 }

/-- The 26 offsets `(dz, dy, dx)` of the neighbours of a cell. -/
def offsets26 : List (Int × Int × Int) :=
  [(-1,-1,-1), (-1,-1,0), (-1,-1,1), (-1,0,-1), (-1,0,0), (-1,0,1), (-1,1,-1), (-1,1,0), (-1,1,1),
   (0,-1,-1), (0,-1,0), (0,-1,1), (0,0,-1), (0,0,1), (0,1,-1), (0,1,0), (0,1,1),
   (1,-1,-1), (1,-1,0), (1,-1,1), (1,0,-1), (1,0,0), (1,0,1), (1,1,-1), (1,1,0), (1,1,1)]

/-- The 27 offsets of the 3x3x3 block around a cell, the cell itself included. -/
def offsets27 : List (Int × Int × Int) := (0, 0, 0) :: offsets26

/-- Number of cells equal to WALL among the cells at the given offsets from `(z, y, x)`. -/
def countWalls (offs : List (Int × Int × Int)) (m : Grid) (z y x : Int) : Nat :=
  (offs.filter (fun d => m (z + d.1) (y + d.2.1) (x + d.2.2) = WALL)).length

/-! ## carve_cave_interior (cave.c 275-353) -/

/-- C's `/` on `int` (truncating division). -/
def cdiv (a b : Int) : Int := Int.tdiv a b

/-- The math.h items used by the tunnel walk (`cos`, `sin`, `M_PI`), kept abstract. -/
structure Libm where
  cos : ℚ → ℚ
  sin : ℚ → ℚ
  M_PI : ℚ

/-- The main-chamber loop nest (cave.c 283-296). -/
def carve_chamber (cave : Cave) : Grid :=
  let center_x := cdiv cave.width 2
  let center_y := cdiv cave.height 2
  let center_z := cdiv cave.depth 2
  let chamber_radius : Int := 15
  forRange (center_z - chamber_radius) (center_z + chamber_radius) (fun z m =>
    forRange (center_y - chamber_radius) (center_y + chamber_radius) (fun y m =>
      forRange (center_x - chamber_radius) (center_x + chamber_radius) (fun x m =>
        if x > 0 ∧ x < cave.width - 1 ∧ y > 0 ∧ y < cave.height - 1
            ∧ z > 0 ∧ z < cave.depth - 1 then
          if sqrtLt ((((x - center_x) ^ 2 + (y - center_y) ^ 2 + (z - center_z) ^ 2 : Int)) : ℚ)
              (chamber_radius : ℚ) then
            setCell m z y x 0
          else m
        else m) m) m) cave.map

/-- The sphere-carving loop nest of one tunnel step (cave.c 321-338). -/
def carve_sphere (cave : Cave) (m : Grid) (ix iy iz radius : Int) : Grid :=
  forUpTo (-radius) radius (fun sz m =>
    forUpTo (-radius) radius (fun sy m =>
      forUpTo (-radius) radius (fun sx m =>
        let px := ix + sx
        let py := iy + sy
        let pz := iz + sz
        if px > 0 ∧ px < cave.width - 1 ∧ py > 0 ∧ py < cave.height - 1
            ∧ pz > 0 ∧ pz < cave.depth - 1 then
          if sqrtLe (((sx * sx + sy * sy + sz * sz : Int)) : ℚ) (radius : ℚ) then
            setCell m pz py px 0
          else m
        else m) m) m) m

/-- Local variables of one tunnel walk, with the grid and the count of `rand()` draws. -/
structure TunnelState where
  map : Grid
  x : ℚ
  y : ℚ
  z : ℚ
  angle_h : ℚ
  angle_v : ℚ
  dx : ℚ
  dy : ℚ
  dz : ℚ
  pos : Nat

/-- One iteration of the walk loop (cave.c 316-351). -/
def tunnel_step (L : Libm) (cave : Cave) (rng : Nat → Nat) (s : TunnelState) : TunnelState :=
  let ix := toInt s.x
  let iy := toInt s.y
  let iz := toInt s.z
  let radius := 3 + cmod (rand rng s.pos) 2
  let m := carve_sphere cave s.map ix iy iz radius
  let x := s.x + (s.dx * 2 + ((cmod (rand rng (s.pos + 1)) 3 - 1 : Int) : ℚ) * (1 / 2))
  let y := s.y + (s.dy * 2 + ((cmod (rand rng (s.pos + 2)) 3 - 1 : Int) : ℚ) * (3 / 10))
  let z := s.z + (s.dz * 2 + ((cmod (rand rng (s.pos + 3)) 3 - 1 : Int) : ℚ) * (1 / 2))
  let angle_h := s.angle_h
    + ((cmod (rand rng (s.pos + 4)) 40 - 20 : Int) : ℚ) * L.M_PI / 180 * (1 / 10)
  let angle_v := s.angle_v
    + ((cmod (rand rng (s.pos + 5)) 20 - 10 : Int) : ℚ) * L.M_PI / 180 * (1 / 10)
  { map := m, x := x, y := y, z := z, angle_h := angle_h, angle_v := angle_v,
    dx := L.cos angle_h * L.cos angle_v, dy := L.sin angle_v,
    dz := L.sin angle_h * L.cos angle_v, pos := s.pos + 6 }

/-- One iteration of the tunnel loop (cave.c 300-352), on the grid and the draw count. -/
def carve_tunnel (L : Libm) (cave : Cave) (rng : Nat → Nat) (mp : Grid × Nat) : Grid × Nat :=
  let start_x := cdiv cave.width 2
  let start_y := cdiv cave.height 2
  let start_z := cdiv cave.depth 2
  let angle_h := ((cmod (rand rng mp.2) 360 : Int) : ℚ) * L.M_PI / 180
  let angle_v := ((cmod (rand rng (mp.2 + 1)) 60 - 30 : Int) : ℚ) * L.M_PI / 180
  let tunnel_length := 20 + cmod (rand rng (mp.2 + 2)) 30
  let s := forRange 0 tunnel_length (fun _ s => tunnel_step L cave rng s)
    { map := mp.1, x := (start_x : ℚ), y := (start_y : ℚ), z := (start_z : ℚ),
      angle_h := angle_h, angle_v := angle_v,
      dx := L.cos angle_h * L.cos angle_v, dy := L.sin angle_v,
      dz := L.sin angle_h * L.cos angle_v, pos := mp.2 + 3 }
  (s.map, s.pos)

/-- The function carve_cave_interior, started after `pos` draws of `rand()`;
returns the carved cave and the new draw count. -/
def carve_cave_interior (L : Libm) (cave : Cave) (rng : Nat → Nat) (pos : Nat) : Cave × Nat :=
  let m := carve_chamber cave
  let num_tunnels := 6 + cmod (rand rng pos) 4
  let r := forRange 0 num_tunnels (fun _ mp => carve_tunnel L cave rng mp) (m, pos + 1)
  ({ cave with map := r.1 }, r.2)

/-- A `for (i = lo; i < hi; i++)` loop whose body may `break`: the body returns
the new state and whether it executed `break`. -/
def forRangeBreak {σ : Type} (lo hi : Int) (body : Int → σ → σ × Bool) (s : σ) : σ :=
  (forRange lo hi (fun i (st : σ × Bool) => if st.2 then st else body i st.1) (s, false)).1

/-- A loop `for (i = lo; i < hi && cond; i++)`: once `cond` fails no iteration runs. -/
def forRangeWhile {σ : Type} (lo hi : Int) (cond : σ → Bool) (body : Int → σ → σ) (s : σ) : σ :=
  forRange lo hi (fun i st => if cond st then body i st else st) s

/-! ## generate_crystals (cave.c 389-455) -/

/-- The `wall_nearby` loops of generate_crystals (cave.c 402-412); the `break`
leaves the innermost loop only. -/
def crystal_wall_nearby (m : Grid) (z y x : Int) : Int :=
  forRange (-1) (1 + 1) (fun dz wall_nearby =>
    forRange (-1) (1 + 1) (fun dy wall_nearby =>
      forRangeBreak (-1) (1 + 1) (fun dx wall_nearby =>
        if m (z + dz) (y + dy) (x + dx) = 1 then (1, true) else (wall_nearby, false))
        wall_nearby) wall_nearby) 0

/-- The colour `switch` of generate_crystals (cave.c 423-444). -/
def crystal_color (color_type : Int) (old : ℚ × ℚ × ℚ) : ℚ × ℚ × ℚ :=
  if color_type = 0 then (1 / 5, 2 / 5, 1)
  else if color_type = 1 then (1 / 5, 1, 2 / 5)
  else if color_type = 2 then (4 / 5, 1 / 5, 1)
  else if color_type = 3 then (1, 3 / 5, 1 / 5)
  else old

/-- Array slot `crystals[i]` after its search loop, with the accepted sample
`(x, y, z)` recorded when the slot was written (`none`: never written). -/
structure CrystalSlot where
  crystal : Crystal
  placed : Option (Int × Int × Int)

/-- The loop `while (attempts < 100)` for one slot (cave.c 395-451), with
`fuel = 100 - attempts`; `c` is the slot's content from `malloc`. -/
def crystal_attempts (L : Libm) (cave : Cave) (rng : Nat → Nat) :
    Nat → Nat → Crystal → CrystalSlot × Nat
  | 0, pos, c => ({ crystal := c, placed := none }, pos)
  | fuel + 1, pos, c =>
    let x := cmod (rand rng pos) cave.width
    let y := cmod (rand rng (pos + 1)) cave.height
    let z := cdiv cave.depth 2 + (cmod (rand rng (pos + 2)) 10 - 5)
    if x > 0 ∧ x < cave.width - 1 ∧ y > 0 ∧ y < cave.height - 1
        ∧ z > 0 ∧ z < cave.depth - 1 then
      if crystal_wall_nearby cave.map z y x ≠ 0 then
        ({ crystal :=
            { x := voxel_to_world x cave.width
              y := cave.height_map (y * cave.width + x) + 1 / 5
              z := voxel_to_world y cave.height
              size := 1 / 10 + ((cmod (rand rng (pos + 3)) 100 : Int) : ℚ) / 200
              rotation := ((cmod (rand rng (pos + 4)) 360 : Int) : ℚ) * L.M_PI / 180
              color := crystal_color (cmod (rand rng (pos + 5)) 4) c.color
              glow_intensity := 1 / 2 + ((cmod (rand rng (pos + 6)) 50 : Int) : ℚ) / 100 }
           placed := some (x, y, z) }, pos + 7)
      else crystal_attempts L cave rng fuel (pos + 3) c
    else crystal_attempts L cave rng fuel (pos + 3) c

/-- The function generate_crystals: the slots in index order and the new draw
count; `fresh i` is the content `malloc` left in slot `i`. -/
def generate_crystals (L : Libm) (cave : Cave) (count : Int) (fresh : Nat → Crystal)
    (rng : Nat → Nat) (pos : Nat) : List CrystalSlot × Nat :=
  forRange 0 count (fun i (acc : List CrystalSlot × Nat) =>
    let r := crystal_attempts L cave rng 100 acc.2 (fresh i.toNat)
    (acc.1 ++ [r.1], r.2)) ([], pos)

/-! ## generate_gems (cave.c 494-574) -/

/-- The `wall_nearby` loops of generate_gems (cave.c 512-521). -/
def gem_wall_nearby (m : Grid) (z y x : Int) : Int :=
  forRangeWhile (-1) (1 + 1) (fun wall_nearby => wall_nearby = 0) (fun dz wall_nearby =>
    forRangeWhile (-1) (1 + 1) (fun wall_nearby => wall_nearby = 0) (fun dy wall_nearby =>
      forRangeWhile (-1) (1 + 1) (fun wall_nearby => wall_nearby = 0) (fun dx wall_nearby =>
        if m (z + dz) (y + dy) (x + dx) = 1 then 1 else wall_nearby)
        wall_nearby) wall_nearby) 0

/-- The colour `switch` of generate_gems (cave.c 534-565). -/
def gem_color (type : Int) (old : ℚ × ℚ × ℚ) : ℚ × ℚ × ℚ :=
  if type = 0 then (1, 1 / 5, 1 / 5)
  else if type = 1 then (1 / 5, 1, 1 / 5)
  else if type = 2 then (1 / 5, 1 / 5, 1)
  else if type = 3 then (4 / 5, 1 / 5, 1)
  else if type = 4 then (1, 4 / 5, 1 / 5)
  else if type = 5 then (9 / 10, 9 / 10, 1)
  else if type = 6 then (1 / 10, 1 / 10, 1 / 10)
  else if type = 7 then (1 / 5, 4 / 5, 1)
  else if type = 8 then (1, 3 / 5, 0)
  else if type = 9 then (1, 3 / 5, 4 / 5)
  else old

/-- Array slot `gems[i]` after its search loop, with the accepted sample
`(x, y, z)` recorded when the slot was written (`none`: never written). -/
structure GemSlot where
  gem : Gem
  placed : Option (Int × Int × Int)

/-- The loop `while (attempts < 100)` for one slot (cave.c 500-570), with
`fuel = 100 - attempts`; `g` is the slot's content from `malloc`. -/
def gem_attempts (L : Libm) (cave : Cave) (rng : Nat → Nat) :
    Nat → Nat → Gem → GemSlot × Nat
  | 0, pos, g => ({ gem := g, placed := none }, pos)
  | fuel + 1, pos, g =>
    let x := cmod (rand rng pos) cave.width
    let y := cmod (rand rng (pos + 1)) cave.height
    let z := cmod (rand rng (pos + 2)) cave.depth
    if x > 1 ∧ x < cave.width - 2 ∧ y > 1 ∧ y < cave.height - 2
        ∧ z > 1 ∧ z < cave.depth - 2 ∧ cave.map z y x = 0 then
      if gem_wall_nearby cave.map z y x ≠ 0 then
        let type := cmod (rand rng (pos + 5)) 10
        ({ gem :=
            { x := voxel_to_world x cave.width
              y := voxel_to_world y cave.height
              z := voxel_to_world z cave.depth
              rotation := ((cmod (rand rng (pos + 3)) 360 : Int) : ℚ) * L.M_PI / 180
              bob_offset := ((cmod (rand rng (pos + 4)) 100 : Int) : ℚ) / 100 * 2 * L.M_PI
              type := type
              collected := 0
              color := gem_color type g.color
              size := 1 / 10 + ((cmod (rand rng (pos + 6)) 50 : Int) : ℚ) / 500 }
           placed := some (x, y, z) }, pos + 7)
      else gem_attempts L cave rng fuel (pos + 3) g
    else gem_attempts L cave rng fuel (pos + 3) g

/-- The function generate_gems: the slots in index order and the new draw
count; `fresh i` is the content `malloc` left in slot `i`. -/
def generate_gems (L : Libm) (cave : Cave) (count : Int) (fresh : Nat → Gem)
    (rng : Nat → Nat) (pos : Nat) : List GemSlot × Nat :=
  forRange 0 count (fun i (acc : List GemSlot × Nat) =>
    let r := gem_attempts L cave rng 100 acc.2 (fresh i.toNat)
    (acc.1 ++ [r.1], r.2)) ([], pos)

/-- A 3x3x3 volume whose only WALL cell is the centre cell. -/
def pillarCave3 : Cave := cubeCave 3 (fun z y x => if z = 1 ∧ y = 1 ∧ x = 1 then 1 else 0)

/-- A 5x5x5 volume that is solid except for its EMPTY centre cell. -/
def pocketCave5 : Cave := cubeCave 5 (fun z y x => if z = 2 ∧ y = 2 ∧ x = 2 then 0 else 1)

/-- A zeroed `Crystal`. -/
def zeroCrystal : Crystal :=
  { x := 0, y := 0, z := 0, size := 0, rotation := 0, color := (0, 0, 0), glow_intensity := 0 }

/-- A zeroed `Gem`. -/
def zeroGem : Gem :=
  { x := 0, y := 0, z := 0, rotation := 0, bob_offset := 0, type := 0, collected := 0,
    color := (0, 0, 0), size := 0 }

/-! ## collect_gem (cave.c 635-650) -/

/-- The `float` sum `dx*dx + dy*dy + dz*dz` of collect_gem (cave.c 638-641). -/
def gem_dist_sq (g : Gem) (player_x player_y player_z : ℚ) : ℚ :=
  let dx := f32 (g.x - player_x)
  let dy := f32 (g.y - player_y)
  let dz := f32 (g.z - player_z)
  f32 (f32 (f32 (dx * dx) + f32 (dy * dy)) + f32 (dz * dz))

/-- The value of `float dist = sqrt(dx*dx + dy*dy + dz*dz)` (cave.c 641): the
`double` square root of the promoted sum, converted to `float`. -/
def gem_dist (g : Gem) (player_x player_y player_z : ℚ) : ℚ :=
  f32 (sqrt64 (gem_dist_sq g player_x player_y player_z))

/-- The test `dist < collect_radius` (cave.c 643). A sum of squares beyond the
`float` range is +infinity, and so is `dist`: the test fails. -/
def gem_in_reach (g : Gem) (player_x player_y player_z collect_radius : ℚ) : Prop :=
  gem_dist_sq g player_x player_y player_z < 2 ^ 128
    ∧ gem_dist g player_x player_y player_z < collect_radius

instance (g : Gem) (px py pz r : ℚ) : Decidable (gem_in_reach g px py pz r) := by
  unfold gem_in_reach; infer_instance

/-- The function collect_gem on the array `gems` (of length `count`): the
returned `int` and the array after the call. The scan is the `for` loop, the
head of the list being `gems[i]`. -/
def collect_gem : List Gem → ℚ → ℚ → ℚ → ℚ → Int × List Gem
  | [], _, _, _, _ => (-1, [])
  | g :: rest, player_x, player_y, player_z, collect_radius =>
    if g.collected = 0 then
      if gem_in_reach g player_x player_y player_z collect_radius then
        (g.type, { g with collected := 1 } :: rest)
      else
        ((collect_gem rest player_x player_y player_z collect_radius).1,
          g :: (collect_gem rest player_x player_y player_z collect_radius).2)
    else
      ((collect_gem rest player_x player_y player_z collect_radius).1,
        g :: (collect_gem rest player_x player_y player_z collect_radius).2)

/-- Euclidean distance, over the reals, between gem `g` and the point
`(px, py, pz)`, compared strictly with `r`. -/
def CloserThan (g : Gem) (px py pz r : ℚ) : Prop :=
  Real.sqrt ((((g.x - px) ^ 2 + (g.y - py) ^ 2 + (g.z - pz) ^ 2 : ℚ)) : ℝ) < ((r : ℚ) : ℝ)

/-- A gem at the given position with the given type and collected flag. -/
def gemAt (x y z : ℚ) (type collected : Int) : Gem :=
  { zeroGem with x := x, y := y, z := z, type := type, collected := collected }

/-- Three uncollected gems on the x axis at distances 3, 1 and 0 from the origin. -/
def gemRow : List Gem := [gemAt 3 0 0 7 0, gemAt 1 0 0 4 0, gemAt 0 0 0 9 0]

/-- A collected gem followed by an uncollected one, both at the point (1, 2, 3). -/
def gemPair : List Gem := [gemAt 1 2 3 5 1, gemAt 1 2 3 8 0]

/-! ## find_spawn_point (cave.c 356-386) -/

/-- The voxel sampled by one attempt of find_spawn_point at search radius `r`
when `p` draws of `rand()` have been consumed (cave.c 365-367). -/
def spawn_sample (cave : Cave) (rng : Nat → Nat) (r : Int) (p : Nat) : Int × Int × Int :=
  let center_x := cdiv cave.width 2
  let center_y := cdiv cave.height 2
  let center_z := cdiv cave.depth 2
  let tx := center_x + cmod (rand rng p) (r * 2 + 1) - r
  let ty := center_y + cmod (rand rng (p + 1)) (r * 2 + 1) - r
  let tz := center_z + cmod (rand rng (p + 2)) (r * 2 + 1) - r
  (tx, ty, tz)

/-- The acceptance test of find_spawn_point on a sampled voxel (cave.c 369-372). -/
def spawn_ok (cave : Cave) (t : Int × Int × Int) : Prop :=
  (t.1 > 0 ∧ t.1 < cave.width - 1 ∧ t.2.1 > 0 ∧ t.2.1 < cave.height - 1
    ∧ t.2.2 > 0 ∧ t.2.2 < cave.depth - 1) ∧ cave.map t.2.2 t.2.1 t.1 = 0

instance (cave : Cave) (t : Int × Int × Int) : Decidable (spawn_ok cave t) := by
  unfold spawn_ok; infer_instance

/-- The world position written through `*x, *y, *z` for the voxel `t` (cave.c 373-375). -/
def spawn_world (cave : Cave) (t : Int × Int × Int) : ℚ × ℚ × ℚ :=
  (voxel_to_world t.1 cave.width, voxel_to_world t.2.1 cave.height,
    voxel_to_world t.2.2 cave.depth)

/-- The loop `for (attempts = 0; attempts < 100; attempts++)` at radius `r`
(cave.c 364-379), with `fuel = 100 - attempts`: `some` position when the
function returned from inside the loop, and the new draw count. -/
def spawn_attempts (cave : Cave) (rng : Nat → Nat) (r : Int) :
    Nat → Nat → Option (ℚ × ℚ × ℚ) × Nat
  | 0, pos => (none, pos)
  | fuel + 1, pos =>
    let t := spawn_sample cave rng r pos
    if t.1 > 0 ∧ t.1 < cave.width - 1 ∧ t.2.1 > 0 ∧ t.2.1 < cave.height - 1
        ∧ t.2.2 > 0 ∧ t.2.2 < cave.depth - 1 then
      if cave.map t.2.2 t.2.1 t.1 = 0 then
        (some (spawn_world cave t), pos + 3)
      else spawn_attempts cave rng r fuel (pos + 3)
    else spawn_attempts cave rng r fuel (pos + 3)

/-- The loop `for (r = 0; r < 20; r++)` (cave.c 363-380), with `fuel = 20 - r`. -/
def spawn_radii (cave : Cave) (rng : Nat → Nat) :
    Nat → Int → Nat → Option (ℚ × ℚ × ℚ) × Nat
  | 0, _, pos => (none, pos)
  | fuel + 1, r, pos =>
    match spawn_attempts cave rng r 100 pos with
    | (some w, pos') => (some w, pos')
    | (none, pos') => spawn_radii cave rng fuel (r + 1) pos'

/-- The function find_spawn_point: the values stored in `*x, *y, *z` and the
new draw count. -/
def find_spawn_point (cave : Cave) (rng : Nat → Nat) (pos : Nat) : (ℚ × ℚ × ℚ) × Nat :=
  match spawn_radii cave rng 20 0 pos with
  | (some w, pos') => (w, pos')
  | (none, pos') => ((0, 0, 0), pos')

/-- The k-th voxel sampled by a find_spawn_point call started after `pos`
draws, were the search to run that far: radius `k / 100`, three draws a sample. -/
def spawn_nth (cave : Cave) (rng : Nat → Nat) (pos k : Nat) : Int × Int × Int :=
  spawn_sample cave rng ((k / 100 : Nat) : Int) (pos + 3 * k)

/-! ## check_collision (final.c 211-258) -/

/-- A `for (i = lo; i < hi; i++)` loop whose body may `return v` from the
enclosing function: `some v` once a `return v` was executed, `none` otherwise. -/
def forRangeRet {ρ : Type} (lo hi : Int) (body : Int → Option ρ) : Option ρ :=
  forRange lo hi (fun i st => match st with
    | some v => some v
    | none => body i) none

/-- The function check_collision, in `float` arithmetic. The three index
conversions (final.c 213-215) are the expression
`(int)((w + 5.0f) / 10.0f * extent)`, which render_cave_interior repeats
(cave.c 819-821). `pow(d, 2)` and the sum are `double` operations, `sqrt`
returns a `double` and `dist` is its conversion to `float`; a `dist` beyond the
`float` range is +infinity and fails the test `dist < radius`. -/
def check_collision (cave : Cave) (x y z radius : ℚ) : Int :=
  let cx := world_to_voxel x cave.width
  let cy := world_to_voxel y cave.height
  let cz := world_to_voxel z cave.depth
  if cx < 0 ∨ cx ≥ cave.width ∨ cy < 0 ∨ cy ≥ cave.height ∨ cz < 0 ∨ cz ≥ cave.depth then 1
  else
    let check_radius := castInt (f32 (f32 (radius * f32 (cave.width : ℚ)) / 10)) + 1
    match forRangeRet (-check_radius) (check_radius + 1) (fun dz =>
      forRangeRet (-check_radius) (check_radius + 1) (fun dy =>
        forRangeRet (-check_radius) (check_radius + 1) (fun dx =>
          let test_x := cx + dx
          let test_y := cy + dy
          let test_z := cz + dz
          if test_x ≥ 0 ∧ test_x < cave.width ∧ test_y ≥ 0 ∧ test_y < cave.height
              ∧ test_z ≥ 0 ∧ test_z < cave.depth then
            if cave.map test_z test_y test_x = 1 then
              let wall_world_x := voxel_to_world_f32 test_x cave.width
              let wall_world_y := voxel_to_world_f32 test_y cave.height
              let wall_world_z := voxel_to_world_f32 test_z cave.depth
              let dist := f32 (sqrt64 (f64 (f64 (f64 (f32 (x - wall_world_x) ^ 2)
                + f64 (f32 (y - wall_world_y) ^ 2)) + f64 (f32 (z - wall_world_z) ^ 2))))
              if dist < 2 ^ 128 ∧ dist < radius then
                some 1
              else none
            else none
          else none))) with
    | some v => v
    | none => 0

/-- A 50x50x50 volume without any WALL cell. -/
def openCave50 : Cave := cubeCave 50 (fun _ _ _ => 0)

/-! ## Perlin noise (cave.c 36-113) -/

/-- The constant table `static int permutation[]` (cave.c 37-44). -/
def permutation : List Int :=
  [151, 160, 137, 91, 90, 15, 131, 13, 201, 95, 96, 53, 194, 233, 7, 225,
   140, 36, 103, 30, 69, 142, 8, 99, 37, 240, 21, 10, 23, 190, 6, 148,
   247, 120, 234, 75, 0, 26, 197, 62, 94, 252, 219, 203, 117, 35, 11, 32,
   57, 177, 33, 88, 237, 149, 56, 87, 174, 20, 125, 136, 171, 168, 68, 175,
   74, 165, 71, 134, 139, 48, 27, 166, 77, 146, 158, 231, 83, 111, 229, 122,
   60, 211, 133, 230, 220, 105, 92, 41, 55, 46, 245, 40, 244, 102, 143, 54,
   65, 25, 63, 161, 1, 216, 80, 73, 209, 76, 132, 187, 208, 89, 18, 169,
   200, 196, 135, 130, 116, 188, 159, 86, 164, 100, 109, 198, 173, 186, 3, 64,
   52, 217, 226, 250, 124, 123, 5, 202, 38, 147, 118, 126, 255, 82, 85, 212,
   207, 206, 59, 227, 47, 16, 58, 17, 182, 189, 28, 42, 223, 183, 170, 213,
   119, 248, 152, 2, 44, 154, 163, 70, 221, 153, 101, 155, 167, 43, 172, 9,
   129, 22, 39, 253, 19, 98, 108, 110, 79, 113, 224, 232, 178, 185, 112, 104,
   218, 246, 97, 228, 251, 34, 242, 193, 238, 210, 144, 12, 191, 179, 162, 241,
   81, 51, 145, 235, 249, 14, 239, 107, 49, 192, 214, 31, 181, 199, 106, 157,
   184, 84, 204, 176, 115, 121, 50, 45, 127, 4, 150, 254, 138, 236, 205, 93,
   222, 114, 67, 29, 24, 72, 243, 141, 128, 195, 78, 66, 215, 61, 156, 180]

/-- The statics of the noise code: the table `static int p[512]`, read as
`p i`, and the flag `static int initialized` of init_perlin. -/
structure PerlinState where
  p : Int → Int
  initialized : Int

/-- The assignment `a[i] = v` on an `int` array. -/
def setIdx (a : Int → Int) (i v : Int) : Int → Int :=
  fun j => if j = i then v else a j

/-- The function init_perlin (cave.c 46-54). -/
def init_perlin (st : PerlinState) : PerlinState :=
  if st.initialized = 0 then
    { p := forRange 0 256 (fun i p =>
        setIdx (setIdx p i (permutation.getD i.toNat 0)) (256 + i)
          (permutation.getD i.toNat 0)) st.p
      initialized := 1 }
  else st

/-- The function fade (cave.c 56-58). -/
def fade (t : ℚ) : ℚ := t * t * t * (t * (t * 6 - 15) + 10)

/-- The function lerp (cave.c 60-62). -/
def lerp (t a b : ℚ) : ℚ := a + t * (b - a)

/-- The function grad (cave.c 64-69). On the two's-complement `int` the mask
`hash & 15` is the remainder modulo 16, and `h & 1`, `h & 2` test the two low
bits of `h`. -/
def grad (hash : Int) (x y z : ℚ) : ℚ :=
  let h := hash % 16
  let u := if h < 8 then x else y
  let v := if h < 4 then y else if h = 12 ∨ h = 14 then x else z
  (if h % 2 = 0 then u else -u) + (if h / 2 % 2 = 0 then v else -v)

/-- The body of perlin_noise_3d after the call of init_perlin (cave.c 74-96),
reading the table `p`. The mask `(int)floor(x) & 255` on the two's-complement
`int` is the remainder modulo 256. -/
def perlin_value (p : Int → Int) (x y z : ℚ) : ℚ :=
  let X := ⌊x⌋ % 256
  let Y := ⌊y⌋ % 256
  let Z := ⌊z⌋ % 256
  let x := x - (⌊x⌋ : ℚ)
  let y := y - (⌊y⌋ : ℚ)
  let z := z - (⌊z⌋ : ℚ)
  let u := fade x
  let v := fade y
  let w := fade z
  let A := p X + Y
  let AA := p A + Z
  let AB := p (A + 1) + Z
  let B := p (X + 1) + Y
  let BA := p B + Z
  let BB := p (B + 1) + Z
  lerp w (lerp v (lerp u (grad (p AA) x y z)
                         (grad (p BA) (x - 1) y z))
                 (lerp u (grad (p AB) x (y - 1) z)
                         (grad (p BB) (x - 1) (y - 1) z)))
         (lerp v (lerp u (grad (p (AA + 1)) x y (z - 1))
                         (grad (p (BA + 1)) (x - 1) y (z - 1)))
                 (lerp u (grad (p (AB + 1)) x (y - 1) (z - 1))
                         (grad (p (BB + 1)) (x - 1) (y - 1) (z - 1))))

/-- The function perlin_noise_3d: the returned value and the statics after the call. -/
def perlin_noise_3d (st : PerlinState) (x y z : ℚ) : ℚ × PerlinState :=
  (perlin_value (init_perlin st).p x y z, init_perlin st)

/-- Local variables of fractal_noise_3d, with the statics of the noise code. -/
structure FractalState where
  total : ℚ
  frequency : ℚ
  amplitude : ℚ
  maxValue : ℚ
  st : PerlinState

/-- The octave loop of fractal_noise_3d (cave.c 100-110). -/
def fractal_loop (st : PerlinState) (x y z : ℚ) (octaves : Int) (persistence : ℚ) :
    FractalState :=
  forRange 0 octaves (fun _ s =>
    { total := s.total
        + (perlin_noise_3d s.st (x * s.frequency) (y * s.frequency) (z * s.frequency)).1
          * s.amplitude
      maxValue := s.maxValue + s.amplitude
      amplitude := s.amplitude * persistence
      frequency := s.frequency * 2
      st := (perlin_noise_3d s.st (x * s.frequency) (y * s.frequency) (z * s.frequency)).2 })
    { total := 0, frequency := 1, amplitude := 1, maxValue := 0, st := st }

/-- The function fractal_noise_3d: the returned `total / maxValue` and the
statics after the call. -/
def fractal_noise_3d (st : PerlinState) (x y z : ℚ) (octaves : Int) (persistence : ℚ) :
    ℚ × PerlinState :=
  ((fractal_loop st x y z octaves persistence).total
      / (fractal_loop st x y z octaves persistence).maxValue,
    (fractal_loop st x y z octaves persistence).st)

/-! ## generate_height_map, generate_normal_map, generate_cave_3d (cave.c 153-272) -/

/-- The assignment `a[i] = v` on a `float` array. -/
def setIdxQ (a : Int → ℚ) (i : Int) (v : ℚ) : Int → ℚ :=
  fun j => if j = i then v else a j

/-- The function generate_height_map (cave.c 226-245), threading the statics
of the noise code. -/
def generate_height_map (cave : Cave) (pst : PerlinState) : Cave × PerlinState :=
  let r := forRange 0 cave.height (fun y (s : (Int → ℚ) × PerlinState) =>
    forRange 0 cave.width (fun x (s : (Int → ℚ) × PerlinState) =>
      let base_height := forRange 0 cave.depth (fun z (b : ℚ) =>
        if cave.map z y x = 0 then b + 1 / 50 else b) 0
      let noise := fractal_noise_3d s.2 ((x : ℚ) * (1 / 10)) ((y : ℚ) * (1 / 10)) 0 4 (1 / 2)
      let detail := fractal_noise_3d noise.2 ((x : ℚ) * (1 / 2)) ((y : ℚ) * (1 / 2)) 0 2 (3 / 10)
      (setIdxQ s.1 (y * cave.width + x)
          (base_height + noise.1 * (3 / 10) + detail.1 * (1 / 10)), detail.2)) s)
    (cave.height_map, pst)
  ({ cave with height_map := r.1 }, r.2)

/-- The function generate_normal_map (cave.c 247-272); `sqrtf` stands for the
math.h `sqrt`, kept abstract. -/
def generate_normal_map (sqrtf : ℚ → ℚ) (cave : Cave) : Cave :=
  let nm := forRange 1 (cave.height - 1) (fun y nm =>
    forRange 1 (cave.width - 1) (fun x nm =>
      let h_l := cave.height_map (y * cave.width + (x - 1))
      let h_r := cave.height_map (y * cave.width + (x + 1))
      let h_d := cave.height_map ((y - 1) * cave.width + x)
      let h_u := cave.height_map ((y + 1) * cave.width + x)
      let dx := (h_r - h_l) * 2
      let dy := (h_u - h_d) * 2
      let dz : ℚ := 1
      let len := sqrtf (dx * dx + dy * dy + dz * dz)
      let dx := dx / len
      let dy := dy / len
      let dz := dz / len
      let idx := (y * cave.width + x) * 3
      setIdxQ (setIdxQ (setIdxQ nm (idx + 0) (dx * (1 / 2) + 1 / 2))
        (idx + 1) (dy * (1 / 2) + 1 / 2)) (idx + 2) (dz * (1 / 2) + 1 / 2)) nm) cave.normal_map
  { cave with normal_map := nm }

/-- The constant `WALL_THRESHOLD_PERCENTAGE` of cave.h. -/
def WALL_THRESHOLD_PERCENTAGE : Int := 45

/-- The constant `SMOOTHING_ITERATIONS` of cave.h. -/
def SMOOTHING_ITERATIONS : Int := 5

/-- The value generate_cave_3d seeds a cell with from the draw `r` (cave.c 160). -/
def seed_value (r : Int) : Int := if cmod r 100 < WALL_THRESHOLD_PERCENTAGE then 1 else 0

/-- The seeding loop nest of generate_cave_3d (cave.c 157-163): the grid and
the number of draws consumed, starting from `mp`. -/
def seed_cave (cave : Cave) (rng : Nat → Nat) (mp : Grid × Nat) : Grid × Nat :=
  forRange 0 cave.depth (fun z (s : Grid × Nat) =>
    forRange 0 cave.height (fun y (s : Grid × Nat) =>
      forRange 0 cave.width (fun x (s : Grid × Nat) =>
        (setCell s.1 z y x (seed_value (rand rng s.2)), s.2 + 1)) s) s) mp

/-- The function generate_cave_3d. `rng` is the stream that `srand(time(NULL))`
selects, read from its first draw; `fresh i` is the content of the temporary
buffer of the i-th smoothing pass. Returns the cave, the statics of the noise
code and the number of draws consumed. -/
def generate_cave_3d (L : Libm) (sqrtf : ℚ → ℚ) (fresh : Nat → Grid) (pst : PerlinState)
    (cave : Cave) (rng : Nat → Nat) : Cave × PerlinState × Nat :=
  let s := seed_cave cave rng (cave.map, 0)
  let c1 : Cave := { cave with map := s.1 }
  let c2 := forRange 0 SMOOTHING_ITERATIONS (fun i c => smooth_cave (fresh i.toNat) c) c1
  let c3 := carve_cave_interior L c2 rng s.2
  let c4 := generate_height_map c3.1 pst
  let c5 := generate_normal_map sqrtf c4.1
  (c5, c4.2, c3.2)

/-! ## respawn_gem (cave.c 653-675) -/

/-- The loop `while (attempts < 100)` of respawn_gem (cave.c 656-674), with
`fuel = 100 - attempts`: the gem after the loop, the accepted sample `(x, y, z)`
when one was accepted, and the new draw count. -/
def respawn_attempts (L : Libm) (cave : Cave) (rng : Nat → Nat) :
    Nat → Nat → Gem → GemSlot × Nat
  | 0, pos, g => ({ gem := g, placed := none }, pos)
  | fuel + 1, pos, g =>
    let x := cmod (rand rng pos) cave.width
    let y := cmod (rand rng (pos + 1)) cave.height
    let z := cmod (rand rng (pos + 2)) cave.depth
    if x > 1 ∧ x < cave.width - 2 ∧ y > 1 ∧ y < cave.height - 2
        ∧ z > 1 ∧ z < cave.depth - 2 ∧ cave.map z y x = 0 then
      ({ gem :=
          { g with
            x := voxel_to_world x cave.width,
            y := voxel_to_world y cave.height,
            z := voxel_to_world z cave.depth,
            collected := 0,
            bob_offset := ((cmod (rand rng (pos + 3)) 100 : Int) : ℚ) / 100 * 2 * L.M_PI }
         placed := some (x, y, z) }, pos + 4)
    else respawn_attempts L cave rng fuel (pos + 3) g

/-- The function respawn_gem. -/
def respawn_gem (L : Libm) (g : Gem) (cave : Cave) (rng : Nat → Nat) (pos : Nat) :
    GemSlot × Nat :=
  respawn_attempts L cave rng 100 pos g

/-! ## Auxiliary definitions for the statements -/

/-- All-WALL 3x3x3 volume. -/
def solidCave3 : Cave := cubeCave 3 (fun _ _ _ => 1)

/-- A 3x3x3 volume whose first 14 cells in storage order (the centre cell is
the 14th) are WALL and whose other 13 cells are EMPTY. -/
def halfCave3 : Cave := cubeCave 3 (fun z y x => if z * 9 + y * 3 + x ≤ 13 then 1 else 0)

/-- Grid `g` differs from `m0` only at strictly interior cells, which it holds at 0. -/
def CarvedFrom (cave : Cave) (m0 g : Grid) : Prop :=
  ∀ z y x, g z y x = m0 z y x
    ∨ ((x > 0 ∧ x < cave.width - 1 ∧ y > 0 ∧ y < cave.height - 1 ∧ z > 0 ∧ z < cave.depth - 1)
        ∧ g z y x = 0)

/-- Sample math.h items for evaluating the tunnel walk. -/
def sampleLibm : Libm := { cos := fun _ => 1, sin := fun _ => 0, M_PI := 355 / 113 }

/-- Outcome of code that sets an `int` flag to 1 when `q` holds and leaves it
at `w` otherwise. -/
def FlagStep (q : Prop) (w r : Int) : Prop := (q → r = 1) ∧ (¬ q → r = w)

/-- A volume is converged when the smoothing rule gives every interior cell
the value it already holds. -/
def Converged (cave : Cave) : Prop :=
  ∀ z y x : Int, (1 ≤ z ∧ z < cave.depth - 1) → (1 ≤ y ∧ y < cave.height - 1) →
    (1 ≤ x ∧ x < cave.width - 1) → smooth_rule cave.map z y x = cave.map z y x

/-- A solid 32x32x32 volume. -/
def solidCave32 : Cave := cubeCave 32 (fun _ _ _ => 1)

/-- A 10x10x10 volume as `create_cave` returns it (every cell 0). -/
def blankCave10 : Cave := cubeCave 10 (fun _ _ _ => 0)

/-- The statics of the noise code at program start (zeroed). -/
def startStatics : PerlinState := { p := fun _ => 0, initialized := 0 }

/-- The voxel sampled by one attempt of generate_gems or respawn_gem when `p`
draws of `rand()` have been consumed (cave.c 501-503, 657-659). -/
def gem_sample (cave : Cave) (rng : Nat → Nat) (p : Nat) : Int × Int × Int :=
  (cmod (rand rng p) cave.width, cmod (rand rng (p + 1)) cave.height,
    cmod (rand rng (p + 2)) cave.depth)

/-- The acceptance test of respawn_gem on a sampled voxel `(x, y, z)` (cave.c 661-664). -/
def respawn_ok (cave : Cave) (t : Int × Int × Int) : Prop :=
  t.1 > 1 ∧ t.1 < cave.width - 2 ∧ t.2.1 > 1 ∧ t.2.1 < cave.height - 2
    ∧ t.2.2 > 1 ∧ t.2.2 < cave.depth - 2 ∧ cave.map t.2.2 t.2.1 t.1 = 0

instance (cave : Cave) (t : Int × Int × Int) : Decidable (respawn_ok cave t) := by
  unfold respawn_ok; infer_instance

/-- The acceptance test of generate_gems on a sampled voxel `(x, y, z)` (cave.c 506-523). -/
def gem_ok (cave : Cave) (t : Int × Int × Int) : Prop :=
  (t.1 > 1 ∧ t.1 < cave.width - 2 ∧ t.2.1 > 1 ∧ t.2.1 < cave.height - 2
    ∧ t.2.2 > 1 ∧ t.2.2 < cave.depth - 2 ∧ cave.map t.2.2 t.2.1 t.1 = 0)
    ∧ gem_wall_nearby cave.map t.2.2 t.2.1 t.1 ≠ 0

instance (cave : Cave) (t : Int × Int × Int) : Decidable (gem_ok cave t) := by
  unfold gem_ok; infer_instance

/-- A solid 5x5x5 volume. -/
def solidCave5 : Cave := cubeCave 5 (fun _ _ _ => 1)

/-- A 5x5x5 volume without any WALL cell. -/
def openCave5 : Cave := cubeCave 5 (fun _ _ _ => 0)

/-- The ten colours of the `switch` of generate_gems (cave.c 534-565) as a
table indexed by gem type: Ruby, Emerald, Sapphire, Amethyst, Topaz, Diamond,
Onyx, Aquamarine, Citrine, Rose Quartz. -/
def gemPalette : List (ℚ × ℚ × ℚ) :=
  [(1, 1 / 5, 1 / 5), (1 / 5, 1, 1 / 5), (1 / 5, 1 / 5, 1), (4 / 5, 1 / 5, 1),
   (1, 4 / 5, 1 / 5), (9 / 10, 9 / 10, 1), (1 / 10, 1 / 10, 1 / 10), (1 / 5, 4 / 5, 1),
   (1, 3 / 5, 0), (1, 3 / 5, 4 / 5)]

/-! ## The noise table: statements about init_perlin and perlin_noise_3d -/

/-- The table `p` holds the constants twice: `p[i] = p[i + 256] = permutation[i]`
for every `0 <= i < 256`. -/
def TableOk (p : Int → Int) : Prop :=
  ∀ i : Int, 0 ≤ i → i < 256 →
    p i = permutation.getD i.toNat 0 ∧ p (i + 256) = permutation.getD i.toNat 0

/-- The table indices perlin_noise_3d computes (cave.c 74-96), in the order
X, X+1, A, A+1, B, B+1, AA, AA+1, AB, AB+1, BA, BA+1, BB, BB+1. -/
def perlin_indices (p : Int → Int) (x y z : ℚ) : List Int :=
  let X := ⌊x⌋ % 256
  let Y := ⌊y⌋ % 256
  let Z := ⌊z⌋ % 256
  let A := p X + Y
  let AA := p A + Z
  let AB := p (A + 1) + Z
  let B := p (X + 1) + Y
  let BA := p B + Z
  let BB := p (B + 1) + Z
  [X, X + 1, A, A + 1, B, B + 1, AA, AA + 1, AB, AB + 1, BA, BA + 1, BB, BB + 1]

/-! ## The gem-collection block of display (final.c 470-478, ui.h 39-42, ui.c 310-314) -/

/-- The hotbar fields of the `UISystem` struct of ui.h: the array
`int gem_counts[10]` and `total_gems_collected`. -/
structure UISystem where
  gem_counts : List Int
  total_gems_collected : Int

/-- The function update_hotbar (ui.c 310-314). -/
def update_hotbar (ui : UISystem) (slot count : Int) : UISystem :=
  if slot ≥ 0 ∧ slot < 10 then { ui with gem_counts := ui.gem_counts.set slot.toNat count }
  else ui

/-- The block display() runs when the collect key is down (final.c 471-477),
with the player at `(px, py, pz)`: the HUD and the gem array afterwards, or
`none` when `gem_counts[gem_type]` is indexed outside the array. -/
def display_collect (ui : UISystem) (gems : List Gem) (px py pz : ℚ) :
    Option (UISystem × List Gem) :=
  let r := collect_gem gems px py pz (1 / 2)
  let gem_type := r.1
  if gem_type ≥ 0 then
    match ui.gem_counts[gem_type.toNat]? with
    | none => none
    | some c =>
      let ui1 : UISystem :=
        { gem_counts := ui.gem_counts.set gem_type.toNat (c + 1),
          total_gems_collected := ui.total_gems_collected + 1 }
      some (update_hotbar ui1 gem_type (ui1.gem_counts.getD gem_type.toNat 0), r.2)
  else some (ui, r.2)

/-- A HUD with ten empty hotbar slots. -/
def emptyHud : UISystem :=
  { gem_counts := [0, 0, 0, 0, 0, 0, 0, 0, 0, 0], total_gems_collected := 0 }

/-- Number of EMPTY cells `map[z][y][x]` over all `0 <= z < depth` of the
footprint column `(x, y)`. -/
def emptyCount (cave : Cave) (y x : Int) : Nat :=
  (List.range cave.depth.toNat).countP (fun (z : Nat) => decide (cave.map (z : Int) y x = 0))

/-- The height the specification gives for the footprint column `(x, y)`:
0.02 per EMPTY cell of the column plus the two weighted fractal-noise terms,
the noise being evaluated on the statics `pst`. -/
def height_value (cave : Cave) (pst : PerlinState) (y x : Int) : ℚ :=
  (1 / 50) * (emptyCount cave y x : ℚ)
    + (3 / 10) * (fractal_noise_3d pst ((x : ℚ) * (1 / 10)) ((y : ℚ) * (1 / 10)) 0 4 (1 / 2)).1
    + (1 / 10) * (fractal_noise_3d pst ((x : ℚ) * (1 / 2)) ((y : ℚ) * (1 / 2)) 0 2 (3 / 10)).1

/-- The difference `dx` generate_normal_map computes at the footprint cell
`(x, y)`: `(h_r - h_l) * 2.0f` (cave.c 251-256). -/
def normal_dx (cave : Cave) (y x : Int) : ℚ :=
  (cave.height_map (y * cave.width + (x + 1)) - cave.height_map (y * cave.width + (x - 1))) * 2

/-- The difference `dy` generate_normal_map computes at the footprint cell
`(x, y)`: `(h_u - h_d) * 2.0f` (cave.c 253-257). -/
def normal_dy (cave : Cave) (y x : Int) : ℚ :=
  (cave.height_map ((y + 1) * cave.width + x) - cave.height_map ((y - 1) * cave.width + x)) * 2

/-- A 3x3x3 volume with a flat height map. -/
def flatCave3 : Cave := cubeCave 3 (fun _ _ _ => 0)

/-- Channel `k` (0, 1, 2) that generate_normal_map stores for the footprint
cell `(x, y)`: the component of `(dx, dy, 1)` divided by `len` and remapped by
`* 0.5f + 0.5f` (cave.c 258-269). -/
def normal_channel (sqrtf : ℚ → ℚ) (cave : Cave) (y x k : Int) : ℚ :=
  let len := sqrtf (normal_dx cave y x * normal_dx cave y x
    + normal_dy cave y x * normal_dy cave y x + 1 * 1)
  if k = 0 then normal_dx cave y x / len * (1 / 2) + 1 / 2
  else if k = 1 then normal_dy cave y x / len * (1 / 2) + 1 / 2
  else 1 / len * (1 / 2) + 1 / 2

/-! ## Bounds-checked voxel accesses

The functions below repeat the loops of smooth_cave, carve_cave_interior,
find_spawn_point, generate_crystals, generate_gems and respawn_gem with every
access `map[z][y][x]` made through `readCell` / `writeCell`, which fail on an
index outside the allocated volume. -/

/-- The index `[z][y][x]` lies inside a `depth x height x width` allocation. -/
def InBounds (cave : Cave) (z y x : Int) : Prop :=
  0 ≤ x ∧ x < cave.width ∧ 0 ≤ y ∧ y < cave.height ∧ 0 ≤ z ∧ z < cave.depth

instance (cave : Cave) (z y x : Int) : Decidable (InBounds cave z y x) := by
  unfold InBounds; infer_instance

/-- The read `m[z][y][x]` of a grid allocated with the extents of `cave`:
`none` for an index outside the allocation. -/
def readCell (cave : Cave) (m : Grid) (z y x : Int) : Option Int :=
  if InBounds cave z y x then some (m z y x) else none

/-- The write `m[z][y][x] = v` to a grid allocated with the extents of `cave`:
`none` for an index outside the allocation. -/
def writeCell (cave : Cave) (m : Grid) (z y x v : Int) : Option Grid :=
  if InBounds cave z y x then some (setCell m z y x v) else none

/-- The call `memcpy(dst[z][y], src[z][y], w * sizeof(int))` on grids allocated
with the extents of `cave`: `none` unless the rows `[z][y]` exist and the
`w` cells copied lie inside them. -/
def copyRowChecked (cave : Cave) (dst src : Grid) (z y w : Int) : Option Grid :=
  if 0 ≤ y ∧ y < cave.height ∧ 0 ≤ z ∧ z < cave.depth ∧ 0 ≤ w ∧ w ≤ cave.width then
    some (copyRow dst src z y w)
  else none

/-- The loop `for (int i = lo; i < hi; i++)` with a body that may fail. -/
def forRangeM {σ : Type} (lo hi : Int) (body : Int → σ → Option σ) (s : σ) : Option σ :=
  forRange lo hi (fun i (st : Option σ) => st.bind (body i)) (some s)

/-- The neighbour-counting loops of smooth_cave (cave.c 190-201), checked. -/
def wall_count_checked (cave : Cave) (z y x : Int) : Option Int :=
  forRangeM (z - 1) (z + 1 + 1) (fun nz wc =>
    forRangeM (y - 1) (y + 1 + 1) (fun ny wc =>
      forRangeM (x - 1) (x + 1 + 1) (fun nx wc =>
        if nz ≠ z ∨ ny ≠ y ∨ nx ≠ x then
          (readCell cave cave.map nz ny nx).map (fun v => wc + v)
        else some wc) wc) wc) 0

/-- The first loop nest of smooth_cave (cave.c 187-207), checked; `new_map`
is allocated with the extents of the cave (cave.c 179-185). -/
def smooth_fill_checked (cave : Cave) (fresh : Grid) : Option Grid :=
  forRangeM 1 (cave.depth - 1) (fun z nm =>
    forRangeM 1 (cave.height - 1) (fun y nm =>
      forRangeM 1 (cave.width - 1) (fun x nm =>
        (wall_count_checked cave z y x).bind (fun wall_count =>
          writeCell cave nm z y x (if wall_count > 13 then 1 else 0))) nm) nm) fresh

/-- The copy-back loop nest of smooth_cave (cave.c 210-214), checked. -/
def smooth_copy_back_checked (cave : Cave) (new_map : Grid) : Option Grid :=
  forRangeM 1 (cave.depth - 1) (fun z m =>
    forRangeM 1 (cave.height - 1) (fun y m =>
      copyRowChecked cave m new_map z y cave.width) m) cave.map

/-- The function smooth_cave with checked accesses. -/
def smooth_cave_checked (fresh : Grid) (cave : Cave) : Option Cave :=
  (smooth_fill_checked cave fresh).bind (fun new_map =>
    (smooth_copy_back_checked cave new_map).map (fun m => { cave with map := m }))

/-- The main-chamber loop nest (cave.c 283-296), checked. -/
def carve_chamber_checked (cave : Cave) : Option Grid :=
  let center_x := cdiv cave.width 2
  let center_y := cdiv cave.height 2
  let center_z := cdiv cave.depth 2
  let chamber_radius : Int := 15
  forRangeM (center_z - chamber_radius) (center_z + chamber_radius) (fun z m =>
    forRangeM (center_y - chamber_radius) (center_y + chamber_radius) (fun y m =>
      forRangeM (center_x - chamber_radius) (center_x + chamber_radius) (fun x m =>
        if x > 0 ∧ x < cave.width - 1 ∧ y > 0 ∧ y < cave.height - 1
            ∧ z > 0 ∧ z < cave.depth - 1 then
          if sqrtLt ((((x - center_x) ^ 2 + (y - center_y) ^ 2 + (z - center_z) ^ 2 : Int)) : ℚ)
              (chamber_radius : ℚ) then
            writeCell cave m z y x 0
          else some m
        else some m) m) m) cave.map

/-- The sphere-carving loop nest of one tunnel step (cave.c 321-338), checked. -/
def carve_sphere_checked (cave : Cave) (m : Grid) (ix iy iz radius : Int) : Option Grid :=
  forRangeM (-radius) (radius + 1) (fun sz m =>
    forRangeM (-radius) (radius + 1) (fun sy m =>
      forRangeM (-radius) (radius + 1) (fun sx m =>
        let px := ix + sx
        let py := iy + sy
        let pz := iz + sz
        if px > 0 ∧ px < cave.width - 1 ∧ py > 0 ∧ py < cave.height - 1
            ∧ pz > 0 ∧ pz < cave.depth - 1 then
          if sqrtLe (((sx * sx + sy * sy + sz * sz : Int)) : ℚ) (radius : ℚ) then
            writeCell cave m pz py px 0
          else some m
        else some m) m) m) m

/-- One iteration of the walk loop (cave.c 316-351), checked: the sphere is
carved with checked writes, the other locals move as in `tunnel_step`. -/
def tunnel_step_checked (L : Libm) (cave : Cave) (rng : Nat → Nat) (s : TunnelState) :
    Option TunnelState :=
  (carve_sphere_checked cave s.map (toInt s.x) (toInt s.y) (toInt s.z)
      (3 + cmod (rand rng s.pos) 2)).map
    (fun m => { tunnel_step L cave rng s with map := m })

/-- One iteration of the tunnel loop (cave.c 300-352), checked. -/
def carve_tunnel_checked (L : Libm) (cave : Cave) (rng : Nat → Nat) (mp : Grid × Nat) :
    Option (Grid × Nat) :=
  let start_x := cdiv cave.width 2
  let start_y := cdiv cave.height 2
  let start_z := cdiv cave.depth 2
  let angle_h := ((cmod (rand rng mp.2) 360 : Int) : ℚ) * L.M_PI / 180
  let angle_v := ((cmod (rand rng (mp.2 + 1)) 60 - 30 : Int) : ℚ) * L.M_PI / 180
  let tunnel_length := 20 + cmod (rand rng (mp.2 + 2)) 30
  (forRangeM 0 tunnel_length (fun _ s => tunnel_step_checked L cave rng s)
    { map := mp.1, x := (start_x : ℚ), y := (start_y : ℚ), z := (start_z : ℚ),
      angle_h := angle_h, angle_v := angle_v,
      dx := L.cos angle_h * L.cos angle_v, dy := L.sin angle_v,
      dz := L.sin angle_h * L.cos angle_v, pos := mp.2 + 3 }).map (fun s => (s.map, s.pos))

/-- The function carve_cave_interior with checked accesses. -/
def carve_cave_interior_checked (L : Libm) (cave : Cave) (rng : Nat → Nat) (pos : Nat) :
    Option (Cave × Nat) :=
  (carve_chamber_checked cave).bind (fun m =>
    let num_tunnels := 6 + cmod (rand rng pos) 4
    (forRangeM 0 num_tunnels (fun _ mp => carve_tunnel_checked L cave rng mp) (m, pos + 1)).map
      (fun r => ({ cave with map := r.1 }, r.2)))

/-- The attempts loop of find_spawn_point at radius `r` (cave.c 364-379), checked. -/
def spawn_attempts_checked (cave : Cave) (rng : Nat → Nat) (r : Int) :
    Nat → Nat → Option (Option (ℚ × ℚ × ℚ) × Nat)
  | 0, pos => some (none, pos)
  | fuel + 1, pos =>
    let t := spawn_sample cave rng r pos
    if t.1 > 0 ∧ t.1 < cave.width - 1 ∧ t.2.1 > 0 ∧ t.2.1 < cave.height - 1
        ∧ t.2.2 > 0 ∧ t.2.2 < cave.depth - 1 then
      match readCell cave cave.map t.2.2 t.2.1 t.1 with
      | none => none
      | some v =>
        if v = 0 then some (some (spawn_world cave t), pos + 3)
        else spawn_attempts_checked cave rng r fuel (pos + 3)
    else spawn_attempts_checked cave rng r fuel (pos + 3)

/-- The radius loop of find_spawn_point (cave.c 363-380), checked. -/
def spawn_radii_checked (cave : Cave) (rng : Nat → Nat) :
    Nat → Int → Nat → Option (Option (ℚ × ℚ × ℚ) × Nat)
  | 0, _, pos => some (none, pos)
  | fuel + 1, r, pos =>
    match spawn_attempts_checked cave rng r 100 pos with
    | none => none
    | some (some w, pos') => some (some w, pos')
    | some (none, pos') => spawn_radii_checked cave rng fuel (r + 1) pos'

/-- The function find_spawn_point with checked accesses. -/
def find_spawn_point_checked (cave : Cave) (rng : Nat → Nat) (pos : Nat) :
    Option ((ℚ × ℚ × ℚ) × Nat) :=
  match spawn_radii_checked cave rng 20 0 pos with
  | none => none
  | some (some w, pos') => some (w, pos')
  | some (none, pos') => some ((0, 0, 0), pos')

/-- The `wall_nearby` loops of generate_crystals (cave.c 402-412), checked. -/
def crystal_wall_nearby_checked (cave : Cave) (z y x : Int) : Option Int :=
  forRangeM (-1) (1 + 1) (fun dz wall_nearby =>
    forRangeM (-1) (1 + 1) (fun dy wall_nearby =>
      (forRangeM (-1) (1 + 1) (fun dx (st : Int × Bool) =>
        if st.2 then some st
        else (readCell cave cave.map (z + dz) (y + dy) (x + dx)).map (fun v =>
          if v = 1 then (1, true) else (st.1, false)))
        (wall_nearby, false)).map (fun st => st.1)) wall_nearby) 0

/-- The attempts loop of generate_crystals for one slot (cave.c 395-451), checked. -/
def crystal_attempts_checked (L : Libm) (cave : Cave) (rng : Nat → Nat) :
    Nat → Nat → Crystal → Option (CrystalSlot × Nat)
  | 0, pos, c => some ({ crystal := c, placed := none }, pos)
  | fuel + 1, pos, c =>
    let x := cmod (rand rng pos) cave.width
    let y := cmod (rand rng (pos + 1)) cave.height
    let z := cdiv cave.depth 2 + (cmod (rand rng (pos + 2)) 10 - 5)
    if x > 0 ∧ x < cave.width - 1 ∧ y > 0 ∧ y < cave.height - 1
        ∧ z > 0 ∧ z < cave.depth - 1 then
      match crystal_wall_nearby_checked cave z y x with
      | none => none
      | some wall_nearby =>
        if wall_nearby ≠ 0 then
          some ({ crystal :=
              { x := voxel_to_world x cave.width
                y := cave.height_map (y * cave.width + x) + 1 / 5
                z := voxel_to_world y cave.height
                size := 1 / 10 + ((cmod (rand rng (pos + 3)) 100 : Int) : ℚ) / 200
                rotation := ((cmod (rand rng (pos + 4)) 360 : Int) : ℚ) * L.M_PI / 180
                color := crystal_color (cmod (rand rng (pos + 5)) 4) c.color
                glow_intensity := 1 / 2 + ((cmod (rand rng (pos + 6)) 50 : Int) : ℚ) / 100 }
                  placed := some (x, y, z) }, pos + 7)
        else crystal_attempts_checked L cave rng fuel (pos + 3) c
    else crystal_attempts_checked L cave rng fuel (pos + 3) c

/-- The function generate_crystals with checked accesses. -/
def generate_crystals_checked (L : Libm) (cave : Cave) (count : Int) (fresh : Nat → Crystal)
    (rng : Nat → Nat) (pos : Nat) : Option (List CrystalSlot × Nat) :=
  forRangeM 0 count (fun i (acc : List CrystalSlot × Nat) =>
    (crystal_attempts_checked L cave rng 100 acc.2 (fresh i.toNat)).map
      (fun r => (acc.1 ++ [r.1], r.2))) ([], pos)

/-- The `wall_nearby` loops of generate_gems (cave.c 512-521), checked. -/
def gem_wall_nearby_checked (cave : Cave) (z y x : Int) : Option Int :=
  forRangeM (-1) (1 + 1) (fun dz wall_nearby =>
    if wall_nearby = 0 then
      forRangeM (-1) (1 + 1) (fun dy wall_nearby =>
        if wall_nearby = 0 then
          forRangeM (-1) (1 + 1) (fun dx wall_nearby =>
            if wall_nearby = 0 then
              (readCell cave cave.map (z + dz) (y + dy) (x + dx)).map (fun v =>
                if v = 1 then 1 else wall_nearby)
            else some wall_nearby) wall_nearby
        else some wall_nearby) wall_nearby
    else some wall_nearby) 0

/-- The attempts loop of generate_gems for one slot (cave.c 500-570), checked. -/
def gem_attempts_checked (L : Libm) (cave : Cave) (rng : Nat → Nat) :
    Nat → Nat → Gem → Option (GemSlot × Nat)
  | 0, pos, g => some ({ gem := g, placed := none }, pos)
  | fuel + 1, pos, g =>
    let x := cmod (rand rng pos) cave.width
    let y := cmod (rand rng (pos + 1)) cave.height
    let z := cmod (rand rng (pos + 2)) cave.depth
    if x > 1 ∧ x < cave.width - 2 ∧ y > 1 ∧ y < cave.height - 2
        ∧ z > 1 ∧ z < cave.depth - 2 then
      match readCell cave cave.map z y x with
      | none => none
      | some v =>
        if v = 0 then
          match gem_wall_nearby_checked cave z y x with
          | none => none
          | some wall_nearby =>
            if wall_nearby ≠ 0 then
              let type := cmod (rand rng (pos + 5)) 10
              some ({ gem :=
                  { x := voxel_to_world x cave.width
                    y := voxel_to_world y cave.height
                    z := voxel_to_world z cave.depth
                    rotation := ((cmod (rand rng (pos + 3)) 360 : Int) : ℚ) * L.M_PI / 180
                    bob_offset := ((cmod (rand rng (pos + 4)) 100 : Int) : ℚ) / 100 * 2 * L.M_PI
                    type := type
                    collected := 0
                    color := gem_color type g.color
                    size := 1 / 10 + ((cmod (rand rng (pos + 6)) 50 : Int) : ℚ) / 500 }
                      placed := some (x, y, z) }, pos + 7)
            else gem_attempts_checked L cave rng fuel (pos + 3) g
        else gem_attempts_checked L cave rng fuel (pos + 3) g
    else gem_attempts_checked L cave rng fuel (pos + 3) g

/-- The function generate_gems with checked accesses. -/
def generate_gems_checked (L : Libm) (cave : Cave) (count : Int) (fresh : Nat → Gem)
    (rng : Nat → Nat) (pos : Nat) : Option (List GemSlot × Nat) :=
  forRangeM 0 count (fun i (acc : List GemSlot × Nat) =>
    (gem_attempts_checked L cave rng 100 acc.2 (fresh i.toNat)).map
      (fun r => (acc.1 ++ [r.1], r.2))) ([], pos)

/-- The loop of respawn_gem (cave.c 656-674), checked. -/
def respawn_attempts_checked (L : Libm) (cave : Cave) (rng : Nat → Nat) :
    Nat → Nat → Gem → Option (GemSlot × Nat)
  | 0, pos, g => some ({ gem := g, placed := none }, pos)
  | fuel + 1, pos, g =>
    let x := cmod (rand rng pos) cave.width
    let y := cmod (rand rng (pos + 1)) cave.height
    let z := cmod (rand rng (pos + 2)) cave.depth
    if x > 1 ∧ x < cave.width - 2 ∧ y > 1 ∧ y < cave.height - 2
        ∧ z > 1 ∧ z < cave.depth - 2 then
      match readCell cave cave.map z y x with
      | none => none
      | some v =>
        if v = 0 then
          some ({ gem :=
              { g with
                x := voxel_to_world x cave.width,
                y := voxel_to_world y cave.height,
                z := voxel_to_world z cave.depth,
                collected := 0,
                bob_offset := ((cmod (rand rng (pos + 3)) 100 : Int) : ℚ) / 100 * 2 * L.M_PI }
                  placed := some (x, y, z) }, pos + 4)
        else respawn_attempts_checked L cave rng fuel (pos + 3) g
    else respawn_attempts_checked L cave rng fuel (pos + 3) g

/-- The function respawn_gem with checked accesses. -/
def respawn_gem_checked (L : Libm) (g : Gem) (cave : Cave) (rng : Nat → Nat) (pos : Nat) :
    Option (GemSlot × Nat) :=
  respawn_attempts_checked L cave rng 100 pos g

/-! ## Auxiliary definitions for the index conversions and check_collision -/

/-- The `float` value `(w + 5.0f) / 10.0f * n` that the world-to-voxel formula
converts to `int`. -/
def world_to_voxel_value (w : ℚ) (n : Int) : ℚ :=
  f32 (f32 (f32 (w + 5) / 10) * f32 (n : ℚ))

/-- The `float` distance `dist` that check_collision computes between the query
point and voxel `(tx, ty, tz)` (final.c 240-247). -/
def wall_dist (cave : Cave) (x y z : ℚ) (tx ty tz : Int) : ℚ :=
  f32 (sqrt64 (f64 (f64 (f64 (f32 (x - voxel_to_world_f32 tx cave.width) ^ 2)
    + f64 (f32 (y - voxel_to_world_f32 ty cave.height) ^ 2))
    + f64 (f32 (z - voxel_to_world_f32 tz cave.depth) ^ 2))))

/-- The half-width `check_radius` of the cube that check_collision scans
(final.c 225). -/
def scan_radius (cave : Cave) (radius : ℚ) : Int :=
  castInt (f32 (f32 (radius * f32 (cave.width : ℚ)) / 10)) + 1

/-- The voxel `(tx, ty, tz)` lies in the cube that check_collision scans around
the voxel of the query point, is an in-bounds WALL voxel, and passes the
computed test `dist < radius`. -/
def WallHit (cave : Cave) (x y z radius : ℚ) (tx ty tz : Int) : Prop :=
  ((-(scan_radius cave radius) ≤ tx - world_to_voxel x cave.width
      ∧ tx - world_to_voxel x cave.width ≤ scan_radius cave radius)
    ∧ (-(scan_radius cave radius) ≤ ty - world_to_voxel y cave.height
      ∧ ty - world_to_voxel y cave.height ≤ scan_radius cave radius)
    ∧ (-(scan_radius cave radius) ≤ tz - world_to_voxel z cave.depth
      ∧ tz - world_to_voxel z cave.depth ≤ scan_radius cave radius))
    ∧ (0 ≤ tx ∧ tx < cave.width ∧ 0 ≤ ty ∧ ty < cave.height ∧ 0 ≤ tz ∧ tz < cave.depth)
    ∧ cave.map tz ty tx = WALL
    ∧ (wall_dist cave x y z tx ty tz < 2 ^ 128 ∧ wall_dist cave x y z tx ty tz < radius)

/-! ## Loop lemmas -/

theorem forRange_succ {σ : Type} (lo : Int) (n : Nat) (body : Int → σ → σ) (s : σ) :
    forRange lo (lo + (n + 1 : Nat)) body s
      = body (lo + (n : Int)) (forRange lo (lo + (n : Nat)) body s) := by
  unfold forRange
  have h1 : (lo + ((n + 1 : Nat) : Int) - lo).toNat = n + 1 := by omega
  have h2 : (lo + ((n : Nat) : Int) - lo).toNat = n := by omega
  rw [h1, h2, List.range_succ, List.foldl_append]
  rfl

theorem forRange_empty {σ : Type} (lo hi : Int) (h : hi ≤ lo) (body : Int → σ → σ) (s : σ) :
    forRange lo hi body s = s := by
  unfold forRange
  have : (hi - lo).toNat = 0 := by omega
  rw [this]; rfl

/-- An invariant kept by every iteration is kept by the loop. -/
theorem forRange_invariant {σ : Type} (P : σ → Prop) (lo hi : Int) (body : Int → σ → σ)
    (hb : ∀ i s, lo ≤ i → i < hi → P s → P (body i s)) (s : σ) (hs : P s) :
    P (forRange lo hi body s) := by
  by_cases hle : hi ≤ lo
  · rw [forRange_empty lo hi hle]; exact hs
  · obtain ⟨n, rfl⟩ : ∃ n : Nat, hi = lo + (n : Int) := ⟨(hi - lo).toNat, by omega⟩
    clear hle
    induction n with
    | zero => rw [forRange_empty lo _ (by simp)]; exact hs
    | succ n ih =>
      rw [forRange_succ]
      apply hb _ _ (by omega) (by push_cast; omega)
      exact ih (fun i s h1 h2 => hb i s h1 (by push_cast; omega))

/-- A loop over grids whose iteration `i` overwrites exactly the cells with
`key = i` satisfying `C`, with values `T` that do not depend on the grid. -/
theorem forRange_grid (key : Int → Int → Int → Int) (C : Int → Int → Int → Prop)
    [∀ z y x, Decidable (C z y x)] (T : Grid) (body : Int → Grid → Grid)
    (hb : ∀ i g z y x, body i g z y x = if key z y x = i ∧ C z y x then T z y x else g z y x)
    (lo hi : Int) (g : Grid) (z y x : Int) :
    forRange lo hi body g z y x
      = if lo ≤ key z y x ∧ key z y x < hi ∧ C z y x then T z y x else g z y x := by
  by_cases hle : hi ≤ lo
  · rw [forRange_empty lo hi hle, if_neg]
    intro h; omega
  · obtain ⟨n, rfl⟩ : ∃ n : Nat, hi = lo + (n : Int) := ⟨(hi - lo).toNat, by omega⟩
    clear hle
    induction n with
    | zero =>
      rw [forRange_empty lo _ (by simp), if_neg]
      intro h; simp at h; omega
    | succ n ih =>
      rw [forRange_succ, hb, ih]
      by_cases hC : C z y x
      · by_cases hk : key z y x = lo + (n : Int)
        · rw [if_pos ⟨hk, hC⟩, if_pos ⟨by omega, by push_cast; omega, hC⟩]
        · rw [if_neg (fun h => hk h.1)]
          by_cases hr : lo ≤ key z y x ∧ key z y x < lo + (n : Int)
          · rw [if_pos ⟨hr.1, hr.2, hC⟩, if_pos ⟨hr.1, by push_cast; omega, hC⟩]
          · rw [if_neg (fun h => hr ⟨h.1, h.2.1⟩), if_neg]
            intro h; apply hr; refine ⟨h.1, ?_⟩
            have := h.2.1; push_cast at this; omega
      · rw [if_neg (fun h => hC h.2), if_neg (fun h => hC h.2.2), if_neg (fun h => hC h.2.2)]

/-! ## smooth_cave: what one pass stores -/

theorem smooth_fill_spec (cave : Cave) (fresh : Grid) (z y x : Int) :
    smooth_fill cave fresh z y x
      = if (1 ≤ z ∧ z < cave.depth - 1) ∧ (1 ≤ y ∧ y < cave.height - 1)
            ∧ (1 ≤ x ∧ x < cave.width - 1)
        then smooth_rule cave.map z y x else fresh z y x := by
  unfold smooth_fill
  rw [forRange_grid (fun z _ _ => z)
        (fun _ y x => (1 ≤ y ∧ y < cave.height - 1) ∧ (1 ≤ x ∧ x < cave.width - 1))
        (fun z y x => smooth_rule cave.map z y x)]
  · simp only [and_assoc]
  · intro i g z y x
    rw [forRange_grid (fun _ y _ => y)
          (fun z _ x => z = i ∧ (1 ≤ x ∧ x < cave.width - 1))
          (fun z y x => smooth_rule cave.map z y x)]
    · by_cases h : z = i ∧ (1 ≤ y ∧ y < cave.height - 1) ∧ (1 ≤ x ∧ x < cave.width - 1)
      · rw [if_pos h, if_pos ⟨h.2.1.1, h.2.1.2, h.1, h.2.2⟩]
      · rw [if_neg h, if_neg (fun h2 => h ⟨h2.2.2.1, ⟨h2.1, h2.2.1⟩, h2.2.2.2⟩)]
    · intro j g z y x
      rw [forRange_grid (fun _ _ x => x) (fun z y _ => z = i ∧ y = j)
            (fun z y x => smooth_rule cave.map z y x)]
      · by_cases h : y = j ∧ z = i ∧ (1 ≤ x ∧ x < cave.width - 1)
        · rw [if_pos h, if_pos ⟨h.2.2.1, h.2.2.2, h.2.1, h.1⟩]
        · rw [if_neg h, if_neg (fun h2 => h ⟨h2.2.2.2, h2.2.2.1, h2.1, h2.2.1⟩)]
      · intro k g z y x
        unfold setCell
        by_cases h : z = i ∧ y = j ∧ x = k
        · rw [if_pos h, if_pos ⟨h.2.2, h.1, h.2.1⟩, h.1, h.2.1, h.2.2]
        · rw [if_neg h, if_neg (fun h2 => h ⟨h2.2.1, h2.2.2, h2.1⟩)]

theorem smooth_copy_back_spec (cave : Cave) (new_map : Grid) (z y x : Int) :
    smooth_copy_back cave new_map z y x
      = if (1 ≤ z ∧ z < cave.depth - 1) ∧ (1 ≤ y ∧ y < cave.height - 1)
            ∧ (0 ≤ x ∧ x < cave.width)
        then new_map z y x else cave.map z y x := by
  unfold smooth_copy_back
  rw [forRange_grid (fun z _ _ => z)
        (fun _ y x => (1 ≤ y ∧ y < cave.height - 1) ∧ (0 ≤ x ∧ x < cave.width)) new_map]
  · simp only [and_assoc]
  · intro i g z y x
    rw [forRange_grid (fun _ y _ => y) (fun z _ x => z = i ∧ (0 ≤ x ∧ x < cave.width)) new_map]
    · by_cases h : z = i ∧ (1 ≤ y ∧ y < cave.height - 1) ∧ (0 ≤ x ∧ x < cave.width)
      · rw [if_pos h, if_pos ⟨h.2.1.1, h.2.1.2, h.1, h.2.2⟩]
      · rw [if_neg h, if_neg (fun h2 => h ⟨h2.2.2.1, ⟨h2.1, h2.2.1⟩, h2.2.2.2⟩)]
    · intro j g z y x
      unfold copyRow
      by_cases h : z = i ∧ y = j ∧ 0 ≤ x ∧ x < cave.width
      · rw [if_pos h, if_pos ⟨h.2.1, h.1, h.2.2⟩]
      · rw [if_neg h, if_neg (fun h2 => h ⟨h2.2.1, h2.1, h2.2.2⟩)]

/-- Cell-by-cell description of one smooth_cave pass: interior cells get the
smoothing rule, the two end cells of every copied row get the temporary
buffer's uninitialised content, every other cell is kept. -/
theorem smooth_cave_map (fresh : Grid) (cave : Cave) (z y x : Int) :
    (smooth_cave fresh cave).map z y x
      = if (1 ≤ z ∧ z < cave.depth - 1) ∧ (1 ≤ y ∧ y < cave.height - 1)
            ∧ (0 ≤ x ∧ x < cave.width)
        then (if 1 ≤ x ∧ x < cave.width - 1 then smooth_rule cave.map z y x else fresh z y x)
        else cave.map z y x := by
  show smooth_copy_back cave (smooth_fill cave fresh) z y x = _
  rw [smooth_copy_back_spec, smooth_fill_spec]
  by_cases h : (1 ≤ z ∧ z < cave.depth - 1) ∧ (1 ≤ y ∧ y < cave.height - 1)
      ∧ (0 ≤ x ∧ x < cave.width)
  · rw [if_pos h, if_pos h]
    by_cases hx : 1 ≤ x ∧ x < cave.width - 1
    · rw [if_pos hx, if_pos ⟨h.1, h.2.1, hx⟩]
    · rw [if_neg hx, if_neg (fun h2 => hx h2.2.2)]
  · rw [if_neg h, if_neg h]

theorem smooth_cave_dims (fresh : Grid) (cave : Cave) :
    (smooth_cave fresh cave).width = cave.width ∧ (smooth_cave fresh cave).height = cave.height
      ∧ (smooth_cave fresh cave).depth = cave.depth := ⟨rfl, rfl, rfl⟩

/-- A loop `for (i = a - 1; i <= a + 1; i++)` runs its body three times. -/
theorem forUpTo_three {σ : Type} (a : Int) (body : Int → σ → σ) (s : σ) :
    forUpTo (a - 1) (a + 1) body s = body (a + 1) (body a (body (a - 1) s)) := by
  unfold forUpTo forRange
  have h3 : (a + 1 + 1 - (a - 1)).toNat = 3 := by omega
  rw [h3]
  have e0 : a - 1 + ((0 : Nat) : Int) = a - 1 := by simp
  have e1 : a - 1 + ((1 : Nat) : Int) = a := by simp
  have e2 : a - 1 + ((2 : Nat) : Int) = a + 1 := by push_cast; ring
  simp only [List.range, List.range.loop, List.foldl, e0, e1, e2]

/-- The triple loop of wall_count adds up the 26 neighbours of the cell. -/
theorem wall_count_eq (m : Grid) (z y x : Int) :
    wall_count m z y x = (offsets26.map (fun d => m (z + d.1) (y + d.2.1) (x + d.2.2))).sum := by
  have n1 : ∀ a : Int, a - 1 ≠ a := fun a => by omega
  have n2 : ∀ a : Int, a + 1 ≠ a := fun a => by omega
  simp only [wall_count, forUpTo_three, offsets26, List.map, List.sum_cons, List.sum_nil,
    ne_eq, n1, n2, not_true_eq_false, not_false_eq_true, or_true, true_or, or_false, false_or,
    if_true, if_false, or_self]
  simp only [Int.add_zero, Int.zero_add, Int.sub_eq_add_neg]
  ring


/-- For 0/1 cells, adding up the cell values counts the WALL cells. -/
theorem sum_eq_countWalls (offs : List (Int × Int × Int)) (m : Grid) (z y x : Int)
    (hbin : ∀ d ∈ offs, m (z + d.1) (y + d.2.1) (x + d.2.2) = EMPTY
      ∨ m (z + d.1) (y + d.2.1) (x + d.2.2) = WALL) :
    (offs.map (fun d => m (z + d.1) (y + d.2.1) (x + d.2.2))).sum
      = (countWalls offs m z y x : Int) := by
  unfold countWalls
  induction offs with
  | nil => simp
  | cons d rest ih =>
    have hrest := ih (fun e he => hbin e (List.mem_cons_of_mem _ he))
    rw [List.map_cons, List.sum_cons, hrest, List.filter_cons]
    rcases hbin d (List.mem_cons_self _ _) with h | h
    · simp [h, WALL, EMPTY]
    · simp [h, WALL]
      ring

/-- C1 (evaluation at the failing input): on the all-WALL 3x3x3 volume one
smooth_cave call replaces the shell cell `map[1][1][0]` by whatever the
temporary buffer `new_map` held there, so with a zero-filled buffer the cell
turns from WALL into 0: the row copy-back overwrites the two end cells of every
interior row with the never-initialised ends of `new_map`. -/
theorem smooth_cave_overwrites_row_ends :
    solidCave3.map 1 1 0 = WALL
      ∧ (∀ fresh : Grid, (smooth_cave fresh solidCave3).map 1 1 0 = fresh 1 1 0)
      ∧ (smooth_cave (fun _ _ _ => 0) solidCave3).map 1 1 0 = 0
      ∧ (smooth_iter (fun _ _ _ _ => 0) 1 solidCave3).map 1 1 0 ≠ solidCave3.map 1 1 0 := by
  have h : ∀ fresh : Grid, (smooth_cave fresh solidCave3).map 1 1 0 = fresh 1 1 0 := by
    intro fresh
    rw [smooth_cave_map]
    simp [solidCave3, cubeCave]
  refine ⟨rfl, h, h _, ?_⟩
  show (smooth_cave (fun _ _ _ => 0) solidCave3).map 1 1 0 ≠ _
  rw [h]
  decide

/-- C2 (counterexample): in `halfCave3` the 3x3x3 block centred on the interior
cell (1,1,1) holds 14 WALL cells, the cell itself included, which is more than
13, yet one smooth_cave pass makes the cell EMPTY. -/
theorem smooth_cave_excludes_centre_cex :
    countWalls offsets27 halfCave3.map 1 1 1 = 14
      ∧ (smooth_cave (fun _ _ _ => 0) halfCave3).map 1 1 1 = EMPTY
      ∧ ¬ ((smooth_cave (fun _ _ _ => 0) halfCave3).map 1 1 1 = WALL
            ↔ 13 < countWalls offsets27 halfCave3.map 1 1 1) := by
  have h1 : countWalls offsets27 halfCave3.map 1 1 1 = 14 := by decide
  have h2 : (smooth_cave (fun _ _ _ => 0) halfCave3).map 1 1 1 = EMPTY := by
    rw [smooth_cave_map, smooth_rule, wall_count_eq]
    simp [halfCave3, cubeCave, offsets26, EMPTY]
  refine ⟨h1, h2, ?_⟩
  rw [h1, h2]
  decide

/-- C2 (amended): for every interior cell (1 <= x <= width-2, 1 <= y <= height-2,
1 <= z <= depth-2) whose 26 neighbours hold 0 or 1, after one smooth_cave pass
the cell is WALL if and only if more than 13 of its 26 neighbours (the cell
itself not counted) were WALL before the pass, and otherwise it is EMPTY. -/
theorem smooth_cave_interior_rule (fresh : Grid) (cave : Cave) (z y x : Int)
    (hz : 1 ≤ z ∧ z ≤ cave.depth - 2) (hy : 1 ≤ y ∧ y ≤ cave.height - 2)
    (hx : 1 ≤ x ∧ x ≤ cave.width - 2)
    (hbin : ∀ d ∈ offsets26, cave.map (z + d.1) (y + d.2.1) (x + d.2.2) = EMPTY
      ∨ cave.map (z + d.1) (y + d.2.1) (x + d.2.2) = WALL) :
    ((smooth_cave fresh cave).map z y x = WALL ↔ 13 < countWalls offsets26 cave.map z y x)
      ∧ (¬ 13 < countWalls offsets26 cave.map z y x →
          (smooth_cave fresh cave).map z y x = EMPTY) := by
  have hm : (smooth_cave fresh cave).map z y x
      = if 13 < countWalls offsets26 cave.map z y x then 1 else 0 := by
    rw [smooth_cave_map, if_pos ⟨⟨hz.1, by omega⟩, ⟨hy.1, by omega⟩, ⟨by omega, by omega⟩⟩,
      if_pos ⟨hx.1, by omega⟩, smooth_rule, wall_count_eq, sum_eq_countWalls _ _ _ _ _ hbin]
    by_cases h : 13 < countWalls offsets26 cave.map z y x
    · rw [if_pos h, if_pos (by omega)]
    · rw [if_neg h, if_neg (by omega)]
  rw [hm]
  by_cases h : 13 < countWalls offsets26 cave.map z y x
  · simp [h, WALL]
  · simp [h, WALL, EMPTY]

/-- C2 (amended), applied to the centre cell of `halfCave3`. -/
theorem smooth_cave_interior_rule_witness :
    ((1 : Int) ≤ 1 ∧ (1 : Int) ≤ halfCave3.depth - 2)
      ∧ ((smooth_cave (fun _ _ _ => 0) halfCave3).map 1 1 1 = WALL
        ↔ 13 < countWalls offsets26 halfCave3.map 1 1 1)
      ∧ (¬ 13 < countWalls offsets26 halfCave3.map 1 1 1 →
          (smooth_cave (fun _ _ _ => 0) halfCave3).map 1 1 1 = EMPTY) :=
  ⟨by decide,
    smooth_cave_interior_rule (fun _ _ _ => 0) halfCave3 1 1 1 (by decide) (by decide)
      (by decide) (by decide)⟩

/-! ## carve_cave_interior: the main chamber -/

theorem carve_chamber_spec (cave : Cave) (z y x : Int) :
    carve_chamber cave z y x
      = if (cdiv cave.depth 2 - 15 ≤ z ∧ z < cdiv cave.depth 2 + 15)
            ∧ (cdiv cave.height 2 - 15 ≤ y ∧ y < cdiv cave.height 2 + 15)
            ∧ (cdiv cave.width 2 - 15 ≤ x ∧ x < cdiv cave.width 2 + 15)
            ∧ (x > 0 ∧ x < cave.width - 1 ∧ y > 0 ∧ y < cave.height - 1
                ∧ z > 0 ∧ z < cave.depth - 1)
            ∧ sqrtLt ((((x - cdiv cave.width 2) ^ 2 + (y - cdiv cave.height 2) ^ 2
                + (z - cdiv cave.depth 2) ^ 2 : Int)) : ℚ) ((15 : Int) : ℚ)
        then 0 else cave.map z y x := by
  unfold carve_chamber
  rw [forRange_grid (fun z _ _ => z)
        (fun z y x => (cdiv cave.height 2 - 15 ≤ y ∧ y < cdiv cave.height 2 + 15)
            ∧ (cdiv cave.width 2 - 15 ≤ x ∧ x < cdiv cave.width 2 + 15)
            ∧ (x > 0 ∧ x < cave.width - 1 ∧ y > 0 ∧ y < cave.height - 1
                ∧ z > 0 ∧ z < cave.depth - 1)
            ∧ sqrtLt ((((x - cdiv cave.width 2) ^ 2 + (y - cdiv cave.height 2) ^ 2
                + (z - cdiv cave.depth 2) ^ 2 : Int)) : ℚ) ((15 : Int) : ℚ))
        (fun _ _ _ => 0)]
  · simp only [and_assoc]
  · intro i g z y x
    rw [forRange_grid (fun _ y _ => y)
          (fun z y x => z = i ∧ (cdiv cave.width 2 - 15 ≤ x ∧ x < cdiv cave.width 2 + 15)
            ∧ (x > 0 ∧ x < cave.width - 1 ∧ y > 0 ∧ y < cave.height - 1
                ∧ z > 0 ∧ z < cave.depth - 1)
            ∧ sqrtLt ((((x - cdiv cave.width 2) ^ 2 + (y - cdiv cave.height 2) ^ 2
                + (z - cdiv cave.depth 2) ^ 2 : Int)) : ℚ) ((15 : Int) : ℚ))
          (fun _ _ _ => 0)]
    · apply if_congr _ rfl rfl
      constructor
      · rintro ⟨h1, h2, h3, h4⟩; exact ⟨h3, ⟨h1, h2⟩, h4⟩
      · rintro ⟨h3, ⟨h1, h2⟩, h4⟩; exact ⟨h1, h2, h3, h4⟩
    · intro j g z y x
      rw [forRange_grid (fun _ _ x => x)
            (fun z y x => z = i ∧ y = j
              ∧ (x > 0 ∧ x < cave.width - 1 ∧ y > 0 ∧ y < cave.height - 1
                  ∧ z > 0 ∧ z < cave.depth - 1)
              ∧ sqrtLt ((((x - cdiv cave.width 2) ^ 2 + (y - cdiv cave.height 2) ^ 2
                  + (z - cdiv cave.depth 2) ^ 2 : Int)) : ℚ) ((15 : Int) : ℚ))
            (fun _ _ _ => 0)]
      · apply if_congr _ rfl rfl
        constructor
        · rintro ⟨h1, h2, h3, h4, h5⟩; exact ⟨h4, h3, ⟨h1, h2⟩, h5⟩
        · rintro ⟨h4, h3, ⟨h1, h2⟩, h5⟩; exact ⟨h1, h2, h3, h4, h5⟩
      · intro k g z y x
        by_cases hc : z = i ∧ y = j ∧ x = k
        · obtain ⟨rfl, rfl, rfl⟩ := hc
          by_cases hin : x > 0 ∧ x < cave.width - 1 ∧ y > 0 ∧ y < cave.height - 1
              ∧ z > 0 ∧ z < cave.depth - 1
          · by_cases hs : sqrtLt ((((x - cdiv cave.width 2) ^ 2 + (y - cdiv cave.height 2) ^ 2
                + (z - cdiv cave.depth 2) ^ 2 : Int)) : ℚ) ((15 : Int) : ℚ)
            · rw [if_pos hin, if_pos hs, if_pos ⟨rfl, rfl, rfl, hin, hs⟩]
              simp [setCell]
            · rw [if_pos hin, if_neg hs, if_neg (fun h => hs h.2.2.2.2)]
          · rw [if_neg hin, if_neg (fun h => hin h.2.2.2.1)]
        · conv_rhs => rw [if_neg (fun h => hc ⟨h.2.1, h.2.2.1, h.1⟩)]
          by_cases hin : k > 0 ∧ k < cave.width - 1 ∧ j > 0 ∧ j < cave.height - 1
              ∧ i > 0 ∧ i < cave.depth - 1
          · rw [if_pos hin]
            split
            · simp [setCell, hc]
            · rfl
          · rw [if_neg hin]


/-! ## carve_cave_interior: the tunnels only clear interior cells -/

theorem carvedFrom_refl (cave : Cave) (m0 : Grid) : CarvedFrom cave m0 m0 :=
  fun _ _ _ => Or.inl rfl

theorem carvedFrom_setCell (cave : Cave) (m0 g : Grid) (h : CarvedFrom cave m0 g)
    (pz py px : Int)
    (hin : px > 0 ∧ px < cave.width - 1 ∧ py > 0 ∧ py < cave.height - 1
      ∧ pz > 0 ∧ pz < cave.depth - 1) :
    CarvedFrom cave m0 (setCell g pz py px 0) := by
  intro z y x
  unfold setCell
  by_cases hc : z = pz ∧ y = py ∧ x = px
  · obtain ⟨rfl, rfl, rfl⟩ := hc
    right
    exact ⟨hin, by simp⟩
  · rw [if_neg hc]
    exact h z y x

theorem carve_sphere_carved (cave : Cave) (m0 g : Grid) (ix iy iz radius : Int)
    (h : CarvedFrom cave m0 g) : CarvedFrom cave m0 (carve_sphere cave g ix iy iz radius) := by
  unfold carve_sphere forUpTo
  apply forRange_invariant (CarvedFrom cave m0) _ _ _ _ _ h
  intro sz g1 _ _ h1
  apply forRange_invariant (CarvedFrom cave m0) _ _ _ _ _ h1
  intro sy g2 _ _ h2
  apply forRange_invariant (CarvedFrom cave m0) _ _ _ _ _ h2
  intro sx g3 _ _ h3
  simp only []
  split
  · rename_i hin
    split
    · exact carvedFrom_setCell cave m0 g3 h3 _ _ _ hin
    · exact h3
  · exact h3

theorem tunnel_step_carved (L : Libm) (cave : Cave) (rng : Nat → Nat) (m0 : Grid)
    (s : TunnelState) (h : CarvedFrom cave m0 s.map) :
    CarvedFrom cave m0 (tunnel_step L cave rng s).map :=
  carve_sphere_carved cave m0 s.map _ _ _ _ h

theorem carve_tunnel_carved (L : Libm) (cave : Cave) (rng : Nat → Nat) (m0 : Grid)
    (mp : Grid × Nat) (h : CarvedFrom cave m0 mp.1) :
    CarvedFrom cave m0 (carve_tunnel L cave rng mp).1 := by
  unfold carve_tunnel
  exact forRange_invariant (fun s : TunnelState => CarvedFrom cave m0 s.map) _ _ _
    (fun _ s _ _ hs => tunnel_step_carved L cave rng m0 s hs) _ h

/-- Every cell of the carved cave is the cell left by the main-chamber loops
or a strictly interior cell cleared by a tunnel. -/
theorem carve_cave_interior_carved (L : Libm) (cave : Cave) (rng : Nat → Nat) (pos : Nat) :
    CarvedFrom cave (carve_chamber cave) (carve_cave_interior L cave rng pos).1.map := by
  unfold carve_cave_interior
  exact forRange_invariant (fun mp : Grid × Nat => CarvedFrom cave (carve_chamber cave) mp.1)
    _ _ _ (fun _ mp _ _ hmp => carve_tunnel_carved L cave rng _ mp hmp) _
    (carvedFrom_refl cave _)

theorem sqrtLt_cast_iff (d r : Int) (hr : 0 < r) :
    sqrtLt ((d : Int) : ℚ) ((r : Int) : ℚ) ↔ d < r * r := by
  unfold sqrtLt
  constructor
  · rintro ⟨_, h⟩; exact_mod_cast h
  · intro h; exact ⟨by exact_mod_cast hr, by exact_mod_cast h⟩

theorem cdiv_two (a : Int) (h : 0 ≤ a) : cdiv a 2 = a / 2 := by
  unfold cdiv
  exact Int.tdiv_eq_ediv h (by decide)

theorem sq_lt_225 (a b c : Int) (h : a ^ 2 + b ^ 2 + c ^ 2 < 15 ^ 2) : -14 ≤ a ∧ a ≤ 14 := by
  constructor <;> nlinarith [sq_nonneg b, sq_nonneg c]

/-- C3: for every volume whose width, height and depth are all >= 32 and for
every random stream, after carve_cave_interior every voxel whose integer offset
(dx,dy,dz) from the centre (width/2, height/2, depth/2) satisfies
dx^2+dy^2+dz^2 < 15^2 is EMPTY; the tunnels carved afterwards never refill it. -/
theorem carve_cave_interior_chamber_empty (L : Libm) (cave : Cave) (rng : Nat → Nat)
    (pos : Nat) (hw : 32 ≤ cave.width) (hh : 32 ≤ cave.height) (hd : 32 ≤ cave.depth)
    (x y z : Int)
    (hin : (x - cave.width / 2) ^ 2 + (y - cave.height / 2) ^ 2 + (z - cave.depth / 2) ^ 2
      < 15 ^ 2) :
    (carve_cave_interior L cave rng pos).1.map z y x = EMPTY := by
  have hx := sq_lt_225 _ _ _ hin
  have hy := sq_lt_225 (y - cave.height / 2) (x - cave.width / 2) (z - cave.depth / 2)
    (by linarith)
  have hz := sq_lt_225 (z - cave.depth / 2) (x - cave.width / 2) (y - cave.height / 2)
    (by linarith)
  have hch : carve_chamber cave z y x = 0 := by
    rw [carve_chamber_spec, cdiv_two _ (by omega : 0 ≤ cave.width),
      cdiv_two _ (by omega : 0 ≤ cave.height), cdiv_two _ (by omega : 0 ≤ cave.depth)]
    apply if_pos
    refine ⟨by omega, by omega, by omega, by omega, ?_⟩
    rw [sqrtLt_cast_iff _ _ (by decide)]
    exact hin
  rcases carve_cave_interior_carved L cave rng pos z y x with h | h
  · rw [h, hch]; rfl
  · exact h.2

/-- C3 at a concrete input: the centre voxel of a solid 32x32x32 volume. -/
theorem carve_cave_interior_chamber_empty_witness :
    (32 : Int) ≤ (cubeCave 32 (fun _ _ _ => 1)).width
      ∧ (carve_cave_interior sampleLibm (cubeCave 32 (fun _ _ _ => 1)) (fun _ => 0) 0).1.map
          16 16 16 = EMPTY :=
  ⟨by decide,
    carve_cave_interior_chamber_empty sampleLibm (cubeCave 32 (fun _ _ _ => 1)) (fun _ => 0) 0
      (by decide) (by decide) (by decide) 16 16 16 (by decide)⟩


/-! ## Flag-setting loops (`wall_nearby`) -/

theorem forRange_flag (q : Int → Prop) (lo hi : Int) (body : Int → Int → Int)
    (hb : ∀ i w, FlagStep (q i) w (body i w)) (w : Int) :
    FlagStep (∃ i, lo ≤ i ∧ i < hi ∧ q i) w (forRange lo hi body w) := by
  by_cases hle : hi ≤ lo
  · rw [forRange_empty lo hi hle]
    exact ⟨fun ⟨i, h1, h2, _⟩ => absurd h1 (by omega), fun _ => rfl⟩
  · obtain ⟨n, rfl⟩ : ∃ n : Nat, hi = lo + (n : Int) := ⟨(hi - lo).toNat, by omega⟩
    clear hle
    induction n with
    | zero =>
      rw [forRange_empty lo _ (by simp)]
      exact ⟨fun ⟨i, h1, h2, _⟩ => absurd h1 (by simp at h2; omega), fun _ => rfl⟩
    | succ n ih =>
      rw [forRange_succ]
      have hstep := hb (lo + (n : Int)) (forRange lo (lo + (n : Int)) body w)
      constructor
      · rintro ⟨i, h1, h2, hq⟩
        by_cases hlast : q (lo + (n : Int))
        · exact hstep.1 hlast
        · rw [hstep.2 hlast]
          apply ih.1
          refine ⟨i, h1, ?_, hq⟩
          have hne : i ≠ lo + (n : Int) := fun h => hlast (h ▸ hq)
          push_cast at h2; omega
      · intro hno
        have hlast : ¬ q (lo + (n : Int)) :=
          fun h => hno ⟨_, by omega, by push_cast; omega, h⟩
        rw [hstep.2 hlast]
        apply ih.2
        rintro ⟨i, h1, h2, hq⟩
        exact hno ⟨i, h1, by push_cast; omega, hq⟩

theorem forRangeBreak_flag (q : Int → Prop) (lo hi : Int) (body : Int → Int → Int × Bool)
    (hb : ∀ i w, (q i → body i w = (1, true)) ∧ (¬ q i → body i w = (w, false))) (w : Int) :
    FlagStep (∃ i, lo ≤ i ∧ i < hi ∧ q i) w (forRangeBreak lo hi body w) := by
  unfold forRangeBreak
  suffices h : ((∃ i, lo ≤ i ∧ i < hi ∧ q i) →
        forRange lo hi (fun i (st : Int × Bool) => if st.2 then st else body i st.1) (w, false)
          = (1, true))
      ∧ (¬ (∃ i, lo ≤ i ∧ i < hi ∧ q i) →
        forRange lo hi (fun i (st : Int × Bool) => if st.2 then st else body i st.1) (w, false)
          = (w, false)) by
    exact ⟨fun hq => by rw [h.1 hq], fun hq => by rw [h.2 hq]⟩
  by_cases hle : hi ≤ lo
  · rw [forRange_empty lo hi hle]
    exact ⟨fun ⟨i, h1, h2, _⟩ => absurd h1 (by omega), fun _ => rfl⟩
  · obtain ⟨n, rfl⟩ : ∃ n : Nat, hi = lo + (n : Int) := ⟨(hi - lo).toNat, by omega⟩
    clear hle
    induction n with
    | zero =>
      rw [forRange_empty lo _ (by simp)]
      exact ⟨fun ⟨i, h1, h2, _⟩ => absurd h1 (by simp at h2; omega), fun _ => rfl⟩
    | succ n ih =>
      rw [forRange_succ]
      by_cases hprev : ∃ i, lo ≤ i ∧ i < lo + (n : Int) ∧ q i
      · rw [ih.1 hprev]
        obtain ⟨i, h1, h2, hq⟩ := hprev
        exact ⟨fun _ => rfl, fun hno => absurd ⟨i, h1, by push_cast; omega, hq⟩ hno⟩
      · rw [ih.2 hprev]
        simp only [Bool.false_eq_true, if_false]
        by_cases hlast : q (lo + (n : Int))
        · exact ⟨fun _ => (hb _ w).1 hlast,
            fun hno => absurd ⟨_, by omega, by push_cast; omega, hlast⟩ hno⟩
        · refine ⟨?_, fun _ => (hb _ w).2 hlast⟩
          rintro ⟨i, h1, h2, hq⟩
          have hne : i ≠ lo + (n : Int) := fun h => hlast (h ▸ hq)
          exact absurd ⟨i, h1, by push_cast at h2; omega, hq⟩ hprev

theorem forRangeWhile_flag (q : Int → Prop) (lo hi : Int) (body : Int → Int → Int)
    (hb : ∀ i, FlagStep (q i) 0 (body i 0)) :
    FlagStep (∃ i, lo ≤ i ∧ i < hi ∧ q i) 0
      (forRangeWhile lo hi (fun w => decide (w = 0)) body 0) := by
  unfold forRangeWhile
  by_cases hle : hi ≤ lo
  · rw [forRange_empty lo hi hle]
    exact ⟨fun ⟨i, h1, h2, _⟩ => absurd h1 (by omega), fun _ => rfl⟩
  · obtain ⟨n, rfl⟩ : ∃ n : Nat, hi = lo + (n : Int) := ⟨(hi - lo).toNat, by omega⟩
    clear hle
    induction n with
    | zero =>
      rw [forRange_empty lo _ (by simp)]
      exact ⟨fun ⟨i, h1, h2, _⟩ => absurd h1 (by simp at h2; omega), fun _ => rfl⟩
    | succ n ih =>
      rw [forRange_succ]
      by_cases hprev : ∃ i, lo ≤ i ∧ i < lo + (n : Int) ∧ q i
      · rw [ih.1 hprev]
        obtain ⟨i, h1, h2, hq⟩ := hprev
        exact ⟨fun _ => by simp, fun hno => absurd ⟨i, h1, by push_cast; omega, hq⟩ hno⟩
      · rw [ih.2 hprev]
        simp only [decide_True, if_true]
        by_cases hlast : q (lo + (n : Int))
        · exact ⟨fun _ => (hb _).1 hlast,
            fun hno => absurd ⟨_, by omega, by push_cast; omega, hlast⟩ hno⟩
        · refine ⟨?_, fun _ => (hb _).2 hlast⟩
          rintro ⟨i, h1, h2, hq⟩
          have hne : i ≠ lo + (n : Int) := fun h => hlast (h ▸ hq)
          exact absurd ⟨i, h1, by push_cast at h2; omega, hq⟩ hprev

/-- Offsets `-1..1` on the three axes are exactly the 27 offsets of the block. -/
theorem mem_offsets27 (dz dy dx : Int) :
    (dz, dy, dx) ∈ offsets27
      ↔ (-1 ≤ dz ∧ dz < 1 + 1) ∧ (-1 ≤ dy ∧ dy < 1 + 1) ∧ (-1 ≤ dx ∧ dx < 1 + 1) := by
  constructor
  · intro h
    simp only [offsets27, offsets26, List.mem_cons, Prod.mk.injEq, List.mem_nil_iff,
      or_false] at h
    omega
  · rintro ⟨hz, hy, hx⟩
    have hz' : dz = -1 ∨ dz = 0 ∨ dz = 1 := by omega
    have hy' : dy = -1 ∨ dy = 0 ∨ dy = 1 := by omega
    have hx' : dx = -1 ∨ dx = 0 ∨ dx = 1 := by omega
    rcases hz' with rfl | rfl | rfl <;> rcases hy' with rfl | rfl | rfl <;>
      rcases hx' with rfl | rfl | rfl <;> decide

theorem mem_offsets26 (d : Int × Int × Int) :
    d ∈ offsets26 ↔ d ∈ offsets27 ∧ d ≠ (0, 0, 0) := by
  constructor
  · intro h
    refine ⟨List.mem_cons_of_mem _ h, ?_⟩
    rintro rfl
    revert h
    decide
  · rintro ⟨h, hne⟩
    rcases List.mem_cons.1 h with h | h
    · exact absurd h hne
    · exact h

/-- The crystal `wall_nearby` flag is set exactly when some cell of the 3x3x3
block, the sampled cell included, is WALL. -/
theorem crystal_wall_nearby_ne_zero (m : Grid) (z y x : Int) :
    crystal_wall_nearby m z y x ≠ 0
      ↔ ∃ d ∈ offsets27, m (z + d.1) (y + d.2.1) (x + d.2.2) = WALL := by
  have key : FlagStep (∃ dz, -1 ≤ dz ∧ dz < 1 + 1 ∧ ∃ dy, -1 ≤ dy ∧ dy < 1 + 1 ∧
      ∃ dx, -1 ≤ dx ∧ dx < 1 + 1 ∧ m (z + dz) (y + dy) (x + dx) = 1) 0
      (crystal_wall_nearby m z y x) := by
    unfold crystal_wall_nearby
    apply forRange_flag
    intro dz w
    apply forRange_flag
    intro dy w
    apply forRangeBreak_flag (fun dx => m (z + dz) (y + dy) (x + dx) = 1)
    intro dx w
    exact ⟨fun h => if_pos h, fun h => if_neg h⟩
  constructor
  · intro hne
    by_contra hno
    apply hne
    apply key.2
    rintro ⟨dz, hz1, hz2, dy, hy1, hy2, dx, hx1, hx2, hw⟩
    exact hno ⟨(dz, dy, dx), (mem_offsets27 dz dy dx).2 ⟨⟨hz1, hz2⟩, ⟨hy1, hy2⟩, hx1, hx2⟩, hw⟩
  · rintro ⟨⟨dz, dy, dx⟩, hmem, hw⟩
    obtain ⟨hz, hy, hx⟩ := (mem_offsets27 dz dy dx).1 hmem
    rw [key.1 ⟨dz, hz.1, hz.2, dy, hy.1, hy.2, dx, hx.1, hx.2, hw⟩]
    decide

/-- The gem `wall_nearby` flag is set exactly when some cell of the 3x3x3
block, the sampled cell included, is WALL. -/
theorem gem_wall_nearby_ne_zero (m : Grid) (z y x : Int) :
    gem_wall_nearby m z y x ≠ 0
      ↔ ∃ d ∈ offsets27, m (z + d.1) (y + d.2.1) (x + d.2.2) = WALL := by
  have key : FlagStep (∃ dz, -1 ≤ dz ∧ dz < 1 + 1 ∧ ∃ dy, -1 ≤ dy ∧ dy < 1 + 1 ∧
      ∃ dx, -1 ≤ dx ∧ dx < 1 + 1 ∧ m (z + dz) (y + dy) (x + dx) = 1) 0
      (gem_wall_nearby m z y x) := by
    unfold gem_wall_nearby
    apply forRangeWhile_flag
    intro dz
    apply forRangeWhile_flag
    intro dy
    apply forRangeWhile_flag (fun dx => m (z + dz) (y + dy) (x + dx) = 1)
    intro dx
    exact ⟨fun h => if_pos h, fun h => if_neg h⟩
  constructor
  · intro hne
    by_contra hno
    apply hne
    apply key.2
    rintro ⟨dz, hz1, hz2, dy, hy1, hy2, dx, hx1, hx2, hw⟩
    exact hno ⟨(dz, dy, dx), (mem_offsets27 dz dy dx).2 ⟨⟨hz1, hz2⟩, ⟨hy1, hy2⟩, hx1, hx2⟩, hw⟩
  · rintro ⟨⟨dz, dy, dx⟩, hmem, hw⟩
    obtain ⟨hz, hy, hx⟩ := (mem_offsets27 dz dy dx).1 hmem
    rw [key.1 ⟨dz, hz.1, hz.2, dy, hy.1, hy.2, dx, hx.1, hx.2, hw⟩]
    decide


/-! ## generate_crystals and generate_gems: where slots are placed -/

theorem crystal_attempts_placed (L : Libm) (cave : Cave) (rng : Nat → Nat) (fuel pos : Nat)
    (c : Crystal) (x y z : Int)
    (hp : (crystal_attempts L cave rng fuel pos c).1.placed = some (x, y, z)) :
    (x > 0 ∧ x < cave.width - 1 ∧ y > 0 ∧ y < cave.height - 1 ∧ z > 0 ∧ z < cave.depth - 1)
      ∧ crystal_wall_nearby cave.map z y x ≠ 0 := by
  induction fuel generalizing pos with
  | zero => simp [crystal_attempts] at hp
  | succ fuel ih =>
    unfold crystal_attempts at hp
    simp only [] at hp
    split at hp
    · rename_i hin
      split at hp
      · rename_i hw
        simp only [Option.some.injEq, Prod.mk.injEq] at hp
        obtain ⟨rfl, rfl, rfl⟩ := hp
        exact ⟨hin, hw⟩
      · exact ih _ hp
    · exact ih _ hp

theorem gem_attempts_placed (L : Libm) (cave : Cave) (rng : Nat → Nat) (fuel pos : Nat)
    (g : Gem) (x y z : Int)
    (hp : (gem_attempts L cave rng fuel pos g).1.placed = some (x, y, z)) :
    (x > 1 ∧ x < cave.width - 2 ∧ y > 1 ∧ y < cave.height - 2 ∧ z > 1 ∧ z < cave.depth - 2
        ∧ cave.map z y x = 0)
      ∧ gem_wall_nearby cave.map z y x ≠ 0
      ∧ (gem_attempts L cave rng fuel pos g).1.gem.x = voxel_to_world x cave.width
      ∧ (gem_attempts L cave rng fuel pos g).1.gem.y = voxel_to_world y cave.height
      ∧ (gem_attempts L cave rng fuel pos g).1.gem.z = voxel_to_world z cave.depth := by
  induction fuel generalizing pos with
  | zero => simp [gem_attempts] at hp
  | succ fuel ih =>
    unfold gem_attempts at hp ⊢
    simp only [] at hp ⊢
    split at hp
    · rename_i hin
      split at hp
      · rename_i hw
        simp only [Option.some.injEq, Prod.mk.injEq] at hp
        obtain ⟨rfl, rfl, rfl⟩ := hp
        rw [if_pos hin, if_pos hw]
        exact ⟨hin, hw, rfl, rfl, rfl⟩
      · rename_i hw
        rw [if_pos hin, if_neg hw]
        exact ih _ hp
    · rename_i hin
      rw [if_neg hin]
      exact ih _ hp

/-- Every slot of generate_crystals is the outcome of one search loop. -/
theorem generate_crystals_slots (L : Libm) (cave : Cave) (count : Int) (fresh : Nat → Crystal)
    (rng : Nat → Nat) (pos : Nat) (slot : CrystalSlot)
    (h : slot ∈ (generate_crystals L cave count fresh rng pos).1) :
    ∃ p c, slot = (crystal_attempts L cave rng 100 p c).1 := by
  revert h slot
  unfold generate_crystals
  apply forRange_invariant (fun acc : List CrystalSlot × Nat =>
    ∀ slot ∈ acc.1, ∃ p c, slot = (crystal_attempts L cave rng 100 p c).1)
  · intro i acc _ _ hacc slot hmem
    rcases List.mem_append.1 hmem with h | h
    · exact hacc slot h
    · exact ⟨_, _, List.mem_singleton.1 h⟩
  · intro slot hmem
    simp at hmem

/-- Every slot of generate_gems is the outcome of one search loop. -/
theorem generate_gems_slots (L : Libm) (cave : Cave) (count : Int) (fresh : Nat → Gem)
    (rng : Nat → Nat) (pos : Nat) (slot : GemSlot)
    (h : slot ∈ (generate_gems L cave count fresh rng pos).1) :
    ∃ p g, slot = (gem_attempts L cave rng 100 p g).1 := by
  revert h slot
  unfold generate_gems
  apply forRange_invariant (fun acc : List GemSlot × Nat =>
    ∀ slot ∈ acc.1, ∃ p g, slot = (gem_attempts L cave rng 100 p g).1)
  · intro i acc _ _ hacc slot hmem
    rcases List.mem_append.1 hmem with h | h
    · exact hacc slot h
    · exact ⟨_, _, List.mem_singleton.1 h⟩
  · intro slot hmem
    simp at hmem

/-- C4 (counterexample): on `pillarCave3` with every `rand()` draw equal to
25, generate_crystals populates slot 0 from the sampled voxel (1,1,1), none of
whose 26 neighbours is WALL (the only WALL cell is the sampled voxel itself). -/
theorem generate_crystals_accepts_wall_voxel_cex :
    ((generate_crystals sampleLibm pillarCave3 1 (fun _ => zeroCrystal) (fun _ => 25) 0).1.map
        (fun s => s.placed)) = [some (1, 1, 1)]
      ∧ ¬ ∃ d ∈ offsets26, pillarCave3.map (1 + d.1) (1 + d.2.1) (1 + d.2.2) = WALL := by
  constructor
  · decide
  · decide

/-- C4 (amended): every crystal slot that generate_crystals populates was
accepted at a sampled voxel (x,y,z) that lies strictly inside the volume bounds
and has at least one WALL cell in the 3x3x3 block around it, the sampled voxel
itself included (27 cells). -/
theorem generate_crystals_placed_near_wall (L : Libm) (cave : Cave) (count : Int)
    (fresh : Nat → Crystal) (rng : Nat → Nat) (pos : Nat) (i : Nat) (slot : CrystalSlot)
    (x y z : Int)
    (hslot : (generate_crystals L cave count fresh rng pos).1[i]? = some slot)
    (hp : slot.placed = some (x, y, z)) :
    (0 < x ∧ x < cave.width - 1 ∧ 0 < y ∧ y < cave.height - 1 ∧ 0 < z ∧ z < cave.depth - 1)
      ∧ ∃ d ∈ offsets27, cave.map (z + d.1) (y + d.2.1) (x + d.2.2) = WALL := by
  obtain ⟨p, c, rfl⟩ := generate_crystals_slots L cave count fresh rng pos slot
    (List.getElem?_mem hslot)
  have h := crystal_attempts_placed L cave rng 100 p c x y z hp
  exact ⟨h.1, (crystal_wall_nearby_ne_zero _ _ _ _).1 h.2⟩

/-- C4 (amended), applied to slot 0 generated on `pillarCave3`. -/
theorem generate_crystals_placed_near_wall_witness :
    ((generate_crystals sampleLibm pillarCave3 1 (fun _ => zeroCrystal) (fun _ => 25) 0).1[0]?
        = some (crystal_attempts sampleLibm pillarCave3 (fun _ => 25) 100 0 zeroCrystal).1)
      ∧ (crystal_attempts sampleLibm pillarCave3 (fun _ => 25) 100 0 zeroCrystal).1.placed
        = some (1, 1, 1)
      ∧ ((0 : Int) < 1 ∧ (1 : Int) < pillarCave3.width - 1 ∧ (0 : Int) < 1
          ∧ (1 : Int) < pillarCave3.height - 1 ∧ (0 : Int) < 1
          ∧ (1 : Int) < pillarCave3.depth - 1)
      ∧ ∃ d ∈ offsets27, pillarCave3.map (1 + d.1) (1 + d.2.1) (1 + d.2.2) = WALL :=
  ⟨rfl, rfl,
    generate_crystals_placed_near_wall sampleLibm pillarCave3 1 (fun _ => zeroCrystal)
      (fun _ => 25) 0 0 _ 1 1 1 rfl rfl⟩

/-- C5: every gem slot that generate_gems populates is placed at a voxel
(x,y,z) that is itself EMPTY and has at least one WALL cell among its 26
neighbours, and the gem's world position is index/extent*10-5 of that voxel on
all three axes. -/
theorem generate_gems_placed_spec (L : Libm) (cave : Cave) (count : Int)
    (fresh : Nat → Gem) (rng : Nat → Nat) (pos : Nat) (i : Nat) (slot : GemSlot)
    (x y z : Int)
    (hslot : (generate_gems L cave count fresh rng pos).1[i]? = some slot)
    (hp : slot.placed = some (x, y, z)) :
    cave.map z y x = EMPTY
      ∧ (∃ d ∈ offsets26, cave.map (z + d.1) (y + d.2.1) (x + d.2.2) = WALL)
      ∧ slot.gem.x = (x : ℚ) / (cave.width : ℚ) * 10 - 5
      ∧ slot.gem.y = (y : ℚ) / (cave.height : ℚ) * 10 - 5
      ∧ slot.gem.z = (z : ℚ) / (cave.depth : ℚ) * 10 - 5 := by
  obtain ⟨p, g, rfl⟩ := generate_gems_slots L cave count fresh rng pos slot
    (List.getElem?_mem hslot)
  obtain ⟨hin, hw, hx, hy, hz⟩ := gem_attempts_placed L cave rng 100 p g x y z hp
  have hempty : cave.map z y x = 0 := hin.2.2.2.2.2.2
  refine ⟨hempty, ?_, hx, hy, hz⟩
  obtain ⟨d, hd, hwall⟩ := (gem_wall_nearby_ne_zero _ _ _ _).1 hw
  refine ⟨d, (mem_offsets26 d).2 ⟨hd, ?_⟩, hwall⟩
  rintro rfl
  simp only [add_zero] at hwall
  rw [hempty] at hwall
  exact absurd hwall (by decide)

/-- C5, applied to slot 0 generated on `pocketCave5`. -/
theorem generate_gems_placed_spec_witness :
    ((generate_gems sampleLibm pocketCave5 1 (fun _ => zeroGem) (fun _ => 2) 0).1[0]?
        = some (gem_attempts sampleLibm pocketCave5 (fun _ => 2) 100 0 zeroGem).1)
      ∧ (gem_attempts sampleLibm pocketCave5 (fun _ => 2) 100 0 zeroGem).1.placed
        = some (2, 2, 2)
      ∧ pocketCave5.map 2 2 2 = EMPTY
      ∧ (∃ d ∈ offsets26, pocketCave5.map (2 + d.1) (2 + d.2.1) (2 + d.2.2) = WALL)
      ∧ (gem_attempts sampleLibm pocketCave5 (fun _ => 2) 100 0 zeroGem).1.gem.x
        = ((2 : Int) : ℚ) / (pocketCave5.width : ℚ) * 10 - 5
      ∧ (gem_attempts sampleLibm pocketCave5 (fun _ => 2) 100 0 zeroGem).1.gem.y
        = ((2 : Int) : ℚ) / (pocketCave5.height : ℚ) * 10 - 5
      ∧ (gem_attempts sampleLibm pocketCave5 (fun _ => 2) 100 0 zeroGem).1.gem.z
        = ((2 : Int) : ℚ) / (pocketCave5.depth : ℚ) * 10 - 5 :=
  ⟨rfl, rfl,
    generate_gems_placed_spec sampleLibm pocketCave5 1 (fun _ => zeroGem) (fun _ => 2) 0 0 _
      2 2 2 rfl rfl⟩


/-! ## Floating-point arithmetic: rounding -/

theorem roundEven_cases (x : ℚ) : roundEven x = ⌊x⌋ ∨ roundEven x = ⌊x⌋ + 1 := by
  unfold roundEven
  split_ifs <;> simp

/-- Rounding to an integer moves a value by at most one half. -/
theorem roundEven_abs_sub_le (x : ℚ) : |(roundEven x : ℚ) - x| ≤ 1 / 2 := by
  have hf := Int.self_sub_floor x
  have h0 := Int.fract_nonneg x
  have h1 := Int.fract_lt_one x
  unfold roundEven
  rw [abs_le]
  split_ifs with ha hb hc
  · constructor <;> linarith
  · push_cast; constructor <;> linarith
  · have : Int.fract x = 1 / 2 := le_antisymm (not_lt.1 hb) (not_lt.1 ha)
    constructor <;> linarith
  · have : Int.fract x = 1 / 2 := le_antisymm (not_lt.1 hb) (not_lt.1 ha)
    push_cast; constructor <;> linarith

theorem roundEven_eq_of_lt (x : ℚ) (m : Int) (h : |x - (m : ℚ)| < 1 / 2) : roundEven x = m := by
  have hr := roundEven_abs_sub_le x
  rw [abs_lt] at h
  rw [abs_le] at hr
  have h1 : ((roundEven x - m : Int) : ℚ) < 1 := by push_cast; linarith
  have h2 : (-1 : ℚ) < ((roundEven x - m : Int) : ℚ) := by push_cast; linarith
  have h3 : roundEven x - m < 1 := by exact_mod_cast h1
  have h4 : -1 < roundEven x - m := by exact_mod_cast h2
  omega

theorem roundEven_intCast (m : Int) : roundEven (m : ℚ) = m :=
  roundEven_eq_of_lt _ m (by simp)

theorem roundEven_nonneg (x : ℚ) (h : 0 ≤ x) : 0 ≤ roundEven x := by
  have : 0 ≤ ⌊x⌋ := Int.floor_nonneg.2 h
  rcases roundEven_cases x with h1 | h1 <;> omega

theorem roundEven_nonpos (x : ℚ) (h : x ≤ 0) : roundEven x ≤ 0 := by
  by_cases hx : x = 0
  · subst hx
    have := roundEven_intCast 0
    simp at this
    omega
  · have hlt : x < 0 := lt_of_le_of_ne h hx
    have : ⌊x⌋ < 0 := by
      rw [Int.floor_lt]
      exact_mod_cast hlt
    rcases roundEven_cases x with h1 | h1 <;> omega

theorem roundFloat_zero (p : Nat) (emin : Int) : roundFloat p emin 0 = 0 := by
  have h := roundEven_intCast 0
  simp only [Int.cast_zero] at h
  unfold roundFloat
  simp [h]

theorem roundFloat_nonneg (p : Nat) (emin : Int) (q : ℚ) (h : 0 ≤ q) :
    0 ≤ roundFloat p emin q := by
  unfold roundFloat
  dsimp only
  apply mul_nonneg
  · exact_mod_cast roundEven_nonneg _ (div_nonneg h (by positivity))
  · positivity

theorem roundFloat_nonpos (p : Nat) (emin : Int) (q : ℚ) (h : q ≤ 0) :
    roundFloat p emin q ≤ 0 := by
  unfold roundFloat
  dsimp only
  apply mul_nonpos_of_nonpos_of_nonneg
  · exact_mod_cast roundEven_nonpos _ (div_nonpos_of_nonpos_of_nonneg h (by positivity))
  · positivity

/-- Evaluation of a rounding: `q` has binary exponent `e`, the spacing there
is `2 ^ t`, and `m` is the integer nearest to `q / 2 ^ t`. -/
theorem roundFloat_eq (p : Nat) (emin : Int) (q : ℚ) (e t m : Int)
    (he : ((2 : ℚ) ^ e ≤ q ∧ q < (2 : ℚ) ^ (e + 1)) ∨ ((2 : ℚ) ^ e ≤ -q ∧ -q < (2 : ℚ) ^ (e + 1)))
    (ht : t = max (e - ((p : Int) - 1)) (emin - ((p : Int) - 1)))
    (hm1 : q / 2 ^ t - (m : ℚ) < 1 / 2) (hm2 : -(1 / 2) < q / 2 ^ t - (m : ℚ)) :
    roundFloat p emin q = (m : ℚ) * 2 ^ t := by
  have h2e : (0 : ℚ) < 2 ^ e := by positivity
  have he' : (2 : ℚ) ^ e ≤ |q| ∧ |q| < (2 : ℚ) ^ (e + 1) := by
    rcases he with ⟨h1, h2⟩ | ⟨h1, h2⟩
    · rw [abs_of_pos (by linarith)]; exact ⟨h1, h2⟩
    · rw [abs_of_neg (by linarith)]; exact ⟨h1, h2⟩
  have hpos : 0 < |q| := lt_of_lt_of_le h2e he'.1
  have hlog : Int.log 2 |q| = e := by
    have h1 : e ≤ Int.log 2 |q| :=
      (Int.zpow_le_iff_le_log (by norm_num) hpos).1 (by exact_mod_cast he'.1)
    have h2 : Int.log 2 |q| < e + 1 :=
      (Int.lt_zpow_iff_log_lt (by norm_num) hpos).1 (by exact_mod_cast he'.2)
    omega
  unfold roundFloat
  dsimp only
  rw [hlog, ← ht, roundEven_eq_of_lt _ m (abs_lt.2 ⟨hm2, hm1⟩)]

/-- The error of a rounding: relative `2 ^ (-p)`, or half the least spacing
under gradual underflow. -/
theorem roundFloat_err (p : Nat) (emin : Int) (q : ℚ) :
    |roundFloat p emin q - q| ≤ |q| * 2 ^ (-(p : Int)) + 2 ^ (emin - (p : Int)) := by
  by_cases hq : q = 0
  · subst hq
    rw [roundFloat_zero]
    simp
    positivity
  have hpos : 0 < |q| := abs_pos.2 hq
  unfold roundFloat
  dsimp only
  set t := max (Int.log 2 |q| - ((p : Int) - 1)) (emin - ((p : Int) - 1)) with ht
  have h2t : (0 : ℚ) < 2 ^ t := by positivity
  have hr := roundEven_abs_sub_le (q / 2 ^ t)
  have e1 : (roundEven (q / 2 ^ t) : ℚ) * 2 ^ t - q
      = ((roundEven (q / 2 ^ t) : ℚ) - q / 2 ^ t) * 2 ^ t := by
    field_simp
  rw [e1, abs_mul, abs_of_pos h2t]
  have hb : |(roundEven (q / 2 ^ t) : ℚ) - q / 2 ^ t| * 2 ^ t ≤ 1 / 2 * 2 ^ t :=
    mul_le_mul_of_nonneg_right hr (le_of_lt h2t)
  have hlog : (2 : ℚ) ^ (Int.log 2 |q|) ≤ |q| := by
    exact_mod_cast Int.zpow_log_le_self (by norm_num) hpos
  have hhalf : (1 / 2 : ℚ) * 2 ^ t = 2 ^ (t - 1) := by
    rw [zpow_sub₀ (by norm_num : (2 : ℚ) ≠ 0)]
    simp
    ring
  rw [hhalf] at hb
  rcases max_cases (Int.log 2 |q| - ((p : Int) - 1)) (emin - ((p : Int) - 1)) with
    ⟨h1, _⟩ | ⟨h1, _⟩
  · have : t - 1 = Int.log 2 |q| + (-(p : Int)) := by rw [ht, h1]; ring
    rw [this, zpow_add₀ (by norm_num : (2 : ℚ) ≠ 0)] at hb
    have h3 : (2 : ℚ) ^ (Int.log 2 |q|) * 2 ^ (-(p : Int)) ≤ |q| * 2 ^ (-(p : Int)) :=
      mul_le_mul_of_nonneg_right hlog (by positivity)
    have h4 : (0 : ℚ) < 2 ^ (emin - (p : Int)) := by positivity
    linarith
  · have : t - 1 = emin - (p : Int) := by rw [ht, h1]; ring
    rw [this] at hb
    have h4 : (0 : ℚ) ≤ |q| * 2 ^ (-(p : Int)) := by positivity
    linarith

theorem f32_zero : f32 0 = 0 := roundFloat_zero 24 (-126)

theorem f32_nonneg (q : ℚ) (h : 0 ≤ q) : 0 ≤ f32 q := roundFloat_nonneg 24 (-126) q h

theorem f32_nonpos (q : ℚ) (h : q ≤ 0) : f32 q ≤ 0 := roundFloat_nonpos 24 (-126) q h

theorem f64_nonneg (q : ℚ) (h : 0 ≤ q) : 0 ≤ f64 q := roundFloat_nonneg 53 (-1022) q h

/-- Evaluation of a rounding to `float`. -/
theorem f32_eval (q : ℚ) (e t m : Int) (v : ℚ)
    (he : ((2 : ℚ) ^ e ≤ q ∧ q < (2 : ℚ) ^ (e + 1)) ∨ ((2 : ℚ) ^ e ≤ -q ∧ -q < (2 : ℚ) ^ (e + 1)))
    (ht : t = max (e - 23) (-149))
    (hm1 : q / 2 ^ t - (m : ℚ) < 1 / 2) (hm2 : -(1 / 2) < q / 2 ^ t - (m : ℚ))
    (hv : (m : ℚ) * 2 ^ t = v) : f32 q = v := by
  rw [← hv]
  exact roundFloat_eq 24 (-126) q e t m he (by rw [ht]; norm_num) hm1 hm2

/-- The rounding error of a `float` operation. -/
theorem f32_err (q B : ℚ) (hB : |q| ≤ B) :
    |f32 q - q| ≤ B / 2 ^ 24 + 1 / 2 ^ 150 := by
  have h := roundFloat_err 24 (-126) q
  have e1 : ((2 : ℚ) ^ (-((24 : Nat) : Int))) = 1 / 2 ^ 24 := by norm_num
  have e2 : ((2 : ℚ) ^ ((-126 : Int) - ((24 : Nat) : Int))) = 1 / 2 ^ 150 := by norm_num
  rw [e1, e2] at h
  unfold f32
  have h3 : |q| * (1 / 2 ^ 24) ≤ B / 2 ^ 24 := by
    rw [div_eq_mul_one_div B]
    exact mul_le_mul_of_nonneg_right hB (by positivity)
  linarith

theorem sqrt64_zero : sqrt64 0 = 0 := by
  unfold sqrt64
  rw [if_pos (le_refl 0)]

theorem sqrt64_nonneg (s : ℚ) : 0 ≤ sqrt64 s := by
  unfold sqrt64
  split_ifs with h
  · exact le_refl 0
  · dsimp only
    apply mul_nonneg
    · split_ifs <;> positivity
    · positivity

/-- Evaluation of a `double` square root: `k` is the integer part of the root
in units of the spacing `2 ^ t`, and `n` is `k` or `k + 1`, whichever is nearer. -/
theorem sqrt64_eval (s : ℚ) (e t : Int) (k : Nat) (n v : ℚ)
    (hs1 : (4 : ℚ) ^ e ≤ s) (hs2 : s < (4 : ℚ) ^ (e + 1))
    (ht : t = max (e - 52) (-1074))
    (hk1 : (k : ℚ) * k ≤ s / 4 ^ t) (hk2 : s / 4 ^ t < ((k : ℚ) + 1) * ((k : ℚ) + 1))
    (hn : (n = (k : ℚ) ∧ s / 4 ^ t < (k : ℚ) * k + k + 1 / 4)
      ∨ (n = (k : ℚ) + 1 ∧ (k : ℚ) * k + k + 1 / 4 < s / 4 ^ t))
    (hv : n * 2 ^ t = v) : sqrt64 s = v := by
  have h4e : (0 : ℚ) < 4 ^ e := by positivity
  have hpos : 0 < s := lt_of_lt_of_le h4e hs1
  have hlog : Int.log 4 s = e := by
    have h1 : e ≤ Int.log 4 s :=
      (Int.zpow_le_iff_le_log (by norm_num) hpos).1 (by exact_mod_cast hs1)
    have h2 : Int.log 4 s < e + 1 :=
      (Int.lt_zpow_iff_log_lt (by norm_num) hpos).1 (by exact_mod_cast hs2)
    omega
  have hu0 : (0 : ℚ) ≤ s / 4 ^ t := div_nonneg (le_of_lt hpos) (by positivity)
  have hsq : Nat.sqrt ⌊s / 4 ^ t⌋₊ = k := by
    symm
    rw [Nat.eq_sqrt]
    constructor
    · rw [Nat.le_floor_iff hu0]
      push_cast
      exact hk1
    · rw [Nat.floor_lt hu0]
      push_cast
      exact hk2
  unfold sqrt64
  rw [if_neg (not_le.2 hpos)]
  dsimp only
  rw [hlog, ← ht, hsq, ← hv]
  rcases hn with ⟨hn1, hn2⟩ | ⟨hn1, hn2⟩
  · rw [if_pos hn2, hn1]
  · rw [if_neg (not_lt.2 (le_of_lt hn2)), if_pos hn2, hn1]

/-- Rounding of an exact tie: the even neighbour. -/
theorem roundEven_eq_of_tie (x : ℚ) (m r : Int) (h : x - (m : ℚ) = 1 / 2)
    (hr : (m % 2 = 0 ∧ r = m) ∨ (m % 2 = 1 ∧ r = m + 1)) : roundEven x = r := by
  have hx : x = (m : ℚ) + 1 / 2 := by linarith
  have hfl : ⌊x⌋ = m := by
    rw [Int.floor_eq_iff]
    constructor <;> linarith
  have hfr : Int.fract x = 1 / 2 := by
    rw [Int.fract, hfl]
    linarith
  unfold roundEven
  rw [hfr, hfl, if_neg (lt_irrefl _), if_neg (lt_irrefl _)]
  rcases hr with ⟨h1, h2⟩ | ⟨h1, h2⟩
  · rw [if_pos h1, h2]
  · rw [if_neg (by omega), h2]

/-- Evaluation of a rounding to `float` at an exact tie. -/
theorem f32_eval_tie (q : ℚ) (e t m r : Int) (v : ℚ)
    (he : ((2 : ℚ) ^ e ≤ q ∧ q < (2 : ℚ) ^ (e + 1)) ∨ ((2 : ℚ) ^ e ≤ -q ∧ -q < (2 : ℚ) ^ (e + 1)))
    (ht : t = max (e - 23) (-149))
    (hm : q / 2 ^ t - (m : ℚ) = 1 / 2)
    (hr : (m % 2 = 0 ∧ r = m) ∨ (m % 2 = 1 ∧ r = m + 1))
    (hv : (r : ℚ) * 2 ^ t = v) : f32 q = v := by
  have h2e : (0 : ℚ) < 2 ^ e := by positivity
  have he2 : (2 : ℚ) ^ e ≤ |q| ∧ |q| < (2 : ℚ) ^ (e + 1) := by
    rcases he with ⟨h1, h2⟩ | ⟨h1, h2⟩
    · rw [abs_of_pos (by linarith)]; exact ⟨h1, h2⟩
    · rw [abs_of_neg (by linarith)]; exact ⟨h1, h2⟩
  have hpos : 0 < |q| := lt_of_lt_of_le h2e he2.1
  have hlog : Int.log 2 |q| = e := by
    have h1 : e ≤ Int.log 2 |q| :=
      (Int.zpow_le_iff_le_log (by norm_num) hpos).1 (by exact_mod_cast he2.1)
    have h2 : Int.log 2 |q| < e + 1 :=
      (Int.lt_zpow_iff_log_lt (by norm_num) hpos).1 (by exact_mod_cast he2.2)
    omega
  have ht2 : t = max (Int.log 2 |q| - (((24 : Nat) : Int) - 1)) (-126 - (((24 : Nat) : Int) - 1)) := by
    rw [hlog, ht]; norm_num
  rw [← hv]
  unfold f32 roundFloat
  dsimp only
  rw [← ht2, roundEven_eq_of_tie _ m r hm hr]

/-- The spacing `2 ^ t` chosen by sqrt64 is at most `2 ^ (-52)` times any bound
on the root, or the least subnormal spacing. -/
theorem sqrt64_spacing_le (s r : ℚ) (hs : 0 < s) (hr : 0 ≤ r) (h : s ≤ r * r) :
    (2 : ℚ) ^ (max (Int.log 4 s - 52) (-1074)) ≤ r / 2 ^ 52 + 1 / 2 ^ 1074 := by
  rcases max_cases (Int.log 4 s - 52) (-1074) with ⟨h1, _⟩ | ⟨h1, _⟩
  · rw [h1]
    have h4 : (4 : ℚ) ^ (Int.log 4 s) ≤ s := by
      exact_mod_cast Int.zpow_log_le_self (by norm_num) hs
    have e4 : (4 : ℚ) ^ (Int.log 4 s) = 2 ^ (Int.log 4 s) * 2 ^ (Int.log 4 s) := by
      rw [← mul_zpow]
      norm_num
    have hp : (0 : ℚ) < 2 ^ (Int.log 4 s) := by positivity
    have h5 : (2 : ℚ) ^ (Int.log 4 s) ≤ r := by
      rw [mul_self_le_mul_self_iff (le_of_lt hp) hr, ← e4]
      exact le_trans h4 h
    have e2 : (2 : ℚ) ^ (Int.log 4 s - 52) = 2 ^ (Int.log 4 s) / 2 ^ 52 := by
      rw [zpow_sub₀ (by norm_num)]
      norm_num
    rw [e2]
    have : (2 : ℚ) ^ (Int.log 4 s) / 2 ^ 52 ≤ r / 2 ^ 52 :=
      div_le_div_of_nonneg_right h5 (by positivity)
    linarith [show (0 : ℚ) ≤ 1 / 2 ^ 1074 by positivity]
  · rw [h1]
    have e : (2 : ℚ) ^ (-1074 : Int) = 1 / 2 ^ 1074 := by
      rw [zpow_neg]
      norm_num
    rw [e]
    have : 0 ≤ r / 2 ^ 52 := by positivity
    linarith

/-- The `double` square root of a value at most `r * r` exceeds `r` by at most
one spacing. -/
theorem sqrt64_le (s r : ℚ) (hr : 0 ≤ r) (h : s ≤ r * r) :
    sqrt64 s ≤ r + r / 2 ^ 52 + 1 / 2 ^ 1074 := by
  by_cases hs : s ≤ 0
  · unfold sqrt64
    rw [if_pos hs]
    positivity
  have hpos : 0 < s := lt_of_not_le hs
  have hsp := sqrt64_spacing_le s r hpos hr h
  unfold sqrt64
  rw [if_neg hs]
  dsimp only
  generalize max (Int.log 4 s - 52) (-1074) = t at hsp ⊢
  have h2t : (0 : ℚ) < 2 ^ t := by positivity
  have e4 : (4 : ℚ) ^ t = 2 ^ t * 2 ^ t := by
    rw [← mul_zpow]
    norm_num
  have hu0 : (0 : ℚ) ≤ s / 4 ^ t := div_nonneg (le_of_lt hpos) (by positivity)
  have hk : ((Nat.sqrt ⌊s / 4 ^ t⌋₊ : Nat) : ℚ) * (Nat.sqrt ⌊s / 4 ^ t⌋₊ : Nat) ≤ s / 4 ^ t := by
    have h1 : Nat.sqrt ⌊s / 4 ^ t⌋₊ * Nat.sqrt ⌊s / 4 ^ t⌋₊ ≤ ⌊s / 4 ^ t⌋₊ := Nat.sqrt_le _
    have h2 : ((⌊s / 4 ^ t⌋₊ : Nat) : ℚ) ≤ s / 4 ^ t := Nat.floor_le hu0
    have h3 : ((Nat.sqrt ⌊s / 4 ^ t⌋₊ * Nat.sqrt ⌊s / 4 ^ t⌋₊ : Nat) : ℚ) ≤ (⌊s / 4 ^ t⌋₊ : ℚ) := by
      exact_mod_cast h1
    push_cast at h3
    linarith
  generalize ((Nat.sqrt ⌊s / 4 ^ t⌋₊ : Nat) : ℚ) = k at hk ⊢
  generalize hkk : Nat.sqrt ⌊s / 4 ^ t⌋₊ % 2 = par
  have hkt : (k * 2 ^ t) * (k * 2 ^ t) ≤ r * r := by
    have : k * k * (2 ^ t * 2 ^ t) ≤ s / 4 ^ t * (2 ^ t * 2 ^ t) :=
      mul_le_mul_of_nonneg_right hk (by positivity)
    have e : s / 4 ^ t * (2 ^ t * 2 ^ t) = s := by
      rw [e4]
      field_simp
    rw [e] at this
    calc (k * 2 ^ t) * (k * 2 ^ t) = k * k * (2 ^ t * 2 ^ t) := by ring
      _ ≤ s := this
      _ ≤ r * r := h
  have hkr : k * 2 ^ t ≤ r := by
    by_contra hc
    have hc2 : r < k * 2 ^ t := lt_of_not_le hc
    have : r * r < (k * 2 ^ t) * (k * 2 ^ t) := by nlinarith
    linarith
  have hn : (if s / 4 ^ t < k * k + k + 1 / 4 then k
      else if k * k + k + 1 / 4 < s / 4 ^ t then k + 1
      else if par = 0 then k else k + 1) ≤ k + 1 := by
    split_ifs <;> linarith
  have : (if s / 4 ^ t < k * k + k + 1 / 4 then k
      else if k * k + k + 1 / 4 < s / 4 ^ t then k + 1
      else if par = 0 then k else k + 1) * 2 ^ t ≤ (k + 1) * 2 ^ t :=
    mul_le_mul_of_nonneg_right hn (le_of_lt h2t)
  have e : (k + 1) * 2 ^ t = k * 2 ^ t + 2 ^ t := by ring
  linarith

/-- The `double` square root of a value at least `r * r` falls short of `r` by
at most one spacing. -/
theorem sqrt64_ge (s r : ℚ) (hr : 0 ≤ r) (h : r * r ≤ s) :
    r ≤ sqrt64 s + sqrt64 s / 2 ^ 52 + 1 / 2 ^ 1074 := by
  by_cases hs : s ≤ 0
  · have : r * r ≤ 0 := le_trans h hs
    have hr0 : r = 0 := by nlinarith
    rw [hr0]
    have := sqrt64_nonneg s
    positivity
  have hpos : 0 < s := lt_of_not_le hs
  have hd0 := sqrt64_nonneg s
  unfold sqrt64 at hd0 ⊢
  rw [if_neg hs] at hd0 ⊢
  dsimp only at hd0 ⊢
  have hlog : (4 : ℚ) ^ (Int.log 4 s) ≤ s := by
    exact_mod_cast Int.zpow_log_le_self (by norm_num) hpos
  generalize ht : max (Int.log 4 s - 52) (-1074) = t at hd0 ⊢
  have h2t : (0 : ℚ) < 2 ^ t := by positivity
  have e4 : (4 : ℚ) ^ t = 2 ^ t * 2 ^ t := by
    rw [← mul_zpow]
    norm_num
  have hu0 : (0 : ℚ) ≤ s / 4 ^ t := div_nonneg (le_of_lt hpos) (by positivity)
  have hk2 : s / 4 ^ t
      < (((Nat.sqrt ⌊s / 4 ^ t⌋₊ : Nat) : ℚ) + 1) * (((Nat.sqrt ⌊s / 4 ^ t⌋₊ : Nat) : ℚ) + 1) := by
    have h1 : ⌊s / 4 ^ t⌋₊ < (Nat.sqrt ⌊s / 4 ^ t⌋₊ + 1) * (Nat.sqrt ⌊s / 4 ^ t⌋₊ + 1) :=
      Nat.lt_succ_sqrt _
    have h2 : s / 4 ^ t
        < (((Nat.sqrt ⌊s / 4 ^ t⌋₊ + 1) * (Nat.sqrt ⌊s / 4 ^ t⌋₊ + 1) : Nat) : ℚ) :=
      (Nat.floor_lt hu0).1 h1
    push_cast at h2
    exact h2
  have hsp : t = -1074 ∨ (2 : ℚ) ^ 52 ≤ ((Nat.sqrt ⌊s / 4 ^ t⌋₊ : Nat) : ℚ) := by
    rcases max_cases (Int.log 4 s - 52) (-1074) with ⟨h1, _⟩ | ⟨h1, _⟩
    · right
      rw [ht] at h1
      have hu : (4 : ℚ) ^ (52 : Nat) ≤ s / 4 ^ t := by
        rw [le_div_iff₀ (by positivity)]
        have e : (4 : ℚ) ^ (52 : Nat) * 4 ^ t = 4 ^ (Int.log 4 s) := by
          rw [h1, zpow_sub₀ (by norm_num)]
          norm_num
          field_simp
        rw [e]
        exact hlog
      have h3 : 4 ^ 52 ≤ ⌊s / 4 ^ t⌋₊ := by
        rw [Nat.le_floor_iff hu0]
        push_cast
        exact hu
      have h4 : 2 ^ 52 ≤ Nat.sqrt ⌊s / 4 ^ t⌋₊ := by
        rw [Nat.le_sqrt]
        calc 2 ^ 52 * 2 ^ 52 = 4 ^ 52 := by norm_num
          _ ≤ ⌊s / 4 ^ t⌋₊ := h3
      exact_mod_cast h4
    · left
      rw [ht] at h1
      exact h1
  have hk0 : (0 : ℚ) ≤ ((Nat.sqrt ⌊s / 4 ^ t⌋₊ : Nat) : ℚ) := Nat.cast_nonneg _
  generalize ((Nat.sqrt ⌊s / 4 ^ t⌋₊ : Nat) : ℚ) = k at hk2 hsp hd0 hk0 ⊢
  generalize hkk : Nat.sqrt ⌊s / 4 ^ t⌋₊ % 2 = par at hd0 ⊢
  have hrk : r < (k + 1) * 2 ^ t := by
    have h1 : s < ((k + 1) * 2 ^ t) * ((k + 1) * 2 ^ t) := by
      have : s / 4 ^ t * (2 ^ t * 2 ^ t) < (k + 1) * (k + 1) * (2 ^ t * 2 ^ t) :=
        mul_lt_mul_of_pos_right hk2 (by positivity)
      have e : s / 4 ^ t * (2 ^ t * 2 ^ t) = s := by
        rw [e4]
        field_simp
      rw [e] at this
      calc s < (k + 1) * (k + 1) * (2 ^ t * 2 ^ t) := this
        _ = ((k + 1) * 2 ^ t) * ((k + 1) * 2 ^ t) := by ring
    by_contra hc
    have hc2 : (k + 1) * 2 ^ t ≤ r := le_of_not_lt hc
    have hk1 : 0 ≤ (k + 1) * 2 ^ t := by positivity
    have : ((k + 1) * 2 ^ t) * ((k + 1) * 2 ^ t) ≤ r * r := mul_self_le_mul_self hk1 hc2
    linarith
  have hn : k ≤ (if s / 4 ^ t < k * k + k + 1 / 4 then k
      else if k * k + k + 1 / 4 < s / 4 ^ t then k + 1
      else if par = 0 then k else k + 1) := by
    split_ifs <;> linarith
  generalize (if s / 4 ^ t < k * k + k + 1 / 4 then k
      else if k * k + k + 1 / 4 < s / 4 ^ t then k + 1
      else if par = 0 then k else k + 1) = n at hn hd0 ⊢
  have hnt : k * 2 ^ t ≤ n * 2 ^ t := mul_le_mul_of_nonneg_right hn (le_of_lt h2t)
  have e : (k + 1) * 2 ^ t = k * 2 ^ t + 2 ^ t := by ring
  rcases hsp with hsp | hsp
  · have e2 : (2 : ℚ) ^ t = 1 / 2 ^ 1074 := by
      rw [hsp, zpow_neg]
      norm_num
    have : 0 ≤ n * 2 ^ t / 2 ^ 52 := by positivity
    linarith
  · have h5 : (2 : ℚ) ^ 52 * 2 ^ t ≤ k * 2 ^ t := mul_le_mul_of_nonneg_right hsp (le_of_lt h2t)
    have h6 : (2 : ℚ) ^ t ≤ n * 2 ^ t / 2 ^ 52 := by
      rw [le_div_iff₀ (by positivity)]
      linarith
    linarith [show (0 : ℚ) ≤ 1 / 2 ^ 1074 by positivity]

/-- One axis of a shifted sum of squares. -/
theorem sq_shift (a a2 e r : ℚ) (hr : 0 ≤ r) (ha : |a2 - a| ≤ e) (h : |a| ≤ r) :
    a2 ^ 2 ≤ a ^ 2 + 2 * (r * e) + e * e := by
  have h1 : a * (a2 - a) ≤ r * e := by
    calc a * (a2 - a) ≤ |a * (a2 - a)| := le_abs_self _
      _ = |a| * |a2 - a| := abs_mul _ _
      _ ≤ r * e := mul_le_mul h ha (abs_nonneg _) hr
  have h2 : (a2 - a) * (a2 - a) ≤ e * e := by
    have h3 := abs_mul_abs_self (a2 - a)
    have h4 : |a2 - a| * |a2 - a| ≤ e * e :=
      mul_le_mul ha ha (abs_nonneg _) (le_trans (abs_nonneg _) ha)
    linarith
  have e1 : a2 ^ 2 = a ^ 2 + 2 * (a * (a2 - a)) + (a2 - a) * (a2 - a) := by ring
  linarith

/-- Moving each coordinate difference by at most `e` moves the Euclidean norm
by at most `3 * e`. -/
theorem sum_sq_shift (a b c a2 b2 c2 e r : ℚ) (hr : 0 ≤ r)
    (ha : |a2 - a| ≤ e) (hb : |b2 - b| ≤ e) (hc : |c2 - c| ≤ e)
    (h : a ^ 2 + b ^ 2 + c ^ 2 < r * r) :
    a2 ^ 2 + b2 ^ 2 + c2 ^ 2 < (r + 3 * e) * (r + 3 * e) := by
  have ha0 := sq_nonneg a
  have hb0 := sq_nonneg b
  have hc0 := sq_nonneg c
  have hr2 : r * r = r ^ 2 := by ring
  have hA : |a| ≤ r := abs_le_of_sq_le_sq (by rw [← hr2]; linarith) hr
  have hB : |b| ≤ r := abs_le_of_sq_le_sq (by rw [← hr2]; linarith) hr
  have hC : |c| ≤ r := abs_le_of_sq_le_sq (by rw [← hr2]; linarith) hr
  have h1 := sq_shift a a2 e r hr ha hA
  have h2 := sq_shift b b2 e r hr hb hB
  have h3 := sq_shift c c2 e r hr hc hC
  have he : 0 ≤ e * e := mul_self_nonneg e
  have e1 : (r + 3 * e) * (r + 3 * e) = r * r + 6 * (r * e) + 9 * (e * e) := by ring
  rw [e1]
  linarith

/-! ## collect_gem -/

/-- The rational test `0 < r ∧ s < r * r` is the comparison `sqrt s < r` over the reals. -/
theorem sqrtLt_iff_real (s r : ℚ) :
    sqrtLt s r ↔ Real.sqrt ((s : ℚ) : ℝ) < ((r : ℚ) : ℝ) := by
  unfold sqrtLt
  constructor
  · rintro ⟨hr, h⟩
    have hr' : (0 : ℝ) < (r : ℝ) := by exact_mod_cast hr
    rw [Real.sqrt_lt' hr']
    have : ((s : ℚ) : ℝ) < (r : ℝ) * (r : ℝ) := by exact_mod_cast h
    nlinarith
  · intro h
    have hr' : (0 : ℝ) < (r : ℝ) := lt_of_le_of_lt (Real.sqrt_nonneg _) h
    rw [Real.sqrt_lt' hr'] at h
    refine ⟨by exact_mod_cast hr', ?_⟩
    have h2 : ((s : ℚ) : ℝ) < (r : ℝ) * (r : ℝ) := by nlinarith
    exact_mod_cast h2

/-- The strict Euclidean comparison, over the reals, as a test on rationals. -/
theorem closerThan_iff (g : Gem) (px py pz r : ℚ) :
    CloserThan g px py pz r
      ↔ sqrtLt ((g.x - px) ^ 2 + (g.y - py) ^ 2 + (g.z - pz) ^ 2) r := by
  unfold CloserThan
  exact (sqrtLt_iff_real _ _).symm

theorem gem_dist_nonneg (g : Gem) (px py pz : ℚ) : 0 ≤ gem_dist g px py pz :=
  f32_nonneg _ (sqrt64_nonneg _)

/-- At the gem's own position the computed distance is 0. -/
theorem gem_in_reach_self (g : Gem) (R : ℚ) (hR : 0 < R) : gem_in_reach g g.x g.y g.z R := by
  have hs : gem_dist_sq g g.x g.y g.z = 0 := by
    unfold gem_dist_sq
    simp [f32_zero]
  unfold gem_in_reach gem_dist
  rw [hs, sqrt64_zero, f32_zero]
  exact ⟨by positivity, hR⟩

/-- Outcome of collect_gem: either the lowest-index uncollected gem that
passes the distance test is marked and its type returned, or no uncollected
gem passes it and the array is returned as it was with -1. -/
theorem collect_gem_cases (gems : List Gem) (px py pz r : ℚ) :
    (∃ i g, gems[i]? = some g ∧ g.collected = 0 ∧ gem_in_reach g px py pz r
        ∧ (∀ (j : Nat) (g' : Gem), j < i → gems[j]? = some g' →
            ¬ (g'.collected = 0 ∧ gem_in_reach g' px py pz r))
        ∧ collect_gem gems px py pz r = (g.type, gems.set i { g with collected := 1 }))
      ∨ ((∀ (j : Nat) (g' : Gem), gems[j]? = some g' →
            ¬ (g'.collected = 0 ∧ gem_in_reach g' px py pz r))
        ∧ collect_gem gems px py pz r = (-1, gems)) := by
  induction gems with
  | nil =>
    right
    exact ⟨fun j g' h => by simp at h, rfl⟩
  | cons g rest ih =>
    by_cases hq : g.collected = 0 ∧ gem_in_reach g px py pz r
    · left
      refine ⟨0, g, by simp, hq.1, hq.2, fun j g' hj => absurd hj (Nat.not_lt_zero j), ?_⟩
      unfold collect_gem
      rw [if_pos hq.1, if_pos hq.2]
      rfl
    · have hstep : collect_gem (g :: rest) px py pz r
          = ((collect_gem rest px py pz r).1, g :: (collect_gem rest px py pz r).2) := by
        conv_lhs => unfold collect_gem
        by_cases hc : g.collected = 0
        · rw [if_pos hc, if_neg (fun h => hq ⟨hc, h⟩)]
        · rw [if_neg hc]
      rcases ih with ⟨i, g1, hg1, hu, hc, hfirst, hres⟩ | ⟨hnone, hres⟩
      · left
        refine ⟨i + 1, g1, by simpa using hg1, hu, hc, ?_, ?_⟩
        · intro j g' hj hg'
          cases j with
          | zero =>
            simp only [List.getElem?_cons_zero, Option.some.injEq] at hg'
            exact hg' ▸ hq
          | succ j =>
            simp only [List.getElem?_cons_succ] at hg'
            exact hfirst j g' (by omega) hg'
        · rw [hstep, hres]
          rfl
      · right
        refine ⟨?_, by rw [hstep, hres]⟩
        intro j g' hg'
        cases j with
        | zero =>
          simp only [List.getElem?_cons_zero, Option.some.injEq] at hg'
          exact hg' ▸ hq
        | succ j =>
          simp only [List.getElem?_cons_succ] at hg'
          exact hnone j g' hg'

/-- The lowest-index uncollected gem that passes the test is the one collect_gem marks. -/
theorem collect_gem_lowest (gems : List Gem) (px py pz r : ℚ) (i : Nat) (g : Gem)
    (hg : gems[i]? = some g) (hu : g.collected = 0) (hc : gem_in_reach g px py pz r)
    (hfirst : ∀ (j : Nat) (g' : Gem), j < i → gems[j]? = some g' →
      ¬ (g'.collected = 0 ∧ gem_in_reach g' px py pz r)) :
    collect_gem gems px py pz r = (g.type, gems.set i { g with collected := 1 }) := by
  rcases collect_gem_cases gems px py pz r with ⟨k, g1, hg1, hu1, hc1, hfirst1, hres⟩ | ⟨hnone, _⟩
  · have hik : k = i := by
      rcases Nat.lt_trichotomy k i with h | h | h
      · exact absurd ⟨hu1, hc1⟩ (hfirst k g1 h hg1)
      · exact h
      · exact absurd ⟨hu, hc⟩ (hfirst1 i g h hg)
    subst hik
    have hgg : g1 = g := by rw [hg1] at hg; exact Option.some.inj hg
    subst hgg
    exact hres
  · exact absurd ⟨hu, hc⟩ (hnone i g hg)

/-- The call on a one-gem array. -/
theorem collect_gem_single (g : Gem) (px py pz r : ℚ) :
    collect_gem [g] px py pz r
      = if g.collected = 0 ∧ gem_in_reach g px py pz r then
          (g.type, [{ g with collected := 1 }])
        else (-1, [g]) := by
  unfold collect_gem collect_gem
  by_cases hc : g.collected = 0
  · by_cases hr : gem_in_reach g px py pz r
    · rw [if_pos hc, if_pos hr, if_pos ⟨hc, hr⟩]
    · rw [if_pos hc, if_neg hr, if_neg (fun h => hr h.2)]
  · rw [if_neg hc, if_neg (fun h => hc h.1)]

/-- The computed distance of a gem at the origin from the player position
(0x1.3332eap-2, 0x1.9999dp-2, 0): the sum of squares rounds to 1/4. -/
theorem gem_dist_near_half :
    gem_dist_sq (gemAt 0 0 0 3 0) (10066293 / 33554432) (1677725 / 4194304) 0 = 1 / 4
      ∧ gem_dist (gemAt 0 0 0 3 0) (10066293 / 33554432) (1677725 / 4194304) 0 = 1 / 2 := by
  have h1 : f32 (0 - (10066293 / 33554432)) = -10066293 / 33554432 :=
    f32_eval _ (-2) (-25) (-10066293) _ (by norm_num) (by norm_num) (by norm_num) (by norm_num) (by norm_num)
  have h2 : f32 (0 - (1677725 / 4194304)) = -1677725 / 4194304 :=
    f32_eval _ (-2) (-25) (-13421800) _ (by norm_num) (by norm_num) (by norm_num) (by norm_num) (by norm_num)
  have h3 : f32 (0 - 0) = 0 := by
    rw [show (0 - 0 : ℚ) = 0 by norm_num]
    exact f32_zero
  have h4 : f32 ((-10066293 / 33554432) * (-10066293 / 33554432)) = 3019877 / 33554432 :=
    f32_eval _ (-4) (-27) 12079508 _ (by norm_num) (by norm_num) (by norm_num) (by norm_num) (by norm_num)
  have h5 : f32 ((-1677725 / 4194304) * (-1677725 / 4194304)) = 5368731 / 33554432 :=
    f32_eval _ (-3) (-26) 10737462 _ (by norm_num) (by norm_num) (by norm_num) (by norm_num) (by norm_num)
  have h6 : f32 ((3019877 / 33554432) + (5368731 / 33554432)) = 1 / 4 :=
    f32_eval _ (-2) (-25) 8388608 _ (by norm_num) (by norm_num) (by norm_num) (by norm_num) (by norm_num)
  have h7 : f32 (0 * 0) = 0 := by
    rw [show (0 * 0 : ℚ) = 0 by norm_num]
    exact f32_zero
  have h8 : f32 ((1 / 4) + 0) = 1 / 4 :=
    f32_eval _ (-2) (-25) 8388608 _ (by norm_num) (by norm_num) (by norm_num) (by norm_num) (by norm_num)
  have h9 : sqrt64 (1 / 4) = 1 / 2 :=
    sqrt64_eval _ (-1) (-53) 4503599627370496 4503599627370496 _ (by norm_num) (by norm_num) (by norm_num) (by norm_num) (by norm_num)
      (Or.inl ⟨by norm_num, by norm_num⟩) (by norm_num)
  have h10 : f32 (1 / 2) = 1 / 2 :=
    f32_eval _ (-1) (-24) 8388608 _ (by norm_num) (by norm_num) (by norm_num) (by norm_num) (by norm_num)
  have hs : gem_dist_sq (gemAt 0 0 0 3 0) (10066293 / 33554432) (1677725 / 4194304) 0 = 1 / 4 := by
    simp only [gem_dist_sq, gemAt, zeroGem, h1, h2, h3, h4, h5, h6, h7, h8, h9, h10]
  refine ⟨hs, ?_⟩
  unfold gem_dist
  rw [hs]
  simp only [h1, h2, h3, h4, h5, h6, h7, h8, h9, h10]

/-- The computed distance of a gem from a player position at Euclidean
distance slightly above 1/2: the rounded value is below 1/2. -/
theorem gem_dist_below_half :
    gem_dist_sq (gemAt (-4404019 / 1048576) (-3984589 / 2097152) (-5033165 / 4194304) 3 0) (-8898113 / 2097152) (-1501187 / 1048576) (-11489857 / 8388608) = 16777215 / 67108864
      ∧ gem_dist (gemAt (-4404019 / 1048576) (-3984589 / 2097152) (-5033165 / 4194304) 3 0) (-8898113 / 2097152) (-1501187 / 1048576) (-11489857 / 8388608) = 16777215 / 33554432 := by
  have h1 : f32 ((-4404019 / 1048576) - (-8898113 / 2097152)) = 90075 / 2097152 :=
    f32_eval _ (-5) (-28) 11529600 _ (by norm_num) (by norm_num) (by norm_num) (by norm_num) (by norm_num)
  have h2 : f32 ((-3984589 / 2097152) - (-1501187 / 1048576)) = -982215 / 2097152 :=
    f32_eval _ (-2) (-25) (-15715440) _ (by norm_num) (by norm_num) (by norm_num) (by norm_num) (by norm_num)
  have h3 : f32 ((-5033165 / 4194304) - (-11489857 / 8388608)) = 1423527 / 8388608 :=
    f32_eval _ (-3) (-26) 11388216 _ (by norm_num) (by norm_num) (by norm_num) (by norm_num) (by norm_num)
  have h4 : f32 ((90075 / 2097152) * (90075 / 2097152)) = 15846691 / 8589934592 :=
    f32_eval _ (-10) (-33) 15846691 _ (by norm_num) (by norm_num) (by norm_num) (by norm_num) (by norm_num)
  have h5 : f32 ((-982215 / 2097152) * (-982215 / 2097152)) = 3680215 / 16777216 :=
    f32_eval _ (-3) (-26) 14720860 _ (by norm_num) (by norm_num) (by norm_num) (by norm_num) (by norm_num)
  have h6 : f32 ((15846691 / 8589934592) + (3680215 / 16777216)) = 7422331 / 33554432 :=
    f32_eval _ (-3) (-26) 14844662 _ (by norm_num) (by norm_num) (by norm_num) (by norm_num) (by norm_num)
  have h7 : f32 ((1423527 / 8388608) * (1423527 / 8388608)) = 15460427 / 536870912 :=
    f32_eval _ (-6) (-29) 15460427 _ (by norm_num) (by norm_num) (by norm_num) (by norm_num) (by norm_num)
  have h8 : f32 ((7422331 / 33554432) + (15460427 / 536870912)) = 16777215 / 67108864 :=
    f32_eval _ (-3) (-26) 16777215 _ (by norm_num) (by norm_num) (by norm_num) (by norm_num) (by norm_num)
  have h9 : sqrt64 (16777215 / 67108864) = 2251799746576383 / 4503599627370496 :=
    sqrt64_eval _ (-2) (-54) 9007198986305531 9007198986305532 _ (by norm_num) (by norm_num) (by norm_num) (by norm_num) (by norm_num)
      (Or.inr ⟨by norm_num, by norm_num⟩) (by norm_num)
  have h10 : f32 (2251799746576383 / 4503599627370496) = 16777215 / 33554432 :=
    f32_eval _ (-2) (-25) 16777215 _ (by norm_num) (by norm_num) (by norm_num) (by norm_num) (by norm_num)
  have hs : gem_dist_sq (gemAt (-4404019 / 1048576) (-3984589 / 2097152) (-5033165 / 4194304) 3 0) (-8898113 / 2097152) (-1501187 / 1048576) (-11489857 / 8388608) = 16777215 / 67108864 := by
    simp only [gem_dist_sq, gemAt, zeroGem, h1, h2, h3, h4, h5, h6, h7, h8, h9, h10]
  refine ⟨hs, ?_⟩
  unfold gem_dist
  rw [hs]
  simp only [h1, h2, h3, h4, h5, h6, h7, h8, h9, h10]

/-- The computed distance of the gem (1, 0, 0) from the origin. -/
theorem gem_dist_row_one :
    gem_dist_sq (gemAt 1 0 0 4 0) 0 0 0 = 1
      ∧ gem_dist (gemAt 1 0 0 4 0) 0 0 0 = 1 := by
  have h1 : f32 (1 - 0) = 1 :=
    f32_eval _ 0 (-23) 8388608 _ (by norm_num) (by norm_num) (by norm_num) (by norm_num) (by norm_num)
  have h2 : f32 (0 - 0) = 0 := by
    rw [show (0 - 0 : ℚ) = 0 by norm_num]
    exact f32_zero
  have h3 : f32 (1 * 1) = 1 :=
    f32_eval _ 0 (-23) 8388608 _ (by norm_num) (by norm_num) (by norm_num) (by norm_num) (by norm_num)
  have h4 : f32 (0 * 0) = 0 := by
    rw [show (0 * 0 : ℚ) = 0 by norm_num]
    exact f32_zero
  have h5 : f32 (1 + 0) = 1 :=
    f32_eval _ 0 (-23) 8388608 _ (by norm_num) (by norm_num) (by norm_num) (by norm_num) (by norm_num)
  have h6 : sqrt64 (1) = 1 :=
    sqrt64_eval _ 0 (-52) 4503599627370496 4503599627370496 _ (by norm_num) (by norm_num) (by norm_num) (by norm_num) (by norm_num)
      (Or.inl ⟨by norm_num, by norm_num⟩) (by norm_num)
  have h7 : f32 (1) = 1 :=
    f32_eval _ 0 (-23) 8388608 _ (by norm_num) (by norm_num) (by norm_num) (by norm_num) (by norm_num)
  have hs : gem_dist_sq (gemAt 1 0 0 4 0) 0 0 0 = 1 := by
    simp only [gem_dist_sq, gemAt, zeroGem, h1, h2, h3, h4, h5, h6, h7]
  refine ⟨hs, ?_⟩
  unfold gem_dist
  rw [hs]
  simp only [h1, h2, h3, h4, h5, h6, h7]

/-- The computed distance of the gem (3, 0, 0) from the origin. -/
theorem gem_dist_row_three :
    gem_dist_sq (gemAt 3 0 0 7 0) 0 0 0 = 9
      ∧ gem_dist (gemAt 3 0 0 7 0) 0 0 0 = 3 := by
  have h1 : f32 (3 - 0) = 3 :=
    f32_eval _ 1 (-22) 12582912 _ (by norm_num) (by norm_num) (by norm_num) (by norm_num) (by norm_num)
  have h2 : f32 (0 - 0) = 0 := by
    rw [show (0 - 0 : ℚ) = 0 by norm_num]
    exact f32_zero
  have h3 : f32 (3 * 3) = 9 :=
    f32_eval _ 3 (-20) 9437184 _ (by norm_num) (by norm_num) (by norm_num) (by norm_num) (by norm_num)
  have h4 : f32 (0 * 0) = 0 := by
    rw [show (0 * 0 : ℚ) = 0 by norm_num]
    exact f32_zero
  have h5 : f32 (9 + 0) = 9 :=
    f32_eval _ 3 (-20) 9437184 _ (by norm_num) (by norm_num) (by norm_num) (by norm_num) (by norm_num)
  have h6 : sqrt64 (9) = 3 :=
    sqrt64_eval _ 1 (-51) 6755399441055744 6755399441055744 _ (by norm_num) (by norm_num) (by norm_num) (by norm_num) (by norm_num)
      (Or.inl ⟨by norm_num, by norm_num⟩) (by norm_num)
  have h7 : f32 (3) = 3 :=
    f32_eval _ 1 (-22) 12582912 _ (by norm_num) (by norm_num) (by norm_num) (by norm_num) (by norm_num)
  have hs : gem_dist_sq (gemAt 3 0 0 7 0) 0 0 0 = 9 := by
    simp only [gem_dist_sq, gemAt, zeroGem, h1, h2, h3, h4, h5, h6, h7]
  refine ⟨hs, ?_⟩
  unfold gem_dist
  rw [hs]
  simp only [h1, h2, h3, h4, h5, h6, h7]

/-- The computed distance of the gem (1, 2, 3) from the point (1, 2, 4). -/
theorem gem_dist_pair_one :
    gem_dist_sq (gemAt 1 2 3 8 0) 1 2 4 = 1
      ∧ gem_dist (gemAt 1 2 3 8 0) 1 2 4 = 1 := by
  have h1 : f32 (1 - 1) = 0 := by
    rw [show (1 - 1 : ℚ) = 0 by norm_num]
    exact f32_zero
  have h2 : f32 (2 - 2) = 0 := by
    rw [show (2 - 2 : ℚ) = 0 by norm_num]
    exact f32_zero
  have h3 : f32 (3 - 4) = -1 :=
    f32_eval _ 0 (-23) (-8388608) _ (by norm_num) (by norm_num) (by norm_num) (by norm_num) (by norm_num)
  have h4 : f32 (0 * 0) = 0 := by
    rw [show (0 * 0 : ℚ) = 0 by norm_num]
    exact f32_zero
  have h5 : f32 (0 + 0) = 0 := by
    rw [show (0 + 0 : ℚ) = 0 by norm_num]
    exact f32_zero
  have h6 : f32 ((-1) * (-1)) = 1 :=
    f32_eval _ 0 (-23) 8388608 _ (by norm_num) (by norm_num) (by norm_num) (by norm_num) (by norm_num)
  have h7 : f32 (0 + 1) = 1 :=
    f32_eval _ 0 (-23) 8388608 _ (by norm_num) (by norm_num) (by norm_num) (by norm_num) (by norm_num)
  have h8 : sqrt64 (1) = 1 :=
    sqrt64_eval _ 0 (-52) 4503599627370496 4503599627370496 _ (by norm_num) (by norm_num) (by norm_num) (by norm_num) (by norm_num)
      (Or.inl ⟨by norm_num, by norm_num⟩) (by norm_num)
  have h9 : f32 (1) = 1 :=
    f32_eval _ 0 (-23) 8388608 _ (by norm_num) (by norm_num) (by norm_num) (by norm_num) (by norm_num)
  have hs : gem_dist_sq (gemAt 1 2 3 8 0) 1 2 4 = 1 := by
    simp only [gem_dist_sq, gemAt, zeroGem, h1, h2, h3, h4, h5, h6, h7, h8, h9]
  refine ⟨hs, ?_⟩
  unfold gem_dist
  rw [hs]
  simp only [h1, h2, h3, h4, h5, h6, h7, h8, h9]

/-- The coordinates used in the two examples below are `float` values. -/
theorem example_coordinates_are_floats :
    f32 (10066293 / 33554432) = 10066293 / 33554432
      ∧ f32 (1677725 / 4194304) = 1677725 / 4194304
      ∧ f32 (-4404019 / 1048576) = -4404019 / 1048576
      ∧ f32 (-3984589 / 2097152) = -3984589 / 2097152
      ∧ f32 (-5033165 / 4194304) = -5033165 / 4194304
      ∧ f32 (-8898113 / 2097152) = -8898113 / 2097152
      ∧ f32 (-1501187 / 1048576) = -1501187 / 1048576
      ∧ f32 (-11489857 / 8388608) = -11489857 / 8388608 := by
  have h1 : f32 (10066293 / 33554432) = 10066293 / 33554432 :=
    f32_eval _ (-2) (-25) 10066293 _ (by norm_num) (by norm_num) (by norm_num) (by norm_num) (by norm_num)
  have h2 : f32 (1677725 / 4194304) = 1677725 / 4194304 :=
    f32_eval _ (-2) (-25) 13421800 _ (by norm_num) (by norm_num) (by norm_num) (by norm_num) (by norm_num)
  have h3 : f32 (-4404019 / 1048576) = -4404019 / 1048576 :=
    f32_eval _ 2 (-21) (-8808038) _ (by norm_num) (by norm_num) (by norm_num) (by norm_num) (by norm_num)
  have h4 : f32 (-3984589 / 2097152) = -3984589 / 2097152 :=
    f32_eval _ 0 (-23) (-15938356) _ (by norm_num) (by norm_num) (by norm_num) (by norm_num) (by norm_num)
  have h5 : f32 (-5033165 / 4194304) = -5033165 / 4194304 :=
    f32_eval _ 0 (-23) (-10066330) _ (by norm_num) (by norm_num) (by norm_num) (by norm_num) (by norm_num)
  have h6 : f32 (-8898113 / 2097152) = -8898113 / 2097152 :=
    f32_eval _ 2 (-21) (-8898113) _ (by norm_num) (by norm_num) (by norm_num) (by norm_num) (by norm_num)
  have h7 : f32 (-1501187 / 1048576) = -1501187 / 1048576 :=
    f32_eval _ 0 (-23) (-12009496) _ (by norm_num) (by norm_num) (by norm_num) (by norm_num) (by norm_num)
  have h8 : f32 (-11489857 / 8388608) = -11489857 / 8388608 :=
    f32_eval _ 0 (-23) (-11489857) _ (by norm_num) (by norm_num) (by norm_num) (by norm_num) (by norm_num)
  exact ⟨h1, h2, h3, h4, h5, h6, h7, h8⟩

/-- The `float` sum of three rounded squares stays within a factor
`(1 ± 2 ^ (-24)) ^ 3` of the exact sum, up to `6 / 2 ^ 150`. -/
theorem sum_sq_f32_near (a b c : ℚ) :
    f32 (f32 (f32 (a * a) + f32 (b * b)) + f32 (c * c))
        ≤ (a * a + b * b + c * c) * (1 + 1 / 2 ^ 24) ^ 3 + 6 / 2 ^ 150
      ∧ (a * a + b * b + c * c) * (1 - 1 / 2 ^ 24) ^ 3 - 6 / 2 ^ 150
        ≤ f32 (f32 (f32 (a * a) + f32 (b * b)) + f32 (c * c)) := by
  have hX := mul_self_nonneg a
  have hY := mul_self_nonneg b
  have hZ := mul_self_nonneg c
  have e1 := f32_err (a * a) (a * a) (by rw [abs_of_nonneg hX])
  have e2 := f32_err (b * b) (b * b) (by rw [abs_of_nonneg hY])
  have e3 := f32_err (c * c) (c * c) (by rw [abs_of_nonneg hZ])
  have p1 := f32_nonneg (a * a) hX
  have p2 := f32_nonneg (b * b) hY
  have p3 := f32_nonneg (c * c) hZ
  generalize f32 (a * a) = xx at e1 p1 ⊢
  generalize f32 (b * b) = yy at e2 p2 ⊢
  generalize f32 (c * c) = zz at e3 p3 ⊢
  generalize a * a = X at *
  generalize b * b = Y at *
  generalize c * c = Z at *
  have q1 : 0 ≤ xx + yy := by linarith
  have e4 := f32_err (xx + yy) (xx + yy) (by rw [abs_of_nonneg q1])
  have p4 := f32_nonneg (xx + yy) q1
  generalize f32 (xx + yy) = s1 at e4 p4 ⊢
  have q2 : 0 ≤ s1 + zz := by linarith
  have e5 := f32_err (s1 + zz) (s1 + zz) (by rw [abs_of_nonneg q2])
  generalize f32 (s1 + zz) = s at e5 ⊢
  rw [abs_le] at e1 e2 e3 e4 e5
  have k1 : (1 + 1 / 2 ^ 24 : ℚ) ^ 3 = 1 + 3 / 2 ^ 24 + 3 / 2 ^ 48 + 1 / 2 ^ 72 := by ring
  have k2 : (1 - 1 / 2 ^ 24 : ℚ) ^ 3 = 1 - 3 / 2 ^ 24 + 3 / 2 ^ 48 - 1 / 2 ^ 72 := by ring
  rw [k1, k2]
  constructor
  · linarith
  · linarith

/-- A gem at Euclidean distance less than `r - 2 ^ (-16)` passes the computed
test `dist < r`, for a radius of at most 16. -/
theorem gem_in_reach_of_closer (g : Gem) (px py pz r : ℚ) (hr : r ≤ 16)
    (h : CloserThan g px py pz (r - 1 / 2 ^ 16)) : gem_in_reach g px py pz r := by
  obtain ⟨hr0, hS⟩ := (closerThan_iff g px py pz (r - 1 / 2 ^ 16)).1 h
  have sx := sq_nonneg (g.x - px)
  have sy := sq_nonneg (g.y - py)
  have sz := sq_nonneg (g.z - pz)
  have hr2 : (r - 1 / 2 ^ 16) * (r - 1 / 2 ^ 16) = (r - 1 / 2 ^ 16) ^ 2 := by ring
  have ax : |g.x - px| ≤ r - 1 / 2 ^ 16 :=
    le_of_lt (abs_lt_of_sq_lt_sq (by rw [← hr2]; linarith) (le_of_lt hr0))
  have ay : |g.y - py| ≤ r - 1 / 2 ^ 16 :=
    le_of_lt (abs_lt_of_sq_lt_sq (by rw [← hr2]; linarith) (le_of_lt hr0))
  have az : |g.z - pz| ≤ r - 1 / 2 ^ 16 :=
    le_of_lt (abs_lt_of_sq_lt_sq (by rw [← hr2]; linarith) (le_of_lt hr0))
  have ex := f32_err (g.x - px) (r - 1 / 2 ^ 16) ax
  have ey := f32_err (g.y - py) (r - 1 / 2 ^ 16) ay
  have ez := f32_err (g.z - pz) (r - 1 / 2 ^ 16) az
  have he0 : (0 : ℚ) ≤ (r - 1 / 2 ^ 16) / 2 ^ 24 + 1 / 2 ^ 150 := by positivity
  have hSf := sum_sq_shift _ _ _ _ _ _ ((r - 1 / 2 ^ 16) / 2 ^ 24 + 1 / 2 ^ 150)
    (r - 1 / 2 ^ 16) (le_of_lt hr0) ex ey ez hS
  unfold gem_in_reach gem_dist gem_dist_sq
  dsimp only
  generalize f32 (g.x - px) = dx at hSf ⊢
  generalize f32 (g.y - py) = dy at hSf ⊢
  generalize f32 (g.z - pz) = dz at hSf ⊢
  have hs := (sum_sq_f32_near dx dy dz).1
  generalize f32 (f32 (f32 (dx * dx) + f32 (dy * dy)) + f32 (dz * dz)) = s at hs ⊢
  rw [pow_two, pow_two, pow_two] at hSf
  generalize dx * dx + dy * dy + dz * dz = S at hs hSf
  obtain ⟨r1, hr1⟩ : ∃ r1 : ℚ, r1 = r - 1 / 2 ^ 16 + 3 * ((r - 1 / 2 ^ 16) / 2 ^ 24 + 1 / 2 ^ 150) :=
    ⟨_, rfl⟩
  rw [← hr1] at hSf
  have hr1p : 0 ≤ r1 := by rw [hr1]; linarith
  have hr1u : r1 ≤ 17 := by rw [hr1]; linarith
  have hP := mul_self_nonneg r1
  have k1 : (1 + 1 / 2 ^ 24 : ℚ) ^ 3 = 1 + 3 / 2 ^ 24 + 3 / 2 ^ 48 + 1 / 2 ^ 72 := by ring
  rw [k1] at hs
  have hR : s ≤ (r1 * (1 + 1 / 2 ^ 22) + 1 / 2 ^ 70) * (r1 * (1 + 1 / 2 ^ 22) + 1 / 2 ^ 70) := by
    have e : (r1 * (1 + 1 / 2 ^ 22) + 1 / 2 ^ 70) * (r1 * (1 + 1 / 2 ^ 22) + 1 / 2 ^ 70)
        = r1 * r1 * (1 + 1 / 2 ^ 22) ^ 2 + 2 * (1 / 2 ^ 70) * (1 + 1 / 2 ^ 22) * r1
          + 1 / 2 ^ 140 := by
      ring
    rw [e]
    have k2 : (1 + 1 / 2 ^ 22 : ℚ) ^ 2 = 1 + 2 / 2 ^ 22 + 1 / 2 ^ 44 := by ring
    rw [k2]
    have h6 : (6 : ℚ) / 2 ^ 150 ≤ 1 / 2 ^ 140 := by norm_num
    have h7 : 0 ≤ 2 * (1 / 2 ^ 70) * (1 + 1 / 2 ^ 22) * r1 := by positivity
    generalize r1 * r1 = P at hP hSf ⊢
    linarith
  have hR0 : 0 ≤ r1 * (1 + 1 / 2 ^ 22) + 1 / 2 ^ 70 := by positivity
  have hd := sqrt64_le s _ hR0 hR
  have hd0 := sqrt64_nonneg s
  have ef := f32_err (sqrt64 s) (sqrt64 s) (by rw [abs_of_nonneg hd0])
  generalize sqrt64 s = d at hd hd0 ef ⊢
  generalize f32 d = dist at ef ⊢
  rw [abs_le] at ef
  have t1 : (1 : ℚ) / 2 ^ 1074 ≤ 1 / 2 ^ 150 := by
    apply one_div_le_one_div_of_le (by positivity)
    exact pow_le_pow_right₀ (by norm_num) (by norm_num)
  constructor
  · have hR18 : r1 * (1 + 1 / 2 ^ 22) + 1 / 2 ^ 70 ≤ 18 := by linarith
    have : (r1 * (1 + 1 / 2 ^ 22) + 1 / 2 ^ 70) * (r1 * (1 + 1 / 2 ^ 22) + 1 / 2 ^ 70)
        ≤ 18 * 18 := mul_self_le_mul_self hR0 hR18
    have : (18 * 18 : ℚ) < 2 ^ 128 := by norm_num
    linarith
  · rw [hr1] at hd
    linarith

/-- A gem that passes the computed test `dist < r` lies at Euclidean distance
less than `r + 2 ^ (-16)`, for a radius of at most 16. -/
theorem closer_of_gem_in_reach (g : Gem) (px py pz r : ℚ) (hr : r ≤ 16)
    (h : gem_in_reach g px py pz r) : CloserThan g px py pz (r + 1 / 2 ^ 16) := by
  rw [closerThan_iff]
  unfold sqrtLt
  unfold gem_in_reach gem_dist gem_dist_sq at h
  dsimp only at h
  obtain ⟨_, hdist⟩ := h
  have ex := f32_err (g.x - px) |g.x - px| (le_refl _)
  have ey := f32_err (g.y - py) |g.y - py| (le_refl _)
  have ez := f32_err (g.z - pz) |g.z - pz| (le_refl _)
  have tx : |g.x - px| - |f32 (g.x - px)| ≤ |f32 (g.x - px) - (g.x - px)| := by
    rw [abs_sub_comm (f32 (g.x - px)) (g.x - px)]
    exact abs_sub_abs_le_abs_sub _ _
  have ty : |g.y - py| - |f32 (g.y - py)| ≤ |f32 (g.y - py) - (g.y - py)| := by
    rw [abs_sub_comm (f32 (g.y - py)) (g.y - py)]
    exact abs_sub_abs_le_abs_sub _ _
  have tz : |g.z - pz| - |f32 (g.z - pz)| ≤ |f32 (g.z - pz) - (g.z - pz)| := by
    rw [abs_sub_comm (f32 (g.z - pz)) (g.z - pz)]
    exact abs_sub_abs_le_abs_sub _ _
  generalize f32 (g.x - px) = dx at hdist ex tx
  generalize f32 (g.y - py) = dy at hdist ey ty
  generalize f32 (g.z - pz) = dz at hdist ez tz
  have hs := (sum_sq_f32_near dx dy dz).2
  generalize f32 (f32 (f32 (dx * dx) + f32 (dy * dy)) + f32 (dz * dz)) = s at hs hdist
  have hd0 := sqrt64_nonneg s
  have ef := f32_err (sqrt64 s) (sqrt64 s) (by rw [abs_of_nonneg hd0])
  have hr0 : 0 < r := lt_of_le_of_lt (f32_nonneg _ hd0) hdist
  rw [abs_le] at ef
  have t1 : (1 : ℚ) / 2 ^ 1074 ≤ 1 / 2 ^ 150 := by
    apply one_div_le_one_div_of_le (by positivity)
    exact pow_le_pow_right₀ (by norm_num) (by norm_num)
  -- the sum of squares is below the square of `r1`
  obtain ⟨r1, hr1⟩ : ∃ r1 : ℚ, r1 = r * (1 + 3 / 2 ^ 24) + 1 / 2 ^ 100 := ⟨_, rfl⟩
  have c1 : (0 : ℚ) ≤ 1 / 2 ^ 100 := by norm_num
  have c2 : (0 : ℚ) ≤ 1 / 2 ^ 70 := by norm_num
  have c3 : (0 : ℚ) ≤ 1 / 2 ^ 150 := by norm_num
  have hr1p : 0 ≤ r1 := by
    rw [hr1]
    have := mul_nonneg (le_of_lt hr0) (show (0 : ℚ) ≤ 1 + 3 / 2 ^ 24 by norm_num)
    linarith
  have hs1 : s < r1 * r1 := by
    by_contra hc
    have := sqrt64_ge s r1 hr1p (le_of_not_lt hc)
    rw [hr1] at this
    linarith
  have k2 : (1 - 1 / 2 ^ 24 : ℚ) ^ 3 = 1 - 3 / 2 ^ 24 + 3 / 2 ^ 48 - 1 / 2 ^ 72 := by ring
  rw [k2] at hs
  have hX := mul_self_nonneg dx
  have hY := mul_self_nonneg dy
  have hZ := mul_self_nonneg dz
  obtain ⟨r2, hr2⟩ : ∃ r2 : ℚ, r2 = r1 * (1 + 2 / 2 ^ 24) + 1 / 2 ^ 70 := ⟨_, rfl⟩
  have hr2p : 0 ≤ r2 := by
    rw [hr2]
    have := mul_nonneg hr1p (show (0 : ℚ) ≤ 1 + 2 / 2 ^ 24 by norm_num)
    linarith
  have hSf : dx ^ 2 + dy ^ 2 + dz ^ 2 < r2 * r2 := by
    have e : r2 * r2 = r1 * r1 * (1 + 2 / 2 ^ 24) ^ 2
        + 2 * (1 / 2 ^ 70) * (1 + 2 / 2 ^ 24) * r1 + 1 / 2 ^ 140 := by
      rw [hr2]
      ring
    have k3 : (1 + 2 / 2 ^ 24 : ℚ) ^ 2 = 1 + 4 / 2 ^ 24 + 4 / 2 ^ 48 := by ring
    rw [e, k3, pow_two, pow_two, pow_two]
    have h7 : 0 ≤ 2 * (1 / 2 ^ 70) * (1 + 2 / 2 ^ 24) * r1 :=
      mul_nonneg (by norm_num) hr1p
    have h6 : (7 : ℚ) / 2 ^ 150 ≤ 1 / 2 ^ 140 := by norm_num
    have hP := mul_self_nonneg r1
    generalize r1 * r1 = P at hP hs1 ⊢
    generalize dx * dx = X at hX hs ⊢
    generalize dy * dy = Y at hY hs ⊢
    generalize dz * dz = Z at hZ hs ⊢
    linarith
  have sx := sq_nonneg dx
  have sy := sq_nonneg dy
  have sz := sq_nonneg dz
  have hr22 : r2 * r2 = r2 ^ 2 := by ring
  have bx : |dx| < r2 := abs_lt_of_sq_lt_sq (by rw [← hr22]; linarith) hr2p
  have byy : |dy| < r2 := abs_lt_of_sq_lt_sq (by rw [← hr22]; linarith) hr2p
  have bz : |dz| < r2 := abs_lt_of_sq_lt_sq (by rw [← hr22]; linarith) hr2p
  obtain ⟨e2, he2⟩ : ∃ e2 : ℚ, e2 = (r2 + 1 / 2 ^ 150) * (2 / 2 ^ 24) + 1 / 2 ^ 150 := ⟨_, rfl⟩
  have cx : |g.x - px - dx| ≤ e2 := by
    rw [abs_sub_comm (g.x - px) dx, he2]
    linarith
  have cy : |g.y - py - dy| ≤ e2 := by
    rw [abs_sub_comm (g.y - py) dy, he2]
    linarith
  have cz : |g.z - pz - dz| ≤ e2 := by
    rw [abs_sub_comm (g.z - pz) dz, he2]
    linarith
  have hSe := sum_sq_shift dx dy dz (g.x - px) (g.y - py) (g.z - pz) e2 r2 hr2p cx cy cz hSf
  have c0 : (0 : ℚ) < 1 / 2 ^ 16 := by norm_num
  refine ⟨by linarith, lt_of_lt_of_le hSe ?_⟩
  have he2p : 0 ≤ e2 := by
    rw [he2]
    have := mul_nonneg (show (0 : ℚ) ≤ r2 + 1 / 2 ^ 150 by linarith)
      (show (0 : ℚ) ≤ 2 / 2 ^ 24 by norm_num)
    linarith
  apply mul_self_le_mul_self (by linarith)
  rw [he2, hr2, hr1]
  linarith

/-- C6 (counterexample): a single uncollected gem at the origin and a player
at the `float` position (0x1.3332eap-2, 0x1.9999dp-2, 0), radius 0.5. The gem
lies at Euclidean distance strictly less than the radius, but the `float` sum
of squares rounds to 1/4 and `dist` to 0.5, so the test `dist < 0.5f` fails
and collect_gem returns -1 without collecting it. -/
theorem collect_gem_misses_gem_in_radius_cex :
    (f32 (10066293 / 33554432) = 10066293 / 33554432
        ∧ f32 (1677725 / 4194304) = 1677725 / 4194304)
      ∧ (gemAt 0 0 0 3 0).collected = 0
      ∧ CloserThan (gemAt 0 0 0 3 0) (10066293 / 33554432) (1677725 / 4194304) 0 (1 / 2)
      ∧ gem_dist (gemAt 0 0 0 3 0) (10066293 / 33554432) (1677725 / 4194304) 0 = 1 / 2
      ∧ collect_gem [gemAt 0 0 0 3 0] (10066293 / 33554432) (1677725 / 4194304) 0 (1 / 2)
          = (-1, [gemAt 0 0 0 3 0]) := by
  have hd := gem_dist_near_half.2
  refine ⟨⟨example_coordinates_are_floats.1, example_coordinates_are_floats.2.1⟩, rfl, ?_, hd, ?_⟩
  · rw [closerThan_iff]
    norm_num [sqrtLt, gemAt, zeroGem]
  · rw [collect_gem_single, if_neg]
    rintro ⟨_, _, h⟩
    rw [hd] at h
    exact lt_irrefl _ h

/-- C6 (amended): for every gem array, player position and radius, if some
uncollected gem passes the test collect_gem performs (the `float` value
`dist = sqrt(dx*dx + dy*dy + dz*dz)`, every operation rounded, is strictly less
than the radius), collect_gem returns the type of the lowest-index such gem
`i` and sets that gem's collected flag, whatever the distances of the gems
after it; every other gem and every other field of gem `i` is unchanged. For a
radius of at most 16 the computed test agrees with the Euclidean distance up
to 2^-16: a gem at distance less than radius - 2^-16 passes it and a gem that
passes it lies at distance less than radius + 2^-16; so an uncollected gem `i`
at distance less than radius - 2^-16 is the one collected when no uncollected
gem before it lies at distance less than radius + 2^-16. -/
theorem collect_gem_first_in_reach (gems : List Gem) (px py pz r : ℚ) (i : Nat) (g : Gem)
    (hg : gems[i]? = some g) (hu : g.collected = 0) :
    (gem_in_reach g px py pz r →
        (∀ (j : Nat) (g' : Gem), j < i → gems[j]? = some g' →
          ¬ (g'.collected = 0 ∧ gem_in_reach g' px py pz r)) →
        collect_gem gems px py pz r = (g.type, gems.set i { g with collected := 1 })
          ∧ (collect_gem gems px py pz r).2[i]? = some { g with collected := 1 }
          ∧ (collect_gem gems px py pz r).2.length = gems.length
          ∧ ∀ j : Nat, j ≠ i → (collect_gem gems px py pz r).2[j]? = gems[j]?)
      ∧ (r ≤ 16 → CloserThan g px py pz (r - 1 / 2 ^ 16) →
        (∀ (j : Nat) (g' : Gem), j < i → gems[j]? = some g' →
          ¬ (g'.collected = 0 ∧ CloserThan g' px py pz (r + 1 / 2 ^ 16))) →
        collect_gem gems px py pz r = (g.type, gems.set i { g with collected := 1 })
          ∧ (collect_gem gems px py pz r).2[i]? = some { g with collected := 1 }
          ∧ (collect_gem gems px py pz r).2.length = gems.length
          ∧ ∀ j : Nat, j ≠ i → (collect_gem gems px py pz r).2[j]? = gems[j]?)
      ∧ (r ≤ 16 → ∀ g' : Gem,
        (CloserThan g' px py pz (r - 1 / 2 ^ 16) → gem_in_reach g' px py pz r)
          ∧ (gem_in_reach g' px py pz r → CloserThan g' px py pz (r + 1 / 2 ^ 16))) := by
  have main : gem_in_reach g px py pz r →
      (∀ (j : Nat) (g' : Gem), j < i → gems[j]? = some g' →
        ¬ (g'.collected = 0 ∧ gem_in_reach g' px py pz r)) →
      collect_gem gems px py pz r = (g.type, gems.set i { g with collected := 1 })
        ∧ (collect_gem gems px py pz r).2[i]? = some { g with collected := 1 }
        ∧ (collect_gem gems px py pz r).2.length = gems.length
        ∧ ∀ j : Nat, j ≠ i → (collect_gem gems px py pz r).2[j]? = gems[j]? := by
    intro hc hfirst
    have hres := collect_gem_lowest gems px py pz r i g hg hu hc hfirst
    have hlen : i < gems.length := by
      by_contra hge
      rw [List.getElem?_eq_none (by omega)] at hg
      exact Option.noConfusion hg
    rw [hres]
    refine ⟨rfl, ?_, by simp, ?_⟩
    · simp only
      rw [List.getElem?_set_self hlen]
    · intro j hj
      simp only
      rw [List.getElem?_set_ne (Ne.symm hj)]
  refine ⟨main, ?_, ?_⟩
  · intro hr hc hfirst
    exact main (gem_in_reach_of_closer g px py pz r hr hc) (fun j g' hj hg' h =>
      hfirst j g' hj hg' ⟨h.1, closer_of_gem_in_reach g' px py pz r hr h.2⟩)
  · intro hr g'
    exact ⟨gem_in_reach_of_closer g' px py pz r hr, closer_of_gem_in_reach g' px py pz r hr⟩

/-- C6 (amended), applied to `gemRow` with the player at the origin and radius
2: the gem at index 1 (distance 1) is collected although the gem at index 2 is
nearer; the gem at index 0 (distance 3) fails the test. Both the computed test
and the Euclidean distances with the tolerance give the result. -/
theorem collect_gem_first_in_reach_witness :
    gem_in_reach (gemAt 1 0 0 4 0) 0 0 0 2
      ∧ (collect_gem gemRow 0 0 0 2
          = (4, [gemAt 3 0 0 7 0, gemAt 1 0 0 4 1, gemAt 0 0 0 9 0])
        ∧ (collect_gem gemRow 0 0 0 2).2[1]? = some (gemAt 1 0 0 4 1)
        ∧ (collect_gem gemRow 0 0 0 2).2.length = gemRow.length
        ∧ ∀ j : Nat, j ≠ 1 → (collect_gem gemRow 0 0 0 2).2[j]? = gemRow[j]?)
      ∧ ((2 : ℚ) ≤ 16 ∧ CloserThan (gemAt 1 0 0 4 0) 0 0 0 (2 - 1 / 2 ^ 16)
        ∧ ¬ CloserThan (gemAt 3 0 0 7 0) 0 0 0 (2 + 1 / 2 ^ 16)
        ∧ collect_gem gemRow 0 0 0 2
            = (4, [gemAt 3 0 0 7 0, gemAt 1 0 0 4 1, gemAt 0 0 0 9 0])) :=
  have h1 : gem_in_reach (gemAt 1 0 0 4 0) 0 0 0 2 := by
    unfold gem_in_reach
    rw [gem_dist_row_one.1, gem_dist_row_one.2]
    norm_num
  have h2 : CloserThan (gemAt 1 0 0 4 0) 0 0 0 (2 - 1 / 2 ^ 16) := by
    rw [closerThan_iff]
    exact ⟨by norm_num, by norm_num [gemAt, zeroGem]⟩
  have h3 : ¬ CloserThan (gemAt 3 0 0 7 0) 0 0 0 (2 + 1 / 2 ^ 16) := by
    rw [closerThan_iff]
    rintro ⟨_, h⟩
    norm_num [gemAt, zeroGem] at h
  ⟨h1,
    (collect_gem_first_in_reach gemRow 0 0 0 2 1 (gemAt 1 0 0 4 0) rfl rfl).1 h1
      (fun j g' hj hg' => by
        have hj0 : j = 0 := by omega
        subst hj0
        have hg0 : g' = gemAt 3 0 0 7 0 := (Option.some.inj hg').symm
        subst hg0
        rintro ⟨_, _, h⟩
        rw [gem_dist_row_three.2] at h
        norm_num at h),
    by norm_num, h2, h3,
    ((collect_gem_first_in_reach gemRow 0 0 0 2 1 (gemAt 1 0 0 4 0) rfl rfl).2.1 (by norm_num) h2
      (fun j g' hj hg' => by
        have hj0 : j = 0 := by omega
        subst hj0
        have hg0 : g' = gemAt 3 0 0 7 0 := (Option.some.inj hg').symm
        subst hg0
        exact fun h => h3 h.2)).1⟩

/-- C7: let gem `i` of the array be `g`. If `g` is the one uncollected gem of the
array (every other gem is already collected) then for any radius R > 0 the
first collect_gem call at `g`'s own position returns `g`'s type and sets its
collected flag, and a second call at the same position with the same radius
returns -1 and leaves the array unchanged. If `g` is already collected then a
collect_gem call with any position and radius leaves `g` as it is, and either
returns -1 without changing the array or collects another gem `j ≠ i`. -/
theorem collect_gem_once (gems : List Gem) (i : Nat) (g : Gem) (px py pz R : ℚ)
    (hg : gems[i]? = some g) :
    (g.collected = 0 → 0 < R →
        (∀ (j : Nat) (g' : Gem), j ≠ i → gems[j]? = some g' → g'.collected ≠ 0) →
        collect_gem gems g.x g.y g.z R = (g.type, gems.set i { g with collected := 1 })
          ∧ collect_gem (gems.set i { g with collected := 1 }) g.x g.y g.z R
              = (-1, gems.set i { g with collected := 1 }))
      ∧ (g.collected ≠ 0 →
          (collect_gem gems px py pz R).2[i]? = some g
            ∧ (collect_gem gems px py pz R = (-1, gems)
                ∨ ∃ (j : Nat) (g' : Gem), j ≠ i ∧ gems[j]? = some g' ∧ g'.collected = 0
                    ∧ collect_gem gems px py pz R
                        = (g'.type, gems.set j { g' with collected := 1 }))) := by
  constructor
  · intro hu hR hothers
    have hclose : gem_in_reach g g.x g.y g.z R := gem_in_reach_self g R hR
    constructor
    · refine collect_gem_lowest gems g.x g.y g.z R i g hg hu hclose ?_
      intro j g' hj hg' hq
      exact hothers j g' (by omega) hg' hq.1
    · rcases collect_gem_cases (gems.set i { g with collected := 1 }) g.x g.y g.z R with
        ⟨k, g1, hg1, hu1, _, _, _⟩ | ⟨_, hres⟩
      · exfalso
        by_cases hki : k = i
        · subst hki
          rw [List.getElem?_set_self'] at hg1
          rw [hg] at hg1
          have hg2 := Option.some.inj hg1
          rw [← hg2] at hu1
          exact absurd hu1 (by simp)
        · rw [List.getElem?_set_ne (Ne.symm hki)] at hg1
          exact hothers k g1 hki hg1 hu1
      · exact hres
  · intro hcol
    rcases collect_gem_cases gems px py pz R with ⟨k, g1, hg1, hu1, _, _, hres⟩ | ⟨_, hres⟩
    · have hki : k ≠ i := by
        rintro rfl
        rw [hg] at hg1
        exact hcol ((Option.some.inj hg1) ▸ hu1)
      rw [hres]
      refine ⟨?_, Or.inr ⟨k, g1, hki, hg1, hu1, rfl⟩⟩
      simp only
      rw [List.getElem?_set_ne hki, hg]
    · rw [hres]
      exact ⟨hg, Or.inl rfl⟩

/-- C7, applied to `gemPair` (gem 1 uncollected, gem 0 collected) with radius 1/2. -/
theorem collect_gem_once_witness :
    (collect_gem gemPair 1 2 3 (1 / 2) = (8, [gemAt 1 2 3 5 1, gemAt 1 2 3 8 1])
        ∧ collect_gem [gemAt 1 2 3 5 1, gemAt 1 2 3 8 1] 1 2 3 (1 / 2)
            = (-1, [gemAt 1 2 3 5 1, gemAt 1 2 3 8 1]))
      ∧ (collect_gem gemPair 1 2 3 (1 / 2)).2[0]? = some (gemAt 1 2 3 5 1) :=
  ⟨(collect_gem_once gemPair 1 (gemAt 1 2 3 8 0) 1 2 3 (1 / 2) rfl).1 rfl (by norm_num)
      (fun j g' hj hg' => by
        have hlen : j < gemPair.length := by
          by_contra hge
          rw [List.getElem?_eq_none (by omega)] at hg'
          exact Option.noConfusion hg'
        have hj0 : j = 0 := by simp [gemPair] at hlen; omega
        subst hj0
        have hg0 : g' = gemAt 1 2 3 5 1 := (Option.some.inj hg').symm
        subst hg0
        decide),
    ((collect_gem_once gemPair 0 (gemAt 1 2 3 5 1) 1 2 3 (1 / 2) rfl).2 (by decide)).1⟩

/-- C8 (counterexample): a single uncollected gem and a player position, all
coordinates `float` values, radius 0.5. The Euclidean distance is not less than
the radius (its square exceeds 1/4), but the computed `dist` is
16777215/33554432 < 0.5, and collect_gem collects the gem. -/
theorem collect_gem_collects_outside_radius_cex :
    (gemAt (-4404019 / 1048576) (-3984589 / 2097152) (-5033165 / 4194304) 3 0).collected = 0
      ∧ ¬ CloserThan (gemAt (-4404019 / 1048576) (-3984589 / 2097152) (-5033165 / 4194304) 3 0)
          (-8898113 / 2097152) (-1501187 / 1048576) (-11489857 / 8388608) (1 / 2)
      ∧ gem_dist (gemAt (-4404019 / 1048576) (-3984589 / 2097152) (-5033165 / 4194304) 3 0)
          (-8898113 / 2097152) (-1501187 / 1048576) (-11489857 / 8388608)
          = 16777215 / 33554432
      ∧ collect_gem [gemAt (-4404019 / 1048576) (-3984589 / 2097152) (-5033165 / 4194304) 3 0]
          (-8898113 / 2097152) (-1501187 / 1048576) (-11489857 / 8388608) (1 / 2)
          = (3, [gemAt (-4404019 / 1048576) (-3984589 / 2097152) (-5033165 / 4194304) 3 1]) := by
  have hs := gem_dist_below_half.1
  have hd := gem_dist_below_half.2
  refine ⟨rfl, ?_, hd, ?_⟩
  · rw [closerThan_iff]
    norm_num [sqrtLt, gemAt, zeroGem]
  · rw [collect_gem_single, if_pos]
    · rfl
    · refine ⟨rfl, ?_⟩
      unfold gem_in_reach
      rw [hs, hd]
      norm_num

/-- C8 (amended): if no uncollected gem passes the test collect_gem performs
(the computed `float` value `dist` is strictly less than the radius),
collect_gem returns -1 and leaves the whole gem array unchanged; in particular
this is so when every gem is already collected or has a computed `dist` equal
to the radius, when the radius is <= 0, when the array is empty, and, for a
radius of at most 16, when no uncollected gem lies at Euclidean distance less
than radius + 2^-16. -/
theorem collect_gem_none (gems : List Gem) (px py pz r : ℚ) :
    ((∀ g ∈ gems, g.collected = 0 → ¬ gem_in_reach g px py pz r) →
        collect_gem gems px py pz r = (-1, gems))
      ∧ ((∀ g ∈ gems, g.collected ≠ 0 ∨ gem_dist g px py pz = r) →
          collect_gem gems px py pz r = (-1, gems))
      ∧ (r ≤ 0 → collect_gem gems px py pz r = (-1, gems))
      ∧ collect_gem [] px py pz r = (-1, [])
      ∧ (r ≤ 16 →
          (∀ g ∈ gems, g.collected = 0 → ¬ CloserThan g px py pz (r + 1 / 2 ^ 16)) →
          collect_gem gems px py pz r = (-1, gems)) := by
  have main : (∀ g ∈ gems, g.collected = 0 → ¬ gem_in_reach g px py pz r) →
      collect_gem gems px py pz r = (-1, gems) := by
    intro h
    rcases collect_gem_cases gems px py pz r with ⟨k, g1, hg1, hu1, hc1, _, _⟩ | ⟨_, hres⟩
    · exact absurd hc1 (h g1 (List.getElem?_mem hg1) hu1)
    · exact hres
  refine ⟨main, ?_, ?_, rfl, ?_⟩
  · intro h
    apply main
    intro g hmem hu hc
    rcases h g hmem with h1 | h1
    · exact h1 hu
    · have := hc.2
      rw [h1] at this
      exact lt_irrefl _ this
  · intro hr
    apply main
    intro g _ _ hc
    have h0 := gem_dist_nonneg g px py pz
    have := hc.2
    linarith
  · intro hr h
    apply main
    intro g hmem hu hc
    exact h g hmem hu (closer_of_gem_in_reach g px py pz r hr hc)

/-- C8 (amended), applied to `gemRow` with the player at the origin: with
radius 0 nothing is collected; with `gemPair` queried at (1, 2, 4), at
computed distance exactly 1 from its uncollected gem, radius 1 collects
nothing; and with the player at (10, 0, 0), at distance 7 or more from every
gem of `gemRow`, radius 2 collects nothing. -/
theorem collect_gem_none_witness :
    collect_gem gemRow 0 0 0 0 = (-1, gemRow)
      ∧ collect_gem gemPair 1 2 4 1 = (-1, gemPair)
      ∧ collect_gem gemRow 10 0 0 2 = (-1, gemRow) :=
  ⟨(collect_gem_none gemRow 0 0 0 0).2.2.1 (le_refl 0),
    (collect_gem_none gemPair 1 2 4 1).2.1 (fun g hmem => by
      simp only [gemPair, List.mem_cons, List.mem_singleton, List.mem_nil_iff, or_false] at hmem
      rcases hmem with rfl | rfl
      · exact Or.inl (by decide)
      · exact Or.inr gem_dist_pair_one.2),
    (collect_gem_none gemRow 10 0 0 2).2.2.2.2 (by norm_num) (fun g hmem _ => by
      simp only [gemRow, List.mem_cons, List.mem_singleton, List.mem_nil_iff, or_false] at hmem
      rw [closerThan_iff]
      rintro ⟨_, h⟩
      rcases hmem with rfl | rfl | rfl <;> norm_num [gemAt, zeroGem] at h)⟩

/-! ## find_spawn_point -/

theorem spawn_attempts_cases (cave : Cave) (rng : Nat → Nat) (r : Int) (fuel pos : Nat) :
    (∃ a, a < fuel ∧ spawn_ok cave (spawn_sample cave rng r (pos + 3 * a))
        ∧ (∀ b, b < a → ¬ spawn_ok cave (spawn_sample cave rng r (pos + 3 * b)))
        ∧ spawn_attempts cave rng r fuel pos
            = (some (spawn_world cave (spawn_sample cave rng r (pos + 3 * a))), pos + 3 * a + 3))
      ∨ ((∀ a, a < fuel → ¬ spawn_ok cave (spawn_sample cave rng r (pos + 3 * a)))
        ∧ spawn_attempts cave rng r fuel pos = (none, pos + 3 * fuel)) := by
  induction fuel generalizing pos with
  | zero =>
    right
    exact ⟨fun a ha => absurd ha (Nat.not_lt_zero a), rfl⟩
  | succ fuel ih =>
    by_cases hok : spawn_ok cave (spawn_sample cave rng r pos)
    · left
      refine ⟨0, Nat.succ_pos _, hok, fun b hb => absurd hb (Nat.not_lt_zero b), ?_⟩
      unfold spawn_attempts
      simp only []
      rw [if_pos hok.1, if_pos hok.2]
      rfl
    · have hstep : spawn_attempts cave rng r (fuel + 1) pos
          = spawn_attempts cave rng r fuel (pos + 3) := by
        conv_lhs => unfold spawn_attempts
        simp only []
        by_cases hin : (spawn_sample cave rng r pos).1 > 0
            ∧ (spawn_sample cave rng r pos).1 < cave.width - 1
            ∧ (spawn_sample cave rng r pos).2.1 > 0
            ∧ (spawn_sample cave rng r pos).2.1 < cave.height - 1
            ∧ (spawn_sample cave rng r pos).2.2 > 0
            ∧ (spawn_sample cave rng r pos).2.2 < cave.depth - 1
        · rw [if_pos hin, if_neg (fun h => hok ⟨hin, h⟩)]
        · rw [if_neg hin]
      have shift : ∀ a : Nat, pos + 3 + 3 * a = pos + 3 * (a + 1) := fun a => by omega
      rcases ih (pos + 3) with ⟨a, ha, hoka, hfirst, hres⟩ | ⟨hnone, hres⟩
      · left
        refine ⟨a + 1, by omega, by rw [← shift]; exact hoka, ?_, ?_⟩
        · intro b hb
          cases b with
          | zero => exact hok
          | succ b => rw [← shift]; exact hfirst b (by omega)
        · rw [hstep, hres, shift]
      · right
        refine ⟨?_, ?_⟩
        · intro b hb
          cases b with
          | zero => exact hok
          | succ b => rw [← shift]; exact hnone b (by omega)
        · rw [hstep, hres]
          congr 1
          omega


theorem spawn_nth_eq (cave : Cave) (rng : Nat → Nat) (pos0 n a : Nat) (ha : a < 100) :
    spawn_nth cave rng pos0 (100 * n + a)
      = spawn_sample cave rng (n : Int) (pos0 + 300 * n + 3 * a) := by
  unfold spawn_nth
  have h1 : (100 * n + a) / 100 = n := by omega
  have h2 : pos0 + 3 * (100 * n + a) = pos0 + 300 * n + 3 * a := by omega
  rw [h1, h2]

theorem spawn_radii_cases (cave : Cave) (rng : Nat → Nat) (pos0 fuel n0 : Nat) :
    (∃ k, 100 * n0 ≤ k ∧ k < 100 * (n0 + fuel) ∧ spawn_ok cave (spawn_nth cave rng pos0 k)
        ∧ (∀ j, 100 * n0 ≤ j → j < k → ¬ spawn_ok cave (spawn_nth cave rng pos0 j))
        ∧ spawn_radii cave rng fuel (n0 : Int) (pos0 + 300 * n0)
            = (some (spawn_world cave (spawn_nth cave rng pos0 k)), pos0 + 3 * k + 3))
      ∨ ((∀ k, 100 * n0 ≤ k → k < 100 * (n0 + fuel) → ¬ spawn_ok cave (spawn_nth cave rng pos0 k))
        ∧ spawn_radii cave rng fuel (n0 : Int) (pos0 + 300 * n0)
            = (none, pos0 + 300 * (n0 + fuel))) := by
  induction fuel generalizing n0 with
  | zero =>
    right
    exact ⟨fun k h1 h2 => absurd h2 (by omega), rfl⟩
  | succ fuel ih =>
    rcases spawn_attempts_cases cave rng (n0 : Int) 100 (pos0 + 300 * n0) with
      ⟨a, ha, hok, hfirst, hres⟩ | ⟨hnone, hres⟩
    · left
      refine ⟨100 * n0 + a, by omega, by omega, ?_, ?_, ?_⟩
      · rw [spawn_nth_eq _ _ _ _ _ ha]; exact hok
      · intro j hj1 hj2
        obtain ⟨b, rfl⟩ : ∃ b, j = 100 * n0 + b := ⟨j - 100 * n0, by omega⟩
        rw [spawn_nth_eq _ _ _ _ _ (by omega)]
        exact hfirst b (by omega)
      · unfold spawn_radii
        rw [hres, spawn_nth_eq _ _ _ _ _ ha]
        simp only [Prod.mk.injEq, true_and]
        omega
    · have hstep : spawn_radii cave rng (fuel + 1) (n0 : Int) (pos0 + 300 * n0)
          = spawn_radii cave rng fuel ((n0 + 1 : Nat) : Int) (pos0 + 300 * (n0 + 1)) := by
        conv_lhs => unfold spawn_radii
        rw [hres]
        simp only []
        have e1 : pos0 + 300 * n0 + 3 * 100 = pos0 + 300 * (n0 + 1) := by omega
        rw [e1]
        push_cast
        rfl
      have hlow : ∀ k, 100 * n0 ≤ k → k < 100 * (n0 + 1) →
          ¬ spawn_ok cave (spawn_nth cave rng pos0 k) := by
        intro k hk1 hk2
        obtain ⟨b, rfl⟩ : ∃ b, k = 100 * n0 + b := ⟨k - 100 * n0, by omega⟩
        rw [spawn_nth_eq _ _ _ _ _ (by omega)]
        exact hnone b (by omega)
      rcases ih (n0 + 1) with ⟨k, hk1, hk2, hok, hfirst, hres2⟩ | ⟨hnone2, hres2⟩
      · left
        refine ⟨k, by omega, by omega, hok, ?_, by rw [hstep, hres2]⟩
        intro j hj1 hj2
        by_cases hj : j < 100 * (n0 + 1)
        · exact hlow j hj1 hj
        · exact hfirst j (by omega) hj2
      · right
        refine ⟨?_, ?_⟩
        · intro k hk1 hk2
          by_cases hk : k < 100 * (n0 + 1)
          · exact hlow k hk1 hk
          · exact hnone2 k (by omega) (by omega)
        · rw [hstep, hres2]
          congr 1
          omega

theorem cmod_rand_bounds (rng : Nat → Nat) (p : Nat) (b : Int) (hb : 0 < b) :
    0 ≤ cmod (rand rng p) b ∧ cmod (rand rng p) b < b := by
  unfold cmod rand
  rw [Int.tmod_eq_emod (Int.ofNat_nonneg _) (le_of_lt hb)]
  exact ⟨Int.emod_nonneg _ (ne_of_gt hb), Int.emod_lt_of_pos _ hb⟩

/-- Every voxel sampled by find_spawn_point is within 19 cells of the centre
on every axis. -/
theorem spawn_nth_near_centre (cave : Cave) (rng : Nat → Nat) (pos k : Nat) (hk : k < 2000) :
    (cdiv cave.width 2 - 19 ≤ (spawn_nth cave rng pos k).1
        ∧ (spawn_nth cave rng pos k).1 ≤ cdiv cave.width 2 + 19)
      ∧ (cdiv cave.height 2 - 19 ≤ (spawn_nth cave rng pos k).2.1
        ∧ (spawn_nth cave rng pos k).2.1 ≤ cdiv cave.height 2 + 19)
      ∧ (cdiv cave.depth 2 - 19 ≤ (spawn_nth cave rng pos k).2.2
        ∧ (spawn_nth cave rng pos k).2.2 ≤ cdiv cave.depth 2 + 19) := by
  unfold spawn_nth spawn_sample
  simp only []
  have hr : ((k / 100 : Nat) : Int) ≤ 19 := by
    have : k / 100 ≤ 19 := by omega
    exact_mod_cast this
  have hr0 : (0 : Int) ≤ ((k / 100 : Nat) : Int) := Int.ofNat_nonneg _
  have h1 := cmod_rand_bounds rng (pos + 3 * k) (((k / 100 : Nat) : Int) * 2 + 1) (by omega)
  have h2 := cmod_rand_bounds rng (pos + 3 * k + 1) (((k / 100 : Nat) : Int) * 2 + 1) (by omega)
  have h3 := cmod_rand_bounds rng (pos + 3 * k + 2) (((k / 100 : Nat) : Int) * 2 + 1) (by omega)
  refine ⟨⟨by omega, by omega⟩, ⟨by omega, by omega⟩, ⟨by omega, by omega⟩⟩

/-- C9: for every volume and random stream, find_spawn_point returns either the
world coordinates index/extent*10-5 of the first of its at most 20*100 sampled
voxels that is EMPTY and strictly interior (such a voxel is within 19 cells of
the centre (width/2, height/2, depth/2) on every axis), or, exactly when none
of the samples is such a voxel, the fallback (0,0,0); the fallback is always
returned when no strictly interior EMPTY voxel exists within that range. -/
theorem find_spawn_point_spec (cave : Cave) (rng : Nat → Nat) (pos : Nat) :
    ((∃ k, k < 2000
          ∧ (∀ j, j < k → ¬ spawn_ok cave (spawn_nth cave rng pos j))
          ∧ cave.map (spawn_nth cave rng pos k).2.2 (spawn_nth cave rng pos k).2.1
              (spawn_nth cave rng pos k).1 = EMPTY
          ∧ (0 < (spawn_nth cave rng pos k).1 ∧ (spawn_nth cave rng pos k).1 < cave.width - 1
              ∧ 0 < (spawn_nth cave rng pos k).2.1
              ∧ (spawn_nth cave rng pos k).2.1 < cave.height - 1
              ∧ 0 < (spawn_nth cave rng pos k).2.2
              ∧ (spawn_nth cave rng pos k).2.2 < cave.depth - 1)
          ∧ ((cdiv cave.width 2 - 19 ≤ (spawn_nth cave rng pos k).1
                ∧ (spawn_nth cave rng pos k).1 ≤ cdiv cave.width 2 + 19)
              ∧ (cdiv cave.height 2 - 19 ≤ (spawn_nth cave rng pos k).2.1
                ∧ (spawn_nth cave rng pos k).2.1 ≤ cdiv cave.height 2 + 19)
              ∧ (cdiv cave.depth 2 - 19 ≤ (spawn_nth cave rng pos k).2.2
                ∧ (spawn_nth cave rng pos k).2.2 ≤ cdiv cave.depth 2 + 19))
          ∧ (find_spawn_point cave rng pos).1
              = (((spawn_nth cave rng pos k).1 : ℚ) / (cave.width : ℚ) * 10 - 5,
                 ((spawn_nth cave rng pos k).2.1 : ℚ) / (cave.height : ℚ) * 10 - 5,
                 ((spawn_nth cave rng pos k).2.2 : ℚ) / (cave.depth : ℚ) * 10 - 5))
        ∨ ((∀ k, k < 2000 → ¬ spawn_ok cave (spawn_nth cave rng pos k))
          ∧ (find_spawn_point cave rng pos).1 = (0, 0, 0)))
      ∧ ((∀ x y z : Int,
            (0 < x ∧ x < cave.width - 1 ∧ 0 < y ∧ y < cave.height - 1
              ∧ 0 < z ∧ z < cave.depth - 1) →
            (cdiv cave.width 2 - 19 ≤ x ∧ x ≤ cdiv cave.width 2 + 19) →
            (cdiv cave.height 2 - 19 ≤ y ∧ y ≤ cdiv cave.height 2 + 19) →
            (cdiv cave.depth 2 - 19 ≤ z ∧ z ≤ cdiv cave.depth 2 + 19) →
            cave.map z y x ≠ EMPTY) →
          (find_spawn_point cave rng pos).1 = (0, 0, 0)) := by
  have hcases : (∃ k, k < 2000 ∧ spawn_ok cave (spawn_nth cave rng pos k)
        ∧ (∀ j, j < k → ¬ spawn_ok cave (spawn_nth cave rng pos j))
        ∧ (find_spawn_point cave rng pos).1 = spawn_world cave (spawn_nth cave rng pos k))
      ∨ ((∀ k, k < 2000 → ¬ spawn_ok cave (spawn_nth cave rng pos k))
        ∧ (find_spawn_point cave rng pos).1 = (0, 0, 0)) := by
    have h := spawn_radii_cases cave rng pos 20 0
    simp only [Nat.mul_zero, Nat.add_zero, Nat.zero_add, Nat.cast_zero] at h
    rcases h with ⟨k, _, hk, hok, hfirst, hres⟩ | ⟨hnone, hres⟩
    · left
      refine ⟨k, by omega, hok, fun j hj => hfirst j (Nat.zero_le j) hj, ?_⟩
      unfold find_spawn_point
      rw [hres]
    · right
      refine ⟨fun k hk => hnone k (Nat.zero_le k) (by omega), ?_⟩
      unfold find_spawn_point
      rw [hres]
  constructor
  · rcases hcases with ⟨k, hk, hok, hfirst, hres⟩ | h
    · left
      exact ⟨k, hk, hfirst, hok.2, hok.1, spawn_nth_near_centre cave rng pos k hk, hres⟩
    · right
      exact h
  · intro hsolid
    rcases hcases with ⟨k, hk, hok, _, _⟩ | h
    · exfalso
      have hn := spawn_nth_near_centre cave rng pos k hk
      exact hsolid _ _ _ hok.1 hn.1 hn.2.1 hn.2.2 hok.2
    · exact h.2

/-- C9, applied to the solid 3x3x3 volume: the fallback origin is returned. -/
theorem find_spawn_point_spec_witness :
    (find_spawn_point solidCave3 (fun _ => 0) 0).1 = (0, 0, 0) :=
  (find_spawn_point_spec solidCave3 (fun _ => 0) 0).2
    (fun _ _ _ _ _ _ _ => by show (1 : Int) ≠ 0; decide)


/-! ## World-to-voxel conversion and check_collision -/

theorem toInt_of_nonneg (q : ℚ) (hq : 0 ≤ q) : toInt q = ⌊q⌋ := by
  unfold toInt
  rw [Int.tdiv_eq_ediv (Rat.num_nonneg.2 hq) (Int.ofNat_nonneg _), Rat.floor_def]

theorem toInt_neg (q : ℚ) : toInt (-q) = -toInt q := by
  unfold toInt
  rw [Rat.neg_num, Rat.neg_den, Int.neg_tdiv]

theorem toInt_of_nonpos (q : ℚ) (hq : q ≤ 0) : toInt q = ⌈q⌉ := by
  have h := toInt_of_nonneg (-q) (by linarith)
  rw [toInt_neg, Int.floor_neg] at h
  omega

theorem toInt_small_neg (q : ℚ) (h1 : -1 < q) (h2 : q ≤ 0) : toInt q = 0 := by
  rw [toInt_of_nonpos q h2, Int.ceil_eq_iff]
  constructor
  · push_cast; linarith
  · push_cast; linarith

/-- Without a `return` in any iteration the loop falls through. -/
theorem forRangeRet_none {ρ : Type} (lo hi : Int) (body : Int → Option ρ)
    (h : ∀ i, body i = none) : forRangeRet lo hi body = none := by
  unfold forRangeRet
  apply forRange_invariant (fun st : Option ρ => st = none)
  · intro i st _ _ hst
    rw [hst]
    exact h i
  · rfl

theorem castInt_of_fits (v : ℚ) (h1 : -2 ^ 31 ≤ toInt v) (h2 : toInt v < 2 ^ 31) :
    castInt v = toInt v := by
  unfold castInt
  rw [if_pos ⟨h1, h2⟩]

theorem castInt_of_large (v : ℚ) (h : (2 : ℚ) ^ 31 ≤ v) : castInt v = -2 ^ 31 := by
  unfold castInt
  rw [if_neg]
  rintro ⟨_, h2⟩
  rw [toInt_of_nonneg v (by linarith [show (0 : ℚ) < 2 ^ 31 by positivity])] at h2
  have : (2 : Int) ^ 31 ≤ ⌊v⌋ := by
    rw [Int.le_floor]
    exact_mod_cast h
  omega

/-- Evaluation of truncation at a non-negative value. -/
theorem toInt_eval (v : ℚ) (k : Int) (h0 : 0 ≤ v) (h1 : (k : ℚ) ≤ v) (h2 : v < (k : ℚ) + 1) :
    toInt v = k := by
  rw [toInt_of_nonneg v h0, Int.floor_eq_iff]
  exact ⟨h1, h2⟩

theorem world_to_voxel_eq_castInt (w : ℚ) (n : Int) :
    world_to_voxel w n = castInt (world_to_voxel_value w n) := rfl

/-- The cast of a non-negative value inside the `int` range. -/
theorem castInt_of_nonneg (v : ℚ) (h0 : 0 ≤ v) (h1 : v < 2 ^ 31) : castInt v = ⌊v⌋ := by
  have hf : toInt v = ⌊v⌋ := toInt_of_nonneg v h0
  have h2 : 0 ≤ ⌊v⌋ := Int.floor_nonneg.2 h0
  have h3 : ⌊v⌋ < 2 ^ 31 := by
    rw [Int.floor_lt]
    exact_mod_cast h1
  rw [castInt_of_fits v (by rw [hf]; omega) (by rw [hf]; exact h3), hf]

/-- The cast of a non-positive value inside the `int` range. -/
theorem castInt_of_nonpos (v : ℚ) (h0 : v ≤ 0) (h1 : -2 ^ 31 - 1 < v) : castInt v = ⌈v⌉ := by
  have hf : toInt v = ⌈v⌉ := toInt_of_nonpos v h0
  have h2 : ⌈v⌉ ≤ 0 := by
    rw [Int.ceil_le]
    exact_mod_cast h0
  have h3 : -2 ^ 31 - 1 < ⌈v⌉ := by
    rw [Int.lt_ceil]
    push_cast
    linarith
  rw [castInt_of_fits v (by rw [hf]; omega) (by rw [hf]; omega), hf]

theorem castInt_small_neg (v : ℚ) (h1 : -1 < v) (h2 : v ≤ 0) : castInt v = 0 := by
  have hf : toInt v = 0 := toInt_small_neg v h1 h2
  rw [castInt_of_fits v (by rw [hf]; decide) (by rw [hf]; decide), hf]

theorem castInt_neg_of_le (v : ℚ) (h : v ≤ -1) : castInt v < 0 := by
  unfold castInt
  split
  · rw [toInt_of_nonpos v (by linarith)]
    have : ⌈v⌉ ≤ -1 := by
      rw [Int.ceil_le]
      push_cast
      exact h
    omega
  · decide

/-- Evaluation of the cast at a non-negative value. -/
theorem castInt_eval (v : ℚ) (k : Int) (h0 : 0 ≤ v) (h1 : (k : ℚ) ≤ v) (h2 : v < (k : ℚ) + 1)
    (h3 : v < 2 ^ 31) : castInt v = k := by
  rw [castInt_of_nonneg v h0 h3, Int.floor_eq_iff]
  exact ⟨h1, h2⟩

/-- The sign of the computed `(w + 5.0f) / 10.0f * n`. -/
theorem world_to_voxel_value_sign (w : ℚ) (n : Int) (hn : 0 < n) :
    (-5 ≤ w → 0 ≤ world_to_voxel_value w n) ∧ (w ≤ -5 → world_to_voxel_value w n ≤ 0) := by
  have hn' : (0 : ℚ) ≤ f32 (n : ℚ) := f32_nonneg _ (by exact_mod_cast le_of_lt hn)
  constructor
  · intro h
    apply f32_nonneg
    apply mul_nonneg _ hn'
    apply f32_nonneg
    apply div_nonneg _ (by norm_num)
    apply f32_nonneg
    linarith
  · intro h
    apply f32_nonpos
    apply mul_nonpos_of_nonpos_of_nonneg _ hn'
    apply f32_nonpos
    apply div_nonpos_of_nonpos_of_nonneg _ (by norm_num)
    apply f32_nonpos
    linarith

/-- The value -2626683/524288 is the `float` nearest to -5.01, and
10485759/2097152 = 0x1.3ffffep+2 is the `float` just below 5. -/
theorem wtv_inputs_are_floats :
    f32 (-2626683 / 524288) = -2626683 / 524288 ∧ f32 (10485759 / 2097152) = 10485759 / 2097152
      ∧ f32 (-501 / 100) = -2626683 / 524288 := by
  have h1 : f32 (-2626683 / 524288) = -2626683 / 524288 :=
    f32_eval _ 2 (-21) (-10506732) _ (by norm_num) (by norm_num) (by norm_num) (by norm_num) (by norm_num)
  have h2 : f32 (10485759 / 2097152) = 10485759 / 2097152 :=
    f32_eval _ 2 (-21) 10485759 _ (by norm_num) (by norm_num) (by norm_num) (by norm_num) (by norm_num)
  have h3 : f32 (-501 / 100) = -2626683 / 524288 :=
    f32_eval _ 2 (-21) (-10506732) _ (by norm_num) (by norm_num) (by norm_num) (by norm_num) (by norm_num)
  exact ⟨h1, h2, h3⟩

/-- The computed `(w + 5.0f) / 10.0f * 50` at w = (float)-5.01. -/
theorem wtv_value_below_minus_five : world_to_voxel_value (-2626683 / 524288) 50 = -26215 / 524288 := by
  have h1 : f32 ((-2626683 / 524288) + 5) = -5243 / 524288 :=
    f32_eval _ (-7) (-30) (-10737664) _ (by norm_num) (by norm_num) (by norm_num) (by norm_num) (by norm_num)
  have h2 : f32 ((-5243 / 524288) / 10) = -8590131 / 8589934592 :=
    f32_eval _ (-10) (-33) (-8590131) _ (by norm_num) (by norm_num) (by norm_num) (by norm_num) (by norm_num)
  have h3 : f32 (50) = 50 :=
    f32_eval _ 5 (-18) 13107200 _ (by norm_num) (by norm_num) (by norm_num) (by norm_num) (by norm_num)
  have h4 : f32 ((-8590131 / 8589934592) * 50) = -26215 / 524288 :=
    f32_eval _ (-5) (-28) (-13422080) _ (by norm_num) (by norm_num) (by norm_num) (by norm_num) (by norm_num)
  simp only [world_to_voxel_value, Int.cast_ofNat, h1, h2, h3, h4]

/-- The computed `(w + 5.0f) / 10.0f * 50` at w = 0x1.3ffffep+2: the sum w + 5.0f rounds to 10. -/
theorem wtv_value_below_five : world_to_voxel_value (10485759 / 2097152) 50 = 50 := by
  have h1 : f32 ((10485759 / 2097152) + 5) = 10 :=
    f32_eval_tie _ 3 (-20) 10485759 10485760 _ (by norm_num) (by norm_num) (by norm_num)
      (Or.inr ⟨by decide, by decide⟩) (by norm_num)
  have h2 : f32 (10 / 10) = 1 :=
    f32_eval _ 0 (-23) 8388608 _ (by norm_num) (by norm_num) (by norm_num) (by norm_num) (by norm_num)
  have h3 : f32 (50) = 50 :=
    f32_eval _ 5 (-18) 13107200 _ (by norm_num) (by norm_num) (by norm_num) (by norm_num) (by norm_num)
  have h4 : f32 (1 * 50) = 50 :=
    f32_eval _ 5 (-18) 13107200 _ (by norm_num) (by norm_num) (by norm_num) (by norm_num) (by norm_num)
  simp only [world_to_voxel_value, Int.cast_ofNat, h1, h2, h3, h4]

/-- The computed `(w + 5.0f) / 10.0f * 50` at w = 0. -/
theorem wtv_value_zero_50 : world_to_voxel_value 0 50 = 25 := by
  have h1 : f32 (0 + 5) = 5 :=
    f32_eval _ 2 (-21) 10485760 _ (by norm_num) (by norm_num) (by norm_num) (by norm_num) (by norm_num)
  have h2 : f32 (5 / 10) = 1 / 2 :=
    f32_eval _ (-1) (-24) 8388608 _ (by norm_num) (by norm_num) (by norm_num) (by norm_num) (by norm_num)
  have h3 : f32 (50) = 50 :=
    f32_eval _ 5 (-18) 13107200 _ (by norm_num) (by norm_num) (by norm_num) (by norm_num) (by norm_num)
  have h4 : f32 ((1 / 2) * 50) = 25 :=
    f32_eval _ 4 (-19) 13107200 _ (by norm_num) (by norm_num) (by norm_num) (by norm_num) (by norm_num)
  simp only [world_to_voxel_value, Int.cast_ofNat, h1, h2, h3, h4]

/-- The computed `(w + 5.0f) / 10.0f * 50` at w = -5.25. -/
theorem wtv_value_far_below : world_to_voxel_value (-21 / 4) 50 = -5 / 4 := by
  have h1 : f32 ((-21 / 4) + 5) = -1 / 4 :=
    f32_eval _ (-2) (-25) (-8388608) _ (by norm_num) (by norm_num) (by norm_num) (by norm_num) (by norm_num)
  have h2 : f32 ((-1 / 4) / 10) = -13421773 / 536870912 :=
    f32_eval _ (-6) (-29) (-13421773) _ (by norm_num) (by norm_num) (by norm_num) (by norm_num) (by norm_num)
  have h3 : f32 (50) = 50 :=
    f32_eval _ 5 (-18) 13107200 _ (by norm_num) (by norm_num) (by norm_num) (by norm_num) (by norm_num)
  have h4 : f32 ((-13421773 / 536870912) * 50) = -5 / 4 :=
    f32_eval _ 0 (-23) (-10485760) _ (by norm_num) (by norm_num) (by norm_num) (by norm_num) (by norm_num)
  simp only [world_to_voxel_value, Int.cast_ofNat, h1, h2, h3, h4]

theorem forRangeRet_succ_of_some {ρ : Type} (lo : Int) (n : Nat) (body : Int → Option ρ) (v : ρ)
    (h : forRangeRet lo (lo + (n : Nat)) body = some v) :
    forRangeRet lo (lo + (n + 1 : Nat)) body = some v := by
  unfold forRangeRet at h ⊢
  rw [forRange_succ, h]

theorem forRangeRet_succ_of_none {ρ : Type} (lo : Int) (n : Nat) (body : Int → Option ρ)
    (h : forRangeRet lo (lo + (n : Nat)) body = none) :
    forRangeRet lo (lo + (n + 1 : Nat)) body = body (lo + (n : Int)) := by
  unfold forRangeRet at h ⊢
  rw [forRange_succ, h]

/-- The loop falls through exactly when no iteration returns. -/
theorem forRangeRet_eq_none_iff {ρ : Type} (lo hi : Int) (body : Int → Option ρ) :
    forRangeRet lo hi body = none ↔ ∀ i, lo ≤ i → i < hi → body i = none := by
  by_cases hle : hi ≤ lo
  · constructor
    · intro _ i h1 h2
      omega
    · intro _
      unfold forRangeRet
      rw [forRange_empty lo hi hle]
  · obtain ⟨n, rfl⟩ : ∃ n : Nat, hi = lo + (n : Int) := ⟨(hi - lo).toNat, by omega⟩
    clear hle
    induction n with
    | zero =>
      constructor
      · intro _ i h1 h2
        simp at h2
        omega
      · intro _
        unfold forRangeRet
        rw [forRange_empty lo _ (by simp)]
    | succ n ih =>
      constructor
      · intro h i h1 h2
        cases hprev : forRangeRet lo (lo + (n : Nat)) body with
        | some v =>
          rw [forRangeRet_succ_of_some lo n body v hprev] at h
          exact Option.noConfusion h
        | none =>
          rw [forRangeRet_succ_of_none lo n body hprev] at h
          by_cases hi : i < lo + (n : Nat)
          · exact ih.1 hprev i h1 hi
          · have : i = lo + (n : Int) := by push_cast at h2 hi ⊢; omega
            rw [this]; exact h
      · intro h
        have hprev : forRangeRet lo (lo + (n : Nat)) body = none :=
          ih.2 (fun i h1 h2 => h i h1 (by push_cast at h2 ⊢; omega))
        rw [forRangeRet_succ_of_none lo n body hprev]
        exact h _ (by omega) (by push_cast; omega)

/-- A value returned by the loop is returned by one of its iterations. -/
theorem forRangeRet_some_mem {ρ : Type} (lo hi : Int) (body : Int → Option ρ) (v : ρ)
    (h : forRangeRet lo hi body = some v) : ∃ i, lo ≤ i ∧ i < hi ∧ body i = some v := by
  by_cases hle : hi ≤ lo
  · unfold forRangeRet at h
    rw [forRange_empty lo hi hle] at h
    exact Option.noConfusion h
  · obtain ⟨n, rfl⟩ : ∃ n : Nat, hi = lo + (n : Int) := ⟨(hi - lo).toNat, by omega⟩
    clear hle
    induction n with
    | zero =>
      unfold forRangeRet at h
      rw [forRange_empty lo _ (by simp)] at h
      exact Option.noConfusion h
    | succ n ih =>
      cases hprev : forRangeRet lo (lo + (n : Nat)) body with
      | some w =>
        rw [forRangeRet_succ_of_some lo n body w hprev] at h
        obtain ⟨i, h1, h2, h3⟩ := ih (hprev.trans h)
        exact ⟨i, h1, by push_cast at h2 ⊢; omega, h3⟩
      | none =>
        rw [forRangeRet_succ_of_none lo n body hprev] at h
        exact ⟨lo + (n : Int), by omega, by push_cast; omega, h⟩

/-- With the query voxel in bounds, check_collision returns 1 exactly when
one of the scanned offsets hits an in-bounds WALL voxel whose computed distance
is below `radius`. -/
theorem check_collision_scan (cave : Cave) (x y z radius : ℚ)
    (hin : ¬ (world_to_voxel x cave.width < 0 ∨ world_to_voxel x cave.width ≥ cave.width
      ∨ world_to_voxel y cave.height < 0 ∨ world_to_voxel y cave.height ≥ cave.height
      ∨ world_to_voxel z cave.depth < 0 ∨ world_to_voxel z cave.depth ≥ cave.depth)) :
    (check_collision cave x y z radius = 1 ∨ check_collision cave x y z radius = 0)
      ∧ (check_collision cave x y z radius = 1 ↔
        ∃ dz dy dx : Int,
          (-(scan_radius cave radius) ≤ dz ∧ dz < scan_radius cave radius + 1)
            ∧ (-(scan_radius cave radius) ≤ dy ∧ dy < scan_radius cave radius + 1)
            ∧ (-(scan_radius cave radius) ≤ dx ∧ dx < scan_radius cave radius + 1)
            ∧ (world_to_voxel x cave.width + dx ≥ 0
              ∧ world_to_voxel x cave.width + dx < cave.width
              ∧ world_to_voxel y cave.height + dy ≥ 0
              ∧ world_to_voxel y cave.height + dy < cave.height
              ∧ world_to_voxel z cave.depth + dz ≥ 0
              ∧ world_to_voxel z cave.depth + dz < cave.depth)
            ∧ cave.map (world_to_voxel z cave.depth + dz) (world_to_voxel y cave.height + dy)
                (world_to_voxel x cave.width + dx) = 1
            ∧ (wall_dist cave x y z (world_to_voxel x cave.width + dx)
                  (world_to_voxel y cave.height + dy) (world_to_voxel z cave.depth + dz) < 2 ^ 128
              ∧ wall_dist cave x y z (world_to_voxel x cave.width + dx)
                  (world_to_voxel y cave.height + dy) (world_to_voxel z cave.depth + dz)
                  < radius)) := by
  unfold check_collision scan_radius wall_dist
  dsimp only
  rw [if_neg hin]
  generalize hS : forRangeRet _ _ _ = S
  cases S with
  | none =>
    refine ⟨Or.inr rfl, ?_⟩
    constructor
    · intro h
      exact absurd h (by decide)
    · rintro ⟨dz, dy, dx, hz, hy, hx, hb, hm, hs⟩
      have h1 := (forRangeRet_eq_none_iff _ _ _).1 hS dz hz.1 hz.2
      have h2 := (forRangeRet_eq_none_iff _ _ _).1 h1 dy hy.1 hy.2
      have h3 := (forRangeRet_eq_none_iff _ _ _).1 h2 dx hx.1 hx.2
      rw [if_pos hb, if_pos hm, if_pos hs] at h3
      exact Option.noConfusion h3
  | some v =>
    obtain ⟨dz, hz1, hz2, h1⟩ := forRangeRet_some_mem _ _ _ v hS
    obtain ⟨dy, hy1, hy2, h2⟩ := forRangeRet_some_mem _ _ _ v h1
    obtain ⟨dx, hx1, hx2, h3⟩ := forRangeRet_some_mem _ _ _ v h2
    split_ifs at h3 with hb hm hs
    have hv : v = 1 := (Option.some.inj h3).symm
    subst hv
    exact ⟨Or.inl rfl, fun _ => ⟨dz, dy, dx, ⟨hz1, hz2⟩, ⟨hy1, hy2⟩, ⟨hx1, hx2⟩, hb, hm, hs⟩,
      fun _ => rfl⟩

/-- With the query voxel in bounds, check_collision returns 0 or 1, and 1
exactly when some voxel is a hit of the scan. -/
theorem check_collision_hit (cave : Cave) (x y z radius : ℚ)
    (hin : ¬ (world_to_voxel x cave.width < 0 ∨ world_to_voxel x cave.width ≥ cave.width
      ∨ world_to_voxel y cave.height < 0 ∨ world_to_voxel y cave.height ≥ cave.height
      ∨ world_to_voxel z cave.depth < 0 ∨ world_to_voxel z cave.depth ≥ cave.depth)) :
    (check_collision cave x y z radius = 1 ∨ check_collision cave x y z radius = 0)
      ∧ (check_collision cave x y z radius = 1
          ↔ ∃ tx ty tz : Int, WallHit cave x y z radius tx ty tz) := by
  obtain ⟨h01, hscan⟩ := check_collision_scan cave x y z radius hin
  refine ⟨h01, ?_⟩
  rw [hscan]
  constructor
  · rintro ⟨dz, dy, dx, hz, hy, hx, hb, hm, hs⟩
    exact ⟨_, _, _, ⟨⟨by omega, by omega⟩, ⟨by omega, by omega⟩, ⟨by omega, by omega⟩⟩,
      by omega, hm, hs⟩
  · rintro ⟨tx, ty, tz, ⟨⟨rx1, rx2⟩, ⟨ry1, ry2⟩, ⟨rz1, rz2⟩⟩, hb, hm, hs⟩
    refine ⟨tz - world_to_voxel z cave.depth, ty - world_to_voxel y cave.height,
      tx - world_to_voxel x cave.width, ⟨rz1, by omega⟩, ⟨ry1, by omega⟩, ⟨rx1, by omega⟩, ?_⟩
    have ex : world_to_voxel x cave.width + (tx - world_to_voxel x cave.width) = tx := by omega
    have ey : world_to_voxel y cave.height + (ty - world_to_voxel y cave.height) = ty := by
      omega
    have ez : world_to_voxel z cave.depth + (tz - world_to_voxel z cave.depth) = tz := by omega
    rw [ex, ey, ez]
    exact ⟨by omega, hm, hs⟩

/-- C10 (counterexample): with extent 50 the `float` nearest to -5.01
(-2626683/524288, just below -5) converts to index 0 although
floor((w+5)/10*50) = -1, and check_collision on the wall-free 50x50x50 volume
at (w, 0, 0) reports no collision. -/
theorem world_to_voxel_not_floor_cex :
    f32 (-2626683 / 524288) = -2626683 / 524288
      ∧ world_to_voxel (-2626683 / 524288) 50 = 0
      ∧ ⌊((-2626683 / 524288 : ℚ) + 5) / 10 * ((50 : Int) : ℚ)⌋ = -1
      ∧ world_to_voxel (-2626683 / 524288) 50
          ≠ ⌊((-2626683 / 524288 : ℚ) + 5) / 10 * ((50 : Int) : ℚ)⌋
      ∧ check_collision openCave50 (-2626683 / 524288) 0 0 (1 / 8) = 0 := by
  have h1 : world_to_voxel (-2626683 / 524288) 50 = 0 := by
    rw [world_to_voxel_eq_castInt, wtv_value_below_minus_five]
    apply castInt_small_neg <;> norm_num
  have h2 : ⌊((-2626683 / 524288 : ℚ) + 5) / 10 * ((50 : Int) : ℚ)⌋ = -1 := by
    rw [Int.floor_eq_iff]
    constructor <;> norm_num
  refine ⟨wtv_inputs_are_floats.1, h1, h2, by rw [h1, h2]; decide, ?_⟩
  have hy : world_to_voxel 0 50 = 25 := by
    rw [world_to_voxel_eq_castInt, wtv_value_zero_50]
    apply castInt_eval <;> norm_num
  have hin : ¬ (world_to_voxel (-2626683 / 524288) openCave50.width < 0
      ∨ world_to_voxel (-2626683 / 524288) openCave50.width ≥ openCave50.width
      ∨ world_to_voxel 0 openCave50.height < 0
      ∨ world_to_voxel 0 openCave50.height ≥ openCave50.height
      ∨ world_to_voxel 0 openCave50.depth < 0
      ∨ world_to_voxel 0 openCave50.depth ≥ openCave50.depth) := by
    show ¬ (world_to_voxel (-2626683 / 524288) 50 < 0
      ∨ world_to_voxel (-2626683 / 524288) 50 ≥ 50
      ∨ world_to_voxel 0 50 < 0 ∨ world_to_voxel 0 50 ≥ 50
      ∨ world_to_voxel 0 50 < 0 ∨ world_to_voxel 0 50 ≥ 50)
    rw [h1, hy]
    decide
  obtain ⟨h01, hiff⟩ := check_collision_hit openCave50 (-2626683 / 524288) 0 0 (1 / 8) hin
  rcases h01 with hc | hc
  · exfalso
    obtain ⟨tx, ty, tz, _, _, hm, _⟩ := hiff.1 hc
    have hm2 : (0 : Int) = 1 := hm
    exact absurd hm2 (by decide)
  · exact hc

/-- C10 (amended): for every `float` world coordinate w and extent n > 0, the
world-to-voxel conversion used by check_collision and render_cave_interior
yields the `float` value v of `(w + 5.0f) / 10.0f * n` converted to `int`,
that is truncated toward zero: floor(v) for 0 <= v < 2^31 (the case w >= -5)
and ceil(v) for -2^31 - 1 < v <= 0 (the case w <= -5). In particular a
coordinate with -1 < v <= 0 maps to index 0; a coordinate with v <= -1 maps to
a negative index and one with v >= 2^31 to INT_MIN, and for both
check_collision returns 1 (out of bounds). -/
theorem world_to_voxel_truncates (w : ℚ) (n : Int) (hn : 0 < n) :
    world_to_voxel w n = castInt (world_to_voxel_value w n)
      ∧ (-5 ≤ w → 0 ≤ world_to_voxel_value w n)
      ∧ (w ≤ -5 → world_to_voxel_value w n ≤ 0)
      ∧ (0 ≤ world_to_voxel_value w n → world_to_voxel_value w n < 2 ^ 31 →
          world_to_voxel w n = ⌊world_to_voxel_value w n⌋)
      ∧ (world_to_voxel_value w n ≤ 0 → -2 ^ 31 - 1 < world_to_voxel_value w n →
          world_to_voxel w n = ⌈world_to_voxel_value w n⌉)
      ∧ (-1 < world_to_voxel_value w n → world_to_voxel_value w n ≤ 0 →
          world_to_voxel w n = 0)
      ∧ (world_to_voxel_value w n ≤ -1 → world_to_voxel w n < 0)
      ∧ (2 ^ 31 ≤ world_to_voxel_value w n → world_to_voxel w n = -2 ^ 31)
      ∧ (world_to_voxel_value w n ≤ -1 ∨ 2 ^ 31 ≤ world_to_voxel_value w n →
          ∀ (cave : Cave) (y z radius : ℚ), cave.width = n →
            check_collision cave w y z radius = 1) := by
  have hs := world_to_voxel_value_sign w n hn
  refine ⟨rfl, hs.1, hs.2, ?_, ?_, ?_, ?_, ?_, ?_⟩
  · intro h0 h1
    exact castInt_of_nonneg _ h0 h1
  · intro h0 h1
    exact castInt_of_nonpos _ h0 h1
  · intro h0 h1
    exact castInt_small_neg _ h0 h1
  · intro h
    exact castInt_neg_of_le _ h
  · intro h
    exact castInt_of_large _ h
  · intro h cave y z radius hw
    have hlt : world_to_voxel w n < 0 := by
      rcases h with h | h
      · exact castInt_neg_of_le _ h
      · rw [world_to_voxel_eq_castInt, castInt_of_large _ h]
        decide
    unfold check_collision
    simp only []
    rw [hw]
    exact if_pos (Or.inl hlt)

/-- C10 (amended), applied to extent 50: the `float` nearest to -5.01 maps to
index 0, the `float` 0x1.3ffffep+2 just below 5 maps to index 50 (the sum
w + 5.0f rounds to 10), and -5.25 maps to a negative index. -/
theorem world_to_voxel_truncates_witness :
    (0 : Int) < 50
      ∧ world_to_voxel (-2626683 / 524288) 50 = 0
      ∧ world_to_voxel (10485759 / 2097152) 50 = 50
      ∧ world_to_voxel (-21 / 4) 50 < 0
      ∧ check_collision openCave50 (-21 / 4) 0 0 (1 / 8) = 1 :=
  ⟨by decide,
    (world_to_voxel_truncates (-2626683 / 524288) 50 (by decide)).2.2.2.2.2.1
      (by rw [wtv_value_below_minus_five]; norm_num)
      (by rw [wtv_value_below_minus_five]; norm_num),
    ((world_to_voxel_truncates (10485759 / 2097152) 50 (by decide)).2.2.2.1
      (by rw [wtv_value_below_five]; norm_num)
      (by rw [wtv_value_below_five]; norm_num)).trans
      (by rw [wtv_value_below_five]; exact Int.floor_eq_iff.2 ⟨by norm_num, by norm_num⟩),
    (world_to_voxel_truncates (-21 / 4) 50 (by decide)).2.2.2.2.2.2.1
      (by rw [wtv_value_far_below]; norm_num),
    (world_to_voxel_truncates (-21 / 4) 50 (by decide)).2.2.2.2.2.2.2.2
      (Or.inl (by rw [wtv_value_far_below]; norm_num)) openCave50 0 0 (1 / 8) rfl⟩

/-! ## Round trip of the voxel/world conversions -/

/-- On a converged volume one pass keeps every cell except the two end cells
of the copied rows, which receive the temporary buffer's content. -/
theorem smooth_cave_converged_frame (fresh : Grid) (cave : Cave) (hconv : Converged cave)
    (z y x : Int)
    (hcell : ¬ ((1 ≤ z ∧ z < cave.depth - 1) ∧ (1 ≤ y ∧ y < cave.height - 1)
      ∧ (x = 0 ∨ x = cave.width - 1) ∧ 0 < cave.width)) :
    (smooth_cave fresh cave).map z y x = cave.map z y x := by
  rw [smooth_cave_map]
  by_cases h : (1 ≤ z ∧ z < cave.depth - 1) ∧ (1 ≤ y ∧ y < cave.height - 1)
      ∧ (0 ≤ x ∧ x < cave.width)
  · rw [if_pos h]
    by_cases hx : 1 ≤ x ∧ x < cave.width - 1
    · rw [if_pos hx]
      exact hconv z y x h.1 h.2.1 hx
    · exfalso
      apply hcell
      refine ⟨h.1, h.2.1, ?_, by omega⟩
      omega
  · rw [if_neg h]

theorem solidCave3_converged : Converged solidCave3 := by
  intro z y x hz hy hx
  have ez : z = 1 := by simp [solidCave3, cubeCave] at hz; omega
  have ey : y = 1 := by simp [solidCave3, cubeCave] at hy; omega
  have ex : x = 1 := by simp [solidCave3, cubeCave] at hx; omega
  subst ez ey ex
  rw [smooth_rule, wall_count_eq]
  simp [solidCave3, cubeCave, offsets26]

/-- C12 (evaluation at the failing input): the all-WALL 3x3x3 volume is
converged, yet one more smooth_cave call replaces the shell cell `map[1][1][2]`
by the content of the temporary buffer `new_map`, turning it from WALL into 0
when that buffer is zero-filled; on a converged volume every cell other than
the two end cells of the copied rows is kept. -/
theorem smooth_cave_converged_row_ends :
    Converged solidCave3
      ∧ (∀ fresh : Grid, (smooth_cave fresh solidCave3).map 1 1 2 = fresh 1 1 2)
      ∧ solidCave3.map 1 1 2 = WALL
      ∧ (smooth_cave (fun _ _ _ => 0) solidCave3).map 1 1 2 = 0
      ∧ (smooth_cave (fun _ _ _ => 0) solidCave3).map 1 1 2 ≠ solidCave3.map 1 1 2
      ∧ (smooth_cave (fun _ _ _ => 0) solidCave3).map 1 1 1 = solidCave3.map 1 1 1 := by
  have h : ∀ fresh : Grid, (smooth_cave fresh solidCave3).map 1 1 2 = fresh 1 1 2 := by
    intro fresh
    rw [smooth_cave_map]
    simp [solidCave3, cubeCave]
  refine ⟨solidCave3_converged, h, rfl, h _, ?_, ?_⟩
  · rw [h]
    decide
  · exact smooth_cave_converged_frame _ _ solidCave3_converged 1 1 1 (by decide)

/-! ## carve_cave_interior: frame -/

theorem carve_chamber_carved (cave : Cave) : CarvedFrom cave cave.map (carve_chamber cave) := by
  intro z y x
  rw [carve_chamber_spec]
  split
  · rename_i h
    exact Or.inr ⟨h.2.2.2.1, rfl⟩
  · exact Or.inl rfl

/-- Every cell of the carved cave is the original cell or a strictly interior
cell holding 0. -/
theorem carve_cave_interior_from_input (L : Libm) (cave : Cave) (rng : Nat → Nat) (pos : Nat) :
    CarvedFrom cave cave.map (carve_cave_interior L cave rng pos).1.map := by
  intro z y x
  rcases carve_cave_interior_carved L cave rng pos z y x with h | h
  · rw [h]
    exact carve_chamber_carved cave z y x
  · exact Or.inr h

/-- C14: for every volume and every random stream, carve_cave_interior (main
chamber and all tunnel spheres) leaves every cell that is not strictly
interior, in particular every cell of the outermost 1-cell shell, unchanged and
never turns an EMPTY cell into WALL: each cell is unchanged or is a strictly
interior cell set to EMPTY; the extents are unchanged. -/
theorem carve_cave_interior_frame (L : Libm) (cave : Cave) (rng : Nat → Nat) (pos : Nat)
    (z y x : Int) :
    ((carve_cave_interior L cave rng pos).1.map z y x = cave.map z y x
        ∨ ((0 < x ∧ x < cave.width - 1 ∧ 0 < y ∧ y < cave.height - 1
              ∧ 0 < z ∧ z < cave.depth - 1)
            ∧ (carve_cave_interior L cave rng pos).1.map z y x = EMPTY))
      ∧ ((x = 0 ∨ x = cave.width - 1 ∨ y = 0 ∨ y = cave.height - 1
            ∨ z = 0 ∨ z = cave.depth - 1) →
          (carve_cave_interior L cave rng pos).1.map z y x = cave.map z y x)
      ∧ (cave.map z y x = EMPTY → (carve_cave_interior L cave rng pos).1.map z y x = EMPTY)
      ∧ ((carve_cave_interior L cave rng pos).1.width = cave.width
          ∧ (carve_cave_interior L cave rng pos).1.height = cave.height
          ∧ (carve_cave_interior L cave rng pos).1.depth = cave.depth) := by
  have h := carve_cave_interior_from_input L cave rng pos z y x
  refine ⟨h, ?_, ?_, rfl, rfl, rfl⟩
  · intro hshell
    rcases h with h | h
    · exact h
    · exfalso
      omega
  · intro hempty
    rcases h with h | h
    · rw [h, hempty]
    · exact h.2

/-- C14, applied to the corner cell of the solid 32x32x32 volume. -/
theorem carve_cave_interior_frame_witness :
    (carve_cave_interior sampleLibm solidCave32 (fun _ => 0) 0).1.map 0 0 0
      = solidCave32.map 0 0 0 :=
  (carve_cave_interior_frame sampleLibm solidCave32 (fun _ => 0) 0 0 0 0).2.1 (Or.inl rfl)

/-! ## generate_cave_3d -/

/-- A loop over grids that also counts draws: iteration `i` consumes `c` draws
and overwrites exactly the cells with `key = i` satisfying `C`, with values
`T p` that depend on the draw count `p` at the start of the iteration. -/
theorem forRange_grid_pos (key : Int → Int → Int → Int) (C : Int → Int → Int → Prop)
    [∀ z y x, Decidable (C z y x)] (T : Nat → Grid) (c : Nat)
    (body : Int → Grid × Nat → Grid × Nat)
    (hb : ∀ i s, (body i s).2 = s.2 + c ∧ ∀ z y x, (body i s).1 z y x
      = if key z y x = i ∧ C z y x then T s.2 z y x else s.1 z y x)
    (lo hi : Int) (s : Grid × Nat) :
    (forRange lo hi body s).2 = s.2 + c * (hi - lo).toNat
      ∧ ∀ z y x, (forRange lo hi body s).1 z y x
          = if lo ≤ key z y x ∧ key z y x < hi ∧ C z y x
            then T (s.2 + c * (key z y x - lo).toNat) z y x else s.1 z y x := by
  by_cases hle : hi ≤ lo
  · rw [forRange_empty lo hi hle]
    have h0 : (hi - lo).toNat = 0 := by omega
    refine ⟨by rw [h0]; simp, fun z y x => ?_⟩
    rw [if_neg]
    intro h; omega
  · obtain ⟨n, rfl⟩ : ∃ n : Nat, hi = lo + (n : Int) := ⟨(hi - lo).toNat, by omega⟩
    clear hle
    induction n with
    | zero =>
      rw [forRange_empty lo _ (by simp)]
      refine ⟨by simp, fun z y x => ?_⟩
      rw [if_neg]
      intro h; simp at h; omega
    | succ n ih =>
      rw [forRange_succ]
      obtain ⟨ihp, ihg⟩ := ih
      obtain ⟨hbp, hbg⟩ := hb (lo + (n : Int)) (forRange lo (lo + (n : Int)) body s)
      have e1 : (lo + ((n + 1 : Nat) : Int) - lo).toNat = n + 1 := by omega
      have e2 : (lo + ((n : Nat) : Int) - lo).toNat = n := by omega
      rw [e2] at ihp
      constructor
      · rw [hbp, ihp, e1]
        ring
      · intro z y x
        rw [hbg, ihg, ihp]
        by_cases hC : C z y x
        · by_cases hk : key z y x = lo + (n : Int)
          · rw [if_pos ⟨hk, hC⟩, if_pos ⟨by omega, by push_cast; omega, hC⟩]
            have e3 : (key z y x - lo).toNat = n := by omega
            rw [e3]
          · rw [if_neg (fun h => hk h.1)]
            by_cases hr : lo ≤ key z y x ∧ key z y x < lo + (n : Int)
            · rw [if_pos ⟨hr.1, hr.2, hC⟩, if_pos ⟨hr.1, by push_cast; omega, hC⟩]
            · rw [if_neg (fun h => hr ⟨h.1, h.2.1⟩), if_neg]
              intro h; apply hr; refine ⟨h.1, ?_⟩
              have := h.2.1; push_cast at this; omega
        · rw [if_neg (fun h => hC h.2), if_neg (fun h => hC h.2.2), if_neg (fun h => hC h.2.2)]

/-- The seeding loops draw once per cell in storage order: cell `(z, y, x)` of
the volume is seeded from draw number `(z * height + y) * width + x` after the
starting count, and cells outside the volume are left alone. -/
theorem seed_cave_spec (cave : Cave) (rng : Nat → Nat) (mp : Grid × Nat) :
    (seed_cave cave rng mp).2
        = mp.2 + cave.width.toNat * cave.height.toNat * cave.depth.toNat
      ∧ ∀ z y x, (seed_cave cave rng mp).1 z y x
          = if (0 ≤ z ∧ z < cave.depth) ∧ (0 ≤ y ∧ y < cave.height) ∧ (0 ≤ x ∧ x < cave.width)
            then seed_value (rand rng (mp.2
              + ((z.toNat * cave.height.toNat + y.toNat) * cave.width.toNat + x.toNat)))
            else mp.1 z y x := by
  unfold seed_cave
  have hx : ∀ (i j : Int) (s : Grid × Nat),
      (forRange 0 cave.width (fun x (s : Grid × Nat) =>
          (setCell s.1 i j x (seed_value (rand rng s.2)), s.2 + 1)) s).2
          = s.2 + cave.width.toNat
        ∧ ∀ z y x, (forRange 0 cave.width (fun x (s : Grid × Nat) =>
            (setCell s.1 i j x (seed_value (rand rng s.2)), s.2 + 1)) s).1 z y x
            = if y = j ∧ (z = i ∧ (0 ≤ x ∧ x < cave.width))
              then seed_value (rand rng (s.2 + x.toNat)) else s.1 z y x := by
    intro i j s
    have h := forRange_grid_pos (fun _ _ x => x) (fun z y _ => z = i ∧ y = j)
      (fun p _ _ _ => seed_value (rand rng p)) 1
      (fun x (s : Grid × Nat) => (setCell s.1 i j x (seed_value (rand rng s.2)), s.2 + 1))
      (by
        intro k s
        refine ⟨rfl, fun z y x => ?_⟩
        show setCell s.1 i j k (seed_value (rand rng s.2)) z y x = _
        unfold setCell
        by_cases hc : z = i ∧ y = j ∧ x = k
        · rw [if_pos hc, if_pos ⟨hc.2.2, hc.1, hc.2.1⟩]
        · rw [if_neg hc, if_neg (fun h2 => hc ⟨h2.2.1, h2.2.2, h2.1⟩)])
      0 cave.width s
    simp only [sub_zero, one_mul] at h
    refine ⟨h.1, fun z y x => ?_⟩
    rw [h.2]
    apply if_congr _ rfl rfl
    constructor
    · rintro ⟨h1, h2, h3, h4⟩; exact ⟨h4, h3, h1, h2⟩
    · rintro ⟨h4, h3, h1, h2⟩; exact ⟨h1, h2, h3, h4⟩
  have hy : ∀ (i : Int) (s : Grid × Nat),
      (forRange 0 cave.height (fun y (s : Grid × Nat) =>
          forRange 0 cave.width (fun x (s : Grid × Nat) =>
            (setCell s.1 i y x (seed_value (rand rng s.2)), s.2 + 1)) s) s).2
          = s.2 + cave.width.toNat * cave.height.toNat
        ∧ ∀ z y x, (forRange 0 cave.height (fun y (s : Grid × Nat) =>
            forRange 0 cave.width (fun x (s : Grid × Nat) =>
              (setCell s.1 i y x (seed_value (rand rng s.2)), s.2 + 1)) s) s).1 z y x
            = if z = i ∧ ((0 ≤ y ∧ y < cave.height) ∧ (0 ≤ x ∧ x < cave.width))
              then seed_value (rand rng (s.2 + (y.toNat * cave.width.toNat + x.toNat)))
              else s.1 z y x := by
    intro i s
    have h := forRange_grid_pos (fun _ y _ => y) (fun z _ x => z = i ∧ (0 ≤ x ∧ x < cave.width))
      (fun p _ _ x => seed_value (rand rng (p + x.toNat))) cave.width.toNat
      (fun y (s : Grid × Nat) =>
        forRange 0 cave.width (fun x (s : Grid × Nat) =>
          (setCell s.1 i y x (seed_value (rand rng s.2)), s.2 + 1)) s)
      (fun j s => ⟨(hx i j s).1, (hx i j s).2⟩)
      0 cave.height s
    simp only [sub_zero] at h
    refine ⟨h.1, fun z y x => ?_⟩
    rw [h.2]
    by_cases hc : z = i ∧ ((0 ≤ y ∧ y < cave.height) ∧ (0 ≤ x ∧ x < cave.width))
    · rw [if_pos hc, if_pos ⟨hc.2.1.1, hc.2.1.2, hc.1, hc.2.2⟩]
      congr 2
      rw [Nat.mul_comm, Nat.add_assoc]
    · rw [if_neg hc, if_neg (fun h2 => hc ⟨h2.2.2.1, ⟨h2.1, h2.2.1⟩, h2.2.2.2⟩)]
  have h := forRange_grid_pos (fun z _ _ => z)
    (fun _ y x => (0 ≤ y ∧ y < cave.height) ∧ (0 ≤ x ∧ x < cave.width))
    (fun p _ y x => seed_value (rand rng (p + (y.toNat * cave.width.toNat + x.toNat))))
    (cave.width.toNat * cave.height.toNat)
    (fun z (s : Grid × Nat) =>
      forRange 0 cave.height (fun y (s : Grid × Nat) =>
        forRange 0 cave.width (fun x (s : Grid × Nat) =>
          (setCell s.1 z y x (seed_value (rand rng s.2)), s.2 + 1)) s) s)
    (fun i s => ⟨(hy i s).1, (hy i s).2⟩)
    0 cave.depth mp
  simp only [sub_zero] at h
  refine ⟨h.1, fun z y x => ?_⟩
  rw [h.2]
  by_cases hc : (0 ≤ z ∧ z < cave.depth) ∧ (0 ≤ y ∧ y < cave.height) ∧ (0 ≤ x ∧ x < cave.width)
  · rw [if_pos hc, if_pos ⟨hc.1.1, hc.1.2, hc.2⟩]
    congr 2
    rw [Nat.add_assoc]
    congr 1
    ring
  · rw [if_neg hc, if_neg (fun h2 => hc ⟨⟨h2.1, h2.2.1⟩, h2.2.2⟩)]

/-- The smoothing passes of generate_cave_3d keep the extents and every cell
of the faces `z = 0`, `z = depth-1`, `y = 0` and `y = height-1`. -/
theorem smooth_passes_frame (fresh : Nat → Grid) (c1 : Cave) (n : Int) (z y x : Int)
    (hface : ¬ ((1 ≤ z ∧ z < c1.depth - 1) ∧ (1 ≤ y ∧ y < c1.height - 1))) :
    (forRange 0 n (fun i c => smooth_cave (fresh i.toNat) c) c1).width = c1.width
      ∧ (forRange 0 n (fun i c => smooth_cave (fresh i.toNat) c) c1).height = c1.height
      ∧ (forRange 0 n (fun i c => smooth_cave (fresh i.toNat) c) c1).depth = c1.depth
      ∧ (forRange 0 n (fun i c => smooth_cave (fresh i.toNat) c) c1).map z y x = c1.map z y x := by
  apply forRange_invariant (fun c : Cave => c.width = c1.width ∧ c.height = c1.height
    ∧ c.depth = c1.depth ∧ c.map z y x = c1.map z y x)
  · intro i c _ _ hc
    refine ⟨hc.1, hc.2.1, hc.2.2.1, ?_⟩
    rw [smooth_cave_map, if_neg, hc.2.2.2]
    rw [hc.2.1, hc.2.2.1]
    exact fun h => hface ⟨h.1, h.2.1⟩
  · exact ⟨rfl, rfl, rfl, rfl⟩

theorem generate_normal_map_map (sqrtf : ℚ → ℚ) (cave : Cave) :
    (generate_normal_map sqrtf cave).map = cave.map
      ∧ (generate_normal_map sqrtf cave).width = cave.width
      ∧ (generate_normal_map sqrtf cave).height = cave.height
      ∧ (generate_normal_map sqrtf cave).depth = cave.depth := ⟨rfl, rfl, rfl, rfl⟩

theorem generate_height_map_map (cave : Cave) (pst : PerlinState) :
    (generate_height_map cave pst).1.map = cave.map
      ∧ (generate_height_map cave pst).1.width = cave.width
      ∧ (generate_height_map cave pst).1.height = cave.height
      ∧ (generate_height_map cave pst).1.depth = cave.depth := ⟨rfl, rfl, rfl, rfl⟩

/-- The voxel grid generate_cave_3d returns is the one carve_cave_interior
leaves: the height and normal map passes do not write it. -/
theorem generate_cave_3d_map (L : Libm) (sqrtf : ℚ → ℚ) (fresh : Nat → Grid)
    (pst : PerlinState) (cave : Cave) (rng : Nat → Nat) :
    (generate_cave_3d L sqrtf fresh pst cave rng).1.map
      = (carve_cave_interior L
          (forRange 0 SMOOTHING_ITERATIONS (fun i c => smooth_cave (fresh i.toNat) c)
            { cave with map := (seed_cave cave rng (cave.map, 0)).1 })
          rng (seed_cave cave rng (cave.map, 0)).2).1.map := by
  unfold generate_cave_3d
  simp only [(generate_normal_map_map _ _).1, (generate_height_map_map _ _).1]

/-- C13: for a 10x10x10 volume and every random stream, after the full
pipeline generate_cave_3d (seeding at 45%, 5 smoothing passes, carving, height
and normal maps) the centre cell (5,5,5) is EMPTY and the corner cell (0,0,0)
still holds the value it was seeded with: WALL iff its seeding draw (the first
draw of the stream) modulo 100 was below 45. -/
theorem generate_cave_3d_example (L : Libm) (sqrtf : ℚ → ℚ) (fresh : Nat → Grid)
    (pst : PerlinState) (cave : Cave) (rng : Nat → Nat)
    (hw : cave.width = 10) (hh : cave.height = 10) (hd : cave.depth = 10) :
    (generate_cave_3d L sqrtf fresh pst cave rng).1.map 5 5 5 = EMPTY
      ∧ (generate_cave_3d L sqrtf fresh pst cave rng).1.map 0 0 0
          = (seed_cave cave rng (cave.map, 0)).1 0 0 0
      ∧ ((generate_cave_3d L sqrtf fresh pst cave rng).1.map 0 0 0 = WALL
          ↔ (rng 0 : Int) % 100 < 45)
      ∧ ((generate_cave_3d L sqrtf fresh pst cave rng).1.map 0 0 0 = EMPTY
          ↔ ¬ (rng 0 : Int) % 100 < 45) := by
  have hmap := generate_cave_3d_map L sqrtf fresh pst cave rng
  have hsm := smooth_passes_frame fresh { cave with map := (seed_cave cave rng (cave.map, 0)).1 }
    SMOOTHING_ITERATIONS 0 0 0 (by simp)
  obtain ⟨hsw0, hsh0, hsd0, hcorner⟩ := hsm
  have hsw := hsw0.trans hw
  have hsh := hsh0.trans hh
  have hsd := hsd0.trans hd
  have hseed : (seed_cave cave rng (cave.map, 0)).1 0 0 0 = seed_value (rand rng 0) := by
    rw [(seed_cave_spec cave rng (cave.map, 0)).2, hw, hh, hd]
    simp
  have hc5 : (generate_cave_3d L sqrtf fresh pst cave rng).1.map 5 5 5 = EMPTY := by
    rw [hmap]
    rcases carve_cave_interior_carved L _ rng (seed_cave cave rng (cave.map, 0)).2 5 5 5
      with h | h
    · rw [h, carve_chamber_spec, hsw, hsh, hsd]
      apply if_pos
      refine ⟨by decide, by decide, by decide, by decide, ?_⟩
      rw [sqrtLt_cast_iff _ _ (by decide)]
      decide
    · exact h.2
  have hc0 : (generate_cave_3d L sqrtf fresh pst cave rng).1.map 0 0 0
      = (seed_cave cave rng (cave.map, 0)).1 0 0 0 := by
    rw [hmap]
    rcases carve_cave_interior_from_input L _ rng (seed_cave cave rng (cave.map, 0)).2 0 0 0
      with h | h
    · rw [h, hcorner]
    · exact absurd h.1.1 (by decide)
  refine ⟨hc5, hc0, ?_, ?_⟩
  · rw [hc0, hseed]
    unfold seed_value cmod rand WALL_THRESHOLD_PERCENTAGE WALL
    rw [Int.tmod_eq_emod (Int.ofNat_nonneg _) (by decide)]
    split <;> simp [*]
  · rw [hc0, hseed]
    unfold seed_value cmod rand WALL_THRESHOLD_PERCENTAGE EMPTY
    rw [Int.tmod_eq_emod (Int.ofNat_nonneg _) (by decide)]
    split <;> simp [*]

/-- C13, applied to the blank 10x10x10 volume with every draw equal to 7. -/
theorem generate_cave_3d_example_witness :
    blankCave10.width = 10
      ∧ (generate_cave_3d sampleLibm (fun _ => 1) (fun _ _ _ _ => 0) startStatics blankCave10
          (fun _ => 7)).1.map 5 5 5 = EMPTY
      ∧ (generate_cave_3d sampleLibm (fun _ => 1) (fun _ _ _ _ => 0) startStatics blankCave10
          (fun _ => 7)).1.map 0 0 0 = WALL :=
  ⟨rfl,
    (generate_cave_3d_example sampleLibm (fun _ => 1) (fun _ _ _ _ => 0) startStatics blankCave10
      (fun _ => 7) rfl rfl rfl).1,
    (generate_cave_3d_example sampleLibm (fun _ => 1) (fun _ _ _ _ => 0) startStatics blankCave10
      (fun _ => 7) rfl rfl rfl).2.2.1.2 (by decide)⟩

/-! ## respawn_gem -/

/-- One iteration of the respawn loop: accept the sample or go on. -/
theorem respawn_attempts_succ (L : Libm) (cave : Cave) (rng : Nat → Nat) (fuel pos : Nat)
    (g : Gem) :
    respawn_attempts L cave rng (fuel + 1) pos g
      = if respawn_ok cave (gem_sample cave rng pos) then
          ({ gem :=
              { g with
                x := voxel_to_world (gem_sample cave rng pos).1 cave.width,
                y := voxel_to_world (gem_sample cave rng pos).2.1 cave.height,
                z := voxel_to_world (gem_sample cave rng pos).2.2 cave.depth,
                collected := 0,
                bob_offset := ((cmod (rand rng (pos + 3)) 100 : Int) : ℚ) / 100 * 2 * L.M_PI }
             placed := some (gem_sample cave rng pos) }, pos + 4)
        else respawn_attempts L cave rng fuel (pos + 3) g := by
  conv_lhs => unfold respawn_attempts
  rfl

/-- Outcome of the respawn loop: the first accepted sample is written into
the gem, or no sample is accepted and the gem is returned as it was. -/
theorem respawn_attempts_cases (L : Libm) (cave : Cave) (rng : Nat → Nat) (fuel pos : Nat)
    (g : Gem) :
    (∃ a, a < fuel ∧ respawn_ok cave (gem_sample cave rng (pos + 3 * a))
        ∧ (∀ b, b < a → ¬ respawn_ok cave (gem_sample cave rng (pos + 3 * b)))
        ∧ respawn_attempts L cave rng fuel pos g
            = ({ gem :=
                  { g with
                    x := voxel_to_world (gem_sample cave rng (pos + 3 * a)).1 cave.width,
                    y := voxel_to_world (gem_sample cave rng (pos + 3 * a)).2.1 cave.height,
                    z := voxel_to_world (gem_sample cave rng (pos + 3 * a)).2.2 cave.depth,
                    collected := 0,
                    bob_offset :=
                      ((cmod (rand rng (pos + 3 * a + 3)) 100 : Int) : ℚ) / 100 * 2 * L.M_PI }
                 placed := some (gem_sample cave rng (pos + 3 * a)) }, pos + 3 * a + 4))
      ∨ ((∀ a, a < fuel → ¬ respawn_ok cave (gem_sample cave rng (pos + 3 * a)))
        ∧ respawn_attempts L cave rng fuel pos g
            = ({ gem := g, placed := none }, pos + 3 * fuel)) := by
  induction fuel generalizing pos with
  | zero =>
    right
    exact ⟨fun a ha => absurd ha (Nat.not_lt_zero a), rfl⟩
  | succ fuel ih =>
    rw [respawn_attempts_succ]
    by_cases hok : respawn_ok cave (gem_sample cave rng pos)
    · left
      refine ⟨0, Nat.succ_pos _, hok, fun b hb => absurd hb (Nat.not_lt_zero b), ?_⟩
      rw [if_pos hok]
      rfl
    · rw [if_neg hok]
      have shift : ∀ a : Nat, pos + 3 + 3 * a = pos + 3 * (a + 1) := fun a => by omega
      rcases ih (pos + 3) with ⟨a, ha, hoka, hfirst, hres⟩ | ⟨hnone, hres⟩
      · left
        refine ⟨a + 1, by omega, by rw [← shift]; exact hoka, ?_, ?_⟩
        · intro b hb
          cases b with
          | zero => exact hok
          | succ b => rw [← shift]; exact hfirst b (by omega)
        · rw [hres, shift]
      · right
        refine ⟨?_, ?_⟩
        · intro b hb
          cases b with
          | zero => exact hok
          | succ b => rw [← shift]; exact hnone b (by omega)
        · rw [hres]
          congr 1
          omega

/-- C15 (counterexample): on the solid 5x5x5 volume every sample of
respawn_gem is rejected, so a collected gem is returned still collected and at
its old position, which is not the world image of any EMPTY voxel. -/
theorem respawn_gem_exhausted_cex :
    (gemAt 9 9 9 3 1).collected ≠ 0
      ∧ (respawn_gem sampleLibm (gemAt 9 9 9 3 1) solidCave5 (fun _ => 2) 0).1.gem
          = gemAt 9 9 9 3 1
      ∧ (respawn_gem sampleLibm (gemAt 9 9 9 3 1) solidCave5 (fun _ => 2) 0).1.gem.collected = 1
      ∧ ¬ ((respawn_gem sampleLibm (gemAt 9 9 9 3 1) solidCave5 (fun _ => 2) 0).1.gem.collected
            = 0)
      ∧ ∀ z y x : Int, solidCave5.map z y x ≠ EMPTY := by
  have hres : (respawn_gem sampleLibm (gemAt 9 9 9 3 1) solidCave5 (fun _ => 2) 0).1.gem
      = gemAt 9 9 9 3 1 := by
    unfold respawn_gem
    rcases respawn_attempts_cases sampleLibm solidCave5 (fun _ => 2) 100 0 (gemAt 9 9 9 3 1) with
      ⟨a, _, hok, _, _⟩ | ⟨_, hres⟩
    · exact absurd hok.2.2.2.2.2.2 (by show ¬ ((1 : Int) = 0); decide)
    · rw [hres]
  refine ⟨by decide, hres, ?_, ?_, fun _ _ _ => by show ¬ ((1 : Int) = 0); decide⟩
  · rw [hres]; rfl
  · rw [hres]; decide

/-- C15 (amended): for every gem, cave and random stream, if one of the at most
100 voxels respawn_gem samples is EMPTY and at least 2 cells away from every
face, then after respawn_gem returns the gem's collected flag is false and its
position is the world image index/extent*10-5 of the first such sample, an
EMPTY voxel of the cave; if no sample is such a voxel the gem is returned
unchanged (a collected gem stays collected). -/
theorem respawn_gem_spec (L : Libm) (g : Gem) (cave : Cave) (rng : Nat → Nat) (pos : Nat) :
    (∃ a, a < 100 ∧ respawn_ok cave (gem_sample cave rng (pos + 3 * a))
        ∧ (∀ b, b < a → ¬ respawn_ok cave (gem_sample cave rng (pos + 3 * b)))
        ∧ (respawn_gem L g cave rng pos).1.placed = some (gem_sample cave rng (pos + 3 * a))
        ∧ (respawn_gem L g cave rng pos).1.gem.collected = 0
        ∧ cave.map (gem_sample cave rng (pos + 3 * a)).2.2 (gem_sample cave rng (pos + 3 * a)).2.1
            (gem_sample cave rng (pos + 3 * a)).1 = EMPTY
        ∧ (respawn_gem L g cave rng pos).1.gem.x
            = ((gem_sample cave rng (pos + 3 * a)).1 : ℚ) / (cave.width : ℚ) * 10 - 5
        ∧ (respawn_gem L g cave rng pos).1.gem.y
            = ((gem_sample cave rng (pos + 3 * a)).2.1 : ℚ) / (cave.height : ℚ) * 10 - 5
        ∧ (respawn_gem L g cave rng pos).1.gem.z
            = ((gem_sample cave rng (pos + 3 * a)).2.2 : ℚ) / (cave.depth : ℚ) * 10 - 5)
      ∨ ((∀ a, a < 100 → ¬ respawn_ok cave (gem_sample cave rng (pos + 3 * a)))
        ∧ (respawn_gem L g cave rng pos).1.placed = none
        ∧ (respawn_gem L g cave rng pos).1.gem = g) := by
  unfold respawn_gem
  rcases respawn_attempts_cases L cave rng 100 pos g with
    ⟨a, ha, hok, hfirst, hres⟩ | ⟨hnone, hres⟩
  · left
    refine ⟨a, ha, hok, hfirst, ?_⟩
    rw [hres]
    exact ⟨rfl, rfl, hok.2.2.2.2.2.2, rfl, rfl, rfl⟩
  · right
    rw [hres]
    exact ⟨hnone, rfl, rfl⟩

/-- C15 (amended), applied to the wall-free 5x5x5 volume with every draw equal
to 2: the collected gem is moved to the image of voxel (2,2,2). -/
theorem respawn_gem_spec_witness :
    (respawn_gem sampleLibm (gemAt 9 9 9 3 1) openCave5 (fun _ => 2) 0).1.placed
        = some (2, 2, 2)
      ∧ (respawn_gem sampleLibm (gemAt 9 9 9 3 1) openCave5 (fun _ => 2) 0).1.gem.collected = 0
      ∧ ((∃ a, a < 100 ∧ respawn_ok openCave5 (gem_sample openCave5 (fun _ => 2) (0 + 3 * a)))
          ∨ (respawn_gem sampleLibm (gemAt 9 9 9 3 1) openCave5 (fun _ => 2) 0).1.gem
              = gemAt 9 9 9 3 1) := by
  refine ⟨by decide, by decide, ?_⟩
  rcases respawn_gem_spec sampleLibm (gemAt 9 9 9 3 1) openCave5 (fun _ => 2) 0 with
    ⟨a, ha, hok, _⟩ | ⟨_, _, h⟩
  · exact Or.inl ⟨a, ha, hok⟩
  · exact Or.inr h

/-- The acceptance test of generate_gems implies that of respawn_gem. -/
theorem gem_ok_respawn_ok (cave : Cave) (t : Int × Int × Int) (h : gem_ok cave t) :
    respawn_ok cave t := h.1

/-- One iteration of the gem placement loop accepts exactly on `gem_ok`. -/
theorem gem_attempts_one (L : Libm) (cave : Cave) (rng : Nat → Nat) (pos : Nat) (g : Gem)
    (v : Int × Int × Int) :
    (gem_attempts L cave rng 1 pos g).1.placed = some v
      ↔ (v = gem_sample cave rng pos ∧ gem_ok cave (gem_sample cave rng pos)) := by
  unfold gem_attempts gem_attempts
  simp only []
  by_cases h1 : (cmod (rand rng pos) cave.width > 1 ∧ cmod (rand rng pos) cave.width < cave.width - 2
      ∧ cmod (rand rng (pos + 1)) cave.height > 1
      ∧ cmod (rand rng (pos + 1)) cave.height < cave.height - 2
      ∧ cmod (rand rng (pos + 2)) cave.depth > 1
      ∧ cmod (rand rng (pos + 2)) cave.depth < cave.depth - 2
      ∧ cave.map (cmod (rand rng (pos + 2)) cave.depth) (cmod (rand rng (pos + 1)) cave.height)
          (cmod (rand rng pos) cave.width) = 0)
  · rw [if_pos h1]
    by_cases h2 : gem_wall_nearby cave.map (cmod (rand rng (pos + 2)) cave.depth)
        (cmod (rand rng (pos + 1)) cave.height) (cmod (rand rng pos) cave.width) ≠ 0
    · rw [if_pos h2]
      simp only [Option.some.injEq]
      constructor
      · intro h; exact ⟨h.symm, h1, h2⟩
      · intro h; exact h.1.symm
    · rw [if_neg h2]
      constructor
      · intro h; exact Option.noConfusion h
      · intro h; exact absurd h.2.2 h2
  · rw [if_neg h1]
    constructor
    · intro h; exact Option.noConfusion h
    · intro h; exact absurd h.2.1 h1

/-- One iteration of the respawn loop accepts exactly on `respawn_ok`. -/
theorem respawn_attempts_one (L : Libm) (cave : Cave) (rng : Nat → Nat) (pos : Nat) (g : Gem)
    (v : Int × Int × Int) :
    (respawn_attempts L cave rng 1 pos g).1.placed = some v
      ↔ (v = gem_sample cave rng pos ∧ respawn_ok cave (gem_sample cave rng pos)) := by
  rw [respawn_attempts_succ]
  by_cases h : respawn_ok cave (gem_sample cave rng pos)
  · rw [if_pos h]
    simp only [Option.some.injEq]
    constructor
    · intro h2; exact ⟨h2.symm, h⟩
    · intro h2; exact h2.1.symm
  · rw [if_neg h]
    unfold respawn_attempts
    simp [h]

/-- C16: there are a cave (the wall-free 5x5x5 volume) and a random stream for
which respawn_gem moves a gem to the EMPTY voxel (2,2,2), none of whose 26
neighbours is WALL, a voxel at which generate_gems places no slot for any
random stream; and on any sample the acceptance test of generate_gems implies
that of respawn_gem, so respawn accepts a strict superset of the voxels that
initial gem placement accepts. -/
theorem respawn_gem_relaxes_adjacency :
    (∃ (cave : Cave) (rng : Nat → Nat) (x y z : Int),
        (respawn_gem sampleLibm (gemAt 9 9 9 3 1) cave rng 0).1.placed = some (x, y, z)
          ∧ (respawn_gem sampleLibm (gemAt 9 9 9 3 1) cave rng 0).1.gem.x
              = (x : ℚ) / (cave.width : ℚ) * 10 - 5
          ∧ (respawn_gem sampleLibm (gemAt 9 9 9 3 1) cave rng 0).1.gem.y
              = (y : ℚ) / (cave.height : ℚ) * 10 - 5
          ∧ (respawn_gem sampleLibm (gemAt 9 9 9 3 1) cave rng 0).1.gem.z
              = (z : ℚ) / (cave.depth : ℚ) * 10 - 5
          ∧ cave.map z y x = EMPTY
          ∧ (∀ d ∈ offsets26, cave.map (z + d.1) (y + d.2.1) (x + d.2.2) ≠ WALL)
          ∧ respawn_ok cave (x, y, z) ∧ ¬ gem_ok cave (x, y, z)
          ∧ ∀ (L : Libm) (count : Int) (fresh : Nat → Gem) (rng' : Nat → Nat) (pos : Nat)
              (slot : GemSlot), slot ∈ (generate_gems L cave count fresh rng' pos).1 →
              slot.placed ≠ some (x, y, z))
      ∧ (∀ (cave : Cave) (t : Int × Int × Int), gem_ok cave t → respawn_ok cave t)
      ∧ (∀ (L : Libm) (cave : Cave) (rng : Nat → Nat) (pos : Nat) (g g' : Gem)
            (v : Int × Int × Int),
          (gem_attempts L cave rng 1 pos g).1.placed = some v →
            (respawn_attempts L cave rng 1 pos g').1.placed = some v) := by
  refine ⟨⟨openCave5, fun _ => 2, 2, 2, 2, by decide, rfl, rfl, rfl, rfl, by decide, by decide,
    by decide, ?_⟩, gem_ok_respawn_ok, ?_⟩
  · intro L count fresh rng' pos slot hmem hp
    obtain ⟨p, g, rfl⟩ := generate_gems_slots L openCave5 count fresh rng' pos slot hmem
    have h := (gem_attempts_placed L openCave5 rng' 100 p g 2 2 2 hp).2.1
    obtain ⟨d, _, hw⟩ := (gem_wall_nearby_ne_zero _ _ _ _).1 h
    exact absurd hw (by show ¬ ((0 : Int) = 1); decide)
  · intro L cave rng pos g g' v h
    rw [respawn_attempts_one]
    rw [gem_attempts_one] at h
    exact ⟨h.1, h.2.1⟩

/-! ## generate_crystals and generate_gems: budget and unwritten slots -/

/-- An invariant that may mention the loop counter. -/
theorem forRange_invariant_idx {σ : Type} (P : Int → σ → Prop) (lo hi : Int) (hle : lo ≤ hi)
    (body : Int → σ → σ)
    (hb : ∀ i s, lo ≤ i → i < hi → P i s → P (i + 1) (body i s)) (s : σ) (hs : P lo s) :
    P hi (forRange lo hi body s) := by
  obtain ⟨n, rfl⟩ : ∃ n : Nat, hi = lo + (n : Int) := ⟨(hi - lo).toNat, by omega⟩
  clear hle
  induction n with
  | zero =>
    rw [forRange_empty lo _ (by simp)]
    simpa using hs
  | succ n ih =>
    rw [forRange_succ]
    have h := hb (lo + (n : Int)) (forRange lo (lo + (n : Int)) body s) (by omega)
      (by push_cast; omega) (ih (fun i s h1 h2 => hb i s h1 (by push_cast; omega)))
    have e : lo + ((n + 1 : Nat) : Int) = lo + (n : Int) + 1 := by push_cast; ring
    rw [e]
    exact h

theorem crystal_attempts_budget (L : Libm) (cave : Cave) (rng : Nat → Nat) (fuel pos : Nat)
    (c : Crystal) : (crystal_attempts L cave rng fuel pos c).2 ≤ pos + 3 * fuel + 4 := by
  induction fuel generalizing pos with
  | zero => simp [crystal_attempts]
  | succ fuel ih =>
    unfold crystal_attempts
    simp only []
    have h := ih (pos + 3)
    split
    · split
      · show pos + 7 ≤ _
        omega
      · omega
    · omega

theorem gem_attempts_budget (L : Libm) (cave : Cave) (rng : Nat → Nat) (fuel pos : Nat)
    (g : Gem) : (gem_attempts L cave rng fuel pos g).2 ≤ pos + 3 * fuel + 4 := by
  induction fuel generalizing pos with
  | zero => simp [gem_attempts]
  | succ fuel ih =>
    unfold gem_attempts
    simp only []
    have h := ih (pos + 3)
    split
    · split
      · show pos + 7 ≤ _
        omega
      · omega
    · omega

/-- A search loop that accepted no sample leaves the slot as `malloc` gave it. -/
theorem crystal_attempts_unplaced (L : Libm) (cave : Cave) (rng : Nat → Nat) (fuel pos : Nat)
    (c : Crystal) (h : (crystal_attempts L cave rng fuel pos c).1.placed = none) :
    (crystal_attempts L cave rng fuel pos c).1.crystal = c := by
  induction fuel generalizing pos with
  | zero => rfl
  | succ fuel ih =>
    unfold crystal_attempts at h ⊢
    simp only [] at h ⊢
    split
    · rename_i hin
      rw [if_pos hin] at h
      split
      · rename_i hw
        rw [if_pos hw] at h
        exact Option.noConfusion h
      · rename_i hw
        rw [if_neg hw] at h
        exact ih _ h
    · rename_i hin
      rw [if_neg hin] at h
      exact ih _ h

/-- A search loop that accepted no sample leaves the slot as `malloc` gave it. -/
theorem gem_attempts_unplaced (L : Libm) (cave : Cave) (rng : Nat → Nat) (fuel pos : Nat)
    (g : Gem) (h : (gem_attempts L cave rng fuel pos g).1.placed = none) :
    (gem_attempts L cave rng fuel pos g).1.gem = g := by
  induction fuel generalizing pos with
  | zero => rfl
  | succ fuel ih =>
    unfold gem_attempts at h ⊢
    simp only [] at h ⊢
    split
    · rename_i hin
      rw [if_pos hin] at h
      split
      · rename_i hw
        rw [if_pos hw] at h
        exact Option.noConfusion h
      · rename_i hw
        rw [if_neg hw] at h
        exact ih _ h
    · rename_i hin
      rw [if_neg hin] at h
      exact ih _ h

/-- Without a WALL cell the crystal search accepts no sample. -/
theorem crystal_attempts_no_wall (L : Libm) (cave : Cave) (rng : Nat → Nat) (fuel pos : Nat)
    (c : Crystal) (hno : ∀ z y x, cave.map z y x ≠ WALL) :
    (crystal_attempts L cave rng fuel pos c).1.placed = none := by
  cases hpl : (crystal_attempts L cave rng fuel pos c).1.placed with
  | none => rfl
  | some v =>
    obtain ⟨x, y, z⟩ := v
    obtain ⟨d, _, hw⟩ := (crystal_wall_nearby_ne_zero _ _ _ _).1
      (crystal_attempts_placed L cave rng fuel pos c x y z hpl).2
    exact absurd hw (hno _ _ _)

/-- Without a WALL cell the gem search accepts no sample. -/
theorem gem_attempts_no_wall (L : Libm) (cave : Cave) (rng : Nat → Nat) (fuel pos : Nat)
    (g : Gem) (hno : ∀ z y x, cave.map z y x ≠ WALL) :
    (gem_attempts L cave rng fuel pos g).1.placed = none := by
  cases hpl : (gem_attempts L cave rng fuel pos g).1.placed with
  | none => rfl
  | some v =>
    obtain ⟨x, y, z⟩ := v
    obtain ⟨d, _, hw⟩ := (gem_wall_nearby_ne_zero _ _ _ _).1
      (gem_attempts_placed L cave rng fuel pos g x y z hpl).2.1
    exact absurd hw (hno _ _ _)

/-- Slot `j` of generate_crystals is the outcome of one 100-attempt search
started on the content `fresh j`; there are `count` slots and at most 304
draws are consumed per slot. -/
theorem generate_crystals_indexed (L : Libm) (cave : Cave) (count : Int)
    (fresh : Nat → Crystal) (rng : Nat → Nat) (pos : Nat) :
    (generate_crystals L cave count fresh rng pos).1.length = count.toNat
      ∧ (generate_crystals L cave count fresh rng pos).2 ≤ pos + 304 * count.toNat
      ∧ ∀ (j : Nat) (slot : CrystalSlot),
          (generate_crystals L cave count fresh rng pos).1[j]? = some slot →
          ∃ p, slot = (crystal_attempts L cave rng 100 p (fresh j)).1 := by
  by_cases hc : 0 ≤ count
  · have h := forRange_invariant_idx (fun (i : Int) (acc : List CrystalSlot × Nat) =>
        acc.1.length = i.toNat ∧ acc.2 ≤ pos + 304 * i.toNat
          ∧ ∀ (j : Nat) (slot : CrystalSlot), acc.1[j]? = some slot →
              ∃ p, slot = (crystal_attempts L cave rng 100 p (fresh j)).1)
      0 count hc
      (fun i (acc : List CrystalSlot × Nat) =>
        ((acc.1 ++ [(crystal_attempts L cave rng 100 acc.2 (fresh i.toNat)).1],
          (crystal_attempts L cave rng 100 acc.2 (fresh i.toNat)).2) : List CrystalSlot × Nat))
      (by
        intro i acc hi0 _ hacc
        obtain ⟨hlen, hpos, hslots⟩ := hacc
        have e : (i + 1).toNat = i.toNat + 1 := by omega
        refine ⟨by simp [hlen, e], ?_, ?_⟩
        · have hb := crystal_attempts_budget L cave rng 100 acc.2 (fresh i.toNat)
          simp only
          rw [e]
          omega
        · intro j slot hj
          simp only at hj
          by_cases hjl : j < acc.1.length
          · rw [List.getElem?_append_left hjl] at hj
            exact hslots j slot hj
          · have hjlen : j < (acc.1 ++ [(crystal_attempts L cave rng 100 acc.2
                (fresh i.toNat)).1]).length := by
              by_contra hge
              rw [List.getElem?_eq_none (by omega)] at hj
              exact Option.noConfusion hj
            simp only [List.length_append, List.length_singleton] at hjlen
            have hje : j = acc.1.length := by omega
            subst hje
            rw [List.getElem?_append_right (le_refl _)] at hj
            simp only [Nat.sub_self, List.getElem?_cons_zero, Option.some.injEq] at hj
            rw [hlen]
            exact ⟨acc.2, hj.symm⟩)
      ([], pos) ⟨rfl, by simp, fun j slot hj => by simp at hj⟩
    exact h
  · have he : generate_crystals L cave count fresh rng pos = ([], pos) := by
      unfold generate_crystals
      exact forRange_empty 0 count (by omega) _ _
    rw [he]
    have h0 : count.toNat = 0 := by omega
    rw [h0]
    exact ⟨rfl, by simp, fun j slot hj => by simp at hj⟩

/-- Slot `j` of generate_gems is the outcome of one 100-attempt search started
on the content `fresh j`; there are `count` slots and at most 304 draws are
consumed per slot. -/
theorem generate_gems_indexed (L : Libm) (cave : Cave) (count : Int)
    (fresh : Nat → Gem) (rng : Nat → Nat) (pos : Nat) :
    (generate_gems L cave count fresh rng pos).1.length = count.toNat
      ∧ (generate_gems L cave count fresh rng pos).2 ≤ pos + 304 * count.toNat
      ∧ ∀ (j : Nat) (slot : GemSlot),
          (generate_gems L cave count fresh rng pos).1[j]? = some slot →
          ∃ p, slot = (gem_attempts L cave rng 100 p (fresh j)).1 := by
  by_cases hc : 0 ≤ count
  · have h := forRange_invariant_idx (fun (i : Int) (acc : List GemSlot × Nat) =>
        acc.1.length = i.toNat ∧ acc.2 ≤ pos + 304 * i.toNat
          ∧ ∀ (j : Nat) (slot : GemSlot), acc.1[j]? = some slot →
              ∃ p, slot = (gem_attempts L cave rng 100 p (fresh j)).1)
      0 count hc
      (fun i (acc : List GemSlot × Nat) =>
        ((acc.1 ++ [(gem_attempts L cave rng 100 acc.2 (fresh i.toNat)).1],
          (gem_attempts L cave rng 100 acc.2 (fresh i.toNat)).2) : List GemSlot × Nat))
      (by
        intro i acc hi0 _ hacc
        obtain ⟨hlen, hpos, hslots⟩ := hacc
        have e : (i + 1).toNat = i.toNat + 1 := by omega
        refine ⟨by simp [hlen, e], ?_, ?_⟩
        · have hb := gem_attempts_budget L cave rng 100 acc.2 (fresh i.toNat)
          simp only
          rw [e]
          omega
        · intro j slot hj
          simp only at hj
          by_cases hjl : j < acc.1.length
          · rw [List.getElem?_append_left hjl] at hj
            exact hslots j slot hj
          · have hjlen : j < (acc.1 ++ [(gem_attempts L cave rng 100 acc.2
                (fresh i.toNat)).1]).length := by
              by_contra hge
              rw [List.getElem?_eq_none (by omega)] at hj
              exact Option.noConfusion hj
            simp only [List.length_append, List.length_singleton] at hjlen
            have hje : j = acc.1.length := by omega
            subst hje
            rw [List.getElem?_append_right (le_refl _)] at hj
            simp only [Nat.sub_self, List.getElem?_cons_zero, Option.some.injEq] at hj
            rw [hlen]
            exact ⟨acc.2, hj.symm⟩)
      ([], pos) ⟨rfl, by simp, fun j slot hj => by simp at hj⟩
    exact h
  · have he : generate_gems L cave count fresh rng pos = ([], pos) := by
      unfold generate_gems
      exact forRange_empty 0 count (by omega) _ _
    rw [he]
    have h0 : count.toNat = 0 := by omega
    rw [h0]
    exact ⟨rfl, by simp, fun j slot hj => by simp at hj⟩

/-- C17: for every cave with positive extents, every count >= 0 and every
random stream, generate_crystals and generate_gems return an array of exactly
`count` slots after at most 100 sampling attempts per slot (at most 304 draws
of `rand()` per slot: 100 samples of 3 draws and 4 attribute draws, every
sampled x, y index lying inside the extent); a slot whose samples are all
rejected is not written (it keeps the content `fresh i` the allocation
provided); on a cave with no WALL cell neither function writes any slot. -/
theorem generate_slots_budget (L : Libm) (cave : Cave) (count : Int)
    (freshC : Nat → Crystal) (freshG : Nat → Gem) (rng : Nat → Nat) (pos : Nat)
    (hcount : 0 ≤ count) (hw : 0 < cave.width) (hh : 0 < cave.height) (hd : 0 < cave.depth) :
    (((generate_crystals L cave count freshC rng pos).1.length : Int) = count
        ∧ (generate_crystals L cave count freshC rng pos).2 ≤ pos + 304 * count.toNat
        ∧ (∀ (i : Nat) (slot : CrystalSlot),
            (generate_crystals L cave count freshC rng pos).1[i]? = some slot →
            slot.placed = none → slot.crystal = freshC i)
        ∧ ((∀ z y x, cave.map z y x ≠ WALL) → ∀ (i : Nat) (slot : CrystalSlot),
            (generate_crystals L cave count freshC rng pos).1[i]? = some slot →
            slot.placed = none ∧ slot.crystal = freshC i))
      ∧ (((generate_gems L cave count freshG rng pos).1.length : Int) = count
        ∧ (generate_gems L cave count freshG rng pos).2 ≤ pos + 304 * count.toNat
        ∧ (∀ (i : Nat) (slot : GemSlot),
            (generate_gems L cave count freshG rng pos).1[i]? = some slot →
            slot.placed = none → slot.gem = freshG i)
        ∧ ((∀ z y x, cave.map z y x ≠ WALL) → ∀ (i : Nat) (slot : GemSlot),
            (generate_gems L cave count freshG rng pos).1[i]? = some slot →
            slot.placed = none ∧ slot.gem = freshG i))
      ∧ (∀ p : Nat, (0 ≤ (gem_sample cave rng p).1 ∧ (gem_sample cave rng p).1 < cave.width)
          ∧ (0 ≤ (gem_sample cave rng p).2.1 ∧ (gem_sample cave rng p).2.1 < cave.height)
          ∧ (0 ≤ (gem_sample cave rng p).2.2 ∧ (gem_sample cave rng p).2.2 < cave.depth)) := by
  obtain ⟨hcl, hcp, hcs⟩ := generate_crystals_indexed L cave count freshC rng pos
  obtain ⟨hgl, hgp, hgs⟩ := generate_gems_indexed L cave count freshG rng pos
  refine ⟨⟨by rw [hcl]; omega, hcp, ?_, ?_⟩, ⟨by rw [hgl]; omega, hgp, ?_, ?_⟩, ?_⟩
  · intro i slot hslot hp
    obtain ⟨p, rfl⟩ := hcs i slot hslot
    exact crystal_attempts_unplaced L cave rng 100 p (freshC i) hp
  · intro hno i slot hslot
    obtain ⟨p, rfl⟩ := hcs i slot hslot
    have hp := crystal_attempts_no_wall L cave rng 100 p (freshC i) hno
    exact ⟨hp, crystal_attempts_unplaced L cave rng 100 p (freshC i) hp⟩
  · intro i slot hslot hp
    obtain ⟨p, rfl⟩ := hgs i slot hslot
    exact gem_attempts_unplaced L cave rng 100 p (freshG i) hp
  · intro hno i slot hslot
    obtain ⟨p, rfl⟩ := hgs i slot hslot
    have hp := gem_attempts_no_wall L cave rng 100 p (freshG i) hno
    exact ⟨hp, gem_attempts_unplaced L cave rng 100 p (freshG i) hp⟩
  · intro p
    exact ⟨cmod_rand_bounds rng p cave.width hw, cmod_rand_bounds rng (p + 1) cave.height hh,
      cmod_rand_bounds rng (p + 2) cave.depth hd⟩

/-- C17, applied to the wall-free 5x5x5 volume with count 2. -/
theorem generate_slots_budget_witness :
    (0 : Int) ≤ 2 ∧ 0 < openCave5.width
      ∧ ((generate_crystals sampleLibm openCave5 2 (fun _ => zeroCrystal) (fun _ => 2) 0).1.length
          : Int) = 2
      ∧ ((generate_gems sampleLibm openCave5 2 (fun _ => zeroGem) (fun _ => 2) 0).1.length
          : Int) = 2
      ∧ (∀ (i : Nat) (slot : GemSlot),
          (generate_gems sampleLibm openCave5 2 (fun _ => zeroGem) (fun _ => 2) 0).1[i]?
            = some slot → slot.placed = none ∧ slot.gem = zeroGem) :=
  ⟨by decide, by decide,
    (generate_slots_budget sampleLibm openCave5 2 (fun _ => zeroCrystal) (fun _ => zeroGem)
      (fun _ => 2) 0 (by decide) (by decide) (by decide) (by decide)).1.1,
    (generate_slots_budget sampleLibm openCave5 2 (fun _ => zeroCrystal) (fun _ => zeroGem)
      (fun _ => 2) 0 (by decide) (by decide) (by decide) (by decide)).2.1.1,
    (generate_slots_budget sampleLibm openCave5 2 (fun _ => zeroCrystal) (fun _ => zeroGem)
      (fun _ => 2) 0 (by decide) (by decide) (by decide) (by decide)).2.1.2.2.2
      (fun _ _ _ => by show ¬ ((0 : Int) = 1); decide)⟩

/-! ## generate_gems: type, flag and colour of a placed gem -/

theorem gem_attempts_attrs (L : Libm) (cave : Cave) (rng : Nat → Nat) (fuel pos : Nat)
    (g : Gem) (v : Int × Int × Int)
    (hp : (gem_attempts L cave rng fuel pos g).1.placed = some v) :
    (∃ p, (gem_attempts L cave rng fuel pos g).1.gem.type = cmod (rand rng p) 10)
      ∧ (gem_attempts L cave rng fuel pos g).1.gem.collected = 0
      ∧ (gem_attempts L cave rng fuel pos g).1.gem.color
          = gem_color (gem_attempts L cave rng fuel pos g).1.gem.type g.color := by
  induction fuel generalizing pos with
  | zero => simp [gem_attempts] at hp
  | succ fuel ih =>
    unfold gem_attempts at hp ⊢
    simp only [] at hp ⊢
    split
    · rename_i hin
      rw [if_pos hin] at hp
      split
      · exact ⟨⟨pos + 5, rfl⟩, rfl, rfl⟩
      · rename_i hw
        rw [if_neg hw] at hp
        exact ih _ hp
    · rename_i hin
      rw [if_neg hin] at hp
      exact ih _ hp

/-- For a type in 0..9 the colour `switch` yields the palette entry of that
type, whatever the slot held before. -/
theorem gem_color_palette (t : Int) (old : ℚ × ℚ × ℚ) (h0 : 0 ≤ t) (h9 : t ≤ 9) :
    gemPalette[t.toNat]? = some (gem_color t old) := by
  have h : t = 0 ∨ t = 1 ∨ t = 2 ∨ t = 3 ∨ t = 4 ∨ t = 5 ∨ t = 6 ∨ t = 7 ∨ t = 8 ∨ t = 9 := by
    omega
  rcases h with rfl | rfl | rfl | rfl | rfl | rfl | rfl | rfl | rfl | rfl <;> rfl

theorem generate_gems_slot_attrs (L : Libm) (cave : Cave) (count : Int)
    (fresh : Nat → Gem) (rng : Nat → Nat) (pos : Nat) (i : Nat) (slot : GemSlot)
    (v : Int × Int × Int)
    (hslot : (generate_gems L cave count fresh rng pos).1[i]? = some slot)
    (hp : slot.placed = some v) :
    (0 ≤ slot.gem.type ∧ slot.gem.type ≤ 9) ∧ slot.gem.collected = 0
      ∧ gemPalette[slot.gem.type.toNat]? = some slot.gem.color := by
  obtain ⟨p, g, rfl⟩ := generate_gems_slots L cave count fresh rng pos slot
    (List.getElem?_mem hslot)
  obtain ⟨⟨q, hq⟩, hcol, hcolor⟩ := gem_attempts_attrs L cave rng 100 p g v hp
  have hb := cmod_rand_bounds rng q 10 (by decide)
  rw [← hq] at hb
  refine ⟨⟨hb.1, by omega⟩, hcol, ?_⟩
  rw [hcolor]
  exact gem_color_palette _ _ hb.1 (by omega)

/-- C18: every gem slot that generate_gems populates has type in 0..9,
collected = false, and the colour that the 10-entry palette gives for its type
(0 Ruby (1,0.2,0.2), 1 Emerald (0.2,1,0.2), 2 Sapphire (0.2,0.2,1), ...,
9 Rose Quartz (1,0.6,0.8)); so two placed gems of the same type, from any two
runs, have the same colour. -/
theorem generate_gems_attributes (L : Libm) (cave : Cave) (count : Int)
    (fresh : Nat → Gem) (rng : Nat → Nat) (pos : Nat) (i : Nat) (slot : GemSlot)
    (v : Int × Int × Int)
    (hslot : (generate_gems L cave count fresh rng pos).1[i]? = some slot)
    (hp : slot.placed = some v) :
    (0 ≤ slot.gem.type ∧ slot.gem.type ≤ 9) ∧ slot.gem.collected = 0
      ∧ gemPalette[slot.gem.type.toNat]? = some slot.gem.color
      ∧ (gemPalette.length = 10 ∧ gemPalette[0]? = some (1, 1 / 5, 1 / 5)
          ∧ gemPalette[1]? = some (1 / 5, 1, 1 / 5) ∧ gemPalette[2]? = some (1 / 5, 1 / 5, 1)
          ∧ gemPalette[9]? = some (1, 3 / 5, 4 / 5))
      ∧ (∀ (L' : Libm) (cave' : Cave) (count' : Int) (fresh' : Nat → Gem) (rng' : Nat → Nat)
            (pos' : Nat) (j : Nat) (slot' : GemSlot) (v' : Int × Int × Int),
          (generate_gems L' cave' count' fresh' rng' pos').1[j]? = some slot' →
          slot'.placed = some v' → slot'.gem.type = slot.gem.type →
          slot'.gem.color = slot.gem.color) := by
  obtain ⟨ht, hc, hcol⟩ := generate_gems_slot_attrs L cave count fresh rng pos i slot v hslot hp
  refine ⟨ht, hc, hcol, ⟨rfl, rfl, rfl, rfl, rfl⟩, ?_⟩
  intro L' cave' count' fresh' rng' pos' j slot' v' hslot' hp' hty
  have h' := (generate_gems_slot_attrs L' cave' count' fresh' rng' pos' j slot' v' hslot' hp').2.2
  rw [hty, hcol] at h'
  exact (Option.some.inj h').symm

/-- C18, applied to slot 0 generated on `pocketCave5` with every draw equal to 2. -/
theorem generate_gems_attributes_witness :
    (gem_attempts sampleLibm pocketCave5 (fun _ => 2) 100 0 zeroGem).1.placed = some (2, 2, 2)
      ∧ (gem_attempts sampleLibm pocketCave5 (fun _ => 2) 100 0 zeroGem).1.gem.type = 2
      ∧ (gem_attempts sampleLibm pocketCave5 (fun _ => 2) 100 0 zeroGem).1.gem.collected = 0
      ∧ gemPalette[(gem_attempts sampleLibm pocketCave5 (fun _ => 2) 100 0 zeroGem).1.gem.type.toNat]?
          = some (gem_attempts sampleLibm pocketCave5 (fun _ => 2) 100 0 zeroGem).1.gem.color :=
  ⟨rfl, rfl,
    (generate_gems_attributes sampleLibm pocketCave5 1 (fun _ => zeroGem) (fun _ => 2) 0 0 _
      (2, 2, 2) rfl rfl).2.1,
    (generate_gems_attributes sampleLibm pocketCave5 1 (fun _ => zeroGem) (fun _ => 2) 0 0 _
      (2, 2, 2) rfl rfl).2.2.1⟩

/-! ## fractal_noise_3d -/

theorem init_perlin_of_initialized (st : PerlinState) (h : st.initialized ≠ 0) :
    init_perlin st = st := by
  unfold init_perlin
  rw [if_neg h]

theorem init_perlin_initialized (st : PerlinState) : (init_perlin st).initialized ≠ 0 := by
  unfold init_perlin
  split
  · simp
  · assumption

theorem init_perlin_idem (st : PerlinState) : init_perlin (init_perlin st) = init_perlin st :=
  init_perlin_of_initialized _ (init_perlin_initialized st)

/-- After any call the noise value no longer depends on which call it is. -/
theorem perlin_noise_3d_after (st : PerlinState) (a b c x y z : ℚ) :
    (perlin_noise_3d (perlin_noise_3d st a b c).2 x y z).1 = (perlin_noise_3d st x y z).1 := by
  unfold perlin_noise_3d
  simp only [init_perlin_idem]

/-- State of the octave loop after `n` iterations. -/
theorem fractal_loop_spec (st : PerlinState) (x y z : ℚ) (persistence : ℚ) (n : Nat) :
    (fractal_loop st x y z (n : Int) persistence).total
        = Finset.sum (Finset.range n) (fun i =>
            persistence ^ i * (perlin_noise_3d st (2 ^ i * x) (2 ^ i * y) (2 ^ i * z)).1)
      ∧ (fractal_loop st x y z (n : Int) persistence).maxValue
        = Finset.sum (Finset.range n) (fun i => persistence ^ i)
      ∧ (fractal_loop st x y z (n : Int) persistence).amplitude = persistence ^ n
      ∧ (fractal_loop st x y z (n : Int) persistence).frequency = 2 ^ n
      ∧ ∀ a b c, (perlin_noise_3d (fractal_loop st x y z (n : Int) persistence).st a b c).1
          = (perlin_noise_3d st a b c).1 := by
  unfold fractal_loop
  induction n with
  | zero =>
    rw [forRange_empty 0 _ (by simp)]
    simp
  | succ n ih =>
    have e : ((n + 1 : Nat) : Int) = 0 + ((n + 1 : Nat) : Int) := by simp
    have e0 : (0 : Int) + ((n : Nat) : Int) = ((n : Nat) : Int) := by simp
    rw [e, forRange_succ, e0]
    obtain ⟨ht, hm, ha, hf, hs⟩ := ih
    refine ⟨?_, ?_, ?_, ?_, ?_⟩
    · simp only
      rw [Finset.sum_range_succ, ht, ha, hf, hs, mul_comm x (2 ^ n), mul_comm y (2 ^ n),
        mul_comm z (2 ^ n)]
      ring
    · simp only
      rw [Finset.sum_range_succ, hm, ha]
    · simp only
      rw [ha, pow_succ]
    · simp only
      rw [hf, pow_succ]
    · intro a b c
      simp only
      rw [perlin_noise_3d_after, hs]

theorem geom_sum_pos (persistence : ℚ) (hp : 0 ≤ persistence) (n : Nat) (hn : 1 ≤ n) :
    1 ≤ Finset.sum (Finset.range n) (fun i => persistence ^ i) := by
  obtain ⟨m, rfl⟩ : ∃ m, n = m + 1 := ⟨n - 1, by omega⟩
  rw [Finset.sum_range_succ']
  have h : 0 ≤ Finset.sum (Finset.range m) (fun i => persistence ^ (i + 1)) :=
    Finset.sum_nonneg (fun i _ => pow_nonneg hp _)
  simp only [pow_zero]
  linarith

/-- C19: for octaves >= 1 and persistence >= 0, fractal_noise_3d equals, in
exact arithmetic, (sum over i < octaves of persistence^i *
perlin_noise_3d(2^i x, 2^i y, 2^i z)) divided by (sum over i < octaves of
persistence^i), a positive divisor; it therefore lies in [-B,B] whenever every
octave sample does, and equals perlin_noise_3d(x,y,z) when octaves = 1. -/
theorem fractal_noise_3d_formula (st : PerlinState) (x y z : ℚ) (octaves : Int)
    (persistence : ℚ) (ho : 1 ≤ octaves) (hp : 0 ≤ persistence) :
    (fractal_noise_3d st x y z octaves persistence).1
        = Finset.sum (Finset.range octaves.toNat) (fun i =>
            persistence ^ i * (perlin_noise_3d st (2 ^ i * x) (2 ^ i * y) (2 ^ i * z)).1)
          / Finset.sum (Finset.range octaves.toNat) (fun i => persistence ^ i)
      ∧ 0 < Finset.sum (Finset.range octaves.toNat) (fun i => persistence ^ i)
      ∧ (∀ B : ℚ, (∀ i, i < octaves.toNat →
            |(perlin_noise_3d st (2 ^ i * x) (2 ^ i * y) (2 ^ i * z)).1| ≤ B) →
          |(fractal_noise_3d st x y z octaves persistence).1| ≤ B)
      ∧ (octaves = 1 →
          (fractal_noise_3d st x y z octaves persistence).1 = (perlin_noise_3d st x y z).1) := by
  obtain ⟨n, rfl⟩ : ∃ n : Nat, octaves = (n : Int) := ⟨octaves.toNat, by omega⟩
  have hn : 1 ≤ n := by omega
  obtain ⟨ht, hm, _, _, _⟩ := fractal_loop_spec st x y z persistence n
  have hpos := geom_sum_pos persistence hp n hn
  have hval : (fractal_noise_3d st x y z (n : Int) persistence).1
      = Finset.sum (Finset.range n) (fun i =>
            persistence ^ i * (perlin_noise_3d st (2 ^ i * x) (2 ^ i * y) (2 ^ i * z)).1)
          / Finset.sum (Finset.range n) (fun i => persistence ^ i) := by
    unfold fractal_noise_3d
    simp only
    rw [ht, hm]
  simp only [Int.toNat_ofNat]
  refine ⟨hval, by linarith, ?_, ?_⟩
  · intro B hB
    rw [hval, abs_div, abs_of_pos (by linarith : (0 : ℚ) <
      Finset.sum (Finset.range n) (fun i => persistence ^ i)), div_le_iff₀ (by linarith)]
    calc |Finset.sum (Finset.range n) (fun i =>
            persistence ^ i * (perlin_noise_3d st (2 ^ i * x) (2 ^ i * y) (2 ^ i * z)).1)|
        ≤ Finset.sum (Finset.range n) (fun i =>
            |persistence ^ i * (perlin_noise_3d st (2 ^ i * x) (2 ^ i * y) (2 ^ i * z)).1|) :=
          Finset.abs_sum_le_sum_abs _ _
      _ ≤ Finset.sum (Finset.range n) (fun i => B * persistence ^ i) := by
          apply Finset.sum_le_sum
          intro i hi
          rw [abs_mul, abs_of_nonneg (pow_nonneg hp i), mul_comm]
          exact mul_le_mul_of_nonneg_right (hB i (Finset.mem_range.1 hi)) (pow_nonneg hp i)
      _ = B * Finset.sum (Finset.range n) (fun i => persistence ^ i) := by
          rw [Finset.mul_sum]
  · intro h1
    have hn1 : n = 1 := by omega
    subst hn1
    rw [hval]
    simp

/-- C19, applied to the setting of the height map's broad term: 4 octaves,
persistence 1/2. -/
theorem fractal_noise_3d_formula_witness :
    (1 : Int) ≤ 4 ∧ (0 : ℚ) ≤ 1 / 2
      ∧ (fractal_noise_3d startStatics (13 / 10) (27 / 10) 0 4 (1 / 2)).1
        = Finset.sum (Finset.range (4 : Int).toNat) (fun i =>
            (1 / 2 : ℚ) ^ i * (perlin_noise_3d startStatics (2 ^ i * (13 / 10))
              (2 ^ i * (27 / 10)) (2 ^ i * 0)).1)
          / Finset.sum (Finset.range (4 : Int).toNat) (fun i => (1 / 2 : ℚ) ^ i) :=
  ⟨by decide, by norm_num,
    (fractal_noise_3d_formula startStatics (13 / 10) (27 / 10) 0 4 (1 / 2) (by decide)
      (by norm_num)).1⟩

/-- C20 (counterexample): with octaves = 0 the loop never runs and the divisor
maxValue is 0; with octaves = 2 and persistence = -1 the two amplitudes 1 and
-1 cancel and the divisor is 0 as well. -/
theorem fractal_max_value_zero_cex :
    (fractal_loop startStatics 0 0 0 0 (1 / 2)).maxValue = 0
      ∧ (fractal_loop startStatics 0 0 0 2 (-1)).maxValue = 0 := by
  constructor
  · have h := (fractal_loop_spec startStatics 0 0 0 (1 / 2) 0).2.1
    simpa using h
  · have h := (fractal_loop_spec startStatics 0 0 0 (-1) 2).2.1
    rw [Finset.sum_range_succ, Finset.sum_range_succ, Finset.sum_range_zero] at h
    norm_num at h
    exact h

/-- C20 (amended): for every octave count >= 1 and every persistence >= 0 the
normalising divisor, the accumulated total amplitude maxValue, is the sum of
persistence^i over i < octaves, which is at least 1 and so non-zero: the final
division total / maxValue is defined. -/
theorem fractal_max_value_pos (st : PerlinState) (x y z : ℚ) (octaves : Int)
    (persistence : ℚ) (ho : 1 ≤ octaves) (hp : 0 ≤ persistence) :
    (fractal_loop st x y z octaves persistence).maxValue
        = Finset.sum (Finset.range octaves.toNat) (fun i => persistence ^ i)
      ∧ 1 ≤ (fractal_loop st x y z octaves persistence).maxValue
      ∧ (fractal_loop st x y z octaves persistence).maxValue ≠ 0 := by
  obtain ⟨n, rfl⟩ : ∃ n : Nat, octaves = (n : Int) := ⟨octaves.toNat, by omega⟩
  have hm := (fractal_loop_spec st x y z persistence n).2.1
  have hpos := geom_sum_pos persistence hp n (by omega)
  simp only [Int.toNat_ofNat]
  rw [hm]
  exact ⟨rfl, hpos, by linarith⟩

/-- C20 (amended), applied to the settings the height map uses: (4, 1/2) and (2, 3/10). -/
theorem fractal_max_value_pos_witness :
    (1 : Int) ≤ 4 ∧ (0 : ℚ) ≤ 1 / 2
      ∧ (fractal_loop startStatics (13 / 10) (27 / 10) 0 4 (1 / 2)).maxValue ≠ 0
      ∧ (fractal_loop startStatics (13 / 10) (27 / 10) 0 2 (3 / 10)).maxValue ≠ 0 :=
  ⟨by decide, by norm_num,
    (fractal_max_value_pos startStatics (13 / 10) (27 / 10) 0 4 (1 / 2) (by decide)
      (by norm_num)).2.2,
    (fractal_max_value_pos startStatics (13 / 10) (27 / 10) 0 2 (3 / 10) (by decide)
      (by norm_num)).2.2⟩

/-! ## The permutation table -/

set_option maxRecDepth 100000 in
theorem permutation_range : ∀ v ∈ permutation, 0 ≤ v ∧ v ≤ 255 := by decide

set_option maxRecDepth 100000 in
theorem permutation_length : permutation.length = 256 := by decide

set_option maxRecDepth 100000 in
set_option maxHeartbeats 4000000 in
theorem permutation_nodup : permutation.Nodup := by decide

theorem permutation_getD_range (i : Int) (h0 : 0 ≤ i) (h1 : i < 256) :
    0 ≤ permutation.getD i.toNat 0 ∧ permutation.getD i.toNat 0 ≤ 255 := by
  have hlt : i.toNat < permutation.length := by rw [permutation_length]; omega
  rw [List.getD_eq_getElem _ _ hlt]
  exact permutation_range _ (List.getElem_mem _)

theorem setIdx_apply (a : Int → Int) (i v j : Int) :
    setIdx a i v j = if j = i then v else a j := rfl

/-- The filling loop of init_perlin after `n <= 256` iterations. -/
theorem init_loop_spec (a0 : Int → Int) (n : Nat) (hn : n ≤ 256) (j : Int) :
    forRange 0 (n : Int) (fun i p =>
        setIdx (setIdx p i (permutation.getD i.toNat 0)) (256 + i)
          (permutation.getD i.toNat 0)) a0 j
      = if 0 ≤ j ∧ j < n then permutation.getD j.toNat 0
        else if 256 ≤ j ∧ j < 256 + n then permutation.getD (j - 256).toNat 0
        else a0 j := by
  induction n with
  | zero =>
    rw [forRange_empty 0 _ (by simp)]
    rw [if_neg (by simp), if_neg (by simp)]
  | succ n ih =>
    have hstep := forRange_succ 0 n (fun i p =>
        setIdx (setIdx p i (permutation.getD i.toNat 0)) (256 + i)
          (permutation.getD i.toNat 0)) a0
    simp only [Int.zero_add] at hstep
    rw [hstep, setIdx_apply, setIdx_apply, ih (by omega)]
    push_cast
    split_ifs <;> first | rfl | (exfalso; omega) | (congr 1; omega)

/-- The table init_perlin builds from an uninitialised state. -/
theorem init_perlin_table (st : PerlinState) (h : st.initialized = 0) (j : Int) :
    (init_perlin st).p j
      = if 0 ≤ j ∧ j < 256 then permutation.getD j.toNat 0
        else if 256 ≤ j ∧ j < 512 then permutation.getD (j - 256).toNat 0
        else st.p j := by
  unfold init_perlin
  rw [if_pos h]
  have := init_loop_spec st.p 256 (le_refl _) j
  simpa using this

theorem init_perlin_tableOk (st : PerlinState) (h : st.initialized = 0 ∨ TableOk st.p) :
    TableOk (init_perlin st).p := by
  by_cases h0 : st.initialized = 0
  · intro i hi0 hi1
    rw [init_perlin_table st h0, init_perlin_table st h0]
    rw [if_pos ⟨hi0, hi1⟩, if_neg (by omega), if_pos (by omega)]
    refine ⟨rfl, ?_⟩
    congr 1
    omega
  · rw [init_perlin_of_initialized st h0]
    rcases h with h | h
    · exact absurd h h0
    · exact h

theorem tableOk_range (p : Int → Int) (hp : TableOk p) (j : Int) (h0 : 0 ≤ j) (h1 : j < 512) :
    0 ≤ p j ∧ p j ≤ 255 := by
  by_cases hj : j < 256
  · rw [(hp j h0 hj).1]
    exact permutation_getD_range j h0 hj
  · have := (hp (j - 256) (by omega) (by omega)).2
    rw [show j - 256 + 256 = j by omega] at this
    rw [this]
    exact permutation_getD_range (j - 256) (by omega) (by omega)

/-- With the table in place every index perlin_noise_3d computes is in 0..511. -/
theorem perlin_indices_range (p : Int → Int) (hp : TableOk p) (x y z : ℚ) :
    ∀ i ∈ perlin_indices p x y z, 0 ≤ i ∧ i ≤ 511 := by
  have hX : 0 ≤ ⌊x⌋ % 256 ∧ ⌊x⌋ % 256 < 256 := by omega
  have hY : 0 ≤ ⌊y⌋ % 256 ∧ ⌊y⌋ % 256 < 256 := by omega
  have hZ : 0 ≤ ⌊z⌋ % 256 ∧ ⌊z⌋ % 256 < 256 := by omega
  have hpX := tableOk_range p hp (⌊x⌋ % 256) (by omega) (by omega)
  have hpX1 := tableOk_range p hp (⌊x⌋ % 256 + 1) (by omega) (by omega)
  have hpA := tableOk_range p hp (p (⌊x⌋ % 256) + ⌊y⌋ % 256) (by omega) (by omega)
  have hpA1 := tableOk_range p hp (p (⌊x⌋ % 256) + ⌊y⌋ % 256 + 1) (by omega) (by omega)
  have hpB := tableOk_range p hp (p (⌊x⌋ % 256 + 1) + ⌊y⌋ % 256) (by omega) (by omega)
  have hpB1 := tableOk_range p hp (p (⌊x⌋ % 256 + 1) + ⌊y⌋ % 256 + 1) (by omega) (by omega)
  intro i hi
  simp only [perlin_indices, List.mem_cons, List.mem_singleton, List.mem_nil_iff, or_false] at hi
  rcases hi with rfl | rfl | rfl | rfl | rfl | rfl | rfl | rfl | rfl | rfl | rfl | rfl | rfl | rfl
    <;> omega

/-- The value perlin_noise_3d computes reads the table only at indices 0..511. -/
theorem perlin_value_ext (p q : Int → Int) (hp : TableOk p)
    (hq : ∀ j, 0 ≤ j → j < 512 → q j = p j) (x y z : ℚ) :
    perlin_value q x y z = perlin_value p x y z := by
  have hr := perlin_indices_range p hp x y z
  simp only [perlin_indices, List.mem_cons, List.mem_singleton, List.mem_nil_iff, or_false,
    forall_eq_or_imp, forall_eq] at hr
  obtain ⟨hX, hX1, hA, hA1, hB, hB1, hAA, hAA1, hAB, hAB1, hBA, hBA1, hBB, hBB1⟩ := hr
  have eX := hq _ hX.1 (by omega)
  have eX1 := hq _ hX1.1 (by omega)
  have eA := hq _ hA.1 (by omega)
  have eA1 := hq _ hA1.1 (by omega)
  have eB := hq _ hB.1 (by omega)
  have eB1 := hq _ hB1.1 (by omega)
  have eAA := hq _ hAA.1 (by omega)
  have eAA1 := hq _ hAA1.1 (by omega)
  have eAB := hq _ hAB.1 (by omega)
  have eAB1 := hq _ hAB1.1 (by omega)
  have eBA := hq _ hBA.1 (by omega)
  have eBA1 := hq _ hBA1.1 (by omega)
  have eBB := hq _ hBB.1 (by omega)
  have eBB1 := hq _ hBB1.1 (by omega)
  unfold perlin_value
  simp only [eX, eX1, eA, eA1, eB, eB1, eAA, eAA1, eAB, eAB1, eBA, eBA1, eBB, eBB1]

/-- C24: after init_perlin (run on the uninitialised statics, or on statics
whose table is already in place) the 512-entry table satisfies
p[i] = p[i+256] = permutation[i] for every 0 <= i < 256 and every entry lies
in 0..255 (the 256 constants are a permutation of 0..255: 256 distinct values
in that range); consequently, for all inputs, every table index that
perlin_noise_3d computes (X, X+1, A, A+1, B, B+1, AA, AA+1, AB, AB+1, BA,
BA+1, BB, BB+1) lies in 0..511, and its value reads the table nowhere else. -/
theorem init_perlin_table_spec (st : PerlinState) (x y z : ℚ)
    (hst : st.initialized = 0 ∨ TableOk st.p) :
    (∀ i : Int, 0 ≤ i → i < 256 →
        (init_perlin st).p i = permutation.getD i.toNat 0
          ∧ (init_perlin st).p (i + 256) = permutation.getD i.toNat 0)
      ∧ (∀ j : Int, 0 ≤ j → j < 512 → 0 ≤ (init_perlin st).p j ∧ (init_perlin st).p j ≤ 255)
      ∧ (permutation.length = 256 ∧ permutation.Nodup ∧ ∀ v ∈ permutation, 0 ≤ v ∧ v ≤ 255)
      ∧ (∀ i ∈ perlin_indices (init_perlin st).p x y z, 0 ≤ i ∧ i ≤ 511)
      ∧ (∀ q : Int → Int, (∀ j, 0 ≤ j → j < 512 → q j = (init_perlin st).p j) →
          perlin_value q x y z = (perlin_noise_3d st x y z).1) := by
  have hok := init_perlin_tableOk st hst
  refine ⟨hok, tableOk_range _ hok, ⟨permutation_length, permutation_nodup, permutation_range⟩,
    perlin_indices_range _ hok x y z, ?_⟩
  intro q hq
  exact perlin_value_ext _ q hok hq x y z

/-- C24, applied to the statics at program start. -/
theorem init_perlin_table_spec_witness :
    startStatics.initialized = 0
      ∧ (init_perlin startStatics).p 0 = 151 ∧ (init_perlin startStatics).p 256 = 151
      ∧ (init_perlin startStatics).p 511 = 180
      ∧ ∀ i ∈ perlin_indices (init_perlin startStatics).p (13 / 10) (-27 / 10) 300,
          0 ≤ i ∧ i ≤ 511 :=
  ⟨rfl,
    ((init_perlin_table_spec startStatics 0 0 0 (Or.inl rfl)).1 0 (by decide) (by decide)).1,
    ((init_perlin_table_spec startStatics 0 0 0 (Or.inl rfl)).1 0 (by decide) (by decide)).2,
    ((init_perlin_table_spec startStatics 0 0 0 (Or.inl rfl)).1 255 (by decide) (by decide)).2,
    (init_perlin_table_spec startStatics (13 / 10) (-27 / 10) 300 (Or.inl rfl)).2.2.2.1⟩

/-! ## Determinism of the noise functions -/

theorem fractal_loop_neg (st : PerlinState) (x y z : ℚ) (octaves : Int) (persistence : ℚ)
    (h : octaves ≤ 0) :
    fractal_loop st x y z octaves persistence
      = { total := 0, frequency := 1, amplitude := 1, maxValue := 0, st := st } := by
  unfold fractal_loop
  exact forRange_empty 0 octaves h _ _

/-- The statics after a fractal_noise_3d call are the entry statics or the
initialised statics. -/
theorem fractal_loop_statics (st : PerlinState) (x y z : ℚ) (octaves : Int) (persistence : ℚ) :
    (fractal_loop st x y z octaves persistence).st = st
      ∨ (fractal_loop st x y z octaves persistence).st = init_perlin st := by
  unfold fractal_loop
  apply forRange_invariant (fun s : FractalState => s.st = st ∨ s.st = init_perlin st)
  · intro i s _ _ hs
    right
    show init_perlin s.st = init_perlin st
    rcases hs with h | h
    · rw [h]
    · rw [h, init_perlin_idem]
  · exact Or.inl rfl

/-- Two entry statics that give the same noise values give the same fractal value. -/
theorem fractal_noise_3d_congr (st st' : PerlinState) (x y z : ℚ) (octaves : Int)
    (persistence : ℚ)
    (h : ∀ a b c, (perlin_noise_3d st' a b c).1 = (perlin_noise_3d st a b c).1) :
    (fractal_noise_3d st' x y z octaves persistence).1
      = (fractal_noise_3d st x y z octaves persistence).1 := by
  unfold fractal_noise_3d
  simp only
  by_cases ho : octaves ≤ 0
  · rw [fractal_loop_neg st' x y z octaves persistence ho,
      fractal_loop_neg st x y z octaves persistence ho]
  · obtain ⟨n, rfl⟩ : ∃ n : Nat, octaves = (n : Int) := ⟨octaves.toNat, by omega⟩
    obtain ⟨ht, hm, _, _, _⟩ := fractal_loop_spec st x y z persistence n
    obtain ⟨ht', hm', _, _, _⟩ := fractal_loop_spec st' x y z persistence n
    rw [ht, hm, ht', hm']
    simp only [h]

theorem perlin_noise_3d_init (st : PerlinState) (x y z : ℚ) :
    (perlin_noise_3d (init_perlin st) x y z).1 = (perlin_noise_3d st x y z).1 := by
  unfold perlin_noise_3d
  simp only [init_perlin_idem]

/-- C21: with the lazily initialised permutation table as explicit state,
perlin_noise_3d and fractal_noise_3d are deterministic functions of their
arguments: for entry statics `st` (table uninitialised or not) every later
call, made on the statics `st'` left by any earlier call, returns the same
value as the first call with the same inputs, and leaves statics of the same
kind; init_perlin is idempotent (a second call leaves table and flag
unchanged); and any two runs starting from uninitialised statics return the
same values. -/
theorem noise_deterministic (st st' : PerlinState) (x y z : ℚ) (octaves : Int)
    (persistence : ℚ) (hlater : st' = st ∨ st' = init_perlin st) :
    init_perlin (init_perlin st) = init_perlin st
      ∧ (perlin_noise_3d st' x y z).1 = (perlin_noise_3d st x y z).1
      ∧ (fractal_noise_3d st' x y z octaves persistence).1
          = (fractal_noise_3d st x y z octaves persistence).1
      ∧ ((perlin_noise_3d st' x y z).2 = st ∨ (perlin_noise_3d st' x y z).2 = init_perlin st)
      ∧ ((fractal_noise_3d st' x y z octaves persistence).2 = st
          ∨ (fractal_noise_3d st' x y z octaves persistence).2 = init_perlin st)
      ∧ (∀ st2 : PerlinState, st.initialized = 0 → st2.initialized = 0 →
          (perlin_noise_3d st2 x y z).1 = (perlin_noise_3d st x y z).1
            ∧ (fractal_noise_3d st2 x y z octaves persistence).1
                = (fractal_noise_3d st x y z octaves persistence).1) := by
  have hval : ∀ a b c, (perlin_noise_3d st' a b c).1 = (perlin_noise_3d st a b c).1 := by
    intro a b c
    rcases hlater with h | h
    · rw [h]
    · rw [h, perlin_noise_3d_init]
  refine ⟨init_perlin_idem st, hval x y z, fractal_noise_3d_congr st st' x y z octaves
    persistence hval, ?_, ?_, ?_⟩
  · right
    show init_perlin st' = init_perlin st
    rcases hlater with h | h
    · rw [h]
    · rw [h, init_perlin_idem]
  · show (fractal_loop st' x y z octaves persistence).st = st
      ∨ (fractal_loop st' x y z octaves persistence).st = init_perlin st
    rcases fractal_loop_statics st' x y z octaves persistence with h1 | h1
    · rw [h1]
      exact hlater
    · rw [h1]
      right
      rcases hlater with h | h
      · rw [h]
      · rw [h, init_perlin_idem]
  · intro st2 h0 h2
    have hv2 : ∀ a b c, (perlin_noise_3d st2 a b c).1 = (perlin_noise_3d st a b c).1 := by
      intro a b c
      show perlin_value (init_perlin st2).p a b c = perlin_value (init_perlin st).p a b c
      apply perlin_value_ext _ _ (init_perlin_tableOk st (Or.inl h0))
      intro j hj0 hj1
      rw [init_perlin_table st2 h2, init_perlin_table st h0]
      by_cases hj : 0 ≤ j ∧ j < 256
      · rw [if_pos hj, if_pos hj]
      · rw [if_neg hj, if_neg hj, if_pos (by omega), if_pos (by omega)]
    exact ⟨hv2 x y z, fractal_noise_3d_congr st st2 x y z octaves persistence hv2⟩

/-- C21, applied to the statics at program start: the second call returns
what the first returned. -/
theorem noise_deterministic_witness :
    (perlin_noise_3d (perlin_noise_3d startStatics (13 / 10) (27 / 10) 0).2 (13 / 10) (27 / 10) 0).1
        = (perlin_noise_3d startStatics (13 / 10) (27 / 10) 0).1
      ∧ (fractal_noise_3d (init_perlin startStatics) (13 / 10) (27 / 10) 0 4 (1 / 2)).1
        = (fractal_noise_3d startStatics (13 / 10) (27 / 10) 0 4 (1 / 2)).1 :=
  ⟨(noise_deterministic startStatics (perlin_noise_3d startStatics (13 / 10) (27 / 10) 0).2
      (13 / 10) (27 / 10) 0 4 (1 / 2) (Or.inr rfl)).2.1,
    (noise_deterministic startStatics (init_perlin startStatics) (13 / 10) (27 / 10) 0 4 (1 / 2)
      (Or.inr rfl)).2.2.1⟩

/-! ## smooth_cave is a simultaneous update -/

/-- The smoothing rule reads only the 26 neighbours of the cell. -/
theorem smooth_rule_congr (m1 m2 : Grid) (z y x : Int)
    (h : ∀ d ∈ offsets26, m1 (z + d.1) (y + d.2.1) (x + d.2.2)
      = m2 (z + d.1) (y + d.2.1) (x + d.2.2)) :
    smooth_rule m1 z y x = smooth_rule m2 z y x := by
  unfold smooth_rule
  rw [wall_count_eq, wall_count_eq]
  have : offsets26.map (fun d => m1 (z + d.1) (y + d.2.1) (x + d.2.2))
      = offsets26.map (fun d => m2 (z + d.1) (y + d.2.1) (x + d.2.2)) :=
    List.map_congr_left h
  rw [this]

/-- C22: one smooth_cave pass is a simultaneous update: the new value of every
interior cell is the smoothing rule applied to the pre-pass grid, a function
only of the pre-pass values of the cells in its 3x3x3 block; it does not depend
on the temporary buffer nor on any cell already updated in the same pass, and
two grids that agree on the cell's 3x3x3 block give that cell the same new
value. -/
theorem smooth_cave_simultaneous (fresh1 fresh2 : Grid) (cave1 cave2 : Cave) (z y x : Int)
    (hz1 : 1 ≤ z ∧ z ≤ cave1.depth - 2) (hy1 : 1 ≤ y ∧ y ≤ cave1.height - 2)
    (hx1 : 1 ≤ x ∧ x ≤ cave1.width - 2)
    (hz2 : 1 ≤ z ∧ z ≤ cave2.depth - 2) (hy2 : 1 ≤ y ∧ y ≤ cave2.height - 2)
    (hx2 : 1 ≤ x ∧ x ≤ cave2.width - 2)
    (hblock : ∀ d ∈ offsets27, cave1.map (z + d.1) (y + d.2.1) (x + d.2.2)
      = cave2.map (z + d.1) (y + d.2.1) (x + d.2.2)) :
    (smooth_cave fresh1 cave1).map z y x = smooth_rule cave1.map z y x
      ∧ (smooth_cave fresh1 cave1).map z y x = (smooth_cave fresh2 cave1).map z y x
      ∧ (smooth_cave fresh1 cave1).map z y x = (smooth_cave fresh2 cave2).map z y x := by
  have h1 : ∀ fresh : Grid, (smooth_cave fresh cave1).map z y x = smooth_rule cave1.map z y x := by
    intro fresh
    rw [smooth_cave_map, if_pos ⟨⟨hz1.1, by omega⟩, ⟨hy1.1, by omega⟩, ⟨by omega, by omega⟩⟩,
      if_pos ⟨hx1.1, by omega⟩]
  have h2 : (smooth_cave fresh2 cave2).map z y x = smooth_rule cave2.map z y x := by
    rw [smooth_cave_map, if_pos ⟨⟨hz2.1, by omega⟩, ⟨hy2.1, by omega⟩, ⟨by omega, by omega⟩⟩,
      if_pos ⟨hx2.1, by omega⟩]
  refine ⟨h1 fresh1, by rw [h1 fresh1, h1 fresh2], ?_⟩
  rw [h1 fresh1, h2]
  exact smooth_rule_congr _ _ z y x (fun d hd => hblock d (List.mem_cons_of_mem _ hd))

/-- C22, applied to the centre cell of `halfCave3`, smoothed with two
different temporary buffers. -/
theorem smooth_cave_simultaneous_witness :
    (smooth_cave (fun _ _ _ => 0) halfCave3).map 1 1 1
        = (smooth_cave (fun _ _ _ => 7) halfCave3).map 1 1 1 :=
  (smooth_cave_simultaneous (fun _ _ _ => 0) (fun _ _ _ => 7) halfCave3 halfCave3 1 1 1
    (by decide) (by decide) (by decide) (by decide) (by decide) (by decide)
    (fun _ _ => rfl)).2.1

/-! ## find_spawn_point after carve_cave_interior -/

theorem cmod_one (a : Int) : cmod a 1 = 0 := by
  unfold cmod
  exact Int.tmod_one a

/-- At search radius 0 the sample is the centre voxel, whatever the draws. -/
theorem spawn_sample_zero (cave : Cave) (rng : Nat → Nat) (p : Nat) :
    spawn_sample cave rng 0 p = (cdiv cave.width 2, cdiv cave.height 2, cdiv cave.depth 2) := by
  unfold spawn_sample
  simp only [Int.zero_mul, Int.zero_add, cmod_one, Int.add_zero, Int.sub_zero]

theorem spawn_attempts_hit (cave : Cave) (rng : Nat → Nat) (r : Int) (fuel pos : Nat)
    (h : spawn_ok cave (spawn_sample cave rng r pos)) :
    spawn_attempts cave rng r (fuel + 1) pos
      = (some (spawn_world cave (spawn_sample cave rng r pos)), pos + 3) := by
  rw [spawn_attempts]
  exact (if_pos h.1).trans (if_pos h.2)

/-- The centre voxel of a volume with all extents >= 3 is EMPTY after carving. -/
theorem carve_cave_interior_centre (L : Libm) (cave : Cave) (rng : Nat → Nat) (pos : Nat)
    (hw : 3 ≤ cave.width) (hh : 3 ≤ cave.height) (hd : 3 ≤ cave.depth) :
    (carve_cave_interior L cave rng pos).1.map (cdiv cave.depth 2) (cdiv cave.height 2)
      (cdiv cave.width 2) = 0 := by
  have hch : carve_chamber cave (cdiv cave.depth 2) (cdiv cave.height 2) (cdiv cave.width 2)
      = 0 := by
    rw [carve_chamber_spec]
    apply if_pos
    refine ⟨by omega, by omega, by omega, ?_, ?_⟩
    · rw [cdiv_two _ (by omega : 0 ≤ cave.width), cdiv_two _ (by omega : 0 ≤ cave.height),
        cdiv_two _ (by omega : 0 ≤ cave.depth)]
      omega
    · rw [sqrtLt_cast_iff _ _ (by decide)]
      simp
  rcases carve_cave_interior_carved L cave rng pos (cdiv cave.depth 2) (cdiv cave.height 2)
    (cdiv cave.width 2) with h | h
  · rw [h, hch]
  · exact h.2

/-- C27: for every volume whose width, height and depth are all >= 3 and every
random stream, after carve_cave_interior the centre voxel (width/2, height/2,
depth/2) is EMPTY, the radius-0 round of find_spawn_point samples exactly the
centre, the search succeeds on its first sample (three draws consumed), and
find_spawn_point returns the world coordinates of the centre voxel, so the
fallback branch (0, 0, 0) is not the one that produced the result. -/
theorem find_spawn_point_after_carve (L : Libm) (cave : Cave) (rng rng2 : Nat → Nat)
    (pos pos2 : Nat) (hw : 3 ≤ cave.width) (hh : 3 ≤ cave.height) (hd : 3 ≤ cave.depth) :
    (carve_cave_interior L cave rng pos).1.map (cave.depth / 2) (cave.height / 2)
        (cave.width / 2) = EMPTY
      ∧ spawn_sample (carve_cave_interior L cave rng pos).1 rng2 0 pos2
          = (cave.width / 2, cave.height / 2, cave.depth / 2)
      ∧ spawn_radii (carve_cave_interior L cave rng pos).1 rng2 20 0 pos2
          = (some (voxel_to_world (cave.width / 2) cave.width,
              voxel_to_world (cave.height / 2) cave.height,
              voxel_to_world (cave.depth / 2) cave.depth), pos2 + 3)
      ∧ find_spawn_point (carve_cave_interior L cave rng pos).1 rng2 pos2
          = ((voxel_to_world (cave.width / 2) cave.width,
              voxel_to_world (cave.height / 2) cave.height,
              voxel_to_world (cave.depth / 2) cave.depth), pos2 + 3) := by
  have hc := carve_cave_interior_centre L cave rng pos hw hh hd
  have hs := spawn_sample_zero (carve_cave_interior L cave rng pos).1 rng2 pos2
  have e1 : (carve_cave_interior L cave rng pos).1.width = cave.width := rfl
  have e2 : (carve_cave_interior L cave rng pos).1.height = cave.height := rfl
  have e3 : (carve_cave_interior L cave rng pos).1.depth = cave.depth := rfl
  rw [e1, e2, e3] at hs
  rw [cdiv_two _ (by omega : 0 ≤ cave.width), cdiv_two _ (by omega : 0 ≤ cave.height),
    cdiv_two _ (by omega : 0 ≤ cave.depth)] at hc hs
  have hok : spawn_ok (carve_cave_interior L cave rng pos).1
      (spawn_sample (carve_cave_interior L cave rng pos).1 rng2 0 pos2) := by
    rw [hs]
    unfold spawn_ok
    rw [e1, e2, e3]
    refine ⟨⟨?_, ?_, ?_, ?_, ?_, ?_⟩, hc⟩ <;> simp only <;> omega
  have hatt := spawn_attempts_hit (carve_cave_interior L cave rng pos).1 rng2 0 99 pos2 hok
  rw [hs] at hatt
  have hrad : spawn_radii (carve_cave_interior L cave rng pos).1 rng2 20 0 pos2
      = (some (voxel_to_world (cave.width / 2) cave.width,
          voxel_to_world (cave.height / 2) cave.height,
          voxel_to_world (cave.depth / 2) cave.depth), pos2 + 3) := by
    rw [spawn_radii, hatt]
    rfl
  refine ⟨hc, hs, hrad, ?_⟩
  unfold find_spawn_point
  rw [hrad]

/-- C27, applied to the solid 3x3x3 volume: the spawn point is the world
position of voxel (1, 1, 1). -/
theorem find_spawn_point_after_carve_witness :
    (3 : Int) ≤ solidCave3.width
      ∧ find_spawn_point (carve_cave_interior sampleLibm solidCave3 (fun _ => 0) 0).1
          (fun n => n) 5
        = ((voxel_to_world (solidCave3.width / 2) solidCave3.width,
            voxel_to_world (solidCave3.height / 2) solidCave3.height,
            voxel_to_world (solidCave3.depth / 2) solidCave3.depth), 5 + 3) :=
  ⟨by decide,
    (find_spawn_point_after_carve sampleLibm solidCave3 (fun _ => 0) (fun n => n) 0 5
      (by decide) (by decide) (by decide)).2.2.2⟩

/-! ## collect_gem and the HUD counters -/

/-- C29: the result of collect_gem is either -1 or the type field of a gem of
the array that was uncollected before the call; hence for every gem array in
which each gem has type in 0..9 the result lies in -1..9, and the block of
display() that runs `gem_counts[gem_type]++` for a result >= 0 indexes inside
the 10-slot array gem_counts: it completes, leaves the array with 10 slots and
adds one to the slot of the collected type and to the total. -/
theorem collect_gem_result_type (gems : List Gem) (px py pz r : ℚ) (ui : UISystem)
    (hlen : ui.gem_counts.length = 10) :
    ((collect_gem gems px py pz r).1 = -1
        ∨ ∃ (i : Nat) (g : Gem), gems[i]? = some g ∧ g.collected = 0
            ∧ (collect_gem gems px py pz r).1 = g.type)
      ∧ ((∀ g ∈ gems, 0 ≤ g.type ∧ g.type ≤ 9) →
          (-1 ≤ (collect_gem gems px py pz r).1 ∧ (collect_gem gems px py pz r).1 ≤ 9)
            ∧ ((collect_gem gems px py pz (1 / 2)).1 ≥ 0 →
                (collect_gem gems px py pz (1 / 2)).1.toNat < ui.gem_counts.length)
            ∧ ∃ ui2 gems2, display_collect ui gems px py pz = some (ui2, gems2)
                ∧ ui2.gem_counts.length = 10
                ∧ gems2 = (collect_gem gems px py pz (1 / 2)).2
                ∧ ((collect_gem gems px py pz (1 / 2)).1 = -1 → ui2 = ui)
                ∧ ((collect_gem gems px py pz (1 / 2)).1 ≥ 0 →
                    ui2.total_gems_collected = ui.total_gems_collected + 1
                      ∧ ui2.gem_counts
                          = ui.gem_counts.set (collect_gem gems px py pz (1 / 2)).1.toNat
                              (ui.gem_counts.getD (collect_gem gems px py pz (1 / 2)).1.toNat 0
                                + 1))) := by
  have key : ∀ r : ℚ, (collect_gem gems px py pz r).1 = -1
      ∨ ∃ (i : Nat) (g : Gem), gems[i]? = some g ∧ g.collected = 0
          ∧ (collect_gem gems px py pz r).1 = g.type := by
    intro r
    rcases collect_gem_cases gems px py pz r with ⟨i, g, hg, hu, _, _, hres⟩ | ⟨_, hres⟩
    · right
      exact ⟨i, g, hg, hu, by rw [hres]⟩
    · left
      rw [hres]
  have rng : ∀ r : ℚ, (∀ g ∈ gems, 0 ≤ g.type ∧ g.type ≤ 9) →
      -1 ≤ (collect_gem gems px py pz r).1 ∧ (collect_gem gems px py pz r).1 ≤ 9 := by
    intro r hty
    rcases key r with h | ⟨i, g, hg, _, h⟩
    · rw [h]; decide
    · rw [h]
      have := hty g (List.getElem?_mem hg)
      omega
  refine ⟨key r, fun hty => ⟨rng r hty, ?_, ?_⟩⟩
  · intro _
    have := rng (1 / 2) hty
    omega
  · have hb := rng (1 / 2) hty
    unfold display_collect
    simp only
    by_cases hge : (collect_gem gems px py pz (1 / 2)).1 ≥ 0
    · rw [if_pos hge]
      have hlt : (collect_gem gems px py pz (1 / 2)).1.toNat < ui.gem_counts.length := by omega
      rw [List.getElem?_eq_getElem hlt]
      simp only
      refine ⟨_, _, rfl, ?_, rfl, fun h => absurd h (by omega), fun _ => ?_⟩
      · unfold update_hotbar
        rw [if_pos ⟨hge, by omega⟩]
        simp [hlen]
      · unfold update_hotbar
        rw [if_pos ⟨hge, by omega⟩]
        refine ⟨rfl, ?_⟩
        show (ui.gem_counts.set _ _).set _ _ = _
        rw [List.set_set, List.getD_eq_getElem?_getD, List.getD_eq_getElem?_getD,
          List.getElem?_set_self hlt, List.getElem?_eq_getElem hlt]
        rfl
    · rw [if_neg hge]
      exact ⟨_, _, rfl, hlen, rfl, fun _ => rfl, fun h => absurd h hge⟩

/-- C29, applied to a row of three gems of types 7, 4, 9 and the empty HUD:
the gem of type 4 is collected and slot 4 is incremented. -/
theorem collect_gem_result_type_witness :
    emptyHud.gem_counts.length = 10
      ∧ ((∀ g ∈ gemRow, 0 ≤ g.type ∧ g.type ≤ 9) →
          ∃ ui2 gems2, display_collect emptyHud gemRow 1 0 0 = some (ui2, gems2)
            ∧ ui2.gem_counts.length = 10) :=
  ⟨rfl, fun h =>
    let ⟨ui2, gems2, h1, h2, _⟩ :=
      ((collect_gem_result_type gemRow 1 0 0 (1 / 2) emptyHud rfl).2 h).2.2
    ⟨ui2, gems2, h1, h2⟩⟩

/-! ## respawn_gem: what it leaves alone -/

/-- C30: respawn_gem only reads the cave (the embedding takes it by value and
returns none) and never changes the gem's type, colour, rotation or size; when
one of its at most 100 samples is accepted, the gem differs from the old one
only in x, y, z, collected and bob_offset, and its new position is the world
image of a sampled EMPTY voxel (x, y, z) with 2 <= x <= width-3,
2 <= y <= height-3, 2 <= z <= depth-3, i.e. at least 2 cells away from every
face of the volume; when all 100 samples are rejected the gem is returned
entirely unchanged. -/
theorem respawn_gem_frame (L : Libm) (g : Gem) (cave : Cave) (rng : Nat → Nat) (pos : Nat) :
    ((respawn_gem L g cave rng pos).1.gem.type = g.type
        ∧ (respawn_gem L g cave rng pos).1.gem.color = g.color
        ∧ (respawn_gem L g cave rng pos).1.gem.rotation = g.rotation
        ∧ (respawn_gem L g cave rng pos).1.gem.size = g.size)
      ∧ (∀ v : Int × Int × Int, (respawn_gem L g cave rng pos).1.placed = some v →
          (∃ a, a < 100 ∧ v = gem_sample cave rng (pos + 3 * a))
            ∧ (respawn_gem L g cave rng pos).1.gem
                = { g with
                    x := voxel_to_world v.1 cave.width,
                    y := voxel_to_world v.2.1 cave.height,
                    z := voxel_to_world v.2.2 cave.depth,
                    collected := 0,
                    bob_offset := (respawn_gem L g cave rng pos).1.gem.bob_offset }
            ∧ cave.map v.2.2 v.2.1 v.1 = EMPTY
            ∧ (2 ≤ v.1 ∧ v.1 ≤ cave.width - 3) ∧ (2 ≤ v.2.1 ∧ v.2.1 ≤ cave.height - 3)
            ∧ (2 ≤ v.2.2 ∧ v.2.2 ≤ cave.depth - 3))
      ∧ ((∀ a, a < 100 → ¬ respawn_ok cave (gem_sample cave rng (pos + 3 * a))) →
          (respawn_gem L g cave rng pos).1.gem = g
            ∧ (respawn_gem L g cave rng pos).1.placed = none)
      ∧ ((respawn_gem L g cave rng pos).1.placed = none →
          (respawn_gem L g cave rng pos).1.gem = g) := by
  unfold respawn_gem
  rcases respawn_attempts_cases L cave rng 100 pos g with
    ⟨a, ha, hok, _, hres⟩ | ⟨hnone, hres⟩
  · rw [hres]
    refine ⟨⟨rfl, rfl, rfl, rfl⟩, ?_, ?_, ?_⟩
    · intro v hv
      have hv' : gem_sample cave rng (pos + 3 * a) = v := Option.some.inj hv
      subst hv'
      obtain ⟨h1, h2, h3, h4, h5, h6, h7⟩ := hok
      exact ⟨⟨a, ha, rfl⟩, rfl, h7, ⟨by omega, by omega⟩, ⟨by omega, by omega⟩,
        ⟨by omega, by omega⟩⟩
    · intro hall
      exact absurd hok (hall a ha)
    · intro h
      exact Option.noConfusion h
  · rw [hres]
    refine ⟨⟨rfl, rfl, rfl, rfl⟩, ?_, fun _ => ⟨rfl, rfl⟩, fun _ => rfl⟩
    intro v hv
    exact Option.noConfusion hv

/-! ## check_collision: rounding tolerance -/

/-- The coordinates and radii of the example are `float` values; the radius
5033165/16777216 is 0.3f. -/
theorem collision_inputs_are_floats :
    f32 (7633077 / 33554432) = 7633077 / 33554432 ∧ f32 (6562555 / 33554432) = 6562555 / 33554432
      ∧ f32 (5033165 / 16777216) = 5033165 / 16777216 ∧ f32 (3 / 10) = 5033165 / 16777216
      ∧ f32 10000000000 = 10000000000 := by
  have h1 : f32 (7633077 / 33554432) = 7633077 / 33554432 :=
    f32_eval _ (-3) (-26) 15266154 _ (by norm_num) (by norm_num) (by norm_num) (by norm_num) (by norm_num)
  have h2 : f32 (6562555 / 33554432) = 6562555 / 33554432 :=
    f32_eval _ (-3) (-26) 13125110 _ (by norm_num) (by norm_num) (by norm_num) (by norm_num) (by norm_num)
  have h3 : f32 (5033165 / 16777216) = 5033165 / 16777216 :=
    f32_eval _ (-2) (-25) 10066330 _ (by norm_num) (by norm_num) (by norm_num) (by norm_num) (by norm_num)
  have h4 : f32 (3 / 10) = 5033165 / 16777216 :=
    f32_eval _ (-2) (-25) 10066330 _ (by norm_num) (by norm_num) (by norm_num) (by norm_num) (by norm_num)
  have h5 : f32 (10000000000) = 10000000000 :=
    f32_eval _ 33 10 9765625 _ (by norm_num) (by norm_num) (by norm_num) (by norm_num) (by norm_num)
  exact ⟨h1, h2, h3, h4, h5⟩

/-- Statics left by earlier noise calls give the same noise values. -/
theorem perlin_noise_3d_later (st st2 : PerlinState) (h : st2 = st ∨ st2 = init_perlin st)
    (a b c : ℚ) : (perlin_noise_3d st2 a b c).1 = (perlin_noise_3d st a b c).1 := by
  rcases h with h | h
  · rw [h]
  · rw [h]
    unfold perlin_noise_3d
    simp only [init_perlin_idem]

/-- Statics left by earlier noise calls are again of that kind after a
fractal_noise_3d call. -/
theorem fractal_noise_3d_later (st st2 : PerlinState) (h : st2 = st ∨ st2 = init_perlin st)
    (x y z : ℚ) (octaves : Int) (persistence : ℚ) :
    (fractal_noise_3d st2 x y z octaves persistence).2 = st
      ∨ (fractal_noise_3d st2 x y z octaves persistence).2 = init_perlin st := by
  show (fractal_loop st2 x y z octaves persistence).st = st
    ∨ (fractal_loop st2 x y z octaves persistence).st = init_perlin st
  rcases fractal_loop_statics st2 x y z octaves persistence with h1 | h1
  · rw [h1]
    exact h
  · rw [h1]
    right
    rcases h with h | h
    · rw [h]
    · rw [h, init_perlin_idem]

/-- The accumulation loop over a column adds 0.02 per EMPTY cell. -/
theorem base_height_eq (cave : Cave) (y x : Int) :
    forRange 0 cave.depth (fun z (b : ℚ) => if cave.map z y x = 0 then b + 1 / 50 else b) 0
      = (1 / 50) * (emptyCount cave y x : ℚ) := by
  unfold emptyCount
  by_cases hd : cave.depth ≤ 0
  · rw [forRange_empty 0 _ hd]
    have : cave.depth.toNat = 0 := by omega
    rw [this]
    simp
  · obtain ⟨n, hn⟩ : ∃ n : Nat, cave.depth = (n : Int) := ⟨cave.depth.toNat, by omega⟩
    rw [hn]
    simp only [Int.toNat_ofNat]
    clear hn hd
    induction n with
    | zero =>
      rw [forRange_empty 0 _ (by simp)]
      simp
    | succ n ih =>
      have e : ((n + 1 : Nat) : Int) = 0 + ((n + 1 : Nat) : Int) := by simp
      have e0 : (0 : Int) + ((n : Nat) : Int) = ((n : Nat) : Int) := by simp
      rw [e, forRange_succ, e0, ih, List.range_succ, List.countP_append]
      by_cases hc : cave.map (n : Int) y x = 0
      · rw [if_pos hc]
        simp [hc]
        ring
      · rw [if_neg hc]
        simp [hc]

/-- The x-loop of generate_height_map for row `y`, run for `n` columns. -/
theorem height_row_spec (cave : Cave) (pst : PerlinState) (y : Int)
    (s0 : (Int → ℚ) × PerlinState) (hs0 : s0.2 = pst ∨ s0.2 = init_perlin pst) (n : Nat) :
    ((forRange 0 (n : Int) (fun x (s : (Int → ℚ) × PerlinState) =>
        let base_height := forRange 0 cave.depth (fun z (b : ℚ) =>
          if cave.map z y x = 0 then b + 1 / 50 else b) 0
        let noise := fractal_noise_3d s.2 ((x : ℚ) * (1 / 10)) ((y : ℚ) * (1 / 10)) 0 4 (1 / 2)
        let detail := fractal_noise_3d noise.2 ((x : ℚ) * (1 / 2)) ((y : ℚ) * (1 / 2)) 0 2 (3 / 10)
        (setIdxQ s.1 (y * cave.width + x)
            (base_height + noise.1 * (3 / 10) + detail.1 * (1 / 10)), detail.2)) s0).2 = pst
        ∨ (forRange 0 (n : Int) (fun x (s : (Int → ℚ) × PerlinState) =>
        let base_height := forRange 0 cave.depth (fun z (b : ℚ) =>
          if cave.map z y x = 0 then b + 1 / 50 else b) 0
        let noise := fractal_noise_3d s.2 ((x : ℚ) * (1 / 10)) ((y : ℚ) * (1 / 10)) 0 4 (1 / 2)
        let detail := fractal_noise_3d noise.2 ((x : ℚ) * (1 / 2)) ((y : ℚ) * (1 / 2)) 0 2 (3 / 10)
        (setIdxQ s.1 (y * cave.width + x)
            (base_height + noise.1 * (3 / 10) + detail.1 * (1 / 10)), detail.2)) s0).2
          = init_perlin pst)
      ∧ ∀ j : Int, (forRange 0 (n : Int) (fun x (s : (Int → ℚ) × PerlinState) =>
        let base_height := forRange 0 cave.depth (fun z (b : ℚ) =>
          if cave.map z y x = 0 then b + 1 / 50 else b) 0
        let noise := fractal_noise_3d s.2 ((x : ℚ) * (1 / 10)) ((y : ℚ) * (1 / 10)) 0 4 (1 / 2)
        let detail := fractal_noise_3d noise.2 ((x : ℚ) * (1 / 2)) ((y : ℚ) * (1 / 2)) 0 2 (3 / 10)
        (setIdxQ s.1 (y * cave.width + x)
            (base_height + noise.1 * (3 / 10) + detail.1 * (1 / 10)), detail.2)) s0).1 j
          = if y * cave.width ≤ j ∧ j < y * cave.width + (n : Int)
            then height_value cave pst y (j - y * cave.width) else s0.1 j := by
  induction n with
  | zero =>
    rw [forRange_empty 0 _ (by simp)]
    refine ⟨hs0, fun j => ?_⟩
    rw [if_neg]
    intro h
    simp at h
    omega
  | succ n ih =>
    have e : ((n + 1 : Nat) : Int) = 0 + ((n + 1 : Nat) : Int) := by simp
    have e0 : (0 : Int) + ((n : Nat) : Int) = ((n : Nat) : Int) := by simp
    rw [e, forRange_succ, e0]
    generalize forRange 0 (n : Int) _ s0 = S at ih ⊢
    obtain ⟨hst, hval⟩ := ih
    have g1 := fractal_noise_3d_later pst _ hst ((n : Int) * (1 / 10)) ((y : ℚ) * (1 / 10)) 0 4
      (1 / 2)
    refine ⟨fractal_noise_3d_later pst _ g1 _ _ _ _ _, fun j => ?_⟩
    dsimp only
    unfold setIdxQ
    by_cases hj : j = y * cave.width + (n : Int)
    · rw [if_pos hj, if_pos ⟨by omega, by push_cast; omega⟩, base_height_eq]
      have ej : j - y * cave.width = (n : Int) := by omega
      rw [ej]
      unfold height_value
      rw [fractal_noise_3d_congr pst _ _ _ _ _ _ (perlin_noise_3d_later pst _ g1),
        fractal_noise_3d_congr pst _ _ _ _ _ _ (perlin_noise_3d_later pst _ hst)]
      ring
    · rw [if_neg hj, hval j]
      by_cases hb : y * cave.width ≤ j ∧ j < y * cave.width + (n : Int)
      · rw [if_pos hb, if_pos ⟨hb.1, by push_cast; omega⟩]
      · rw [if_neg hb, if_neg (by push_cast; omega)]

/-- The loops of generate_height_map, run for the first `m` rows. -/
theorem height_rows_spec (cave : Cave) (pst : PerlinState) (hw : 0 ≤ cave.width) (m : Nat) :
    ((generate_height_map { cave with height := (m : Int) } pst).2 = pst
        ∨ (generate_height_map { cave with height := (m : Int) } pst).2 = init_perlin pst)
      ∧ ∀ y x : Int, 0 ≤ y → y < (m : Int) → 0 ≤ x → x < cave.width →
          (generate_height_map { cave with height := (m : Int) } pst).1.height_map
              (y * cave.width + x) = height_value cave pst y x := by
  induction m with
  | zero =>
    refine ⟨Or.inl ?_, fun y x h1 h2 => ?_⟩
    · unfold generate_height_map
      dsimp only
      rw [forRange_empty 0 _ (by simp)]
    · simp at h2
      omega
  | succ m ih =>
    unfold generate_height_map at ih ⊢
    dsimp only at ih ⊢
    have e : ((m + 1 : Nat) : Int) = 0 + ((m + 1 : Nat) : Int) := by simp
    have e0 : (0 : Int) + ((m : Nat) : Int) = ((m : Nat) : Int) := by simp
    rw [e, forRange_succ, e0]
    generalize forRange 0 (m : Int) _ (cave.height_map, pst) = S at ih ⊢
    obtain ⟨hst, hval⟩ := ih
    have hrow := height_row_spec cave pst (m : Int) S hst cave.width.toNat
    rw [Int.toNat_of_nonneg hw] at hrow
    refine ⟨hrow.1, fun y x hy0 hy1 hx0 hx1 => ?_⟩
    rw [hrow.2]
    by_cases hy : y = (m : Int)
    · subst hy
      rw [if_pos ⟨by omega, by omega⟩]
      congr 1
      omega
    · have hlt : y < (m : Int) := by push_cast at hy1; omega
      have hmul : (y + 1) * cave.width ≤ (m : Int) * cave.width :=
        Int.mul_le_mul_of_nonneg_right (by omega) hw
      rw [if_neg (by intro h; nlinarith [h.1])]
      exact hval y x hy0 hlt hx0 hx1

/-- The height map generate_height_map stores, column by column. -/
theorem generate_height_map_value (cave : Cave) (pst : PerlinState) (x y : Int)
    (hx : 0 ≤ x ∧ x < cave.width) (hy : 0 ≤ y ∧ y < cave.height) :
    (generate_height_map cave pst).1.height_map (y * cave.width + x)
      = height_value cave pst y x := by
  have h := (height_rows_spec cave pst (by omega) cave.height.toNat).2 y x hy.1
    (by omega) hx.1 hx.2
  rw [Int.toNat_of_nonneg (by omega)] at h
  exact h

/-- Emptying one cell of a column adds one to that column's count of EMPTY
cells and leaves the count of every other column as it was. -/
theorem emptyCount_setCell (cave : Cave) (z0 y0 x0 : Int) (hz : 0 ≤ z0 ∧ z0 < cave.depth)
    (hne : cave.map z0 y0 x0 ≠ 0) (y x : Int) :
    emptyCount { cave with map := setCell cave.map z0 y0 x0 0 } y x
      = emptyCount cave y x + (if y = y0 ∧ x = x0 then 1 else 0) := by
  unfold emptyCount
  dsimp only
  by_cases hc : y = y0 ∧ x = x0
  · rw [if_pos hc]
    obtain ⟨rfl, rfl⟩ := hc
    have key : ∀ n : Nat,
        (List.range n).countP (fun (z : Nat) => decide (setCell cave.map z0 y x 0 (z : Int) y x = 0))
          = (List.range n).countP (fun (z : Nat) => decide (cave.map (z : Int) y x = 0))
            + (if z0 < (n : Int) then 1 else 0) := by
      intro n
      induction n with
      | zero =>
        rw [if_neg (by simp; omega)]
        rfl
      | succ n ih =>
        rw [List.range_succ, List.countP_append, List.countP_append, ih]
        by_cases hn : (n : Int) = z0
        · have h1 : setCell cave.map z0 y x 0 (n : Int) y x = 0 := by
            unfold setCell
            rw [if_pos ⟨hn, rfl, rfl⟩]
          have h2 : ¬ cave.map (n : Int) y x = 0 := by rw [hn]; exact hne
          rw [if_neg (by omega), if_pos (by push_cast; omega)]
          simp [h1, h2]
        · have h1 : setCell cave.map z0 y x 0 (n : Int) y x = cave.map (n : Int) y x := by
            unfold setCell
            rw [if_neg (fun h => hn h.1)]
          by_cases hlt : z0 < (n : Int)
          · rw [if_pos hlt, if_pos (by push_cast; omega)]
            simp only [List.countP_cons, List.countP_nil, h1]
            omega
          · rw [if_neg hlt, if_neg (by push_cast; omega)]
            simp only [List.countP_cons, List.countP_nil, h1]
            omega
    rw [key, if_pos (by omega)]
  · rw [if_neg hc, Nat.add_zero]
    apply List.countP_congr
    intro z _
    have h1 : setCell cave.map z0 y0 x0 0 (z : Int) y x = cave.map (z : Int) y x := by
      unfold setCell
      rw [if_neg (fun h => hc ⟨h.2.1, h.2.2⟩)]
    rw [h1]

/-- C25: for every footprint column (x, y) with 0 <= x < width and
0 <= y < height, generate_height_map stores, in exact arithmetic,
height_map[y*width+x] = 0.02 * (number of EMPTY cells map[z][y][x] over all
0 <= z < depth) + 0.3 * fractal_noise_3d(0.1x, 0.1y, 0, 4, 0.5)
+ 0.1 * fractal_noise_3d(0.5x, 0.5y, 0, 2, 0.3); and emptying one more cell
(z0, y0, x0) of a column raises the stored height of that column by exactly
0.02 and changes the stored height of no other column. -/
theorem generate_height_map_spec (cave : Cave) (pst : PerlinState) (x y : Int)
    (hx : 0 ≤ x ∧ x < cave.width) (hy : 0 ≤ y ∧ y < cave.height) :
    (generate_height_map cave pst).1.height_map (y * cave.width + x)
        = (1 / 50) * (emptyCount cave y x : ℚ)
          + (3 / 10)
            * (fractal_noise_3d pst ((x : ℚ) * (1 / 10)) ((y : ℚ) * (1 / 10)) 0 4 (1 / 2)).1
          + (1 / 10)
            * (fractal_noise_3d pst ((x : ℚ) * (1 / 2)) ((y : ℚ) * (1 / 2)) 0 2 (3 / 10)).1
      ∧ ∀ z0 y0 x0 : Int, 0 ≤ z0 ∧ z0 < cave.depth → cave.map z0 y0 x0 ≠ EMPTY →
          (generate_height_map { cave with map := setCell cave.map z0 y0 x0 EMPTY } pst).1.height_map
              (y * cave.width + x)
            = (generate_height_map cave pst).1.height_map (y * cave.width + x)
              + (if y = y0 ∧ x = x0 then 1 / 50 else 0) := by
  have h1 := generate_height_map_value cave pst x y hx hy
  refine ⟨h1, fun z0 y0 x0 hz hne => ?_⟩
  have h2 := generate_height_map_value { cave with map := setCell cave.map z0 y0 x0 EMPTY } pst
    x y hx hy
  have h2' : (generate_height_map { cave with map := setCell cave.map z0 y0 x0 EMPTY } pst).1.height_map
      (y * cave.width + x)
      = height_value { cave with map := setCell cave.map z0 y0 x0 EMPTY } pst y x := h2
  rw [h2', h1]
  unfold height_value
  have hcount := emptyCount_setCell cave z0 y0 x0 hz hne y x
  have hcount' : emptyCount { cave with map := setCell cave.map z0 y0 x0 EMPTY } y x
      = emptyCount cave y x + (if y = y0 ∧ x = x0 then 1 else 0) := hcount
  rw [hcount']
  by_cases hc : y = y0 ∧ x = x0
  · rw [if_pos hc, if_pos hc]
    push_cast
    ring
  · rw [if_neg hc, if_neg hc]
    push_cast
    ring

/-- C25, applied to the column (1, 1) of the 3x3x3 volume `halfCave3`, which
has one EMPTY cell (z = 2). -/
theorem generate_height_map_spec_witness :
    (0 ≤ (1 : Int) ∧ (1 : Int) < halfCave3.width)
      ∧ (generate_height_map halfCave3 startStatics).1.height_map (1 * halfCave3.width + 1)
        = (1 / 50) * (emptyCount halfCave3 1 1 : ℚ)
          + (3 / 10) * (fractal_noise_3d startStatics (((1 : Int) : ℚ) * (1 / 10))
              (((1 : Int) : ℚ) * (1 / 10)) 0 4 (1 / 2)).1
          + (1 / 10) * (fractal_noise_3d startStatics (((1 : Int) : ℚ) * (1 / 2))
              (((1 : Int) : ℚ) * (1 / 2)) 0 2 (3 / 10)).1
      ∧ emptyCount halfCave3 1 1 = 1 :=
  ⟨by decide, (generate_height_map_spec halfCave3 startStatics 1 1 (by decide) (by decide)).1,
    by decide⟩

/-! ## generate_normal_map -/

/-- A loop whose iteration `i` overwrites the array entries `j` with `W i j`
by values satisfying `Val j` and keeps the others. -/
theorem forRange_writes {α : Type} (W : Int → Int → Prop) (Val : Int → α → Prop) (lo hi : Int)
    (body : Int → (Int → α) → (Int → α))
    (hb1 : ∀ i s j, lo ≤ i → i < hi → W i j → Val j (body i s j))
    (hb2 : ∀ i s j, lo ≤ i → i < hi → ¬ W i j → body i s j = s j) (s0 : Int → α) (j : Int) :
    ((∃ i, lo ≤ i ∧ i < hi ∧ W i j) → Val j (forRange lo hi body s0 j))
      ∧ ((¬ ∃ i, lo ≤ i ∧ i < hi ∧ W i j) → forRange lo hi body s0 j = s0 j) := by
  by_cases hle : hi ≤ lo
  · rw [forRange_empty lo hi hle]
    exact ⟨fun ⟨i, h1, h2, _⟩ => absurd h1 (by omega), fun _ => rfl⟩
  · exact forRange_invariant_idx
      (fun m s => ((∃ i, lo ≤ i ∧ i < m ∧ W i j) → Val j (s j))
        ∧ ((¬ ∃ i, lo ≤ i ∧ i < m ∧ W i j) → s j = s0 j))
      lo hi (by omega) body
      (fun m s hm1 hm2 hs => by
        dsimp only at hs ⊢
        by_cases hw : W m j
        · exact ⟨fun _ => hb1 m s j hm1 hm2 hw,
            fun hn => absurd ⟨m, hm1, by omega, hw⟩ hn⟩
        · rw [hb2 m s j hm1 hm2 hw]
          constructor
          · rintro ⟨i, h1, h2, h3⟩
            have : i ≠ m := fun h => hw (h ▸ h3)
            exact hs.1 ⟨i, h1, by omega, h3⟩
          · intro hn
            exact hs.2 (fun ⟨i, h1, h2, h3⟩ => hn ⟨i, h1, by omega, h3⟩))
      s0 ⟨fun ⟨i, h1, h2, _⟩ => absurd h1 (by omega), fun _ => rfl⟩

/-- Row-major indices with three channels are distinct for distinct cells. -/
theorem channel_index_inj (w y x k y2 x2 k2 : Int) (hx : 0 ≤ x ∧ x < w) (hx2 : 0 ≤ x2 ∧ x2 < w)
    (hk : 0 ≤ k ∧ k < 3) (hk2 : 0 ≤ k2 ∧ k2 < 3)
    (h : (y * w + x) * 3 + k = (y2 * w + x2) * 3 + k2) : y = y2 ∧ x = x2 ∧ k = k2 := by
  have h1 : y * w + x = y2 * w + x2 ∧ k = k2 := by omega
  have hy : y = y2 := by
    rcases lt_trichotomy y y2 with hlt | heq | hgt
    · have : (y + 1) * w ≤ y2 * w := Int.mul_le_mul_of_nonneg_right (by omega) (by omega)
      nlinarith [h1.1]
    · exact heq
    · have : (y2 + 1) * w ≤ y * w := Int.mul_le_mul_of_nonneg_right (by omega) (by omega)
      nlinarith [h1.1]
  subst hy
  exact ⟨rfl, by omega, h1.2⟩

/-- Over the reals, the three stored channels of a unit normal. -/
theorem unit_normal_real (dx dy L : ℝ) (hL : L = Real.sqrt (dx * dx + dy * dy + 1 * 1)) :
    (0 ≤ dx / L * (1 / 2) + 1 / 2 ∧ dx / L * (1 / 2) + 1 / 2 ≤ 1)
      ∧ (0 ≤ dy / L * (1 / 2) + 1 / 2 ∧ dy / L * (1 / 2) + 1 / 2 ≤ 1)
      ∧ (1 / 2 < 1 / L * (1 / 2) + 1 / 2 ∧ 1 / L * (1 / 2) + 1 / 2 ≤ 1)
      ∧ (2 * (dx / L * (1 / 2) + 1 / 2) - 1) ^ 2 + (2 * (dy / L * (1 / 2) + 1 / 2) - 1) ^ 2
          + (2 * (1 / L * (1 / 2) + 1 / 2) - 1) ^ 2 = 1 := by
  have hs : (0 : ℝ) ≤ dx * dx + dy * dy + 1 * 1 := by nlinarith [sq_nonneg dx, sq_nonneg dy]
  have hLL : L * L = dx * dx + dy * dy + 1 * 1 := by rw [hL]; exact Real.mul_self_sqrt hs
  have hL0 : 0 ≤ L := by rw [hL]; exact Real.sqrt_nonneg _
  have hL1 : 1 ≤ L := by nlinarith [sq_nonneg dx, sq_nonneg dy]
  have hLpos : 0 < L := by linarith
  have hne : L ≠ 0 := ne_of_gt hLpos
  have hdx : -L ≤ dx ∧ dx ≤ L := by
    constructor <;> nlinarith [sq_nonneg dy]
  have hdy : -L ≤ dy ∧ dy ≤ L := by
    constructor <;> nlinarith [sq_nonneg dx]
  have tx : dx / L * L = dx := div_mul_cancel₀ dx hne
  have ty : dy / L * L = dy := div_mul_cancel₀ dy hne
  have tz : 1 / L * L = 1 := div_mul_cancel₀ 1 hne
  have bx : -1 ≤ dx / L ∧ dx / L ≤ 1 := by
    constructor <;> nlinarith
  have by1 : -1 ≤ dy / L ∧ dy / L ≤ 1 := by
    constructor <;> nlinarith
  have bz : 0 < 1 / L ∧ 1 / L ≤ 1 := by
    constructor
    · positivity
    · nlinarith
  refine ⟨⟨by linarith [bx.1], by linarith [bx.2]⟩, ⟨by linarith [by1.1], by linarith [by1.2]⟩,
    ⟨by linarith [bz.1], by linarith [bz.2]⟩, ?_⟩
  have e : (2 * (dx / L * (1 / 2) + 1 / 2) - 1) ^ 2 + (2 * (dy / L * (1 / 2) + 1 / 2) - 1) ^ 2
      + (2 * (1 / L * (1 / 2) + 1 / 2) - 1) ^ 2
      = (dx * dx + dy * dy + 1 * 1) / (L * L) := by
    field_simp
    ring
  rw [e, hLL]
  exact div_self (by nlinarith [sq_nonneg dx, sq_nonneg dy])

/-- The normal map after generate_normal_map: the three channels of every
interior footprint cell hold `normal_channel`, every other entry is kept. -/
theorem generate_normal_map_entries (sqrtf : ℚ → ℚ) (cave : Cave) (j : Int) :
    (∀ y x k : Int, (1 ≤ y ∧ y < cave.height - 1) → (1 ≤ x ∧ x < cave.width - 1) →
        (0 ≤ k ∧ k < 3) → j = (y * cave.width + x) * 3 + k →
        (generate_normal_map sqrtf cave).normal_map j = normal_channel sqrtf cave y x k)
      ∧ ((¬ ∃ y x k : Int, (1 ≤ y ∧ y < cave.height - 1) ∧ (1 ≤ x ∧ x < cave.width - 1)
            ∧ (0 ≤ k ∧ k < 3) ∧ j = (y * cave.width + x) * 3 + k) →
        (generate_normal_map sqrtf cave).normal_map j = cave.normal_map j) := by
  unfold generate_normal_map
  dsimp only
  have inner : ∀ (y : Int) (s : Int → ℚ) (j : Int), _ := fun y s j =>
    forRange_writes
      (fun x j => ∃ k : Int, (0 ≤ k ∧ k < 3) ∧ j = (y * cave.width + x) * 3 + k)
      (fun j v => ∀ y2 x2 k2 : Int, (0 ≤ x2 ∧ x2 < cave.width) → (0 ≤ k2 ∧ k2 < 3) →
        j = (y2 * cave.width + x2) * 3 + k2 → v = normal_channel sqrtf cave y2 x2 k2)
      1 (cave.width - 1)
      (fun x nm =>
        setIdxQ (setIdxQ (setIdxQ nm ((y * cave.width + x) * 3 + 0)
          ((cave.height_map (y * cave.width + (x + 1))
              - cave.height_map (y * cave.width + (x - 1))) * 2
            / sqrtf ((cave.height_map (y * cave.width + (x + 1))
                - cave.height_map (y * cave.width + (x - 1))) * 2
              * ((cave.height_map (y * cave.width + (x + 1))
                - cave.height_map (y * cave.width + (x - 1))) * 2)
              + (cave.height_map ((y + 1) * cave.width + x)
                - cave.height_map ((y - 1) * cave.width + x)) * 2
              * ((cave.height_map ((y + 1) * cave.width + x)
                - cave.height_map ((y - 1) * cave.width + x)) * 2) + 1 * 1) * (1 / 2) + 1 / 2))
          ((y * cave.width + x) * 3 + 1)
          ((cave.height_map ((y + 1) * cave.width + x)
              - cave.height_map ((y - 1) * cave.width + x)) * 2
            / sqrtf ((cave.height_map (y * cave.width + (x + 1))
                - cave.height_map (y * cave.width + (x - 1))) * 2
              * ((cave.height_map (y * cave.width + (x + 1))
                - cave.height_map (y * cave.width + (x - 1))) * 2)
              + (cave.height_map ((y + 1) * cave.width + x)
                - cave.height_map ((y - 1) * cave.width + x)) * 2
              * ((cave.height_map ((y + 1) * cave.width + x)
                - cave.height_map ((y - 1) * cave.width + x)) * 2) + 1 * 1) * (1 / 2) + 1 / 2))
          ((y * cave.width + x) * 3 + 2)
          (1 / sqrtf ((cave.height_map (y * cave.width + (x + 1))
                - cave.height_map (y * cave.width + (x - 1))) * 2
              * ((cave.height_map (y * cave.width + (x + 1))
                - cave.height_map (y * cave.width + (x - 1))) * 2)
              + (cave.height_map ((y + 1) * cave.width + x)
                - cave.height_map ((y - 1) * cave.width + x)) * 2
              * ((cave.height_map ((y + 1) * cave.width + x)
                - cave.height_map ((y - 1) * cave.width + x)) * 2) + 1 * 1) * (1 / 2) + 1 / 2))
      (fun x nm j hx1 hx2 hW => by
        obtain ⟨k, hk, rfl⟩ := hW
        intro y2 x2 k2 hx2r hk2 hj
        obtain ⟨rfl, rfl, rfl⟩ := channel_index_inj cave.width y x k y2 x2 k2
          ⟨by omega, by omega⟩ hx2r hk hk2 hj
        have hk3 : k = 0 ∨ k = 1 ∨ k = 2 := by omega
        unfold setIdxQ normal_channel normal_dx normal_dy
        dsimp only
        rcases hk3 with rfl | rfl | rfl <;> simp)
      (fun x nm j hx1 hx2 hW => by
        unfold setIdxQ
        dsimp only
        rw [if_neg (fun h => hW ⟨2, by decide, h⟩), if_neg (fun h => hW ⟨1, by decide, h⟩),
          if_neg (fun h => hW ⟨0, by decide, h⟩)])
      s j
  have outer := forRange_writes
      (fun y j => ∃ x : Int, 1 ≤ x ∧ x < cave.width - 1
        ∧ ∃ k : Int, (0 ≤ k ∧ k < 3) ∧ j = (y * cave.width + x) * 3 + k)
      (fun j v => ∀ y2 x2 k2 : Int, (0 ≤ x2 ∧ x2 < cave.width) → (0 ≤ k2 ∧ k2 < 3) →
        j = (y2 * cave.width + x2) * 3 + k2 → v = normal_channel sqrtf cave y2 x2 k2)
      1 (cave.height - 1) _
      (fun y s j _ _ hW => (inner y s j).1 hW)
      (fun y s j _ _ hW => (inner y s j).2 hW)
      cave.normal_map j
  constructor
  · intro y x k hy hx hk hj
    exact outer.1 ⟨y, hy.1, hy.2, x, hx.1, hx.2, k, hk, hj⟩ y x k ⟨by omega, by omega⟩ hk hj
  · intro hn
    exact outer.2 (fun ⟨y, h1, h2, x, h3, h4, k, h5, h6⟩ => hn ⟨y, x, k, ⟨h1, h2⟩, ⟨h3, h4⟩, h5, h6⟩)

/-- C26: for every interior footprint cell (1 <= x <= width-2,
1 <= y <= height-2), generate_normal_map stores at (y*width+x)*3 + 0, 1, 2 the
three channels 0.5*n+0.5, where n is (dx, dy, 1) divided by
sqrt(dx*dx + dy*dy + 1), dx = 2*(h[x+1,y]-h[x-1,y]), dy = 2*(h[x,y+1]-h[x,y-1]);
wherever the library sqrt returns the real square root, each stored channel
lies in [0,1], the third in (0.5,1], and decoding 2c-1 gives a vector of
length 1 (and so do, over the reals, the channels computed with the real
square root); the entries of the cells of the 1-cell footprint border are not
written. -/
theorem generate_normal_map_spec (sqrtf : ℚ → ℚ) (cave : Cave) (x y : Int)
    (hx : 1 ≤ x ∧ x ≤ cave.width - 2) (hy : 1 ≤ y ∧ y ≤ cave.height - 2) :
    ((generate_normal_map sqrtf cave).normal_map ((y * cave.width + x) * 3 + 0)
          = normal_dx cave y x
              / sqrtf (normal_dx cave y x * normal_dx cave y x
                  + normal_dy cave y x * normal_dy cave y x + 1 * 1) * (1 / 2) + 1 / 2
        ∧ (generate_normal_map sqrtf cave).normal_map ((y * cave.width + x) * 3 + 1)
          = normal_dy cave y x
              / sqrtf (normal_dx cave y x * normal_dx cave y x
                  + normal_dy cave y x * normal_dy cave y x + 1 * 1) * (1 / 2) + 1 / 2
        ∧ (generate_normal_map sqrtf cave).normal_map ((y * cave.width + x) * 3 + 2)
          = 1 / sqrtf (normal_dx cave y x * normal_dx cave y x
                  + normal_dy cave y x * normal_dy cave y x + 1 * 1) * (1 / 2) + 1 / 2)
      ∧ (((sqrtf (normal_dx cave y x * normal_dx cave y x
              + normal_dy cave y x * normal_dy cave y x + 1 * 1) : ℚ) : ℝ)
            = Real.sqrt (((normal_dx cave y x * normal_dx cave y x
              + normal_dy cave y x * normal_dy cave y x + 1 * 1 : ℚ)) : ℝ) →
          (0 ≤ (((generate_normal_map sqrtf cave).normal_map
                ((y * cave.width + x) * 3 + 0) : ℚ) : ℝ)
            ∧ (((generate_normal_map sqrtf cave).normal_map
                ((y * cave.width + x) * 3 + 0) : ℚ) : ℝ) ≤ 1)
          ∧ (0 ≤ (((generate_normal_map sqrtf cave).normal_map
                ((y * cave.width + x) * 3 + 1) : ℚ) : ℝ)
            ∧ (((generate_normal_map sqrtf cave).normal_map
                ((y * cave.width + x) * 3 + 1) : ℚ) : ℝ) ≤ 1)
          ∧ (1 / 2 < (((generate_normal_map sqrtf cave).normal_map
                ((y * cave.width + x) * 3 + 2) : ℚ) : ℝ)
            ∧ (((generate_normal_map sqrtf cave).normal_map
                ((y * cave.width + x) * 3 + 2) : ℚ) : ℝ) ≤ 1)
          ∧ (2 * (((generate_normal_map sqrtf cave).normal_map
                ((y * cave.width + x) * 3 + 0) : ℚ) : ℝ) - 1) ^ 2
            + (2 * (((generate_normal_map sqrtf cave).normal_map
                ((y * cave.width + x) * 3 + 1) : ℚ) : ℝ) - 1) ^ 2
            + (2 * (((generate_normal_map sqrtf cave).normal_map
                ((y * cave.width + x) * 3 + 2) : ℚ) : ℝ) - 1) ^ 2 = 1)
      ∧ (∀ L : ℝ, L = Real.sqrt ((normal_dx cave y x : ℝ) * (normal_dx cave y x : ℝ)
              + (normal_dy cave y x : ℝ) * (normal_dy cave y x : ℝ) + 1 * 1) →
          (0 ≤ (normal_dx cave y x : ℝ) / L * (1 / 2) + 1 / 2
            ∧ (normal_dx cave y x : ℝ) / L * (1 / 2) + 1 / 2 ≤ 1)
          ∧ (0 ≤ (normal_dy cave y x : ℝ) / L * (1 / 2) + 1 / 2
            ∧ (normal_dy cave y x : ℝ) / L * (1 / 2) + 1 / 2 ≤ 1)
          ∧ (1 / 2 < 1 / L * (1 / 2) + 1 / 2 ∧ 1 / L * (1 / 2) + 1 / 2 ≤ 1)
          ∧ (2 * ((normal_dx cave y x : ℝ) / L * (1 / 2) + 1 / 2) - 1) ^ 2
            + (2 * ((normal_dy cave y x : ℝ) / L * (1 / 2) + 1 / 2) - 1) ^ 2
            + (2 * (1 / L * (1 / 2) + 1 / 2) - 1) ^ 2 = 1)
      ∧ ∀ y2 x2 k : Int, (0 ≤ x2 ∧ x2 < cave.width) → (0 ≤ y2 ∧ y2 < cave.height) →
          (x2 = 0 ∨ x2 = cave.width - 1 ∨ y2 = 0 ∨ y2 = cave.height - 1) → (0 ≤ k ∧ k < 3) →
          (generate_normal_map sqrtf cave).normal_map ((y2 * cave.width + x2) * 3 + k)
            = cave.normal_map ((y2 * cave.width + x2) * 3 + k) := by
  have hy' : 1 ≤ y ∧ y < cave.height - 1 := ⟨hy.1, by omega⟩
  have hx' : 1 ≤ x ∧ x < cave.width - 1 := ⟨hx.1, by omega⟩
  have c0 : (generate_normal_map sqrtf cave).normal_map ((y * cave.width + x) * 3 + 0)
      = normal_dx cave y x
          / sqrtf (normal_dx cave y x * normal_dx cave y x
              + normal_dy cave y x * normal_dy cave y x + 1 * 1) * (1 / 2) + 1 / 2 :=
    (generate_normal_map_entries sqrtf cave _).1 y x 0 hy' hx' (by decide) rfl
  have c1 : (generate_normal_map sqrtf cave).normal_map ((y * cave.width + x) * 3 + 1)
      = normal_dy cave y x
          / sqrtf (normal_dx cave y x * normal_dx cave y x
              + normal_dy cave y x * normal_dy cave y x + 1 * 1) * (1 / 2) + 1 / 2 :=
    (generate_normal_map_entries sqrtf cave _).1 y x 1 hy' hx' (by decide) rfl
  have c2 : (generate_normal_map sqrtf cave).normal_map ((y * cave.width + x) * 3 + 2)
      = 1 / sqrtf (normal_dx cave y x * normal_dx cave y x
              + normal_dy cave y x * normal_dy cave y x + 1 * 1) * (1 / 2) + 1 / 2 :=
    (generate_normal_map_entries sqrtf cave _).1 y x 2 hy' hx' (by decide) rfl
  refine ⟨⟨c0, c1, c2⟩, ?_, fun L hL => unit_normal_real _ _ L hL, ?_⟩
  · intro hexact
    have hL : ((sqrtf (normal_dx cave y x * normal_dx cave y x
          + normal_dy cave y x * normal_dy cave y x + 1 * 1) : ℚ) : ℝ)
        = Real.sqrt ((normal_dx cave y x : ℝ) * (normal_dx cave y x : ℝ)
          + (normal_dy cave y x : ℝ) * (normal_dy cave y x : ℝ) + 1 * 1) := by
      rw [hexact]
      push_cast
      rfl
    have h := unit_normal_real _ _ _ hL
    rw [c0, c1, c2]
    push_cast
    exact h
  · intro y2 x2 k hx2 hy2 hborder hk
    apply (generate_normal_map_entries sqrtf cave _).2
    rintro ⟨y3, x3, k3, hy3, hx3, hk3, hj⟩
    obtain ⟨rfl, rfl, rfl⟩ := channel_index_inj cave.width y2 x2 k y3 x3 k3 hx2
      ⟨by omega, by omega⟩ hk hk3 hj
    omega

/-- C26, applied to the interior cell (1, 1) of a 3x3 footprint with a flat
height map and a sqrt that is exact at 1: the stored channels are
(0.5, 0.5, 1), which decode to the unit vector (0, 0, 1). -/
theorem generate_normal_map_spec_witness :
    ((1 : Int) ≤ 1 ∧ (1 : Int) ≤ flatCave3.width - 2)
      ∧ (generate_normal_map (fun _ => 1) flatCave3).normal_map ((1 * flatCave3.width + 1) * 3 + 2)
          = 1 / (fun _ : ℚ => (1 : ℚ)) (normal_dx flatCave3 1 1 * normal_dx flatCave3 1 1
              + normal_dy flatCave3 1 1 * normal_dy flatCave3 1 1 + 1 * 1) * (1 / 2) + 1 / 2
      ∧ (1 / 2 : ℝ) < (((generate_normal_map (fun _ => 1) flatCave3).normal_map
          ((1 * flatCave3.width + 1) * 3 + 2) : ℚ) : ℝ) :=
  ⟨by decide,
    (generate_normal_map_spec (fun _ => 1) flatCave3 1 1 (by decide) (by decide)).1.2.2,
    ((generate_normal_map_spec (fun _ => 1) flatCave3 1 1 (by decide) (by decide)).2.1
      (by simp [normal_dx, normal_dy, flatCave3, cubeCave])).2.2.1.1⟩

/-! ## Every voxel access is in bounds -/

/-- A loop with a fallible body whose iterations all succeed is the plain loop. -/
theorem forRangeM_eq_some {σ : Type} (lo hi : Int) (bodyC : Int → σ → Option σ)
    (body : Int → σ → σ) (h : ∀ i s, lo ≤ i → i < hi → bodyC i s = some (body i s)) (s : σ) :
    forRangeM lo hi bodyC s = some (forRange lo hi body s) := by
  unfold forRangeM
  by_cases hle : hi ≤ lo
  · rw [forRange_empty lo hi hle, forRange_empty lo hi hle]
  · obtain ⟨n, rfl⟩ : ∃ n : Nat, hi = lo + (n : Int) := ⟨(hi - lo).toNat, by omega⟩
    clear hle
    induction n with
    | zero => rw [forRange_empty lo _ (by simp), forRange_empty lo _ (by simp)]
    | succ n ih =>
      rw [forRange_succ, forRange_succ,
        ih (fun i s h1 h2 => h i s h1 (by push_cast at h2 ⊢; omega))]
      exact h _ _ (by omega) (by push_cast; omega)

theorem wall_count_checked_eq (cave : Cave) (z y x : Int)
    (hz : 1 ≤ z ∧ z < cave.depth - 1) (hy : 1 ≤ y ∧ y < cave.height - 1)
    (hx : 1 ≤ x ∧ x < cave.width - 1) :
    wall_count_checked cave z y x = some (wall_count cave.map z y x) := by
  unfold wall_count_checked wall_count forUpTo
  refine forRangeM_eq_some _ _ _ _ (fun nz wc h1 h2 => ?_) _
  refine forRangeM_eq_some _ _ _ _ (fun ny wc h3 h4 => ?_) _
  refine forRangeM_eq_some _ _ _ _ (fun nx wc h5 h6 => ?_) _
  by_cases hc : nz ≠ z ∨ ny ≠ y ∨ nx ≠ x
  · rw [if_pos hc, if_pos hc]
    unfold readCell InBounds
    rw [if_pos (by omega)]
    rfl
  · rw [if_neg hc, if_neg hc]

theorem smooth_fill_checked_eq (cave : Cave) (fresh : Grid) :
    smooth_fill_checked cave fresh = some (smooth_fill cave fresh) := by
  unfold smooth_fill_checked smooth_fill
  refine forRangeM_eq_some _ _ _ _ (fun z nm h1 h2 => ?_) _
  refine forRangeM_eq_some _ _ _ _ (fun y nm h3 h4 => ?_) _
  refine forRangeM_eq_some _ _ _ _ (fun x nm h5 h6 => ?_) _
  rw [wall_count_checked_eq cave z y x ⟨h1, h2⟩ ⟨h3, h4⟩ ⟨h5, h6⟩]
  unfold writeCell InBounds
  show (if _ then _ else _) = _
  rw [if_pos (by omega)]
  rfl

theorem smooth_copy_back_checked_eq (cave : Cave) (new_map : Grid) (hw : 0 ≤ cave.width) :
    smooth_copy_back_checked cave new_map = some (smooth_copy_back cave new_map) := by
  unfold smooth_copy_back_checked smooth_copy_back
  refine forRangeM_eq_some _ _ _ _ (fun z m h1 h2 => ?_) _
  refine forRangeM_eq_some _ _ _ _ (fun y m h3 h4 => ?_) _
  unfold copyRowChecked
  rw [if_pos (by omega)]

theorem smooth_cave_checked_eq (fresh : Grid) (cave : Cave) (hw : 0 ≤ cave.width) :
    smooth_cave_checked fresh cave = some (smooth_cave fresh cave) := by
  unfold smooth_cave_checked smooth_cave
  rw [smooth_fill_checked_eq, Option.some_bind, smooth_copy_back_checked_eq _ _ hw]
  rfl

theorem carve_chamber_checked_eq (cave : Cave) :
    carve_chamber_checked cave = some (carve_chamber cave) := by
  unfold carve_chamber_checked carve_chamber
  refine forRangeM_eq_some _ _ _ _ (fun z m h1 h2 => ?_) _
  refine forRangeM_eq_some _ _ _ _ (fun y m h3 h4 => ?_) _
  refine forRangeM_eq_some _ _ _ _ (fun x m h5 h6 => ?_) _
  dsimp only
  split_ifs with hg hs
  · unfold writeCell InBounds
    rw [if_pos (by omega)]
  · rfl
  · rfl

theorem carve_sphere_checked_eq (cave : Cave) (m : Grid) (ix iy iz radius : Int) :
    carve_sphere_checked cave m ix iy iz radius = some (carve_sphere cave m ix iy iz radius) := by
  unfold carve_sphere_checked carve_sphere forUpTo
  refine forRangeM_eq_some _ _ _ _ (fun sz m h1 h2 => ?_) _
  refine forRangeM_eq_some _ _ _ _ (fun sy m h3 h4 => ?_) _
  refine forRangeM_eq_some _ _ _ _ (fun sx m h5 h6 => ?_) _
  dsimp only
  split_ifs with hg hs
  · unfold writeCell InBounds
    rw [if_pos (by omega)]
  · rfl
  · rfl

theorem tunnel_step_checked_eq (L : Libm) (cave : Cave) (rng : Nat → Nat) (s : TunnelState) :
    tunnel_step_checked L cave rng s = some (tunnel_step L cave rng s) := by
  unfold tunnel_step_checked
  rw [carve_sphere_checked_eq]
  rfl

theorem carve_tunnel_checked_eq (L : Libm) (cave : Cave) (rng : Nat → Nat) (mp : Grid × Nat) :
    carve_tunnel_checked L cave rng mp = some (carve_tunnel L cave rng mp) := by
  unfold carve_tunnel_checked carve_tunnel
  dsimp only
  rw [forRangeM_eq_some _ _ _ (fun _ s => tunnel_step L cave rng s)
    (fun _ s _ _ => tunnel_step_checked_eq L cave rng s)]
  rfl

theorem carve_cave_interior_checked_eq (L : Libm) (cave : Cave) (rng : Nat → Nat) (pos : Nat) :
    carve_cave_interior_checked L cave rng pos = some (carve_cave_interior L cave rng pos) := by
  unfold carve_cave_interior_checked carve_cave_interior
  rw [carve_chamber_checked_eq, Option.some_bind]
  dsimp only
  rw [forRangeM_eq_some _ _ _ (fun _ mp => carve_tunnel L cave rng mp)
    (fun _ mp _ _ => carve_tunnel_checked_eq L cave rng mp)]
  rfl

theorem spawn_attempts_checked_eq (cave : Cave) (rng : Nat → Nat) (r : Int) (fuel pos : Nat) :
    spawn_attempts_checked cave rng r fuel pos = some (spawn_attempts cave rng r fuel pos) := by
  induction fuel generalizing pos with
  | zero => rfl
  | succ fuel ih =>
    rw [spawn_attempts_checked, spawn_attempts]
    by_cases hg : (spawn_sample cave rng r pos).1 > 0
        ∧ (spawn_sample cave rng r pos).1 < cave.width - 1
        ∧ (spawn_sample cave rng r pos).2.1 > 0
        ∧ (spawn_sample cave rng r pos).2.1 < cave.height - 1
        ∧ (spawn_sample cave rng r pos).2.2 > 0
        ∧ (spawn_sample cave rng r pos).2.2 < cave.depth - 1
    · rw [if_pos hg, if_pos hg]
      have hb : InBounds cave (spawn_sample cave rng r pos).2.2 (spawn_sample cave rng r pos).2.1
          (spawn_sample cave rng r pos).1 := by
        unfold InBounds
        omega
      unfold readCell
      rw [if_pos hb]
      dsimp only
      by_cases hv : cave.map (spawn_sample cave rng r pos).2.2 (spawn_sample cave rng r pos).2.1
          (spawn_sample cave rng r pos).1 = 0
      · rw [if_pos hv, if_pos hv]
      · rw [if_neg hv, if_neg hv, ih]
    · rw [if_neg hg, if_neg hg, ih]

theorem spawn_radii_checked_eq (cave : Cave) (rng : Nat → Nat) (fuel : Nat) (r : Int)
    (pos : Nat) :
    spawn_radii_checked cave rng fuel r pos = some (spawn_radii cave rng fuel r pos) := by
  induction fuel generalizing r pos with
  | zero => rfl
  | succ fuel ih =>
    rw [spawn_radii_checked, spawn_radii, spawn_attempts_checked_eq]
    rcases spawn_attempts cave rng r 100 pos with ⟨_ | w, p⟩
    · exact ih _ _
    · rfl

theorem find_spawn_point_checked_eq (cave : Cave) (rng : Nat → Nat) (pos : Nat) :
    find_spawn_point_checked cave rng pos = some (find_spawn_point cave rng pos) := by
  unfold find_spawn_point_checked find_spawn_point
  rw [spawn_radii_checked_eq]
  rcases spawn_radii cave rng 20 0 pos with ⟨_ | w, p⟩ <;> rfl

theorem crystal_wall_nearby_checked_eq (cave : Cave) (z y x : Int)
    (hz : 0 < z ∧ z < cave.depth - 1) (hy : 0 < y ∧ y < cave.height - 1)
    (hx : 0 < x ∧ x < cave.width - 1) :
    crystal_wall_nearby_checked cave z y x = some (crystal_wall_nearby cave.map z y x) := by
  unfold crystal_wall_nearby_checked crystal_wall_nearby forRangeBreak
  refine forRangeM_eq_some _ _ _ _ (fun dz w h1 h2 => ?_) _
  refine forRangeM_eq_some _ _ _ _ (fun dy w h3 h4 => ?_) _
  rw [forRangeM_eq_some (-1) (1 + 1) _
    (fun dx (st : Int × Bool) => if st.2 then st else
      (if cave.map (z + dz) (y + dy) (x + dx) = 1 then ((1 : Int), true) else (st.1, false)))
    (fun dx st h5 h6 => by
      dsimp only
      by_cases hb : st.2 = true
      · rw [if_pos hb, if_pos hb]
      · rw [if_neg hb, if_neg hb]
        unfold readCell InBounds
        rw [if_pos (by omega)]
        rfl)]
  rfl

theorem crystal_attempts_checked_eq (L : Libm) (cave : Cave) (rng : Nat → Nat)
    (fuel pos : Nat) (c : Crystal) :
    crystal_attempts_checked L cave rng fuel pos c
      = some (crystal_attempts L cave rng fuel pos c) := by
  induction fuel generalizing pos with
  | zero => rfl
  | succ fuel ih =>
    rw [crystal_attempts_checked, crystal_attempts]
    by_cases hg : cmod (rand rng pos) cave.width > 0
        ∧ cmod (rand rng pos) cave.width < cave.width - 1
        ∧ cmod (rand rng (pos + 1)) cave.height > 0
        ∧ cmod (rand rng (pos + 1)) cave.height < cave.height - 1
        ∧ cdiv cave.depth 2 + (cmod (rand rng (pos + 2)) 10 - 5) > 0
        ∧ cdiv cave.depth 2 + (cmod (rand rng (pos + 2)) 10 - 5) < cave.depth - 1
    · rw [if_pos hg, if_pos hg,
        crystal_wall_nearby_checked_eq cave _ _ _ ⟨hg.2.2.2.2.1, hg.2.2.2.2.2⟩
          ⟨hg.2.2.1, hg.2.2.2.1⟩ ⟨hg.1, hg.2.1⟩]
      dsimp only
      by_cases hv : crystal_wall_nearby cave.map
          (cdiv cave.depth 2 + (cmod (rand rng (pos + 2)) 10 - 5))
          (cmod (rand rng (pos + 1)) cave.height) (cmod (rand rng pos) cave.width) ≠ 0
      · rw [if_pos hv, if_pos hv]
      · rw [if_neg hv, if_neg hv, ih]
    · rw [if_neg hg, if_neg hg, ih]

theorem generate_crystals_checked_eq (L : Libm) (cave : Cave) (count : Int)
    (fresh : Nat → Crystal) (rng : Nat → Nat) (pos : Nat) :
    generate_crystals_checked L cave count fresh rng pos
      = some (generate_crystals L cave count fresh rng pos) := by
  unfold generate_crystals_checked generate_crystals
  refine forRangeM_eq_some _ _ _ _ (fun i acc _ _ => ?_) _
  rw [crystal_attempts_checked_eq]
  rfl

theorem gem_wall_nearby_checked_eq (cave : Cave) (z y x : Int)
    (hz : 0 < z ∧ z < cave.depth - 1) (hy : 0 < y ∧ y < cave.height - 1)
    (hx : 0 < x ∧ x < cave.width - 1) :
    gem_wall_nearby_checked cave z y x = some (gem_wall_nearby cave.map z y x) := by
  unfold gem_wall_nearby_checked gem_wall_nearby forRangeWhile
  refine forRangeM_eq_some _ _ _ _ (fun dz w h1 h2 => ?_) _
  by_cases hw1 : w = 0
  · rw [if_pos hw1, if_pos (by simpa using hw1)]
    refine forRangeM_eq_some _ _ _ _ (fun dy w h3 h4 => ?_) _
    by_cases hw2 : w = 0
    · rw [if_pos hw2, if_pos (by simpa using hw2)]
      refine forRangeM_eq_some _ _ _ _ (fun dx w h5 h6 => ?_) _
      by_cases hw3 : w = 0
      · rw [if_pos hw3, if_pos (by simpa using hw3)]
        unfold readCell InBounds
        rw [if_pos (by omega)]
        rfl
      · rw [if_neg hw3, if_neg (by simpa using hw3)]
    · rw [if_neg hw2, if_neg (by simpa using hw2)]
  · rw [if_neg hw1, if_neg (by simpa using hw1)]

theorem gem_attempts_checked_eq (L : Libm) (cave : Cave) (rng : Nat → Nat)
    (fuel pos : Nat) (g : Gem) :
    gem_attempts_checked L cave rng fuel pos g = some (gem_attempts L cave rng fuel pos g) := by
  induction fuel generalizing pos with
  | zero => rfl
  | succ fuel ih =>
    rw [gem_attempts_checked, gem_attempts]
    dsimp only
    by_cases hg : cmod (rand rng pos) cave.width > 1
        ∧ cmod (rand rng pos) cave.width < cave.width - 2
        ∧ cmod (rand rng (pos + 1)) cave.height > 1
        ∧ cmod (rand rng (pos + 1)) cave.height < cave.height - 2
        ∧ cmod (rand rng (pos + 2)) cave.depth > 1
        ∧ cmod (rand rng (pos + 2)) cave.depth < cave.depth - 2
    · rw [if_pos hg]
      unfold readCell
      rw [if_pos (by unfold InBounds; omega)]
      dsimp only
      by_cases hv : cave.map (cmod (rand rng (pos + 2)) cave.depth)
          (cmod (rand rng (pos + 1)) cave.height) (cmod (rand rng pos) cave.width) = 0
      · rw [if_pos hv, if_pos ⟨hg.1, hg.2.1, hg.2.2.1, hg.2.2.2.1, hg.2.2.2.2.1, hg.2.2.2.2.2, hv⟩,
          gem_wall_nearby_checked_eq cave _ _ _ ⟨by omega, by omega⟩ ⟨by omega, by omega⟩
            ⟨by omega, by omega⟩]
        dsimp only
        by_cases hn : gem_wall_nearby cave.map (cmod (rand rng (pos + 2)) cave.depth)
            (cmod (rand rng (pos + 1)) cave.height) (cmod (rand rng pos) cave.width) ≠ 0
        · rw [if_pos hn, if_pos hn]
        · rw [if_neg hn, if_neg hn, ih]
      · rw [if_neg hv, if_neg (fun h => hv h.2.2.2.2.2.2), ih]
    · rw [if_neg hg, if_neg (fun h => hg ⟨h.1, h.2.1, h.2.2.1, h.2.2.2.1, h.2.2.2.2.1,
        h.2.2.2.2.2.1⟩), ih]

theorem generate_gems_checked_eq (L : Libm) (cave : Cave) (count : Int)
    (fresh : Nat → Gem) (rng : Nat → Nat) (pos : Nat) :
    generate_gems_checked L cave count fresh rng pos
      = some (generate_gems L cave count fresh rng pos) := by
  unfold generate_gems_checked generate_gems
  refine forRangeM_eq_some _ _ _ _ (fun i acc _ _ => ?_) _
  rw [gem_attempts_checked_eq]
  rfl

theorem respawn_attempts_checked_eq (L : Libm) (cave : Cave) (rng : Nat → Nat)
    (fuel pos : Nat) (g : Gem) :
    respawn_attempts_checked L cave rng fuel pos g
      = some (respawn_attempts L cave rng fuel pos g) := by
  induction fuel generalizing pos with
  | zero => rfl
  | succ fuel ih =>
    rw [respawn_attempts_checked, respawn_attempts]
    by_cases hg : cmod (rand rng pos) cave.width > 1
        ∧ cmod (rand rng pos) cave.width < cave.width - 2
        ∧ cmod (rand rng (pos + 1)) cave.height > 1
        ∧ cmod (rand rng (pos + 1)) cave.height < cave.height - 2
        ∧ cmod (rand rng (pos + 2)) cave.depth > 1
        ∧ cmod (rand rng (pos + 2)) cave.depth < cave.depth - 2
    · rw [if_pos hg]
      unfold readCell
      rw [if_pos (by unfold InBounds; omega)]
      dsimp only
      by_cases hv : cave.map (cmod (rand rng (pos + 2)) cave.depth)
          (cmod (rand rng (pos + 1)) cave.height) (cmod (rand rng pos) cave.width) = 0
      · rw [if_pos hv, if_pos ⟨hg.1, hg.2.1, hg.2.2.1, hg.2.2.2.1, hg.2.2.2.2.1, hg.2.2.2.2.2, hv⟩]
      · rw [if_neg hv, if_neg (fun h => hv h.2.2.2.2.2.2), ih]
    · rw [if_neg hg, if_neg (fun h => hg ⟨h.1, h.2.1, h.2.2.1, h.2.2.2.1, h.2.2.2.2.1,
        h.2.2.2.2.2.1⟩), ih]

/-- C23: for every volume (of non-negative width, in particular for positive
width, height and depth) and every random stream, every voxel access
map[z][y][x] performed by smooth_cave, carve_cave_interior, find_spawn_point,
generate_crystals, generate_gems and respawn_gem (the +-1 neighbour reads and
the row copies included) satisfies 0 <= x < width, 0 <= y < height,
0 <= z < depth: run with accesses that fail outside these bounds, each
function completes, with the result of the unchecked function, because every
access is preceded by a bounds check (or loop bounds) implying it. -/
theorem voxel_accesses_in_bounds (L : Libm) (cave : Cave) (rng : Nat → Nat) (pos : Nat)
    (fresh : Grid) (count : Int) (freshC : Nat → Crystal) (freshG : Nat → Gem) (g : Gem)
    (hw : 0 ≤ cave.width) :
    (∀ (m : Grid) (z y x v : Int),
        (readCell cave m z y x ≠ none
          ↔ (0 ≤ x ∧ x < cave.width ∧ 0 ≤ y ∧ y < cave.height ∧ 0 ≤ z ∧ z < cave.depth))
        ∧ (writeCell cave m z y x v ≠ none
          ↔ (0 ≤ x ∧ x < cave.width ∧ 0 ≤ y ∧ y < cave.height ∧ 0 ≤ z ∧ z < cave.depth)))
      ∧ smooth_cave_checked fresh cave = some (smooth_cave fresh cave)
      ∧ carve_cave_interior_checked L cave rng pos = some (carve_cave_interior L cave rng pos)
      ∧ find_spawn_point_checked cave rng pos = some (find_spawn_point cave rng pos)
      ∧ generate_crystals_checked L cave count freshC rng pos
          = some (generate_crystals L cave count freshC rng pos)
      ∧ generate_gems_checked L cave count freshG rng pos
          = some (generate_gems L cave count freshG rng pos)
      ∧ respawn_gem_checked L g cave rng pos = some (respawn_gem L g cave rng pos) := by
  refine ⟨fun m z y x v => ⟨?_, ?_⟩, smooth_cave_checked_eq fresh cave hw,
    carve_cave_interior_checked_eq L cave rng pos, find_spawn_point_checked_eq cave rng pos,
    generate_crystals_checked_eq L cave count freshC rng pos,
    generate_gems_checked_eq L cave count freshG rng pos,
    respawn_attempts_checked_eq L cave rng 100 pos g⟩
  · unfold readCell InBounds
    split_ifs with h
    · exact ⟨fun _ => h, fun _ => Option.noConfusion⟩
    · exact ⟨fun hn => absurd rfl hn, fun hb => absurd hb h⟩
  · unfold writeCell InBounds
    split_ifs with h
    · exact ⟨fun _ => h, fun _ => Option.noConfusion⟩
    · exact ⟨fun hn => absurd rfl hn, fun hb => absurd hb h⟩

/-- C23, applied to the solid 5x5x5 volume; a read outside the volume, such
as the neighbour count of the corner cell, does fail. -/
theorem voxel_accesses_in_bounds_witness :
    (0 : Int) ≤ solidCave5.width
      ∧ smooth_cave_checked (fun _ _ _ => 0) solidCave5
          = some (smooth_cave (fun _ _ _ => 0) solidCave5)
      ∧ generate_gems_checked sampleLibm solidCave5 3 (fun _ => zeroGem) (fun n => n) 0
          = some (generate_gems sampleLibm solidCave5 3 (fun _ => zeroGem) (fun n => n) 0)
      ∧ wall_count_checked solidCave5 0 0 0 = none :=
  ⟨by decide,
    (voxel_accesses_in_bounds sampleLibm solidCave5 (fun n => n) 0 (fun _ _ _ => 0) 3
      (fun _ => zeroCrystal) (fun _ => zeroGem) zeroGem (by decide)).2.1,
    (voxel_accesses_in_bounds sampleLibm solidCave5 (fun n => n) 0 (fun _ _ _ => 0) 3
      (fun _ => zeroCrystal) (fun _ => zeroGem) zeroGem (by decide)).2.2.2.2.2.1,
    by decide⟩

end CaveGen
